import Mathlib

/-!
# ShaderCompile: packaging, deduplication and the VCS archive

A shallow embedding of the archive side of `ShaderCompile.cpp`: the per static
combo accumulator (`CStaticCombo`), the blockwise packer (`FlushCombos`,
`OutputDynamicCombo`, `AssembleWorkerReplyPackage`), the sealing step of
`TryToPackageData`, the duplicate detection and the file writer of
`WriteShaderFiles`, together with the index arithmetic of
`HandleCommandResponse` and the watermark protocol of the dispatcher.

Conventions.
* Machine integers are natural numbers; a conversion that truncates is written
  with an explicit `%`, a checked conversion (`gsl::narrow`) returns `none`
  where the C++ throws.
* A buffer or a file is a list of bytes; multi-byte values are little endian,
  the byte order of the only target of the program (x86 Windows).
* Pointers to objects that are not mutated while they are pointed at are
  modelled by the value of the object.
-/

namespace ShaderCompile

/-! ## Bytes and fixed-width integers -/

/-- One byte of a buffer or of a file. -/
abbrev Byte := Fin 256

/-- The four bytes that `Put( &v, sizeof( uint32_t ) )` or `ofstream::write` stores
for a `uint32_t`; conversion to `uint32_t` (reduction modulo `2^32`) is built in. -/
def putU32 (v : Nat) : List Byte :=
  [Fin.ofNat v, Fin.ofNat (v / 2 ^ 8), Fin.ofNat (v / 2 ^ 16), Fin.ofNat (v / 2 ^ 24)]

/-- The checked conversion `gsl::narrow<uint32_t>`: the value when it is
representable, `none` when `gsl::narrowing_error` is thrown. -/
def narrowU32 (x : Nat) : Option Nat :=
  if x < 2 ^ 32 then some x else none

/-- The checked conversion `gsl::narrow<int32_t>` / `gsl::narrow<int>` of an
unsigned value. -/
def narrowI32 (x : Nat) : Option Nat :=
  if x < 2 ^ 31 then some x else none

/-- The call `std::sort( first, last, lt )`. On a range whose elements are
pairwise ordered by `lt` or its converse (no ties) every sorting algorithm
returns the same sequence; on ties `std::sort` leaves the order unspecified and
this model keeps the order of insertion. -/
def stdSort {α : Type} (lt : α → α → Bool) (l : List α) : List α :=
  l.insertionSort (fun a b => lt b a = false)

/-! ## Index arithmetic of `HandleCommandResponse` -/

/-- The local `nStComboIdx` of `HandleCommandResponse`:
`iComboIndex / pEntryInfo->m_numDynamicCombos`. -/
def nStComboIdx (iComboIndex numDynamicCombos : Nat) : Nat :=
  iComboIndex / numDynamicCombos

/-- The local `nDyComboIdx` of `HandleCommandResponse`:
`iComboIndex - ( nStComboIdx * m_numDynamicCombos )` in `uint64_t` arithmetic. -/
def nDyComboIdx (iComboIndex numDynamicCombos : Nat) : Nat :=
  (iComboIndex + (2 ^ 64 - (nStComboIdx iComboIndex numDynamicCombos * numDynamicCombos) % 2 ^ 64))
    % 2 ^ 64

/-! ## The accumulator -/

/-- The struct `CByteCodeBlock`: the byte code of one dynamic combo. The field
`m_nCodeSize` is the length of `code`. -/
structure CByteCodeBlock where
  m_nComboID : Nat
  code : List Byte
deriving DecidableEq, Repr

/-- The struct `CStaticCombo`. `m_abPackedCode` is the content of the
`PackedCode` member: the empty list stands for the null pointer, the only
`PackedCode` for which `GetLength()` is `0` (`AllocData( 0 )` resets the pointer
and allocates nothing). -/
structure CStaticCombo where
  m_nStaticComboID : Nat
  m_DynamicCombos : List CByteCodeBlock
  m_abPackedCode : List Byte
deriving DecidableEq, Repr

/-- The constructor `CStaticCombo( nComboID )`. -/
def CStaticCombo.new (nComboID : Nat) : CStaticCombo :=
  { m_nStaticComboID := nComboID, m_DynamicCombos := [], m_abPackedCode := [] }

/-- The method `CStaticCombo::AddDynamicCombo`. -/
def CStaticCombo.AddDynamicCombo (s : CStaticCombo) (nComboID : Nat) (pComboData : List Byte) :
    CStaticCombo :=
  { s with m_DynamicCombos := s.m_DynamicCombos ++ [{ m_nComboID := nComboID, code := pComboData }] }

/-- The comparator `CStaticCombo::CompareDynamicComboIDs`. -/
def CompareDynamicComboIDs (pA pB : CByteCodeBlock) : Bool :=
  decide (pA.m_nComboID < pB.m_nComboID)

/-- The method `CStaticCombo::SortDynamicCombos`. -/
def CStaticCombo.SortDynamicCombos (s : CStaticCombo) : CStaticCombo :=
  { s with m_DynamicCombos := stdSort CompareDynamicComboIDs s.m_DynamicCombos }

/-! ## Blockwise packing -/

/-- The three arguments that `FlushCombos` and `OutputDynamicCombo` share and
update: the running total `pnTotalFlushedSize`, the content of the uncompressed
buffer `pDynamicComboBuffer` (its `TellPut()` is the length) and the content of
the output buffer `pBuf`. The last field is not a variable of the program: it
records, in order, every buffer that was handed to
`LZMA::OpportunisticCompress`, and nothing is ever computed from it. -/
structure PackState where
  pnTotalFlushedSize : Nat
  pDynamicComboBuffer : List Byte
  pBuf : List Byte
  handedToCompressor : List (List Byte)
deriving DecidableEq, Repr

/-- The state at the start of `AssembleWorkerReplyPackage`: `nBytesWritten = 0`,
a fresh `ubDynamicComboBuffer`, and the caller's buffer `pBuf`. -/
def PackState.init (pBuf : List Byte) : PackState :=
  { pnTotalFlushedSize := 0, pDynamicComboBuffer := [], pBuf := pBuf, handedToCompressor := [] }

/-- The function `FlushCombos`. `compress` is `LZMA::OpportunisticCompress`, whose
result is `none` for the null pointer. The flag word is a `uint32_t`, so the
`TellPut()` that is or-ed in is reduced modulo `2^32`; the sizes added to the
`size_t` total are sizes of buffers in memory and are not reduced. -/
def FlushCombos (compress : List Byte → Option (List Byte)) (st : PackState) : Option PackState :=
  if st.pDynamicComboBuffer.length = 0 then
    some st
  else
    match compress st.pDynamicComboBuffer with
    | none =>
      let lFlagSize := 0x80000000 ||| (st.pDynamicComboBuffer.length % 2 ^ 32)
      some { pnTotalFlushedSize := st.pnTotalFlushedSize + (4 + st.pDynamicComboBuffer.length)
             pDynamicComboBuffer := []
             pBuf := st.pBuf ++ putU32 lFlagSize ++ st.pDynamicComboBuffer
             handedToCompressor := st.handedToCompressor ++ [st.pDynamicComboBuffer] }
    | some pCompressedShader =>
      match narrowU32 pCompressedShader.length with
      | none => none
      | some nCompressedSize =>
        let lFlagSize := 0x40000000 ||| nCompressedSize
        some { pnTotalFlushedSize := st.pnTotalFlushedSize + (4 + pCompressedShader.length)
               pDynamicComboBuffer := []
               pBuf := st.pBuf ++ putU32 lFlagSize ++ pCompressedShader.take nCompressedSize
               handedToCompressor := st.handedToCompressor ++ [st.pDynamicComboBuffer] }

/-- The record that `OutputDynamicCombo` appends to the uncompressed buffer:
`PutUnsignedInt( id )`, `PutUnsignedInt( size )`, `Put( code, size )`. -/
def dynamicComboRecord (nComboID : Nat) (pComboCode : List Byte) : List Byte :=
  putU32 nComboID ++ putU32 pComboCode.length ++ pComboCode

/-- The function `OutputDynamicCombo`, together with the conversion
`gsl::narrow<uint32_t>( pCode->m_nCodeSize )` of its caller. `maxBlock` is the
constant `MAX_SHADER_UNPACKED_BLOCK_SIZE` of `shader_vcs_version.h`. The test adds
an `int` (`TellPut()`), a `uint32_t` and `16`, which C++ evaluates in unsigned
32-bit arithmetic. -/
def OutputDynamicCombo (compress : List Byte → Option (List Byte)) (maxBlock : Nat)
    (st : PackState) (nComboID : Nat) (pComboCode : List Byte) : Option PackState :=
  match narrowU32 pComboCode.length with
  | none => none
  | some nComboSize =>
    let flushed :=
      if (st.pDynamicComboBuffer.length + nComboSize + 16) % 2 ^ 32 ≥ maxBlock then
        FlushCombos compress st
      else some st
    match flushed with
    | none => none
    | some st1 =>
      match narrowU32 nComboID with
      | none => none
      | some id32 =>
        some { st1 with
          pDynamicComboBuffer := st1.pDynamicComboBuffer ++ dynamicComboRecord id32 (pComboCode.take nComboSize) }

/-- The loop `for ( const auto& combo : pStComboRec->DynamicCombos() )` of
`AssembleWorkerReplyPackage`. -/
def outputDynamicCombos (compress : List Byte → Option (List Byte)) (maxBlock : Nat) :
    List CByteCodeBlock → PackState → Option PackState
  | [], st => some st
  | pCode :: rest, st =>
    match OutputDynamicCombo compress maxBlock st pCode.m_nComboID pCode.code with
    | none => none
    | some st1 => outputDynamicCombos compress maxBlock rest st1

/-- The packing part of `AssembleWorkerReplyPackage` (the body of
`if ( pStComboRec && !pStComboRec->DynamicCombos().empty() )`): sort, output
every dynamic combo, flush. -/
def packDynamicCombos (compress : List Byte → Option (List Byte)) (maxBlock : Nat)
    (pStComboRec : CStaticCombo) (pBuf : List Byte) : Option PackState :=
  match outputDynamicCombos compress maxBlock pStComboRec.SortDynamicCombos.m_DynamicCombos
      (PackState.init pBuf) with
  | none => none
  | some st => FlushCombos compress st

/-! ## The per-shader hash of static combos -/

/-- Modelled from the spec: the container `CUtlNodeHash<CStaticCombo, 7097, uint64_t>`
(`utlnodehash.h`, not among the sources) is the spec's map
`static_combo_id → StaticCombo` of one shader. It is given by its nodes in the
order in which `WriteShaderFiles` visits them: chain `0` from `Head()` along
`Next()`, then chain `1`, and so on up to `NumChains - 1`. -/
abbrev StaticComboNodeHash_t := List CStaticCombo

/-- Modelled from the spec: `CUtlNodeHash::FindByKey`, the node whose `Key()` is
the given one, or `none` for the null pointer. -/
def FindByKey (h : StaticComboNodeHash_t) (key : Nat) : Option CStaticCombo :=
  h.find? (fun n => n.m_nStaticComboID == key)

/-- Modelled from the spec: `CUtlNodeHash::DeleteByKey`, which unlinks the node
that `FindByKey` returns. -/
def DeleteByKey (h : StaticComboNodeHash_t) (key : Nat) : StaticComboNodeHash_t :=
  h.eraseP (fun n => n.m_nStaticComboID == key)

/-- Modelled from the spec: `CUtlNodeHash::Add`. The chain a key belongs to and the
place of a new node in its chain are decided by the container; `slot` gives the
resulting position of the new node in the order of traversal, the nodes that
are already linked keep their relative order. -/
def Add (slot : Nat → StaticComboNodeHash_t → Nat) (h : StaticComboNodeHash_t)
    (pNode : CStaticCombo) : StaticComboNodeHash_t :=
  h.take (slot pNode.m_nStaticComboID h) ++ pNode :: h.drop (slot pNode.m_nStaticComboID h)

/-- Replaces the node that `FindByKey` returns by its image under `f`: what an
assignment through the pointer returned by `FindByKey` does to the hash. -/
def modifyByKey (key : Nat) (f : CStaticCombo → CStaticCombo) :
    StaticComboNodeHash_t → StaticComboNodeHash_t
  | [] => []
  | n :: ns =>
    if n.m_nStaticComboID == key then f n :: ns else n :: modifyByKey key f ns

/-- The global `g_ShaderByteCode`: for every shader name the pointer to its hash,
`none` for the null pointer. A name that is not a key of the map and a name
mapped to null are not told apart (the program never iterates over the map, and
`operator[]` maps a new key to null). -/
abbrev CShaderMap := String → Option StaticComboNodeHash_t

/-- The function `StaticComboFromDict`. -/
def StaticComboFromDict (g_ShaderByteCode : CShaderMap) (pszShaderName : String)
    (nStaticComboId : Nat) : Option CStaticCombo :=
  match g_ShaderByteCode pszShaderName with
  | some pNodeHash => FindByKey pNodeHash nStaticComboId
  | none => none

/-- The function `StaticComboFromDictAdd`, followed by the update `f` that the
caller applies through the returned pointer: the hash of the shader is created
if it is null, the static combo is created and added if it is not found. -/
def StaticComboFromDictAdd (slot : Nat → StaticComboNodeHash_t → Nat)
    (g_ShaderByteCode : CShaderMap) (pszShaderName : String) (nStaticComboId : Nat)
    (f : CStaticCombo → CStaticCombo) : CShaderMap :=
  let rpNodeHash : StaticComboNodeHash_t := (g_ShaderByteCode pszShaderName).getD []
  let updated :=
    match FindByKey rpNodeHash nStaticComboId with
    | some _ => modifyByKey nStaticComboId f rpNodeHash
    | none => Add slot rpNodeHash (f (CStaticCombo.new nStaticComboId))
  Function.update g_ShaderByteCode pszShaderName (some updated)

/-! ## `AssembleWorkerReplyPackage` and the sealing step of `TryToPackageData` -/

/-- What a call of `AssembleWorkerReplyPackage` leaves: the returned
`nBytesWritten`, the content of `pBuf`, the global `g_ShaderByteCode`, and the
record of the buffers handed to the compressor (see `PackState`). -/
structure ReplyPackage where
  nBytesWritten : Nat
  pBuf : List Byte
  g_ShaderByteCode : CShaderMap
  handedToCompressor : List (List Byte)

/-- The function `AssembleWorkerReplyPackage` for the entry named `m_szName`
(progress output left out). `none` is an exception of a `gsl::narrow`. -/
def AssembleWorkerReplyPackage (compress : List Byte → Option (List Byte)) (maxBlock : Nat)
    (g_ShaderByteCode : CShaderMap) (m_szName : String) (nComboOfEntry : Nat)
    (pBuf : List Byte) : Option ReplyPackage :=
  match StaticComboFromDict g_ShaderByteCode m_szName nComboOfEntry with
  | none =>
    some { nBytesWritten := 0, pBuf := pBuf, g_ShaderByteCode := g_ShaderByteCode,
           handedToCompressor := [] }
  | some pStComboRec =>
    let pByteCodeArray : StaticComboNodeHash_t := (g_ShaderByteCode m_szName).getD []
    let deleted : CShaderMap :=
      Function.update g_ShaderByteCode m_szName (some (DeleteByKey pByteCodeArray nComboOfEntry))
    if pStComboRec.m_DynamicCombos.isEmpty then
      some { nBytesWritten := 0, pBuf := pBuf, g_ShaderByteCode := deleted,
             handedToCompressor := [] }
    else
      match packDynamicCombos compress maxBlock pStComboRec pBuf with
      | none => none
      | some st =>
        some { nBytesWritten := st.pnTotalFlushedSize, pBuf := st.pBuf,
               g_ShaderByteCode := deleted, handedToCompressor := st.handedToCompressor }

/-- The method `CStaticCombo::AllocPackedCodeBlock( nPackedLength )` followed by
`mbPacked.SeekGet( SEEK_HEAD, 0 ); mbPacked.Get( pCodeBuffer, nPackedLength )`:
the packed code becomes the first `nPackedLength` bytes of `mbPacked`. -/
def CStaticCombo.setPackedCode (nPackedLength : Nat) (mbPacked : List Byte) (s : CStaticCombo) :
    CStaticCombo :=
  { s with m_abPackedCode := mbPacked.take nPackedLength }

/-- One pass through the body of the loop of `TryToPackageData` ("Zip this
combo") for the static combo `nComboBegin` of the entry named `m_szName`. -/
def sealStaticCombo (compress : List Byte → Option (List Byte)) (maxBlock : Nat)
    (slot : Nat → StaticComboNodeHash_t → Nat) (g_ShaderByteCode : CShaderMap)
    (m_szName : String) (nComboBegin : Nat) : Option CShaderMap :=
  match AssembleWorkerReplyPackage compress maxBlock g_ShaderByteCode m_szName nComboBegin [] with
  | none => none
  | some r =>
    if r.nBytesWritten = 0 then some r.g_ShaderByteCode
    else
      match narrowI32 r.nBytesWritten with
      | none => none
      | some n =>
        some (StaticComboFromDictAdd slot r.g_ShaderByteCode m_szName nComboBegin
          (CStaticCombo.setPackedCode n r.pBuf))

/-- Consecutive passes of the loop of `TryToPackageData` over the static combos
`ids` of one entry (one call, or several calls one after the other). -/
def sealStaticCombos (compress : List Byte → Option (List Byte)) (maxBlock : Nat)
    (slot : Nat → StaticComboNodeHash_t → Nat) (m_szName : String) :
    List Nat → CShaderMap → Option CShaderMap
  | [], g => some g
  | id :: ids, g =>
    match sealStaticCombo compress maxBlock slot g m_szName id with
    | none => none
    | some g1 => sealStaticCombos compress maxBlock slot m_szName ids g1

/-! ## `WriteShaderFiles`: records, duplicate detection, file -/

/-- The struct `ShaderInfo_t`, with the fields that `WriteShaderFiles` reads. -/
structure ShaderInfo_t where
  m_nTotalShaderCombos : Nat
  m_pShaderName : String
  m_CentroidMask : Nat
  m_nDynamicCombos : Nat
  m_Crc32 : Nat
deriving DecidableEq, Repr

/-- Modelled from the spec: the struct `StaticComboRecord_t` of
`shader_vcs_version.h` (not among the sources), 8 bytes:
`uint32 static_combo_id`, `uint32 file_offset`. -/
structure StaticComboRecord_t where
  m_nStaticComboID : Nat
  m_nFileOffset : Nat
deriving DecidableEq, Repr

/-- Modelled from the spec: the struct `StaticComboAliasRecord_t` of
`shader_vcs_version.h` (not among the sources), 8 bytes:
`uint32 this_static_combo_id`, `uint32 canonical_static_combo_id`. -/
structure StaticComboAliasRecord_t where
  m_nStaticComboID : Nat
  m_nSourceStaticCombo : Nat
deriving DecidableEq, Repr

/-- Modelled from the spec: the struct `ShaderHeader_t` of `shader_vcs_version.h`
(not among the sources), 28 bytes; the two `int32` fields hold signed values. -/
structure ShaderHeader_t where
  m_nVersion : Nat
  m_nTotalCombos : Int
  m_nDynamicCombos : Int
  m_nFlags : Nat
  m_nCentroidMask : Nat
  m_nNumStaticCombos : Nat
  m_nSourceCRC32 : Nat
deriving DecidableEq, Repr

/-- The struct `StaticComboAuxInfo_t`: a `StaticComboRecord_t` with the CRC32 of
the packed data and the pointer `m_pByteCode` (`none` for `nullptr`). -/
structure StaticComboAuxInfo_t extends StaticComboRecord_t where
  m_nCRC32 : Nat
  m_pByteCode : Option CStaticCombo
deriving DecidableEq, Repr

/-- The constant `STATIC_COMBO_HASH_SIZE`. -/
def STATIC_COMBO_HASH_SIZE : Nat := 73

/-- The comparator `CompareComboIds`. -/
def CompareComboIds (pA pB : StaticComboAuxInfo_t) : Bool :=
  decide (pA.m_nStaticComboID < pB.m_nStaticComboID)

/-- The comparator `CompareDupComboIndices`. -/
def CompareDupComboIndices (pA pB : StaticComboAliasRecord_t) : Bool :=
  decide (pA.m_nStaticComboID < pB.m_nStaticComboID)

/-- The unchecked conversion `gsl::narrow_cast<int32_t>` of an unsigned value:
the value modulo `2^32`, read as a two's complement number. -/
def narrowCastI32 (x : Nat) : Int :=
  if x % 2 ^ 32 < 2 ^ 31 then (x % 2 ^ 32 : Nat) else ((x % 2 ^ 32 : Nat) : Int) - 2 ^ 32

/-- The 32-bit pattern of an `int32_t`. -/
def int32Bits (v : Int) : Nat :=
  (v % 2 ^ 32).toNat

/-- The bytes `ShaderFile.write( &header, sizeof( header ) )` stores. -/
def ShaderHeader_t.bytes (h : ShaderHeader_t) : List Byte :=
  putU32 h.m_nVersion ++ putU32 (int32Bits h.m_nTotalCombos) ++ putU32 (int32Bits h.m_nDynamicCombos)
    ++ putU32 h.m_nFlags ++ putU32 h.m_nCentroidMask ++ putU32 h.m_nNumStaticCombos
    ++ putU32 h.m_nSourceCRC32

/-- The 8 bytes of a `StaticComboRecord_t`. -/
def StaticComboRecord_t.bytes (r : StaticComboRecord_t) : List Byte :=
  putU32 r.m_nStaticComboID ++ putU32 r.m_nFileOffset

/-- The 8 bytes of a `StaticComboAliasRecord_t`. -/
def StaticComboAliasRecord_t.bytes (r : StaticComboAliasRecord_t) : List Byte :=
  putU32 r.m_nStaticComboID ++ putU32 r.m_nSourceStaticCombo

/-- The locals of the first loop of `WriteShaderFiles`: the vector
`StaticComboHeaders`, the array `comboIndicesHashedByCRC32` of
`STATIC_COMBO_HASH_SIZE` vectors, and the vector `duplicateCombos`. -/
structure DedupState where
  StaticComboHeaders : List StaticComboAuxInfo_t
  comboIndicesHashedByCRC32 : List (List Nat)
  duplicateCombos : List StaticComboAliasRecord_t
deriving DecidableEq, Repr

/-- The locals before the first loop of `WriteShaderFiles`. -/
def DedupState.init : DedupState :=
  { StaticComboHeaders := []
    comboIndicesHashedByCRC32 := List.replicate STATIC_COMBO_HASH_SIZE []
    duplicateCombos := [] }

/-- The loop `for ( const size_t i : hash )` of `WriteShaderFiles`: the first header
of the bucket with the same CRC32, the same length and the same bytes
(`memcmp` over `checkCode.GetLength()` bytes), if there is one. An index outside
`StaticComboHeaders` and a null `m_pByteCode` do not occur in the bucket; they
are passed over. -/
def findIdentical (StaticComboHeaders : List StaticComboAuxInfo_t) (nCRC32 : Nat)
    (code : List Byte) : List Nat → Option StaticComboAuxInfo_t
  | [] => none
  | i :: rest =>
    match StaticComboHeaders[i]? with
    | none => findIdentical StaticComboHeaders nCRC32 code rest
    | some check =>
      match check.m_pByteCode with
      | none => findIdentical StaticComboHeaders nCRC32 code rest
      | some pByteCode =>
        if check.m_nCRC32 = nCRC32 ∧ pByteCode.m_abPackedCode.length = code.length
            ∧ pByteCode.m_abPackedCode.take pByteCode.m_abPackedCode.length
              = code.take pByteCode.m_abPackedCode.length then
          some check
        else findIdentical StaticComboHeaders nCRC32 code rest

/-- The body of the inner loop of the first loop of `WriteShaderFiles`, for one
node `pStatic` of the hash. `crc32` is `CRC32::ProcessSingleBuffer`. -/
def dedupStep (crc32 : List Byte → Nat) (pStatic : CStaticCombo) (st : DedupState) :
    Option DedupState :=
  if pStatic.m_abPackedCode.length = 0 then some st
  else
    match narrowU32 pStatic.m_nStaticComboID with
    | none => none
    | some id32 =>
      let hdr : StaticComboAuxInfo_t :=
        { m_nStaticComboID := id32, m_nFileOffset := 0
          m_nCRC32 := crc32 pStatic.m_abPackedCode, m_pByteCode := some pStatic }
      let nHashIdx := hdr.m_nCRC32 % STATIC_COMBO_HASH_SIZE
      let hash := st.comboIndicesHashedByCRC32.getD nHashIdx []
      match findIdentical st.StaticComboHeaders hdr.m_nCRC32 pStatic.m_abPackedCode hash with
      | some check =>
        some { st with
          duplicateCombos := st.duplicateCombos ++
            [{ m_nStaticComboID := hdr.m_nStaticComboID
               m_nSourceStaticCombo := check.m_nStaticComboID }] }
      | none =>
        some { st with
          StaticComboHeaders := st.StaticComboHeaders ++ [hdr]
          comboIndicesHashedByCRC32 :=
            st.comboIndicesHashedByCRC32.set nHashIdx (hash ++ [st.StaticComboHeaders.length]) }

/-- The first loop of `WriteShaderFiles` over all nodes of all chains. -/
def dedupLoop (crc32 : List Byte → Nat) : StaticComboNodeHash_t → DedupState → Option DedupState
  | [], st => some st
  | pStatic :: rest, st =>
    match dedupStep crc32 pStatic st with
    | none => none
    | some st1 => dedupLoop crc32 rest st1

/-- The sentinel that `WriteShaderFiles` appends to `StaticComboHeaders`. -/
def sentinelHeader : StaticComboAuxInfo_t :=
  { m_nStaticComboID := 0xffffffff, m_nFileOffset := 0, m_nCRC32 := 0, m_pByteCode := none }

/-- A `std::ofstream` opened with `ios::binary | ios::trunc`: the bytes of the
file and the put position. -/
structure OFStream where
  content : List Byte
  tellp : Nat
deriving DecidableEq, Repr

/-- The state of the stream right after it has been opened. -/
def OFStream.opened : OFStream :=
  { content := [], tellp := 0 }

/-- The call `ofstream::write`: the bytes replace what is stored from the put
position on and extend the file where they reach beyond its end (the put
position is never beyond the end of the file in this program). -/
def OFStream.write (f : OFStream) (bytes : List Byte) : OFStream :=
  { content := f.content.take f.tellp ++ bytes ++ f.content.drop (f.tellp + bytes.length)
    tellp := f.tellp + bytes.length }

/-- The call `ofstream::seekp( pos, ios::beg )`. -/
def OFStream.seekp (f : OFStream) (pos : Nat) : OFStream :=
  { f with tellp := pos }

/-- The loop "now, write out all static combos" of `WriteShaderFiles`: every record
gets the current put position as its offset, and every record but one with the
sentinel key gets the packed code of the combo `FindByKey` returns, followed by
the end mark. A null result of `FindByKey` (ruled out by `Assert`) ends the
model with `none`. -/
def writeStaticCombos (pByteCodeArray : StaticComboNodeHash_t) :
    List StaticComboAuxInfo_t → OFStream → Option (List StaticComboAuxInfo_t × OFStream)
  | [], f => some ([], f)
  | SRec :: rest, f =>
    match narrowU32 f.tellp with
    | none => none
    | some off =>
      let written : Option OFStream :=
        if SRec.m_nStaticComboID ≠ 0xffffffff then
          match FindByKey pByteCodeArray SRec.m_nStaticComboID with
          | none => none
          | some pStatic =>
            let f1 := if pStatic.m_abPackedCode ≠ [] then f.write pStatic.m_abPackedCode else f
            some (f1.write (putU32 0xffffffff))
        else some f
      match written with
      | none => none
      | some f2 =>
        match writeStaticCombos pByteCodeArray rest f2 with
        | none => none
        | some (recs, f3) => some ({ SRec with m_nFileOffset := off } :: recs, f3)

/-- The loop "Re-writing the combo header" of `WriteShaderFiles`. -/
def rewriteHeaders : List StaticComboAuxInfo_t → OFStream → OFStream
  | [], f => f
  | SRec :: rest, f => rewriteHeaders rest (f.write SRec.toStaticComboRecord_t.bytes)

/-- What `WriteShaderFiles` has produced when it closes the file: the header it
wrote, the vectors `StaticComboHeaders` and `duplicateCombos` in their final
state, and the bytes of the file. -/
structure VcsFile where
  header : ShaderHeader_t
  StaticComboHeaders : List StaticComboAuxInfo_t
  duplicateCombos : List StaticComboAliasRecord_t
  ShaderFile : List Byte
deriving DecidableEq, Repr

/-- The stream operations of `WriteShaderFiles`, from the opening of the file to
`ShaderFile.close()`, for the header, the sorted vector `StaticComboHeaders`,
the count `dupl` and the sorted vector `duplicateCombos`: the final records and
the bytes of the file. The "dummy write" stores `8 * size` bytes taken from the
start of the array of `StaticComboAuxInfo_t`, whose elements are larger than 8
bytes; what these bytes are is a matter of memory layout, they are zeros here,
and every one of them is overwritten when the records are written again. -/
def writeStream (pByteCodeArray : StaticComboNodeHash_t) (header : ShaderHeader_t)
    (StaticComboHeaders : List StaticComboAuxInfo_t) (dupl : Nat)
    (duplicateCombos : List StaticComboAliasRecord_t) :
    Option (List StaticComboAuxInfo_t × List Byte) :=
  let f1 := OFStream.opened.write header.bytes
  let nDictionaryOffset := f1.tellp
  let f2 := f1.write (List.replicate (8 * StaticComboHeaders.length) 0)
  let f3 := f2.write (putU32 dupl)
  let f4 := f3.write (duplicateCombos.flatMap StaticComboAliasRecord_t.bytes)
  match writeStaticCombos pByteCodeArray StaticComboHeaders f4 with
  | none => none
  | some (recs, f5) => some (recs, (rewriteHeaders recs (f5.seekp nDictionaryOffset)).content)

/-- The part of `WriteShaderFiles` that builds and writes the file of a shader that
has not failed and whose hash `pByteCodeArray` is not null (from "Static combo
headers" to `ShaderFile.close()`). `version` is `SHADER_VCS_VERSION_NUMBER`;
`none` is an exception of a `gsl::narrow` (or a failed `Assert`). -/
def writeVcsFile (crc32 : List Byte → Nat) (version : Nat) (shaderInfo : ShaderInfo_t)
    (pByteCodeArray : StaticComboNodeHash_t) : Option VcsFile :=
  match dedupLoop crc32 pByteCodeArray DedupState.init with
  | none => none
  | some st =>
    let StaticComboHeaders := stdSort CompareComboIds (st.StaticComboHeaders ++ [sentinelHeader])
    match narrowI32 shaderInfo.m_nDynamicCombos, narrowU32 StaticComboHeaders.length,
        narrowU32 st.duplicateCombos.length with
    | some nDynamicCombos, some nNumStaticCombos, some dupl =>
      let header : ShaderHeader_t :=
        { m_nVersion := version
          m_nTotalCombos := narrowCastI32 shaderInfo.m_nTotalShaderCombos
          m_nDynamicCombos := nDynamicCombos
          m_nFlags := 0
          m_nCentroidMask := shaderInfo.m_CentroidMask
          m_nNumStaticCombos := nNumStaticCombos
          m_nSourceCRC32 := shaderInfo.m_Crc32 }
      let duplicateCombos := stdSort CompareDupComboIndices st.duplicateCombos
      match writeStream pByteCodeArray header StaticComboHeaders dupl duplicateCombos with
      | none => none
      | some (recs, bytes) =>
        some { header := header, StaticComboHeaders := recs, duplicateCombos := duplicateCombos
               ShaderFile := bytes }
    | _, _, _ => none

/-! ## A reference decoder of the archive layout

The program only writes archives. The decoder below follows the layout of the
specification (section 4.E.3 and 4.E.1): header, `StaticComboRecord` table, alias
table, and for every combo a sequence of blocks ended by `0xFFFFFFFF`, each block
a `uint32` whose two high bits tell how the block is stored and whose low 30
bits give the number of data bytes that follow. -/

/-- Reads a little endian `uint32`; the rest of the bytes is returned with it. -/
def getU32 : List Byte → Option (Nat × List Byte)
  | b0 :: b1 :: b2 :: b3 :: rest =>
    some (b0.val + 2 ^ 8 * b1.val + 2 ^ 16 * b2.val + 2 ^ 24 * b3.val, rest)
  | _ => none

/-- Reads `n` pairs of `uint32`. -/
def getPairs : Nat → List Byte → Option (List (Nat × Nat) × List Byte)
  | 0, bs => some ([], bs)
  | n + 1, bs =>
    match getU32 bs with
    | none => none
    | some (a, r1) =>
      match getU32 r1 with
      | none => none
      | some (b, r2) =>
        match getPairs n r2 with
        | none => none
        | some (ps, r3) => some ((a, b) :: ps, r3)

/-- Decodes the content of one uncompressed block: records `uint32 dynamic_id`,
`uint32 payload_len`, `payload_bytes` up to the end of the block. Every record
takes at least 8 bytes, so a fuel of the length of the block is enough. -/
def decodeRecords : Nat → List Byte → Option (List (Nat × List Byte))
  | _, [] => some []
  | 0, _ :: _ => none
  | fuel + 1, b :: bs =>
    match getU32 (b :: bs) with
    | none => none
    | some (id, r1) =>
      match getU32 r1 with
      | none => none
      | some (len, r2) =>
        if r2.length < len then none
        else
          match decodeRecords fuel (r2.drop len) with
          | none => none
          | some recs => some ((id, r2.take len) :: recs)

/-- Decodes the blocks of one static combo up to the end mark `0xFFFFFFFF`: high
bits `10` stored, `01` LZMA (undone by `decompress`), anything else is not part
of the format. Every block takes at least 4 bytes, so a fuel of the number of
bytes is enough. -/
def decodeBlocks (decompress : List Byte → Option (List Byte)) :
    Nat → List Byte → Option (List (Nat × List Byte))
  | 0, _ => none
  | fuel + 1, bs =>
    match getU32 bs with
    | none => none
    | some (w, r1) =>
      if w = 0xffffffff then some []
      else if r1.length < w % 2 ^ 30 then none
      else
        let data := r1.take (w % 2 ^ 30)
        let raw :=
          if w / 2 ^ 30 = 2 then some data
          else if w / 2 ^ 30 = 1 then decompress data
          else none
        match raw with
        | none => none
        | some block =>
          match decodeRecords block.length block, decodeBlocks decompress fuel (r1.drop (w % 2 ^ 30)) with
          | some recs, some more => some (recs ++ more)
          | _, _ => none

/-- The dynamic combos stored at offset `off` of the file. -/
def decodeBody (decompress : List Byte → Option (List Byte)) (file : List Byte) (off : Nat) :
    Option (List (Nat × List Byte)) :=
  decodeBlocks decompress file.length (file.drop off)

/-- The tuples of the combos that have a body of their own: every record of the
table except records with the sentinel key. -/
def decodeStaticCombos (decompress : List Byte → Option (List Byte)) (file : List Byte) :
    List (Nat × Nat) → Option (List (Nat × Nat × List Byte))
  | [] => some []
  | (id, off) :: rest =>
    if id = 0xffffffff then decodeStaticCombos decompress file rest
    else
      match decodeBody decompress file off, decodeStaticCombos decompress file rest with
      | some dyn, some more => some (dyn.map (fun d => (id, d.1, d.2)) ++ more)
      | _, _ => none

/-- The tuples of the aliases: an alias has the dynamic combos of the body of its
canonical combo. An alias whose canonical id is not in the table is an error. -/
def decodeAliases (decompress : List Byte → Option (List Byte)) (file : List Byte)
    (table : List (Nat × Nat)) : List (Nat × Nat) → Option (List (Nat × Nat × List Byte))
  | [] => some []
  | (id, canonical) :: rest =>
    match table.find? (fun r => r.1 == canonical) with
    | none => none
    | some r =>
      match decodeBody decompress file r.2, decodeAliases decompress file table rest with
      | some dyn, some more => some (dyn.map (fun d => (id, d.1, d.2)) ++ more)
      | _, _ => none

/-- The reference decoder: all tuples `(static_combo_id, dynamic_combo_id,
payload_bytes)` of an archive. -/
def decodeArchive (decompress : List Byte → Option (List Byte)) (file : List Byte) :
    Option (List (Nat × Nat × List Byte)) :=
  match getU32 (file.drop 20) with
  | none => none
  | some (nNumStaticCombos, _) =>
    match getPairs nNumStaticCombos (file.drop 28) with
    | none => none
    | some (table, r1) =>
      match getU32 r1 with
      | none => none
      | some (nAliases, r2) =>
        match getPairs nAliases r2 with
        | none => none
        | some (aliases, _) =>
          match decodeStaticCombos decompress file table, decodeAliases decompress file table aliases with
          | some own, some aliased => some (own ++ aliased)
          | _, _ => none

/-- The tuples that were added to the static combos of a hash with
`AddDynamicCombo`. -/
def addedTuples (h : StaticComboNodeHash_t) : List (Nat × Nat × List Byte) :=
  h.flatMap (fun n => n.m_DynamicCombos.map (fun b => (n.m_nStaticComboID, b.m_nComboID, b.code)))

/-! ## Vocabulary of the statements -/

/-- The bytes that one call of `FlushCombos` appends to `pBuf` for a non-empty
buffer `block`: the flag word and the data. -/
def emittedBlock (compress : List Byte → Option (List Byte)) (block : List Byte) : List Byte :=
  match compress block with
  | none => putU32 (0x80000000 ||| (block.length % 2 ^ 32)) ++ block
  | some pCompressedShader => putU32 (0x40000000 ||| pCompressedShader.length) ++ pCompressedShader

/-- The records `uint32 dynamic_id`, `uint32 payload_len`, `payload_bytes` of a list
of dynamic combos, one after the other. -/
def dynamicComboRecords (l : List CByteCodeBlock) : List Byte :=
  l.flatMap (fun b => dynamicComboRecord b.m_nComboID b.code)

/-- The state of the packer after the dynamic combos `done` have been put out,
starting from the output buffer `pBuf0`: the combos split into the groups that
were flushed and the group `cur` that is still in the uncompressed buffer. -/
def PackInv (compress : List Byte → Option (List Byte)) (pBuf0 : List Byte)
    (done : List CByteCodeBlock) (st : PackState) : Prop :=
  ∃ (groups : List (List CByteCodeBlock)) (cur : List CByteCodeBlock),
    groups.flatten ++ cur = done ∧ (∀ grp ∈ groups, grp ≠ []) ∧
    st.handedToCompressor = groups.map dynamicComboRecords ∧
    st.pDynamicComboBuffer = dynamicComboRecords cur ∧
    st.pBuf = pBuf0 ++ st.handedToCompressor.flatMap (emittedBlock compress) ∧
    st.pnTotalFlushedSize = (st.handedToCompressor.flatMap (emittedBlock compress)).length

/-! ## The naive duplicate search of the specification -/

/-- The naive search: the first accepted header whose packed blob is
byte-identical to `code`. -/
def naiveFindIdentical (StaticComboHeaders : List StaticComboAuxInfo_t) (code : List Byte) :
    Option StaticComboAuxInfo_t :=
  StaticComboHeaders.find? (fun check =>
    match check.m_pByteCode with
    | some pByteCode => decide (pByteCode.m_abPackedCode = code)
    | none => false)

/-- One step of the naive classification: a static combo with a non-empty packed
blob is a duplicate when some previously accepted combo has a byte-identical
blob, and is accepted as unique otherwise. No CRC and no bucket is involved in
the decision (the CRC is only stored in the accepted header). -/
def naiveDedupStep (crc32 : List Byte → Nat) (pStatic : CStaticCombo)
    (acc : List StaticComboAuxInfo_t × List StaticComboAliasRecord_t) :
    Option (List StaticComboAuxInfo_t × List StaticComboAliasRecord_t) :=
  if pStatic.m_abPackedCode.length = 0 then some acc
  else
    match narrowU32 pStatic.m_nStaticComboID with
    | none => none
    | some id32 =>
      match naiveFindIdentical acc.1 pStatic.m_abPackedCode with
      | some check =>
        some (acc.1, acc.2 ++ [{ m_nStaticComboID := id32
                                 m_nSourceStaticCombo := check.m_nStaticComboID }])
      | none =>
        some (acc.1 ++ [{ m_nStaticComboID := id32, m_nFileOffset := 0
                          m_nCRC32 := crc32 pStatic.m_abPackedCode
                          m_pByteCode := some pStatic }], acc.2)

/-- The naive classification of all nodes, in the order of traversal. -/
def naiveDedupLoop (crc32 : List Byte → Nat) :
    StaticComboNodeHash_t → List StaticComboAuxInfo_t × List StaticComboAliasRecord_t →
      Option (List StaticComboAuxInfo_t × List StaticComboAliasRecord_t)
  | [], acc => some acc
  | pStatic :: rest, acc =>
    match naiveDedupStep crc32 pStatic acc with
    | none => none
    | some acc1 => naiveDedupLoop crc32 rest acc1

/-- What the first loop of `WriteShaderFiles` keeps true of its locals: the table
has `STATIC_COMBO_HASH_SIZE` buckets, bucket `k` lists, in order, the positions
of the headers whose CRC32 is `k` modulo the table size, and every header holds
the CRC32 of the packed code it points to. -/
def BucketInv (crc32 : List Byte → Nat) (st : DedupState) : Prop :=
  st.comboIndicesHashedByCRC32.length = STATIC_COMBO_HASH_SIZE ∧
  (∀ k, k < STATIC_COMBO_HASH_SIZE →
    (st.comboIndicesHashedByCRC32.getD k []).map (fun i => st.StaticComboHeaders[i]?) =
      (st.StaticComboHeaders.filter
        (fun h => h.m_nCRC32 % STATIC_COMBO_HASH_SIZE == k)).map some) ∧
  (∀ h ∈ st.StaticComboHeaders, ∃ p, h.m_pByteCode = some p ∧ h.m_nCRC32 = crc32 p.m_abPackedCode)

/-- The header that the first loop of `WriteShaderFiles` makes for a static combo
whose id fits in 32 bits. -/
def headerOf (crc32 : List Byte → Nat) (p : CStaticCombo) : StaticComboAuxInfo_t :=
  { m_nStaticComboID := p.m_nStaticComboID, m_nFileOffset := 0
    m_nCRC32 := crc32 p.m_abPackedCode, m_pByteCode := some p }

/-- The alias record of a duplicate `x.1` of the canonical combo `x.2`. -/
def aliasOf (x : CStaticCombo × CStaticCombo) : StaticComboAliasRecord_t :=
  { m_nStaticComboID := x.1.m_nStaticComboID, m_nSourceStaticCombo := x.2.m_nStaticComboID }

/-- The outcome of the duplicate detection over `nodes`, told in terms of the
static combos: the headers are those of a list `U` of combos with pairwise
different packed blobs, the alias records those of a list `Dn` of pairs
(duplicate, canonical) whose canonical combo is in `U` and has the same blob,
and `U` together with the duplicates is a rearrangement of the combos of `nodes`
that have a non-empty blob, all of which have an id that fits in 32 bits. -/
def Classified (crc32 : List Byte → Nat) (nodes : StaticComboNodeHash_t)
    (acc : List StaticComboAuxInfo_t × List StaticComboAliasRecord_t) : Prop :=
  ∃ (U : List CStaticCombo) (Dn : List (CStaticCombo × CStaticCombo)),
    acc.1 = U.map (headerOf crc32) ∧ acc.2 = Dn.map aliasOf ∧
    (U ++ Dn.map Prod.fst).Perm (nodes.filter (fun p => decide (p.m_abPackedCode ≠ []))) ∧
    (∀ x ∈ Dn, x.2 ∈ U ∧ x.2.m_abPackedCode = x.1.m_abPackedCode) ∧
    U.Pairwise (fun a b => a.m_abPackedCode ≠ b.m_abPackedCode) ∧
    (∀ p ∈ nodes, p.m_abPackedCode ≠ [] → p.m_nStaticComboID < 2 ^ 32)

/-- What the loop "now, write out all static combos" appends to the file for one
record: nothing for a record with the sentinel key, otherwise the packed code
of the combo that `FindByKey` returns followed by the end mark. -/
def recordBody (pByteCodeArray : StaticComboNodeHash_t) (SRec : StaticComboAuxInfo_t) :
    List Byte :=
  if SRec.m_nStaticComboID = 0xffffffff then []
  else
    match FindByKey pByteCodeArray SRec.m_nStaticComboID with
    | some pStatic => pStatic.m_abPackedCode ++ putU32 0xffffffff
    | none => []

/-- The records with the offsets the loop gives them when the first body starts
at position `pos`. -/
def withOffsets (pByteCodeArray : StaticComboNodeHash_t) :
    List StaticComboAuxInfo_t → Nat → List StaticComboAuxInfo_t
  | [], _ => []
  | SRec :: rest, pos =>
    { SRec with m_nFileOffset := pos } ::
      withOffsets pByteCodeArray rest (pos + (recordBody pByteCodeArray SRec).length)

/-- The hash is a map: no two of its nodes have the same key. `StaticComboFromDictAdd`
adds a node only when `FindByKey` finds none. -/
def KeysNodup (h : StaticComboNodeHash_t) : Prop :=
  (h.map (fun p => p.m_nStaticComboID)).Nodup

instance (h : StaticComboNodeHash_t) : Decidable (KeysNodup h) := by
  unfold KeysNodup
  infer_instance

/-- Orders static combos by id, as `CompareComboIds` orders their headers. -/
def compareStaticIds (a b : CStaticCombo) : Bool :=
  decide (a.m_nStaticComboID < b.m_nStaticComboID)

/-- Orders pairs (duplicate, canonical) by the id of the duplicate, as
`CompareDupComboIndices` orders their alias records. -/
def compareDuplicateIds (a b : CStaticCombo × CStaticCombo) : Bool :=
  decide (a.1.m_nStaticComboID < b.1.m_nStaticComboID)

/-- The file `out` written for the hash `hash`, told in terms of the static combos:
`Us` are the combos that have a record, in the order of the table, and `Ds` the
pairs (duplicate, canonical) of the alias table, in its order. -/
structure ArchiveOf (crc32 : List Byte → Nat) (version : Nat) (shaderInfo : ShaderInfo_t)
    (hash : StaticComboNodeHash_t) (out : VcsFile) (Us : List CStaticCombo)
    (Ds : List (CStaticCombo × CStaticCombo)) : Prop where
  perm : (Us ++ Ds.map Prod.fst).Perm (hash.filter (fun p => decide (p.m_abPackedCode ≠ [])))
  canonical : ∀ x ∈ Ds, x.2 ∈ Us ∧ x.2.m_abPackedCode = x.1.m_abPackedCode
  distinct : Us.Pairwise (fun a b => a.m_abPackedCode ≠ b.m_abPackedCode)
  sortedUs : Us.Pairwise (fun a b => a.m_nStaticComboID < b.m_nStaticComboID)
  sortedDs : Ds.Pairwise (fun a b => a.1.m_nStaticComboID < b.1.m_nStaticComboID)
  idBound : ∀ p ∈ hash, p.m_abPackedCode ≠ [] → p.m_nStaticComboID < 2 ^ 32
  records : out.StaticComboHeaders =
    withOffsets hash (Us.map (headerOf crc32) ++ [sentinelHeader])
      (28 + 8 * (Us.length + 1) + 4 + 8 * Ds.length)
  aliases : out.duplicateCombos = Ds.map aliasOf
  file : out.ShaderFile =
    out.header.bytes ++ out.StaticComboHeaders.flatMap (fun r => r.toStaticComboRecord_t.bytes)
      ++ putU32 Ds.length ++ out.duplicateCombos.flatMap StaticComboAliasRecord_t.bytes
      ++ (Us.map (headerOf crc32) ++ [sentinelHeader]).flatMap (recordBody hash)
  header : out.header =
    { m_nVersion := version
      m_nTotalCombos := narrowCastI32 shaderInfo.m_nTotalShaderCombos
      m_nDynamicCombos := shaderInfo.m_nDynamicCombos
      m_nFlags := 0
      m_nCentroidMask := shaderInfo.m_CentroidMask
      m_nNumStaticCombos := Us.length + 1
      m_nSourceCRC32 := shaderInfo.m_Crc32 }
  dynBound : shaderInfo.m_nDynamicCombos < 2 ^ 31
  tableBound : Us.length + 1 < 2 ^ 32
  aliasBound : Ds.length < 2 ^ 32
  offsetBound : ∀ r ∈ out.StaticComboHeaders, r.m_nFileOffset < 2 ^ 32

/-! ## Concrete inputs -/

/-- A stand-in for the CRC32 of a buffer, used only in concrete instances. -/
def exampleCrc32 (b : List Byte) : Nat :=
  (b.map (fun x => x.val)).sum

/-- A hash of three sealed static combos; the combos `2` and `1` have the same
packed blob. -/
def exampleHash : StaticComboNodeHash_t :=
  [{ m_nStaticComboID := 2, m_DynamicCombos := [], m_abPackedCode := [1, 0, 0, 128, 7] },
   { m_nStaticComboID := 0, m_DynamicCombos := [], m_abPackedCode := [1, 0, 0, 128, 9] },
   { m_nStaticComboID := 1, m_DynamicCombos := [], m_abPackedCode := [1, 0, 0, 128, 7] }]

/-- The shader info used in concrete instances. -/
def exampleInfo : ShaderInfo_t :=
  { m_nTotalShaderCombos := 6, m_pShaderName := "example_ps20b", m_CentroidMask := 0
    m_nDynamicCombos := 2, m_Crc32 := 77 }

/-- A static combo with two dynamic combos that were added out of order. -/
def exampleCombo : CStaticCombo :=
  { m_nStaticComboID := 3
    m_DynamicCombos := [{ m_nComboID := 1, code := [7, 8] }, { m_nComboID := 0, code := [9] }]
    m_abPackedCode := [] }

/-- An accumulator that holds `exampleCombo` for the shader `example_ps20b`. -/
def exampleShaderMap : CShaderMap :=
  Function.update (fun _ => none) "example_ps20b" (some [exampleCombo])

/-- The body of a static combo in the file: its packed code and the end mark. -/
def comboBody (p : CStaticCombo) : List Byte :=
  p.m_abPackedCode ++ putU32 0xffffffff

/-- A hash whose only static combo has the id `0xFFFFFFFF`, the key of the
sentinel; its packed blob has five bytes. -/
def sentinelIdHash : StaticComboNodeHash_t :=
  [{ m_nStaticComboID := 0xffffffff, m_DynamicCombos := [], m_abPackedCode := [1, 0, 0, 128, 7] }]

/-- A hash in which the combo with the id `0xFFFFFFFF` comes first and the combo
`5` has the same packed blob. -/
def sentinelCanonicalHash : StaticComboNodeHash_t :=
  [{ m_nStaticComboID := 0xffffffff, m_DynamicCombos := [], m_abPackedCode := [1, 0, 0, 128, 7] },
   { m_nStaticComboID := 5, m_DynamicCombos := [], m_abPackedCode := [1, 0, 0, 128, 7] }]

/-- A hash of three static combos with one and the same packed blob. -/
def tripleHash : StaticComboNodeHash_t :=
  [{ m_nStaticComboID := 1, m_DynamicCombos := [], m_abPackedCode := [1, 0, 0, 128, 7] },
   { m_nStaticComboID := 2, m_DynamicCombos := [], m_abPackedCode := [1, 0, 0, 128, 7] },
   { m_nStaticComboID := 3, m_DynamicCombos := [], m_abPackedCode := [1, 0, 0, 128, 7] }]

/-- The packed blob that the sealing step stores for a static combo: the bytes
`AssembleWorkerReplyPackage` puts into the empty buffer `mbPacked`. -/
def packedBlob (compress : List Byte → Option (List Byte)) (maxBlock : Nat) (p : CStaticCombo) :
    List Byte :=
  ((packDynamicCombos compress maxBlock p []).map (fun st => st.pBuf)).getD []

/-- The static combo that is in the hash after the sealing step: none when the
combo has no dynamic combos, otherwise a fresh combo with the packed blob and
an empty list of dynamic combos. -/
def sealedCombo (compress : List Byte → Option (List Byte)) (maxBlock : Nat) (p : CStaticCombo) :
    Option CStaticCombo :=
  if p.m_DynamicCombos.isEmpty then none
  else some { m_nStaticComboID := p.m_nStaticComboID, m_DynamicCombos := []
              m_abPackedCode := packedBlob compress maxBlock p }

/-- The pairs (dynamic id, payload) of the dynamic combos of a static combo, in
ascending order of the dynamic id, as `SortDynamicCombos` arranges them. -/
def dynamicPairs (p : CStaticCombo) : List (Nat × List Byte) :=
  (stdSort CompareDynamicComboIDs p.m_DynamicCombos).map (fun b => (b.m_nComboID, b.code))

/-- The pairs (dynamic id, payload) that the reference decoder reads from a packed
blob followed by the end mark. -/
def decodedPairs (decompress : List Byte → Option (List Byte)) (code : List Byte) :
    List (Nat × List Byte) :=
  (decodeBlocks decompress (code.length + 4) (code ++ putU32 0xffffffff)).getD []

/-- The tuples that the reference decoder reads from the packed blob of a static
combo. -/
def comboTuples (decompress : List Byte → Option (List Byte)) (q : CStaticCombo) :
    List (Nat × Nat × List Byte) :=
  (decodedPairs decompress q.m_abPackedCode).map (fun d => (q.m_nStaticComboID, d.1, d.2))

/-- The packed blob `code`, followed by the end mark and by anything, decodes to
the pairs `L`, whatever the fuel above the length of the blob. -/
def DecodesAs (decompress : List Byte → Option (List Byte)) (code : List Byte)
    (L : List (Nat × List Byte)) : Prop :=
  ∀ rest fuel, code.length < fuel →
    decodeBlocks decompress fuel (code ++ putU32 0xffffffff ++ rest) = some L

/-- The pairs (id, offset) of the records of the static combos `us` when the body
of the first one starts at `pos`. -/
def offsetsFrom : Nat → List CStaticCombo → List (Nat × Nat)
  | _, [] => []
  | pos, u :: us => (u.m_nStaticComboID, pos) :: offsetsFrom (pos + (comboBody u).length) us

/-- Sealing the static combos `ids` of the shader `name` (the loop of
`TryToPackageData`) and then writing the file of the shader (the writing part of
`WriteShaderFiles`). -/
def sealAndWrite (compress : List Byte → Option (List Byte)) (maxBlock : Nat)
    (slot : Nat → StaticComboNodeHash_t → Nat) (crc32 : List Byte → Nat) (version : Nat)
    (shaderInfo : ShaderInfo_t) (name : String) (ids : List Nat) (g : CShaderMap) :
    Option VcsFile :=
  match sealStaticCombos compress maxBlock slot name ids g with
  | none => none
  | some g1 =>
    match g1 name with
    | none => none
    | some pByteCodeArray => writeVcsFile crc32 version shaderInfo pByteCodeArray

/-- An accumulator whose only static combo has the id `0xFFFFFFFF` and one dynamic
combo with the one-byte payload `payload`. -/
def sentinelIdShaderMap (payload : Byte) : CShaderMap :=
  Function.update (fun _ => none) "example_ps20b"
    (some [{ m_nStaticComboID := 0xffffffff
             m_DynamicCombos := [{ m_nComboID := 0, code := [payload] }]
             m_abPackedCode := [] }])

/-! ## The dispatcher `CWorkerAccumState` -/

/-- Modelled from the spec: the struct `CfgProcessor::CfgEntryInfo` of
`cfgprocessor.h`, which is missing: the shader entry of the data model, with the
fields that the dispatcher reads. -/
structure CfgEntryInfo where
  m_szName : String
  m_numCombos : Nat
  m_numDynamicCombos : Nat
  m_numStaticCombos : Nat
  m_iCommandStart : Nat
  m_iCommandEnd : Nat
  m_nCentroidMask : Nat := 0
  m_nCrc32 : Nat := 0
deriving DecidableEq, Repr

/-- Modelled from the spec: `CfgProcessor::Combo_GetCombo`, which is missing. A
handle is given by its entry (`Combo_GetEntryInfo`) and its combo number
(`Combo_GetComboNum`); `none` is the null handle. The entry is the one whose
command range holds the command, and the enumeration of an entry descends: the
command `c` has the combo number `numCombos - 1 - (c - commandStart)`. -/
def Combo_GetCombo (cfg : List CfgEntryInfo) (iCommandNumber : Nat) :
    Option (CfgEntryInfo × Nat) :=
  (cfg.find? (fun e =>
      decide (e.m_iCommandStart ≤ iCommandNumber ∧ iCommandNumber < e.m_iCommandEnd))).map
    (fun e => (e, e.m_numCombos - 1 - (iCommandNumber - e.m_iCommandStart)))

/-- Modelled from the spec: `CfgProcessor::Combo_GetNext`, which is missing, as
the dispatcher uses it: the command number of the next combo that is alive (not
skipped), from `iFrom` on and below `iEnd`; `none` is the null handle. -/
def Combo_GetNext (alive : Nat → Bool) (iFrom iEnd : Nat) : Option Nat :=
  (List.range' iFrom (iEnd - iFrom)).find? alive

/-- The fields of `CWorkerAccumState` that the mutex `m_Mutex` guards. The handle
`m_hCombo` is given by its command number (`Combo_GetCommandNum`), `none` is
`nullptr`. The cursor `m_iNextCommand`, which only the iterator reads, is left
out. -/
structure CWorkerAccumState where
  m_arrSubProcessInfos : List Nat
  m_iFirstCommand : Nat
  m_iEndCommand : Nat
  m_iLastFinished : Nat
  m_hCombo : Option Nat
deriving DecidableEq, Repr

/-- The function `RangeBegin`. -/
def RangeBegin (alive : Nat → Bool) (st : CWorkerAccumState) (iFirstCommand iEndCommand : Nat) :
    CWorkerAccumState :=
  { st with
    m_iFirstCommand := iFirstCommand
    m_iEndCommand := iEndCommand
    m_iLastFinished := iFirstCommand
    m_hCombo := Combo_GetNext alive iFirstCommand iEndCommand }

/-- The first locked block of `OnProcess`: `resize( size() + 1 )` appends the slot
of the worker, value-initialised to 0; the worker keeps a pointer to it. -/
def OnProcessEnter (st : CWorkerAccumState) : CWorkerAccumState :=
  { st with m_arrSubProcessInfos := st.m_arrSubProcessInfos ++ [0] }

/-- The locked block in the loop of `OnProcess`, run by the worker whose slot has
the index `iCurrentId`: the worker takes the command of `m_hCombo` into its slot
and the shared handle moves on, or the slot is set to `~0ULL` when no combo is
left. The second component is the command that the worker goes on to execute. -/
def OnProcessTake (alive : Nat → Bool) (st : CWorkerAccumState) (iCurrentId : Nat) :
    CWorkerAccumState × Option Nat :=
  match st.m_hCombo with
  | some c =>
    ({ st with
       m_arrSubProcessInfos := st.m_arrSubProcessInfos.set iCurrentId c
       m_hCombo := Combo_GetNext alive (c + 1) st.m_iEndCommand }, some c)
  | none =>
    ({ st with m_arrSubProcessInfos := st.m_arrSubProcessInfos.set iCurrentId (2 ^ 64 - 1) },
      none)

/-- The loop of `TryToPackageData`: the list of the static combos that the body
("Zip this combo") is run for, each as the pair of `pInfoBegin` and
`nComboBegin`, in the order of the passes. `nComboBegin--` wraps in 64 bits.
`none` when the passes outnumber `fuel`. -/
def packageLoop (cfg : List CfgEntryInfo) (pInfoEnd : CfgEntryInfo) (nComboEnd : Nat) :
    Nat → CfgEntryInfo → Nat → Option (List (CfgEntryInfo × Nat))
  | 0, pInfoBegin, nComboBegin =>
    if pInfoBegin.m_iCommandStart < pInfoEnd.m_iCommandStart ∨ nComboBegin > nComboEnd then none
    else some []
  | fuel + 1, pInfoBegin, nComboBegin =>
    if pInfoBegin.m_iCommandStart < pInfoEnd.m_iCommandStart ∨ nComboBegin > nComboEnd then
      let next : CfgEntryInfo × Nat :=
        if nComboBegin = 0 then
          match Combo_GetCombo cfg pInfoBegin.m_iCommandEnd with
          | some (e, _) => (e, (e.m_numStaticCombos + (2 ^ 64 - 1)) % 2 ^ 64)
          | none => (pInfoBegin, 2 ^ 64 - 1)
        else (pInfoBegin, nComboBegin - 1)
      (packageLoop cfg pInfoEnd nComboEnd fuel next.1 next.2).map
        (fun l => (pInfoBegin, nComboBegin) :: l)
    else some []

/-- The function `TryToPackageData`: the dispatcher state it leaves and the static
combos it seals, in order. The watermark is tested and moved under the mutex;
`none` is a failed `Assert( hChBegin && hChEnd )`, a division by a zero
`m_numDynamicCombos`, or a loop that outruns `fuel`. -/
def TryToPackageData (cfg : List CfgEntryInfo) (fuel : Nat) (st : CWorkerAccumState)
    (iCommandNumber : Nat) : Option (CWorkerAccumState × List (CfgEntryInfo × Nat)) :=
  let iFinishedByNow : Nat :=
    if st.m_arrSubProcessInfos.any (fun iRunningCommand => decide (iRunningCommand < iCommandNumber))
    then 0 else (iCommandNumber + 1) % 2 ^ 64
  let iLastFinished := st.m_iLastFinished
  if iFinishedByNow > st.m_iLastFinished then
    match Combo_GetCombo cfg iLastFinished, Combo_GetCombo cfg iFinishedByNow with
    | some (pInfoBegin, nBegin), some (pInfoEnd, nEnd) =>
      if pInfoBegin.m_numDynamicCombos = 0 ∨ pInfoEnd.m_numDynamicCombos = 0 then none
      else
        (packageLoop cfg pInfoEnd (nEnd / pInfoEnd.m_numDynamicCombos) fuel pInfoBegin
            (nBegin / pInfoBegin.m_numDynamicCombos)).map
          (fun l => ({ st with m_iLastFinished := iFinishedByNow }, l))
    | _, _ => none
  else some (st, [])

/-- The effect of the passes of the loop of `TryToPackageData` on the accumulator
`g_ShaderByteCode`: each static combo of the list is sealed in turn. -/
def sealPackaged (compress : List Byte → Option (List Byte)) (maxBlock : Nat)
    (slot : Nat → StaticComboNodeHash_t → Nat) :
    List (CfgEntryInfo × Nat) → CShaderMap → Option CShaderMap
  | [], g => some g
  | (pInfoBegin, nComboBegin) :: l, g =>
    match sealStaticCombo compress maxBlock slot g pInfoBegin.m_szName nComboBegin with
    | none => none
    | some g1 => sealPackaged compress maxBlock slot l g1

/-- The command `c` belongs to the static combo `es.2` of the entry `es.1`: its
handle has that entry, and its combo number divided by `m_numDynamicCombos` (the
`nStComboIdx` of `HandleCommandResponse`) is the static combo. -/
def CommandOf (cfg : List CfgEntryInfo) (c : Nat) (es : CfgEntryInfo × Nat) : Prop :=
  ∃ n, Combo_GetCombo cfg c = some (es.1, n) ∧ nStComboIdx n es.1.m_numDynamicCombos = es.2

/-- An entry with four commands: two static combos of two dynamic combos each. -/
def raceEntry : CfgEntryInfo :=
  { m_szName := "example_ps20b", m_numCombos := 4, m_numDynamicCombos := 2
    m_numStaticCombos := 2, m_iCommandStart := 0, m_iCommandEnd := 4 }

/-- A run of two workers on `raceEntry`, up to the point where the second worker
has completed the command 1: both workers enter `OnProcess`; the first takes the
command 0 and the second the command 1; the first completes its command (the
call `TryToPackageData( 0 )` moves the watermark to 1) and takes the command 2. -/
def raceState : Option CWorkerAccumState :=
  let s0 := RangeBegin (fun _ => true) ⟨[], 0, 0, 0, none⟩ 0 4
  let s1 := OnProcessEnter (OnProcessEnter s0)
  let s2 := (OnProcessTake (fun _ => true) s1 0).1
  let s3 := (OnProcessTake (fun _ => true) s2 1).1
  (TryToPackageData [raceEntry] 4 s3 0).map
    (fun r => (OnProcessTake (fun _ => true) r.1 0).1)

/-- An accumulator whose only static combo, `0`, has one dynamic combo with the
payload `payload`. -/
def bigPayloadShaderMap (payload : List Byte) : CShaderMap :=
  Function.update (fun _ => none) "example_ps20b"
    (some [{ m_nStaticComboID := 0
             m_DynamicCombos := [{ m_nComboID := 0, code := payload }]
             m_abPackedCode := [] }])

/-- Modelled from the spec: the relations between the derived fields of a shader
entry (data model, "ShaderEntry"): `numCombos = numStatic × numDynamic`, and the
half-open command range of the entry holds one command for every combo. -/
def CfgEntryInfo.WellFormed (e : CfgEntryInfo) : Prop :=
  0 < e.m_numDynamicCombos ∧ e.m_numCombos = e.m_numStaticCombos * e.m_numDynamicCombos ∧
    e.m_iCommandEnd = e.m_iCommandStart + e.m_numCombos

instance (e : CfgEntryInfo) : Decidable e.WellFormed := by
  unfold CfgEntryInfo.WellFormed
  infer_instance

/-- The static combo that the command `c` of the entry `e` belongs to: the combo
number of the command (see `Combo_GetCombo`) divided by `m_numDynamicCombos`. -/
def staticComboOf (e : CfgEntryInfo) (c : Nat) : Nat :=
  nStComboIdx (e.m_numCombos - 1 - (c - e.m_iCommandStart)) e.m_numDynamicCombos

/-- The numbers `hi, hi - 1, ..., lo` in descending order (empty when `hi < lo`). -/
def descending (lo hi : Nat) : List Nat :=
  (List.range' lo (hi + 1 - lo)).reverse

/-- An entry with six commands: three static combos of two dynamic combos each. -/
def sixEntry : CfgEntryInfo :=
  { m_szName := "example_ps20b", m_numCombos := 6, m_numDynamicCombos := 2
    m_numStaticCombos := 3, m_iCommandStart := 0, m_iCommandEnd := 6 }

/-- The part of `TryToPackageData` that runs under the mutex `m_Mutex`, up to
`guard.unlock()` or the early `return`: the dispatcher state it leaves and, when
the watermark has moved, the locals `iLastFinished` and `iFinishedByNow` that
the loop then works on. -/
def TryToPackageData_locked (st : CWorkerAccumState) (iCommandNumber : Nat) :
    CWorkerAccumState × Option (Nat × Nat) :=
  let iFinishedByNow : Nat :=
    if st.m_arrSubProcessInfos.any (fun iRunningCommand => decide (iRunningCommand < iCommandNumber))
    then 0 else (iCommandNumber + 1) % 2 ^ 64
  if iFinishedByNow > st.m_iLastFinished then
    ({ st with m_iLastFinished := iFinishedByNow }, some (st.m_iLastFinished, iFinishedByNow))
  else (st, none)

/-- What a thread does to the dispatcher state while it holds `m_Mutex`: a worker
enters `OnProcess`, the worker with the slot `iCurrentId` takes a command, or a
thread calls `TryToPackageData`. -/
inductive DispatcherEvent where
  | enter
  | take (iCurrentId : Nat)
  | tryToPackage (iCommandNumber : Nat)
deriving DecidableEq, Repr

/-- The dispatcher state after one event. -/
def dispatcherStep (alive : Nat → Bool) (st : CWorkerAccumState) :
    DispatcherEvent → CWorkerAccumState
  | .enter => OnProcessEnter st
  | .take iCurrentId => (OnProcessTake alive st iCurrentId).1
  | .tryToPackage iCommandNumber => (TryToPackageData_locked st iCommandNumber).1

/-- The dispatcher state after a sequence of events. -/
def dispatcherRun (alive : Nat → Bool) (events : List DispatcherEvent) (st : CWorkerAccumState) :
    CWorkerAccumState :=
  events.foldl (dispatcherStep alive) st

/-! ## The global state of the program and `WriteShaderFiles` as a whole -/

/-- The call `emplace` on one of the sets `g_ShaderHadError` and
`g_ShaderWrittenToDisk` (`unordered_flat_set<string_view>`): a set is the list
of its elements in the order of their first insertion, and its `size()` is the
length of the list. -/
def emplace (s : List String) (x : String) : List String :=
  if x ∈ s then s else s ++ [x]

/-- An operation that changes the file system. -/
inductive FileOperation where
  | createDirectories (path : String)
  | permissions (path : String)
  | remove (path : String)
  | write (path : String) (bytes : List Byte)
deriving DecidableEq, Repr

/-- The file system as the program sees it: the content of the regular files, the
directories, and which paths have the permissions `owner_read | owner_write`.
Every operation succeeds (no error code is set). The last field is not part of
the file system: it records, in order, the operations that changed it. -/
structure FileSystem where
  files : String → Option (List Byte)
  directories : String → Bool
  ownerReadWrite : String → Bool
  operations : List FileOperation

/-- The query `exists()` of a `directory_entry`. -/
def FileSystem.pathExists (fs : FileSystem) (path : String) : Bool :=
  (fs.files path).isSome || fs.directories path

/-- The call `fs::remove( path, c )`. -/
def FileSystem.remove (fs : FileSystem) (path : String) : FileSystem :=
  { fs with
    files := Function.update fs.files path none
    directories := Function.update fs.directories path false
    operations := fs.operations ++ [FileOperation.remove path] }

/-- An `ofstream` opened on `path` with `ios::binary | ios::trunc`, written and
closed: the file holds the bytes that were written. -/
def FileSystem.writeFile (fs : FileSystem) (path : String) (bytes : List Byte) : FileSystem :=
  { fs with
    files := Function.update fs.files path (some bytes)
    operations := fs.operations ++ [FileOperation.write path bytes] }

/-- The value `ShaderInfo_t()`: the constructor fills the struct with zero bytes. -/
def ShaderInfo_t.zero : ShaderInfo_t :=
  { m_nTotalShaderCombos := 0, m_pShaderName := "", m_CentroidMask := 0, m_nDynamicCombos := 0
    m_Crc32 := 0 }

/-- The path `g_pShaderPath / "shaders" / "fxc"` of `GetVCSFilenames`. Paths are
strings, `/` stands for the separator that `operator/` puts in. -/
def vcsDirectory (g_pShaderPath : String) : String :=
  g_pShaderPath ++ "/shaders/fxc"

/-- The path that `GetVCSFilenames` returns for a shader name (a file name, not an
absolute path): `<root>/shaders/fxc/<name>.vcs`. -/
def vcsPath (g_pShaderPath : String) (m_pShaderName : String) : String :=
  vcsDirectory g_pShaderPath ++ "/" ++ m_pShaderName ++ ".vcs"

/-- The function `GetVCSFilenames` (output to `std::cout` left out): the directory
is created when nothing exists at its path, and an existing file that lacks
`owner_read | owner_write` gets these permissions. -/
def GetVCSFilenames (g_pShaderPath : String) (si : ShaderInfo_t) (fs : FileSystem) :
    String × FileSystem :=
  let dir := vcsDirectory g_pShaderPath
  let fs1 : FileSystem :=
    if fs.pathExists dir then fs
    else
      { fs with
        directories := Function.update fs.directories dir true
        operations := fs.operations ++ [FileOperation.createDirectories dir] }
  let path := vcsPath g_pShaderPath si.m_pShaderName
  let fs2 : FileSystem :=
    if fs1.pathExists path && !fs1.ownerReadWrite path then
      { fs1 with
        ownerReadWrite := Function.update fs1.ownerReadWrite path true
        operations := fs1.operations ++ [FileOperation.permissions path] }
    else fs1
  (path, fs2)

/-- The globals that `WriteShaderFiles`, `HandleCommandResponse` and
`CompileShaders` work on, and the file system. In `g_ShaderToShaderInfo`, `none`
is a key that is not in the map. The message bag `g_CompilerMsg` is not part of
this state. -/
structure ProgramState where
  g_ShaderByteCode : CShaderMap
  g_ShaderToShaderInfo : String → Option ShaderInfo_t
  g_ShaderHadError : List String
  g_ShaderWrittenToDisk : List String
  fileSystem : FileSystem

/-- The interface `CmdSink::IResponse` by the values its methods return:
`Succeeded()`, the result buffer (`GetResultBuffer()` with its length
`GetResultBufferLen()`), and `GetListing()`, `none` for the null pointer. -/
structure IResponse where
  Succeeded : Bool
  GetResultBuffer : List Byte
  GetListing : Option String
deriving DecidableEq, Repr

/-- What the program takes from outside of `ShaderCompile.cpp`: the compressor
`LZMA::OpportunisticCompress`, `CRC32::ProcessSingleBuffer`, the constants
`MAX_SHADER_UNPACKED_BLOCK_SIZE` and `SHADER_VCS_VERSION_NUMBER`, the placement
of a new node by `CUtlNodeHash` (see `Add`), the configuration of `CfgProcessor`
(the entries, and which commands are not skipped), the compiler
(`Compiler::ExecuteCommand` on the command with a given number), the globals
`g_pShaderPath` and `g_bFastFail` that `main` sets from the command line, and
the fuel for the loop of `TryToPackageData`. -/
structure Environment where
  compress : List Byte → Option (List Byte)
  crc32 : List Byte → Nat
  maxBlock : Nat
  version : Nat
  slot : Nat → StaticComboNodeHash_t → Nat
  cfg : List CfgEntryInfo
  alive : Nat → Bool
  execute : Nat → IResponse
  g_pShaderPath : String
  g_bFastFail : Bool
  fuel : Nat

/-- The function `WriteShaderFiles` (output to `std::cout` left out). `none` is an
exception of a `gsl::narrow` while the file is built. -/
def WriteShaderFiles (env : Environment) (pShaderName : String) (s : ProgramState) :
    Option ProgramState :=
  if pShaderName ∈ s.g_ShaderWrittenToDisk then some s
  else
    let bShaderFailed : Bool := decide (pShaderName ∈ s.g_ShaderHadError)
    let pByteCodeArray := s.g_ShaderByteCode pShaderName
    let shaderInfo := (s.g_ShaderToShaderInfo pShaderName).getD ShaderInfo_t.zero
    let s1 : ProgramState :=
      { s with
        g_ShaderWrittenToDisk := s.g_ShaderWrittenToDisk ++ [pShaderName]
        g_ShaderByteCode := Function.update s.g_ShaderByteCode pShaderName none
        g_ShaderToShaderInfo :=
          Function.update s.g_ShaderToShaderInfo pShaderName (some shaderInfo) }
    if shaderInfo.m_pShaderName = "" then some s1
    else
      let located := GetVCSFilenames env.g_pShaderPath shaderInfo s1.fileSystem
      if bShaderFailed then some { s1 with fileSystem := located.2.remove located.1 }
      else
        match pByteCodeArray with
        | none => some { s1 with fileSystem := located.2 }
        | some hash =>
          match writeVcsFile env.crc32 env.version shaderInfo hash with
          | none => none
          | some out =>
            some { s1 with fileSystem := located.2.writeFile located.1 out.ShaderFile }

/-- The collaborators used in concrete instances: a compressor that never
compresses, `exampleCrc32`, blocks of at most 64 bytes, version 6, new nodes at
the head of the traversal, a compiler that returns the one-byte code `[c]` for
the command `c`, the root `root`, no fast-fail. -/
def exampleEnvironment : Environment :=
  { compress := fun _ => none
    crc32 := exampleCrc32
    maxBlock := 64
    version := 6
    slot := fun _ _ => 0
    cfg := []
    alive := fun _ => true
    execute := fun c =>
      { Succeeded := true, GetResultBuffer := [Fin.ofNat c], GetListing := none }
    g_pShaderPath := "root"
    g_bFastFail := false
    fuel := 8 }

/-- A state in which the shader `example_ps20b` is registered and has had an
error, byte code has been accumulated for it, and a file from an earlier run
lies at its path, without the permissions `owner_read | owner_write`. -/
def failedShaderState : ProgramState :=
  { g_ShaderByteCode := exampleShaderMap
    g_ShaderToShaderInfo := Function.update (fun _ => none) "example_ps20b" (some exampleInfo)
    g_ShaderHadError := ["example_ps20b"]
    g_ShaderWrittenToDisk := []
    fileSystem :=
      { files := Function.update (fun _ => none) "root/shaders/fxc/example_ps20b.vcs" (some [1, 2])
        directories := fun _ => false
        ownerReadWrite := fun _ => false
        operations := [] } }

/-! ## The run: `HandleCommandResponse`, `ProcessCommandRange`, `CompileShaders` -/

/-- The state of a run of `CompileShaders`: the globals, the dispatcher
(`m_MT` or `m_ST`) with its flag `m_bBreak`, and the flag `m_bStopped` of
`ProcessCommandRange_Singleton`. The last two fields are not variables of the
program and nothing is computed from them: `handled` records, in the order of
the locked blocks at the start of `HandleCommandResponse`, the command number
and the response of every call, and `packaged` records the passes of the loop of
`TryToPackageData` in their order. -/
structure RunState where
  program : ProgramState
  dispatcher : CWorkerAccumState
  m_bBreak : Bool
  m_bStopped : Bool
  handled : List (Nat × IResponse)
  packaged : List (CfgEntryInfo × Nat)

/-- The state after the constructor of `ProcessCommandRange_Singleton`: the
dispatcher as `CWorkerAccumState( iFlags )` initialises it, both flags false. -/
def RunState.init (program : ProgramState) : RunState :=
  { program := program
    dispatcher :=
      { m_arrSubProcessInfos := [], m_iFirstCommand := 0, m_iEndCommand := 0
        m_iLastFinished := 0, m_hCombo := none }
    m_bBreak := false
    m_bStopped := false
    handled := []
    packaged := [] }

/-- The function `ShaderHadErrorDispatchInt`. -/
def ShaderHadErrorDispatchInt (szShader : String) (program : ProgramState) : ProgramState :=
  { program with g_ShaderHadError := emplace program.g_ShaderHadError szShader }

/-- The first statement of `HandleCommandResponse`, run under `g_mtxGlobal`: a
successful response adds its dynamic combo to the accumulator, a failed one
marks the shader. The handle `hCombo` is given by its command number; `none` is
a handle that `Combo_GetCombo` does not give, or a division by a zero
`m_numDynamicCombos`. -/
def HandleCommandResponse_store (env : Environment) (hCombo : Nat) (pResponse : IResponse)
    (s : RunState) : Option RunState :=
  match Combo_GetCombo env.cfg hCombo with
  | none => none
  | some (pEntryInfo, iComboIndex) =>
    if pResponse.Succeeded then
      if pEntryInfo.m_numDynamicCombos = 0 then none
      else
        some { s with
          program :=
            { s.program with
              g_ShaderByteCode :=
                StaticComboFromDictAdd env.slot s.program.g_ShaderByteCode pEntryInfo.m_szName
                  (nStComboIdx iComboIndex pEntryInfo.m_numDynamicCombos)
                  (fun p => p.AddDynamicCombo
                    (nDyComboIdx iComboIndex pEntryInfo.m_numDynamicCombos)
                    pResponse.GetResultBuffer) }
          handled := s.handled ++ [(hCombo, pResponse)] }
    else
      some { s with
        program := ShaderHadErrorDispatchInt pEntryInfo.m_szName s.program
        handled := s.handled ++ [(hCombo, pResponse)] }

/-- The function `StopCommandRange`, that is `ProcessCommandRange_Singleton::Stop`
with the `Stop` of the dispatcher. -/
def StopCommandRange (s : RunState) : RunState :=
  { s with m_bStopped := true, m_bBreak := true }

/-- The listing part of `HandleCommandResponse` (the message bag left out): a
failed response with fast-fail stops the range. -/
def HandleCommandResponse_stop (env : Environment) (pResponse : IResponse) (s : RunState) :
    RunState :=
  if !pResponse.Succeeded && env.g_bFastFail then StopCommandRange s else s

/-- The call `TryToPackageData( iCommandNumber )` on the state of the run: the
passes of its loop seal the static combos in the accumulator. The call is one
step of the run: the static combos it seals belong to commands below the new
watermark, which no other worker holds. -/
def TryToPackageData_sealing (env : Environment) (iCommandNumber : Nat) (s : RunState) :
    Option RunState :=
  match TryToPackageData env.cfg env.fuel s.dispatcher iCommandNumber with
  | none => none
  | some (dispatcher, passes) =>
    match sealPackaged env.compress env.maxBlock env.slot passes s.program.g_ShaderByteCode with
    | none => none
    | some g =>
      some { s with
        program := { s.program with g_ShaderByteCode := g }
        dispatcher := dispatcher
        packaged := s.packaged ++ passes }

/-- The function `HandleCommandResponse`. -/
def HandleCommandResponse (env : Environment) (hCombo : Nat) (pResponse : IResponse)
    (s : RunState) : Option RunState :=
  (HandleCommandResponse_store env hCombo pResponse s).bind
    (fun s1 => TryToPackageData_sealing env hCombo (HandleCommandResponse_stop env pResponse s1))

/-- The function `ExecuteCompileCommand`: the compiler is run on the command and
the response is handled. -/
def ExecuteCompileCommand (env : Environment) (hCombo : Nat) (s : RunState) : Option RunState :=
  HandleCommandResponse env hCombo (env.execute hCombo) s

/-- The function `RangeFinished`: `TryToPackageData( m_iEndCommand - 1 )`, the
subtraction in `uint64_t`. -/
def RangeFinished (env : Environment) (s : RunState) : Option RunState :=
  TryToPackageData_sealing env ((s.dispatcher.m_iEndCommand + (2 ^ 64 - 1)) % 2 ^ 64) s

/-- The loop of `OnProcessST`, at most `fuel` passes: `none` when a pass fails or
when the loop would go on after `fuel` passes. -/
def OnProcessST (env : Environment) : Nat → RunState → Option RunState
  | 0, s => if s.dispatcher.m_hCombo.isSome && !s.m_bBreak then none else some s
  | fuel + 1, s =>
    match s.dispatcher.m_hCombo with
    | none => some s
    | some hCombo =>
      if s.m_bBreak then some s
      else
        match ExecuteCompileCommand env hCombo s with
        | none => none
        | some s1 =>
          OnProcessST env fuel
            { s1 with
              dispatcher :=
                { s1.dispatcher with
                  m_hCombo := Combo_GetNext env.alive (hCombo + 1) s1.dispatcher.m_iEndCommand } }

/-- Where a worker thread stands in `OnProcess`: before the locked block of the
loop (`ready`); holding the command it took, before the test of `m_bBreak`
(`taken`); past the test, with the compiler running, before the locked block of
`HandleCommandResponse` (`compiling`); past that block, before the test for
fast-fail (`responded`); before the call of `TryToPackageData` (`packaging`);
out of the loop (`exited`). -/
inductive WorkerPhase where
  | ready
  | taken (hThreadCombo : Nat)
  | compiling (hThreadCombo : Nat)
  | responded (hThreadCombo : Nat)
  | packaging (hThreadCombo : Nat)
  | exited
deriving DecidableEq, Repr

/-- The command a worker holds. -/
def WorkerPhase.command : WorkerPhase → Option Nat
  | WorkerPhase.taken c => some c
  | WorkerPhase.compiling c => some c
  | WorkerPhase.responded c => some c
  | WorkerPhase.packaging c => some c
  | _ => none

/-- The worker holds a command whose response is not yet in the accumulator. -/
def WorkerPhase.pending : WorkerPhase → Bool
  | WorkerPhase.taken _ => true
  | WorkerPhase.compiling _ => true
  | _ => false

/-- The state of `Run`: the state of the run and the worker threads that have
reached the first locked block of `OnProcess`, each at the index of its slot in
`m_arrSubProcessInfos`. -/
structure ThreadedState where
  run : RunState
  workers : List WorkerPhase

/-- A step of one thread in `Run`: a thread that was created reaches the first
locked block of `OnProcess`, or the worker with the slot `w` does its next
step. -/
inductive WorkerEvent where
  | start
  | step (w : Nat)
deriving DecidableEq, Repr

/-- The next step of the worker with the slot `w`, by its phase. A worker that is
not there or has exited does nothing. -/
def workerStep (env : Environment) (w : Nat) (t : ThreadedState) : Option ThreadedState :=
  match t.workers[w]? with
  | none => some t
  | some WorkerPhase.ready =>
    let r := OnProcessTake env.alive t.run.dispatcher w
    some
      { run := { t.run with dispatcher := r.1 }
        workers := t.workers.set w
          (match r.2 with
           | some hThreadCombo => WorkerPhase.taken hThreadCombo
           | none => WorkerPhase.exited) }
  | some (WorkerPhase.taken c) =>
    some { t with
      workers := t.workers.set w
        (if t.run.m_bBreak then WorkerPhase.exited else WorkerPhase.compiling c) }
  | some (WorkerPhase.compiling c) =>
    (HandleCommandResponse_store env c (env.execute c) t.run).map
      (fun s => { run := s, workers := t.workers.set w (WorkerPhase.responded c) })
  | some (WorkerPhase.responded c) =>
    some
      { run := HandleCommandResponse_stop env (env.execute c) t.run
        workers := t.workers.set w (WorkerPhase.packaging c) }
  | some (WorkerPhase.packaging c) =>
    (TryToPackageData_sealing env c t.run).map
      (fun s => { run := s, workers := t.workers.set w WorkerPhase.ready })
  | some WorkerPhase.exited => some t

/-- One event of `Run( i )`. `Run` creates `i` threads: a `start` beyond that
number does nothing. -/
def workerEvent (env : Environment) (i : Nat) (ev : WorkerEvent) (t : ThreadedState) :
    Option ThreadedState :=
  match ev with
  | WorkerEvent.start =>
    if t.workers.length < i then
      some
        { run := { t.run with dispatcher := OnProcessEnter t.run.dispatcher }
          workers := t.workers ++ [WorkerPhase.ready] }
    else some t
  | WorkerEvent.step w => workerStep env w t

/-- A sequence of events of `Run( i )`. -/
def workerEvents (env : Environment) (i : Nat) :
    List WorkerEvent → ThreadedState → Option ThreadedState
  | [], t => some t
  | ev :: evs, t =>
    match workerEvent env i ev t with
    | none => none
    | some t1 => workerEvents env i evs t1

/-- The function `Run( i )` under the schedule `events`: the threads take their
steps in the order of the list; `Run` returns when all `i` threads have left
`OnProcess` (`m_nActive` is zero), and clears `m_arrSubProcessInfos`. `none` is
a step that fails, or a list that ends before the threads are done. -/
def Run (env : Environment) (i : Nat) (events : List WorkerEvent) (s : RunState) :
    Option RunState :=
  match workerEvents env i events { run := s, workers := [] } with
  | none => none
  | some t =>
    if t.workers.length = i ∧ t.workers.all (fun p => p == WorkerPhase.exited) then
      some { t.run with dispatcher := { t.run.dispatcher with m_arrSubProcessInfos := [] } }
    else none

/-- The function `ProcessCommandRange_Singleton::ProcessCommandRange`. `events` is
the schedule of the worker threads, which the single-threaded mode does not
use; the loop of `OnProcessST` gets one pass for each command of the range. -/
def ProcessCommandRange (env : Environment) (m_nThreads : Nat) (events : List WorkerEvent)
    (s : RunState) (shaderStart shaderEnd : Nat) : Option RunState :=
  let begun : RunState :=
    { s with dispatcher := RangeBegin env.alive s.dispatcher shaderStart shaderEnd }
  if m_nThreads > 1 then (Run env m_nThreads events begun).bind (RangeFinished env)
  else (OnProcessST env (shaderEnd - shaderStart) begun).bind (RangeFinished env)

/-- The function `Shader_ParseShaderInfoFromCompileCommands`. -/
def Shader_ParseShaderInfoFromCompileCommands (env : Environment) (pEntry : CfgEntryInfo)
    (shaderInfo : ShaderInfo_t) : ShaderInfo_t :=
  match Combo_GetCombo env.cfg pEntry.m_iCommandStart with
  | some (info, _) =>
    { m_nTotalShaderCombos := pEntry.m_numCombos
      m_pShaderName := pEntry.m_szName
      m_CentroidMask := info.m_nCentroidMask
      m_nDynamicCombos := pEntry.m_numDynamicCombos
      m_Crc32 := pEntry.m_nCrc32 }
  | none => shaderInfo

/-- The function `CompileShaders` on the entries of `arrEntries` (the loop ends at
the first empty name). `schedules` gives the schedule of the worker threads for
each call of `ProcessCommandRange`, in order. -/
def CompileShaders (env : Environment) (threads : Nat) :
    List CfgEntryInfo → List (List WorkerEvent) → RunState → Option RunState
  | [], _, s => some s
  | pEntry :: arrEntries, schedules, s =>
    if pEntry.m_szName = "" then some s
    else
      let siLastShaderInfo :=
        Shader_ParseShaderInfoFromCompileCommands env pEntry ShaderInfo_t.zero
      let registered : RunState :=
        { s with
          program :=
            { s.program with
              g_ShaderToShaderInfo :=
                Function.update s.program.g_ShaderToShaderInfo pEntry.m_szName
                  (some siLastShaderInfo) } }
      match ProcessCommandRange env threads (schedules.head?.getD []) registered
          pEntry.m_iCommandStart pEntry.m_iCommandEnd with
      | none => none
      | some s1 =>
        if s1.m_bStopped then some s1
        else
          match WriteShaderFiles env pEntry.m_szName s1.program with
          | none => none
          | some program => CompileShaders env threads arrEntries schedules.tail
              { s1 with program := program }

/-- The value that `main` returns after `CompileShaders`:
`gsl::narrow_cast<int>( g_ShaderHadError.size() )`. -/
def mainReturnValue (s : RunState) : Int :=
  narrowCastI32 s.program.g_ShaderHadError.length

/-! ## Vocabulary for the runs -/

/-- The shader names that a sequence of handled responses marks as failed, one for
each response with `Succeeded() == false`, in order: the name of the entry of
the command. -/
def failedShaders (env : Environment) (responses : List (Nat × IResponse)) : List String :=
  responses.filterMap (fun cr =>
    if cr.2.Succeeded then none
    else (Combo_GetCombo env.cfg cr.1).map (fun h => h.1.m_szName))

/-- What the processing of the command range from `iFirst` to `iEnd` has done to
the state `s0` of the run when it has reached the state `s`, `responses` being
the responses handled since: the file system, the written-set and the
shader-info table are untouched, the commands handled are commands of the range
with the responses of the compiler, the had-error set has got the names of the
failed ones, and only a failed response under fast-fail stops the run. -/
structure RangeEffect (env : Environment) (iFirst iEnd : Nat) (s0 s : RunState)
    (responses : List (Nat × IResponse)) : Prop where
  fileSystem : s.program.fileSystem = s0.program.fileSystem
  written : s.program.g_ShaderWrittenToDisk = s0.program.g_ShaderWrittenToDisk
  shaderInfo : s.program.g_ShaderToShaderInfo = s0.program.g_ShaderToShaderInfo
  handled : s.handled = s0.handled ++ responses
  inRange : ∀ cr ∈ responses, iFirst ≤ cr.1 ∧ cr.1 < iEnd ∧ cr.2 = env.execute cr.1 ∧
    (Combo_GetCombo env.cfg cr.1).isSome = true
  hadError : s.program.g_ShaderHadError =
    (failedShaders env responses).foldl emplace s0.program.g_ShaderHadError
  stoppedOnly : s.m_bStopped = true →
    s0.m_bStopped = true ∨ (env.g_bFastFail = true ∧ ∃ cr ∈ responses, cr.2.Succeeded = false)
  iEndCommand : s.dispatcher.m_iEndCommand = iEnd
  cursor : ∀ n, s.dispatcher.m_hCombo = some n → iFirst ≤ n ∧ n < iEnd

/-- The command number that the shared handle `m_hCombo` stands at, or
`m_iEndCommand` when it is null: every command that was handed out is below. -/
def CWorkerAccumState.nextCommand (st : CWorkerAccumState) : Nat :=
  st.m_hCombo.getD st.m_iEndCommand

/-- The effect of the processing of a command range in the multi-threaded mode,
at a state of `Run`: the effect on the run, and for the worker threads: the
commands they hold are commands of the range, the response of a command whose
worker is past the locked block of `HandleCommandResponse` has been handled,
and a failed response under fast-fail has stopped the run unless its worker is
still before the test; as long as `m_bBreak` is not set, every command of the
range below the shared handle that is not skipped has its response handled or
is held by a worker that is about to compile it, and a worker has only left
when the shared handle was null; and `m_bBreak` is only set by a failed
response under fast-fail. -/
structure ThreadedEffect (env : Environment) (iFirst iEnd : Nat) (s0 : RunState)
    (t : ThreadedState) (responses : List (Nat × IResponse)) : Prop where
  effect : RangeEffect env iFirst iEnd s0 t.run responses
  commands : ∀ (w : Nat) (p : WorkerPhase) (c : Nat), t.workers[w]? = some p → p.command = some c → iFirst ≤ c ∧ c < iEnd
  stored : ∀ (w c : Nat), t.workers[w]? = some (WorkerPhase.responded c) →
    (c, env.execute c) ∈ responses
  stoppedIf : ∀ cr ∈ responses, cr.2.Succeeded = false → env.g_bFastFail = true →
    t.run.m_bStopped = true ∨ ∃ w : Nat, t.workers[w]? = some (WorkerPhase.responded cr.1)
  stoppedKept : s0.m_bStopped = true → t.run.m_bStopped = true
  live : t.run.m_bBreak = false → ∀ c, iFirst ≤ c → c < t.run.dispatcher.nextCommand →
    env.alive c = true →
    (c, env.execute c) ∈ responses ∨
      ∃ (w : Nat) (p : WorkerPhase), t.workers[w]? = some p ∧ p.pending = true ∧
        p.command = some c
  exitedOnly : t.run.m_bBreak = false → ∀ w : Nat, t.workers[w]? = some WorkerPhase.exited →
    t.run.dispatcher.m_hCombo = none
  breakOnly : t.run.m_bBreak = true →
    s0.m_bBreak = true ∨ (env.g_bFastFail = true ∧ ∃ cr ∈ responses, cr.2.Succeeded = false)

/-- The dynamic combos that the successful responses among `responses` add to the
static combo `j` of the entry `e`, in the order of the responses: the command
`c` gives the dynamic combo `nDyComboIdx` of its combo number, with the result
buffer as byte code. -/
def arrivals (e : CfgEntryInfo) (responses : List (Nat × IResponse)) (j : Nat) :
    List CByteCodeBlock :=
  (responses.filter (fun cr => cr.2.Succeeded && decide (staticComboOf e cr.1 = j))).map
    (fun cr =>
      { m_nComboID :=
          nDyComboIdx (e.m_numCombos - 1 - (cr.1 - e.m_iCommandStart)) e.m_numDynamicCombos
        code := cr.2.GetResultBuffer })

/-- The static combo `j` of the entry `e` as the responses build it up in memory:
its dynamic combos are the arrivals, it has no packed code. -/
def accumulated (e : CfgEntryInfo) (responses : List (Nat × IResponse)) (j : Nat) :
    CStaticCombo :=
  { m_nStaticComboID := j, m_DynamicCombos := arrivals e responses j, m_abPackedCode := [] }

/-- The static combo that is in the hash before it is sealed: none as long as no
dynamic combo has arrived. -/
def unsealedCombo (p : CStaticCombo) : Option CStaticCombo :=
  if p.m_DynamicCombos.isEmpty then none else some p

/-- The lowest static combo of the entry `e` that the watermark `iLastFinished` has
passed: the static combos from this one up have all their commands below the
watermark. -/
def sealedFrom (e : CfgEntryInfo) (iLastFinished : Nat) : Nat :=
  if iLastFinished < e.m_iCommandEnd then staticComboOf e iLastFinished + 1 else 0

/-- The state of the accumulator and of the watermark while the range of the entry
`e` is processed, `s0` being the state at `RangeBegin` and `responses` the
responses handled since: no command was handled twice; the watermark is in the
range; the static combos that the watermark has passed are sealed, each from
all its arrivals, which the packer has packed, and the others hold their
arrivals unsealed; the hashes of the other shaders are untouched; and the
passes of the sealing loop so far are one for each static combo that the
watermark has passed, in descending order. -/
structure RangeSealing (env : Environment) (e : CfgEntryInfo) (s0 s : RunState)
    (responses : List (Nat × IResponse)) : Prop where
  handled : s.handled = s0.handled ++ responses
  inRange : ∀ cr ∈ responses, e.m_iCommandStart ≤ cr.1 ∧ cr.1 < e.m_iCommandEnd ∧
    cr.2 = env.execute cr.1
  nodup : (responses.map Prod.fst).Nodup
  watermark : e.m_iCommandStart ≤ s.dispatcher.m_iLastFinished ∧
    s.dispatcher.m_iLastFinished ≤ e.m_iCommandEnd
  lookup : ∀ j, StaticComboFromDict s.program.g_ShaderByteCode e.m_szName j =
    if sealedFrom e s.dispatcher.m_iLastFinished ≤ j then
      sealedCombo env.compress env.maxBlock (accumulated e responses j)
    else unsealedCombo (accumulated e responses j)
  packed : ∀ j, sealedFrom e s.dispatcher.m_iLastFinished ≤ j → arrivals e responses j ≠ [] →
    ∃ st, packDynamicCombos env.compress env.maxBlock (accumulated e responses j) [] = some st
  keys : ∀ h, s.program.g_ShaderByteCode e.m_szName = some h → KeysNodup h
  others : ∀ name, name ≠ e.m_szName →
    s.program.g_ShaderByteCode name = s0.program.g_ShaderByteCode name
  packaged : s.packaged = s0.packaged ++
    (descending (sealedFrom e s.dispatcher.m_iLastFinished) (e.m_numStaticCombos - 1)).map
      (fun j => (e, j))

/-- What the processing of the range of the entry `e` takes for granted about the
configuration: the entries are laid out in command order and are well formed,
`e` is one of them and has a static combo, its commands are below `2^64`,
`Combo_GetCombo` gives a handle for the command number `m_iCommandEnd` (the
`Assert( hChBegin && hChEnd )` of `TryToPackageData` holds at the end of the
range), and the loop of `TryToPackageData` has fuel for the static combos. -/
structure EntryReady (env : Environment) (e : CfgEntryInfo) : Prop where
  ordered : env.cfg.Pairwise (fun a b => a.m_iCommandEnd ≤ b.m_iCommandStart)
  wellFormed : ∀ x ∈ env.cfg, x.WellFormed
  mem : e ∈ env.cfg
  nonempty : 0 < e.m_numStaticCombos
  below64 : e.m_iCommandEnd < 2 ^ 64
  following : (Combo_GetCombo env.cfg e.m_iCommandEnd).isSome = true
  fuel : e.m_numStaticCombos ≤ env.fuel

/-- The state of `Run` while the range of the entry `e` is processed: the state of
the accumulator (`RangeSealing`), and for the worker threads: every worker has
its slot; the watermark is not above the shared handle; a command that a worker
holds is in the slot of the worker and is a command of the range below the
shared handle; a command whose response is not yet stored is not below the
watermark and is not among the handled ones; the handled commands are below
the shared handle; and no two workers hold the same command. -/
structure ThreadedSealing (env : Environment) (e : CfgEntryInfo) (s0 : RunState)
    (t : ThreadedState) (responses : List (Nat × IResponse)) : Prop where
  sealing : RangeSealing env e s0 t.run responses
  slots : t.workers.length = t.run.dispatcher.m_arrSubProcessInfos.length
  iEndCommand : t.run.dispatcher.m_iEndCommand = e.m_iCommandEnd
  cursor : t.run.dispatcher.m_iLastFinished ≤ t.run.dispatcher.nextCommand ∧
    t.run.dispatcher.nextCommand ≤ e.m_iCommandEnd
  cursorIn : ∀ n, t.run.dispatcher.m_hCombo = some n → n < e.m_iCommandEnd
  held : ∀ (w : Nat) (p : WorkerPhase) (c : Nat), t.workers[w]? = some p →
    p.command = some c →
    t.run.dispatcher.m_arrSubProcessInfos[w]? = some c ∧ e.m_iCommandStart ≤ c ∧
      c < t.run.dispatcher.nextCommand
  pending : ∀ (w : Nat) (p : WorkerPhase) (c : Nat), t.workers[w]? = some p →
    p.command = some c → p.pending = true → t.run.dispatcher.m_iLastFinished ≤ c
  distinct : ∀ (w1 w2 : Nat) (p1 p2 : WorkerPhase) (c : Nat), t.workers[w1]? = some p1 →
    t.workers[w2]? = some p2 → p1.command = some c → p2.command = some c → w1 = w2
  handledBelow : ∀ cr ∈ responses, cr.1 < t.run.dispatcher.nextCommand
  handledDone : ∀ cr ∈ responses, ∀ (w : Nat) (p : WorkerPhase), t.workers[w]? = some p →
    p.pending = true → p.command ≠ some cr.1

/-- The sizes that keep every `gsl::narrow` of the sealing step from throwing while
the range of the entry `e` is processed: the compressor returns less than
`2^32` bytes and never more than it was given, the entry has at most `2^32`
dynamic combos for a static one, and the results of all commands of the entry,
with 12 bytes added for each, stay below `2^31` bytes together. -/
structure ResultsFit (env : Environment) (e : CfgEntryInfo) : Prop where
  small : ∀ blk out, env.compress blk = some out → out.length < 2 ^ 32
  shrinks : ∀ blk out, env.compress blk = some out → out.length ≤ blk.length
  dynamic : e.m_numDynamicCombos ≤ 2 ^ 32
  total : ((List.range' e.m_iCommandStart e.m_numCombos).map
    (fun c => (env.execute c).GetResultBuffer.length + 12)).sum < 2 ^ 31

/-- The program state at the start of a run: nothing accumulated, registered,
failed or written, and an empty file system. -/
def ProgramState.init : ProgramState :=
  { g_ShaderByteCode := fun _ => none
    g_ShaderToShaderInfo := fun _ => none
    g_ShaderHadError := []
    g_ShaderWrittenToDisk := []
    fileSystem :=
      { files := fun _ => none, directories := fun _ => false, ownerReadWrite := fun _ => false
        operations := [] } }

/-- The entry that follows `sixEntry` in the configuration of the concrete
instances: one command, the command `6`. -/
def followingEntry : CfgEntryInfo :=
  { m_szName := "example_vs20", m_numCombos := 1, m_numDynamicCombos := 1
    m_numStaticCombos := 1, m_iCommandStart := 6, m_iCommandEnd := 7 }

/-- The collaborators of the concrete runs on `sixEntry`: as `exampleEnvironment`,
with the configuration `sixEntry`, `followingEntry`, and a compiler that fails
on the command `3` and returns the one-byte code `[c]` for every other command
`c`. -/
def sixEnvironment : Environment :=
  { exampleEnvironment with
    cfg := [sixEntry, followingEntry]
    execute := fun c =>
      { Succeeded := c != 3, GetResultBuffer := [Fin.ofNat c], GetListing := none } }

/-- A schedule of two worker threads on the range of `sixEntry`: both start, then
they take their steps in turns until both have left `OnProcess`. -/
def sixSchedule : List WorkerEvent :=
  [WorkerEvent.start, WorkerEvent.start] ++
    (List.replicate 20 [WorkerEvent.step 0, WorkerEvent.step 1]).flatten

/-- The state of `CompileShaders` after the shader info of the entry is stored in
`g_ShaderToShaderInfo`, before the call of `ProcessCommandRange`. -/
def registerShaderInfo (env : Environment) (pEntry : CfgEntryInfo) (s : RunState) : RunState :=
  { s with
    program :=
      { s.program with
        g_ShaderToShaderInfo :=
          Function.update s.program.g_ShaderToShaderInfo pEntry.m_szName
            (some (Shader_ParseShaderInfoFromCompileCommands env pEntry ShaderInfo_t.zero)) } }

/-- The first shader of the concrete runs of `CompileShaders`: one static combo of
two dynamic combos, the commands `0` and `1`. -/
def alphaEntry : CfgEntryInfo :=
  { m_szName := "alpha_ps20b", m_numCombos := 2, m_numDynamicCombos := 2
    m_numStaticCombos := 1, m_iCommandStart := 0, m_iCommandEnd := 2 }

/-- The second shader of the concrete runs: two static combos of one dynamic combo
each, the commands `2` and `3`. -/
def betaEntry : CfgEntryInfo :=
  { m_szName := "beta_vs20", m_numCombos := 2, m_numDynamicCombos := 1
    m_numStaticCombos := 2, m_iCommandStart := 2, m_iCommandEnd := 4 }

/-- The entry with the empty name that ends the array of the entries. In the
concrete runs it answers for the command number `4`, so that `Combo_GetCombo`
gives a handle at the end of the last range. -/
def terminatorEntry : CfgEntryInfo :=
  { m_szName := "", m_numCombos := 1, m_numDynamicCombos := 1
    m_numStaticCombos := 1, m_iCommandStart := 4, m_iCommandEnd := 5 }

/-- The collaborators of the concrete runs of `CompileShaders`: as
`exampleEnvironment`, with the entries `alphaEntry`, `betaEntry` and the
terminator, a compiler that fails on the command `2` (the first command of
`beta_vs20`) and returns the one-byte code `[c]` for every other command `c`,
and `g_bFastFail` as given. -/
def runEnvironment (g_bFastFail : Bool) : Environment :=
  { exampleEnvironment with
    cfg := [alphaEntry, betaEntry, terminatorEntry]
    execute := fun c =>
      { Succeeded := c != 2, GetResultBuffer := [Fin.ofNat c], GetListing := none }
    g_bFastFail := g_bFastFail }

/-- The single-threaded run of `CompileShaders` on the concrete entries from the
start state, without and with fast-fail. -/
def exampleRun (g_bFastFail : Bool) : Option RunState :=
  CompileShaders (runEnvironment g_bFastFail) 1 [alphaEntry, betaEntry, terminatorEntry] []
    (RunState.init ProgramState.init)

/-- The name of the shader `i` of the large configuration: `shader` followed by
the decimal digits of `i`, lowest first. -/
def manyName (i : Nat) : String :=
  "shader" ++ String.mk ((Nat.digits 10 i).map Nat.digitChar)

/-- The shader `i` of the large configuration: one static combo of one dynamic
combo, the command `i`. -/
def manyEntry (i : Nat) : CfgEntryInfo :=
  { m_szName := manyName i, m_numCombos := 1, m_numDynamicCombos := 1
    m_numStaticCombos := 1, m_iCommandStart := i, m_iCommandEnd := i + 1 }

/-- The entry with the empty name that ends the array of the `n` entries; it
answers for the command number `n`. -/
def manyTerminator (n : Nat) : CfgEntryInfo :=
  { m_szName := "", m_numCombos := 1, m_numDynamicCombos := 1
    m_numStaticCombos := 1, m_iCommandStart := n, m_iCommandEnd := n + 1 }

/-- The large configuration: `n` shaders of one command each, and the
terminator. -/
def manyEntries (n : Nat) : List CfgEntryInfo :=
  (List.range n).map manyEntry ++ [manyTerminator n]

/-- The collaborators of the run on the large configuration: as
`exampleEnvironment` (no fast-fail), with a compiler that fails on every
command. -/
def manyEnvironment (n : Nat) : Environment :=
  { exampleEnvironment with
    cfg := manyEntries n
    execute := fun _ => { Succeeded := false, GetResultBuffer := [], GetListing := none } }

/-- The start state of a run in which a file from an earlier run lies at the path
of the shader `beta_vs20`. -/
def staleProgram : ProgramState :=
  { ProgramState.init with
    fileSystem :=
      { files := Function.update (fun _ => none) "root/shaders/fxc/beta_vs20.vcs" (some [1, 2])
        directories := fun _ => false
        ownerReadWrite := fun _ => false
        operations := [] } }

/-- The single-threaded run of `CompileShaders` on the concrete entries from
`staleProgram`, without and with fast-fail. -/
def staleRun (g_bFastFail : Bool) : Option RunState :=
  CompileShaders (runEnvironment g_bFastFail) 1 [alphaEntry, betaEntry, terminatorEntry] []
    (RunState.init staleProgram)

/-! ## The compiler interface: `CResponse` and the flags (`d3dxfxc.cpp`) -/

/-- The interface `ID3DBlob` of the Direct3D SDK, by the bytes of the buffer of the
blob: `GetBufferSize()` is the length of the list, and `GetBufferPointer()` is a
pointer to these bytes, which is not null. -/
abbrev ID3DBlob := List Byte

/-- The constant `S_OK` of the SDK. -/
def S_OK : Int := 0

/-- The class `CResponse` of `d3dxfxc.cpp`: the members `m_pShader` and
`m_pListing` (`none` for the null pointer) and `m_hr`. -/
structure CResponse where
  m_pShader : Option ID3DBlob
  m_pListing : Option ID3DBlob
  m_hr : Int
deriving DecidableEq, Repr

/-- The method `CResponse::Succeeded`: `m_pShader && m_hr == S_OK`. -/
def CResponse.Succeeded (r : CResponse) : Bool :=
  r.m_pShader.isSome && decide (r.m_hr = S_OK)

/-- The method `CResponse::GetResultBufferLen`. -/
def CResponse.GetResultBufferLen (r : CResponse) : Nat :=
  if r.Succeeded then
    match r.m_pShader with
    | some blob => blob.length
    | none => 0
  else 0

/-- The method `CResponse::GetResultBuffer`: the pointer is given by the bytes it
points to, `none` is the null pointer. -/
def CResponse.GetResultBuffer (r : CResponse) : Option (List Byte) :=
  if r.Succeeded then r.m_pShader else none

/-- The method `CResponse::GetListing`: the pointer is given by the bytes it points
to, `none` is the null pointer. -/
def CResponse.GetListing (r : CResponse) : Option (List Byte) :=
  match r.m_pListing with
  | some blob => some blob
  | none => none

/-- The flags that `GetD3dxFlagsFromD3dOnes` tests, each with the flag it sets, in
the order of the source: the pairs `( D3DCOMPILE_x, D3DXSHADER_x )` with the
values of the SDK headers `d3dcompiler.h` and `d3dx9shader.h` (which are not
among the sources). The last four pairs are the optimisation levels 0 to 3. -/
def d3dFlagPairs : List (Nat × Nat) :=
  [ (1 <<< 0, 1 <<< 0),     -- DEBUG
    (1 <<< 1, 1 <<< 1),     -- SKIP_VALIDATION
    (1 <<< 2, 1 <<< 2),     -- SKIP_OPTIMIZATION
    (1 <<< 3, 1 <<< 3),     -- PACK_MATRIX_ROW_MAJOR
    (1 <<< 4, 1 <<< 4),     -- PACK_MATRIX_COLUMN_MAJOR
    (1 <<< 5, 1 <<< 5),     -- PARTIAL_PRECISION
    (1 <<< 6, 1 <<< 6),     -- FORCE_VS_SOFTWARE_NO_OPT
    (1 <<< 7, 1 <<< 7),     -- FORCE_PS_SOFTWARE_NO_OPT
    (1 <<< 8, 1 <<< 8),     -- NO_PRESHADER
    (1 <<< 9, 1 <<< 9),     -- AVOID_FLOW_CONTROL
    (1 <<< 13, 1 <<< 13),   -- IEEE_STRICTNESS
    (1 <<< 12, 1 <<< 12),   -- ENABLE_BACKWARDS_COMPATIBILITY
    (1 <<< 14, 1 <<< 14),   -- OPTIMIZATION_LEVEL0
    (0, 0),                 -- OPTIMIZATION_LEVEL1
    ((1 <<< 14) ||| (1 <<< 15), (1 <<< 14) ||| (1 <<< 15)),  -- OPTIMIZATION_LEVEL2
    (1 <<< 15, 1 <<< 15) ]  -- OPTIMIZATION_LEVEL3

/-- The constants `D3DCOMPILE_OPTIMIZATION_LEVELn`, which have the values of
`D3DXSHADER_OPTIMIZATION_LEVELn`. -/
def OPTIMIZATION_LEVEL : Nat → Nat
  | 0 => 1 <<< 14
  | 1 => 0
  | 2 => (1 <<< 14) ||| (1 <<< 15)
  | _ => 1 <<< 15

/-- The function `GetD3dxFlagsFromD3dOnes`: one statement
`if (d3dFlags1 & D3DCOMPILE_x) d3dx_flags |= D3DXSHADER_x;` for each pair, in
order, from `d3dx_flags = 0`. The second argument is not used. -/
def GetD3dxFlagsFromD3dOnes (d3dFlags1 _d3dFlags2 : Nat) : Nat :=
  d3dFlagPairs.foldl
    (fun d3dx_flags pair => if d3dFlags1 &&& pair.1 ≠ 0 then d3dx_flags ||| pair.2 else d3dx_flags)
    0

/-- The optimisation bits (14 and 15) of a flag word. -/
def optimisationBits (flags : Nat) : Nat :=
  flags &&& ((1 <<< 14) ||| (1 <<< 15))

/-- The program state in which `CompileShaders` has registered the shader info of
the entry and the accumulator holds the hash `hash` for it; nothing has failed
and nothing is written. -/
def registeredProgram (env : Environment) (pEntry : CfgEntryInfo)
    (hash : StaticComboNodeHash_t) : ProgramState :=
  { ProgramState.init with
    g_ShaderByteCode := Function.update (fun _ => none) pEntry.m_szName (some hash)
    g_ShaderToShaderInfo :=
      Function.update (fun _ => none) pEntry.m_szName
        (some (Shader_ParseShaderInfoFromCompileCommands env pEntry ShaderInfo_t.zero)) }

/-- An entry with `2^32` combos: `2^32` static combos of one dynamic combo each,
the centroid mask `5` and the CRC32 `77`. -/
def hugeEntry : CfgEntryInfo :=
  { m_szName := "huge_ps20b", m_numCombos := 2 ^ 32, m_numDynamicCombos := 1
    m_numStaticCombos := 2 ^ 32, m_iCommandStart := 0, m_iCommandEnd := 2 ^ 32
    m_nCentroidMask := 5, m_nCrc32 := 77 }

/-- The collaborators of the concrete instances, with the configuration
`hugeEntry`. -/
def hugeEnvironment : Environment :=
  { exampleEnvironment with cfg := [hugeEntry] }

/-- A hash in which the combo `7097` is visited before the combo `1` and both
have the same packed blob (with the chains of `CUtlNodeHash` chosen by the key
modulo `7097`, the combo `7097` is in the chain `0` and the combo `1` in the
chain `1`). -/
def laterCanonicalHash : StaticComboNodeHash_t :=
  [{ m_nStaticComboID := 7097, m_DynamicCombos := [], m_abPackedCode := [1, 0, 0, 128, 7] },
   { m_nStaticComboID := 1, m_DynamicCombos := [], m_abPackedCode := [1, 0, 0, 128, 7] }]

/-- The headers and alias records of the duplicate detection come from the nodes
`done` that were visited so far: every header from a node, and every alias
record from a node and a node that was visited before it and has the same
packed blob. -/
def VisitOrder (done : StaticComboNodeHash_t) (st : DedupState) : Prop :=
  (∀ hdr ∈ st.StaticComboHeaders, ∃ (i : Nat) (c : CStaticCombo), done[i]? = some c ∧
    hdr.m_pByteCode = some c ∧ hdr.m_nStaticComboID = c.m_nStaticComboID) ∧
  ∀ d ∈ st.duplicateCombos, ∃ (i j : Nat) (c a : CStaticCombo), i < j ∧ done[i]? = some c ∧
    done[j]? = some a ∧ d.m_nSourceStaticCombo = c.m_nStaticComboID ∧
    d.m_nStaticComboID = a.m_nStaticComboID ∧ c.m_abPackedCode = a.m_abPackedCode

/-- The collaborators of the concrete run in which every combo is skipped: as
`runEnvironment` without fast-fail, with no command that is not skipped. -/
def prunedEnvironment : Environment :=
  { runEnvironment false with alive := fun _ => false }

/-- The single-threaded run of `CompileShaders` on the concrete entries in which
every combo is skipped. -/
def prunedRun : Option RunState :=
  CompileShaders prunedEnvironment 1 [alphaEntry, betaEntry, terminatorEntry] []
    (RunState.init ProgramState.init)

/-- The collaborators of the concrete run in which the command `1` of `sixEntry` is
skipped: as `sixEnvironment` otherwise. -/
def skipEnvironment : Environment :=
  { sixEnvironment with alive := fun c => c != 1 }

/-- The state of the single-threaded run on `sixEntry` after `RangeBegin`. -/
def skipBegun : RunState :=
  { RunState.init ProgramState.init with
    dispatcher :=
      RangeBegin skipEnvironment.alive (RunState.init ProgramState.init).dispatcher 0 6 }

/-- The state after `HandleCommandResponse` has handled the response of the command
`0`, the first command that `OnProcessST` takes. -/
def skipFirst : Option RunState :=
  HandleCommandResponse skipEnvironment 0 (skipEnvironment.execute 0) skipBegun

/-- The state after `HandleCommandResponse` has then handled the response of the
command `2`, the next command that is not skipped. -/
def skipSecond : Option RunState :=
  skipFirst.bind (HandleCommandResponse skipEnvironment 2 (skipEnvironment.execute 2))

/-! ## The compiler messages -/

/-- The class `CompilerMsgInfo`: the command of the first report and the number of
reports, a `uint64_t`. -/
structure CompilerMsgInfo where
  m_sFirstCommand : String
  m_numTimesReported : Nat
  deriving DecidableEq, Repr

/-- The constructor `CompilerMsgInfo()`: an empty command and zero reports. -/
def CompilerMsgInfo.new : CompilerMsgInfo :=
  { m_sFirstCommand := "", m_numTimesReported := 0 }

/-- The method `CompilerMsgInfo::SetMsgReportedCommand`: the command is stored when
the number of reports is zero, and the number is incremented as a `uint64_t`. -/
def CompilerMsgInfo.SetMsgReportedCommand (info : CompilerMsgInfo) (szCommand : String) :
    CompilerMsgInfo :=
  { m_sFirstCommand :=
      if info.m_numTimesReported = 0 then szCommand else info.m_sFirstCommand
    m_numTimesReported := (info.m_numTimesReported + 1) % 2 ^ 64 }

/-- A map `robin_hood::unordered_node_map` with string keys: the records in the
order in which they were inserted. The order of iteration of the container is
not modelled; a key is looked up by `mapFind` and by `mapSubscript`, which both
take the first record with the key. -/
abbrev NodeMap (V : Type) := List (String × V)

/-- The lookup of a key in a map, `none` when no record has the key. -/
def mapFind {V : Type} (key : String) : NodeMap V → Option V
  | [] => none
  | (k, v) :: rest => if k = key then some v else mapFind key rest

/-- The expression `m[key]` followed by the update `f` of the mapped value:
`operator[]` inserts a default-constructed value `dflt` when the key is absent. -/
def mapSubscript {V : Type} (dflt : V) (f : V → V) (key : String) : NodeMap V → NodeMap V
  | [] => [(key, f dflt)]
  | (k, v) :: rest =>
    if k = key then (k, f v) :: rest else (k, v) :: mapSubscript dflt f key rest

/-- The struct `CompilerMsg`: the warnings and the errors of one shader, each a map
from the text of the message to its `CompilerMsgInfo`. -/
structure CompilerMsg where
  warning : NodeMap CompilerMsgInfo
  error : NodeMap CompilerMsgInfo
  deriving DecidableEq, Repr

/-- The default-constructed `CompilerMsg`: two empty maps. -/
def CompilerMsg.new : CompilerMsg := { warning := [], error := [] }

/-- The value of `g_CompilerMsg` for a shader, the default-constructed one when
the shader has no record. -/
def msgOf (g_CompilerMsg : NodeMap CompilerMsg) (szName : String) : CompilerMsg :=
  (mapFind szName g_CompilerMsg).getD CompilerMsg.new

/-- The call `strchr( str, c )` on a C string given by its characters before the
terminating NUL: `none` for the null pointer, otherwise the characters before
the first `c` and the characters after it. -/
def strchr (c : Char) : List Char → Option (List Char × List Char)
  | [] => none
  | x :: xs =>
    if x = c then some ([], xs) else (strchr c xs).map (fun p => (x :: p.1, p.2))

/-- The test `strstr( str, substr ) != nullptr`: `substr` occurs in `str`. -/
def strstr (str substr : List Char) : Bool :=
  decide (substr <:+: str)

/-- The branch that files one line in `ErrMsgDispatchMsgLine`: the line is reported in
`msg.warning` when it contains `warning X`, in `msg.error` otherwise. -/
def fileLine (szCommand : String) (start2 : List Char) (msg : CompilerMsg) : CompilerMsg :=
  if strstr start2 "warning X".data then
    { msg with
      warning := mapSubscript CompilerMsgInfo.new
        (fun info => info.SetMsgReportedCommand szCommand) (String.mk start2) msg.warning }
  else
    { msg with
      error := mapSubscript CompilerMsgInfo.new
        (fun info => info.SetMsgReportedCommand szCommand) (String.mk start2) msg.error }

/-- The loop of `ErrMsgDispatchMsgLine` and the `if` that follows it, on the
characters from `start2` to `end`. While `start2 < end` and `strchr` finds a
newline, the characters before it are filed and `start2` moves behind it; what
is left when the loop ends is filed if `start2 < end`. The first argument
bounds the number of iterations; the length of the string is enough
(`ErrMsgDispatchMsgLine_loop_eq`). -/
def ErrMsgDispatchMsgLine_loop (szCommand : String) :
    Nat → List Char → CompilerMsg → CompilerMsg
  | 0, _, msg => msg
  | fuel + 1, start2, msg =>
    if start2 = [] then msg
    else
      match strchr '\n' start2 with
      | some (line, rest) =>
        ErrMsgDispatchMsgLine_loop szCommand fuel rest (fileLine szCommand line msg)
      | none => fileLine szCommand start2 msg

/-- The function `ErrMsgDispatchMsgLine( szCommand, szMsgLine, szName )` on the global
`g_CompilerMsg`: `g_CompilerMsg[szName]` is taken, created if absent, and the
lines of the listing are filed in it. -/
def ErrMsgDispatchMsgLine (szCommand szMsgLine szName : String)
    (g_CompilerMsg : NodeMap CompilerMsg) : NodeMap CompilerMsg :=
  mapSubscript CompilerMsg.new
    (fun msg => ErrMsgDispatchMsgLine_loop szCommand szMsgLine.data.length szMsgLine.data msg)
    szName g_CompilerMsg

/-- The pieces of a string split at the character `c`: the characters between two
neighbouring occurrences of `c`, before the first and after the last one. -/
def splitAtChar (c : Char) : List Char → List (List Char)
  | [] => [[]]
  | x :: xs =>
    if x = c then [] :: splitAtChar c xs
    else
      match splitAtChar c xs with
      | [] => [[x]]
      | piece :: pieces => (x :: piece) :: pieces

/-- The lines of a listing as the specification describes them: the pieces of the
listing split at the newline, where a final empty piece is not a line. The
empty listing has no line. -/
def listingLines (listing : List Char) : List (List Char) :=
  if (splitAtChar '\n' listing).getLast? = some [] then (splitAtChar '\n' listing).dropLast
  else splitAtChar '\n' listing

/-- The number of reports that a map holds for a text, zero when it has no record. -/
def timesReported (bag : NodeMap CompilerMsgInfo) (text : String) : Nat :=
  ((mapFind text bag).map (fun info => info.m_numTimesReported)).getD 0

/-- The sum of the repeat counts of the records of a map. -/
def sumReported (bag : NodeMap CompilerMsgInfo) : Nat :=
  (bag.map (fun r => r.2.m_numTimesReported)).sum

/-- The sum of all repeat counts of a shader. -/
def totalReported (msg : CompilerMsg) : Nat :=
  sumReported msg.warning + sumReported msg.error

/-- The state of `g_CompilerMsg` after a list of calls of `ErrMsgDispatchMsgLine`, each
given by its command, its listing and the name of its shader. -/
def dispatchAll (calls : List (String × String × String))
    (g_CompilerMsg : NodeMap CompilerMsg) : NodeMap CompilerMsg :=
  calls.foldl (fun g call => ErrMsgDispatchMsgLine call.1 call.2.1 call.2.2 g) g_CompilerMsg

/-- The maps of a shader are classified when every text of a warning contains
`warning X` and no text of an error does. -/
def MsgClassified (msg : CompilerMsg) : Prop :=
  (∀ r ∈ msg.warning, strstr r.1.data "warning X".data = true) ∧
  (∀ r ∈ msg.error, strstr r.1.data "warning X".data = false)

/-- The listing of the aggregation scenario: one warning line. -/
def unusedWarning : String := "foo.fxc(10,3): warning X1234: unused"

/-- A listing of four lines, the third of them empty, without a newline at its end:
a warning, an error, the empty line and a summary. -/
def mixedListing : String :=
  "foo.fxc(10,3): warning X1234: unused\nfoo.fxc(12,1): error X3000: syntax error\n\nfailed"

/-- The calls of `ErrMsgDispatchMsgLine` before the one of the example: the shader
`example_ps20b` has reported the warning once. -/
def earlierCalls : List (String × String × String) :=
  [("fxc.exe /DFLAG=0", "foo.fxc(10,3): warning X1234: unused\n", "example_ps20b")]

/-- The state of `Run` on a range without a command that is not skipped: the
globals and the record of the handled responses are as at the start, the shared
handle is null, and every worker is before its first locked block or has
left. -/
def Idle (s : RunState) (t : ThreadedState) : Prop :=
  t.run.program = s.program ∧ t.run.handled = s.handled ∧ t.run.m_bStopped = s.m_bStopped ∧
    t.run.dispatcher.m_hCombo = none ∧
    ∀ p ∈ t.workers, p = WorkerPhase.ready ∨ p = WorkerPhase.exited

/-! # Theorems -/

/-! ## Index arithmetic -/

theorem nDyComboIdx_eq_mod (i d : Nat) (hi : i < 2 ^ 64) : nDyComboIdx i d = i % d := by
  unfold nDyComboIdx nStComboIdx
  have h1 : i / d * d ≤ i := Nat.div_mul_le_self i d
  have h2 : i / d * d + i % d = i := by
    rw [Nat.mul_comm]; exact Nat.div_add_mod i d
  have h3 : (i / d * d) % 2 ^ 64 = i / d * d := Nat.mod_eq_of_lt (by omega)
  rw [h3]
  have h4 : i + (2 ^ 64 - i / d * d) = i % d + 2 ^ 64 := by omega
  rw [h4, Nat.add_mod_right]
  exact Nat.mod_eq_of_lt (by omega)

/-- C2. For a combo index `i` (a `uint64_t`) and `numDynamicCombos = d > 0`, the
static index `s = i / d` and the dynamic index `y = i - s * d` computed by
`HandleCommandResponse` satisfy `i = s * d + y` and `y < d`; if
`i < numStaticCombos * d` then `s < numStaticCombos`; and two combo indices with
the same pair `(s, y)` are equal. -/
theorem C2_static_dynamic_index (i d : Nat) (hi : i < 2 ^ 64) (hd : 0 < d) :
    i = nStComboIdx i d * d + nDyComboIdx i d ∧ nDyComboIdx i d < d ∧
    (∀ numStaticCombos, i < numStaticCombos * d → nStComboIdx i d < numStaticCombos) ∧
    (∀ j, j < 2 ^ 64 → nStComboIdx j d = nStComboIdx i d →
      nDyComboIdx j d = nDyComboIdx i d → j = i) := by
  have hmod := nDyComboIdx_eq_mod i d hi
  refine ⟨?_, ?_, ?_, ?_⟩
  · rw [hmod]; unfold nStComboIdx
    rw [Nat.mul_comm]; exact (Nat.div_add_mod i d).symm
  · rw [hmod]; exact Nat.mod_lt i hd
  · intro n hn
    unfold nStComboIdx
    exact (Nat.div_lt_iff_lt_mul hd).2 hn
  · intro j hj hs hy
    rw [nDyComboIdx_eq_mod j d hj, hmod] at hy
    unfold nStComboIdx at hs
    have h1 := Nat.div_add_mod i d
    have h2 := Nat.div_add_mod j d
    rw [hs, hy] at h2
    omega

theorem C2_static_dynamic_index_witness :
    7 = nStComboIdx 7 3 * 3 + nDyComboIdx 7 3 ∧ nDyComboIdx 7 3 < 3 ∧
    (∀ numStaticCombos, 7 < numStaticCombos * 3 → nStComboIdx 7 3 < numStaticCombos) ∧
    (∀ j, j < 2 ^ 64 → nStComboIdx j 3 = nStComboIdx 7 3 →
      nDyComboIdx j 3 = nDyComboIdx 7 3 → j = 7) :=
  C2_static_dynamic_index 7 3 (by decide) (by decide)

/-! ## Bytes and words -/

theorem putU32_length (v : Nat) : (putU32 v).length = 4 := rfl

theorem getU32_putU32 (v : Nat) (hv : v < 2 ^ 32) (rest : List Byte) :
    getU32 (putU32 v ++ rest) = some (v, rest) := by
  simp only [putU32, List.cons_append, List.nil_append, getU32, Fin.ofNat, Option.some.injEq,
    Prod.mk.injEq, and_true]
  omega

theorem narrowU32_eq_some {x y : Nat} : narrowU32 x = some y ↔ x < 2 ^ 32 ∧ y = x := by
  unfold narrowU32
  split <;> simp_all [eq_comm]

theorem narrowI32_eq_some {x y : Nat} : narrowI32 x = some y ↔ x < 2 ^ 31 ∧ y = x := by
  unfold narrowI32
  split <;> simp_all [eq_comm]

theorem flag_stored (n : Nat) (hn : n < 2 ^ 30) : (0x80000000 ||| n) = 2 ^ 31 + n := by
  have h := Nat.mul_add_lt_is_or (i := 30) hn 2
  rw [show (0x80000000 : Nat) = 2 ^ 30 * 2 by norm_num, ← h]
  norm_num

theorem flag_lzma (n : Nat) (hn : n < 2 ^ 30) : (0x40000000 ||| n) = 2 ^ 30 + n := by
  have h := Nat.mul_add_lt_is_or (i := 30) hn 1
  rw [show (0x40000000 : Nat) = 2 ^ 30 * 1 by norm_num, ← h]
  norm_num

/-! ## Packing -/

theorem dynamicComboRecord_length (id : Nat) (code : List Byte) :
    (dynamicComboRecord id code).length = 8 + code.length := by
  simp [dynamicComboRecord, putU32_length]; omega

theorem dynamicComboRecords_nil : dynamicComboRecords [] = [] := rfl

theorem dynamicComboRecords_append (a b : List CByteCodeBlock) :
    dynamicComboRecords (a ++ b) = dynamicComboRecords a ++ dynamicComboRecords b := by
  simp [dynamicComboRecords, List.flatMap_append]

theorem dynamicComboRecords_eq_nil {l : List CByteCodeBlock} :
    dynamicComboRecords l = [] ↔ l = [] := by
  cases l with
  | nil => simp [dynamicComboRecords]
  | cons b t =>
    constructor
    · intro h
      have h1 := congrArg List.length h
      simp [dynamicComboRecords, dynamicComboRecord_length] at h1
    · intro h
      exact absurd h (by simp)

theorem FlushCombos_eq_some {compress : List Byte → Option (List Byte)} {st st1 : PackState}
    (h : FlushCombos compress st = some st1) :
    (st.pDynamicComboBuffer = [] ∧ st1 = st) ∨
    (st.pDynamicComboBuffer ≠ [] ∧
      st1 = { pnTotalFlushedSize :=
                st.pnTotalFlushedSize + (emittedBlock compress st.pDynamicComboBuffer).length
              pDynamicComboBuffer := []
              pBuf := st.pBuf ++ emittedBlock compress st.pDynamicComboBuffer
              handedToCompressor := st.handedToCompressor ++ [st.pDynamicComboBuffer] }) := by
  unfold FlushCombos at h
  split at h
  · left
    rename_i h0
    exact ⟨List.length_eq_zero.1 h0, by simpa using h.symm⟩
  · right
    rename_i h0
    refine ⟨fun hn => h0 (by simp [hn]), ?_⟩
    split at h
    · rename_i hc
      simp only [Option.some.injEq] at h
      rw [← h]
      simp [emittedBlock, hc, putU32_length, List.append_assoc]
    · rename_i c hc
      split at h
      · exact absurd h (by simp)
      · rename_i n hn
        obtain ⟨hlt, rfl⟩ := narrowU32_eq_some.1 hn
        simp only [Option.some.injEq] at h
        rw [← h]
        simp [emittedBlock, hc, putU32_length, List.append_assoc]

theorem PackInv_init (compress : List Byte → Option (List Byte)) (pBuf0 : List Byte) :
    PackInv compress pBuf0 [] (PackState.init pBuf0) :=
  ⟨[], [], by simp [PackState.init, dynamicComboRecords]⟩

theorem PackInv_flush {compress : List Byte → Option (List Byte)} {pBuf0 : List Byte}
    {done : List CByteCodeBlock} {st st1 : PackState} (hinv : PackInv compress pBuf0 done st)
    (h : FlushCombos compress st = some st1) :
    PackInv compress pBuf0 done st1 ∧ st1.pDynamicComboBuffer = [] := by
  obtain ⟨groups, cur, hd, hne, hh, hb, hp, ht⟩ := hinv
  rcases FlushCombos_eq_some h with ⟨he, rfl⟩ | ⟨hne1, rfl⟩
  · exact ⟨⟨groups, cur, hd, hne, hh, hb, hp, ht⟩, he⟩
  · refine ⟨⟨groups ++ [cur], [], ?_, ?_, ?_, ?_, ?_, ?_⟩, rfl⟩
    · simpa using hd
    · intro grp hg
      rcases List.mem_append.1 hg with hg | hg
      · exact hne grp hg
      · simp only [List.mem_singleton] at hg
        subst hg
        intro hc
        exact hne1 (by rw [hb, hc]; rfl)
    · simp [hh, hb]
    · rfl
    · simp [hp, List.flatMap_append, List.append_assoc]
    · simp [ht, List.flatMap_append]

theorem PackInv_output {compress : List Byte → Option (List Byte)} {maxBlock : Nat}
    {pBuf0 : List Byte} {done : List CByteCodeBlock} {st st1 : PackState} {b : CByteCodeBlock}
    (hinv : PackInv compress pBuf0 done st)
    (h : OutputDynamicCombo compress maxBlock st b.m_nComboID b.code = some st1) :
    PackInv compress pBuf0 (done ++ [b]) st1 := by
  unfold OutputDynamicCombo at h
  split at h
  · exact absurd h (by simp)
  · rename_i n hn
    obtain ⟨-, rfl⟩ := narrowU32_eq_some.1 hn
    simp only at h
    split at h
    · exact absurd h (by simp)
    · rename_i st2 hfl
      split at h
      · exact absurd h (by simp)
      · rename_i id32 hid
        obtain ⟨-, rfl⟩ := narrowU32_eq_some.1 hid
        simp only [Option.some.injEq] at h
        have hinv2 : PackInv compress pBuf0 done st2 := by
          split at hfl
          · exact (PackInv_flush hinv hfl).1
          · simp only [Option.some.injEq] at hfl
            rw [← hfl]; exact hinv
        obtain ⟨groups, cur, hd, hne, hh, hb, hp, ht⟩ := hinv2
        refine ⟨groups, cur ++ [b], ?_, hne, ?_, ?_, ?_, ?_⟩
        · rw [← hd, List.append_assoc]
        · rw [← h]; exact hh
        · rw [← h]
          simp [hb, dynamicComboRecords_append, dynamicComboRecords]
        · rw [← h]; exact hp
        · rw [← h]; exact ht

theorem PackInv_outputs {compress : List Byte → Option (List Byte)} {maxBlock : Nat}
    {pBuf0 : List Byte} (l : List CByteCodeBlock) :
    ∀ {done : List CByteCodeBlock} {st st1 : PackState}, PackInv compress pBuf0 done st →
      outputDynamicCombos compress maxBlock l st = some st1 →
      PackInv compress pBuf0 (done ++ l) st1 := by
  induction l with
  | nil =>
    intro done st st1 hinv h
    simp only [outputDynamicCombos, Option.some.injEq] at h
    subst h; simpa using hinv
  | cons b t ih =>
    intro done st st1 hinv h
    simp only [outputDynamicCombos] at h
    split at h
    · exact absurd h (by simp)
    · rename_i st2 h2
      have := ih (PackInv_output hinv h2) h
      simpa using this

/-! ## Sorting -/

theorem stdSort_perm {α : Type} (lt : α → α → Bool) (l : List α) : (stdSort lt l).Perm l :=
  List.perm_insertionSort _ l

theorem stdSort_pairwise_le {α : Type} (key : α → Nat) (lt : α → α → Bool)
    (hlt : ∀ a b, lt a b = decide (key a < key b)) (l : List α) :
    (stdSort lt l).Pairwise (fun a b => key a ≤ key b) := by
  have hr : ∀ a b, (lt b a = false) ↔ key a ≤ key b := by
    intro a b; rw [hlt]; simp
  haveI : IsTotal α (fun a b => lt b a = false) :=
    ⟨fun a b => by rw [hr, hr]; exact Nat.le_total _ _⟩
  haveI : IsTrans α (fun a b => lt b a = false) :=
    ⟨fun a b c => by rw [hr, hr, hr]; exact Nat.le_trans⟩
  have h := List.sorted_insertionSort (fun a b => lt b a = false) l
  exact List.Pairwise.imp (fun {a b} hab => (hr a b).1 hab) h

theorem stdSort_pairwise_lt {α : Type} (key : α → Nat) (lt : α → α → Bool)
    (hlt : ∀ a b, lt a b = decide (key a < key b)) (l : List α) (hnd : (l.map key).Nodup) :
    (stdSort lt l).Pairwise (fun a b => key a < key b) := by
  have h1 := stdSort_pairwise_le key lt hlt l
  have h2 : ((stdSort lt l).map key).Nodup := ((stdSort_perm lt l).map key).nodup_iff.2 hnd
  have h3 : (stdSort lt l).Pairwise (fun a b => key a ≠ key b) := by
    simpa [List.Nodup, List.pairwise_map] using h2
  exact (h1.and h3).imp (fun {a b} h => Nat.lt_of_le_of_ne h.1 h.2)

/-! ## `AssembleWorkerReplyPackage` -/

theorem FlushCombos_returns {compress : List Byte → Option (List Byte)}
    (hc : ∀ blk out, compress blk = some out → out.length < 2 ^ 32) (st : PackState) :
    ∃ st1, FlushCombos compress st = some st1 := by
  unfold FlushCombos
  split
  · exact ⟨_, rfl⟩
  · split
    · exact ⟨_, rfl⟩
    · rename_i c hcomp
      have hn : narrowU32 c.length = some c.length := narrowU32_eq_some.2 ⟨hc _ _ hcomp, rfl⟩
      rw [hn]
      exact ⟨_, rfl⟩

theorem outputDynamicCombos_returns {compress : List Byte → Option (List Byte)} (maxBlock : Nat)
    (hc : ∀ blk out, compress blk = some out → out.length < 2 ^ 32) (l : List CByteCodeBlock)
    (hl : ∀ b ∈ l, b.m_nComboID < 2 ^ 32 ∧ b.code.length < 2 ^ 32) :
    ∀ st, ∃ st1, outputDynamicCombos compress maxBlock l st = some st1 := by
  induction l with
  | nil => intro st; exact ⟨st, rfl⟩
  | cons b t ih =>
    intro st
    obtain ⟨hid, hsz⟩ := hl b (List.mem_cons_self _ _)
    have hstep : ∃ st2, OutputDynamicCombo compress maxBlock st b.m_nComboID b.code = some st2 := by
      unfold OutputDynamicCombo
      simp only [narrowU32, hsz, hid, if_true]
      split
      · rename_i hfl
        split at hfl
        · obtain ⟨st3, h3⟩ := FlushCombos_returns hc st
          rw [h3] at hfl; exact absurd hfl (by simp)
        · exact absurd hfl (by simp)
      · exact ⟨_, rfl⟩
    obtain ⟨st2, h2⟩ := hstep
    obtain ⟨st1, h1⟩ := ih (fun x hx => hl x (List.mem_cons_of_mem _ hx)) st2
    exact ⟨st1, by simp [outputDynamicCombos, h2, h1]⟩

theorem packDynamicCombos_inv {compress : List Byte → Option (List Byte)} {maxBlock : Nat}
    {pStComboRec : CStaticCombo} {pBuf : List Byte} {st : PackState}
    (h : packDynamicCombos compress maxBlock pStComboRec pBuf = some st) :
    PackInv compress pBuf (stdSort CompareDynamicComboIDs pStComboRec.m_DynamicCombos) st ∧
      st.pDynamicComboBuffer = [] := by
  unfold packDynamicCombos at h
  split at h
  · exact absurd h (by simp)
  · rename_i st1 h1
    have hinv := PackInv_outputs _ (PackInv_init compress pBuf) h1
    simp only [List.nil_append] at hinv
    exact PackInv_flush hinv h

theorem packDynamicCombos_returns {compress : List Byte → Option (List Byte)} (maxBlock : Nat)
    (hc : ∀ blk out, compress blk = some out → out.length < 2 ^ 32) (pStComboRec : CStaticCombo)
    (hl : ∀ b ∈ pStComboRec.m_DynamicCombos, b.m_nComboID < 2 ^ 32 ∧ b.code.length < 2 ^ 32)
    (pBuf : List Byte) : ∃ st, packDynamicCombos compress maxBlock pStComboRec pBuf = some st := by
  unfold packDynamicCombos
  have hl2 : ∀ b ∈ pStComboRec.SortDynamicCombos.m_DynamicCombos,
      b.m_nComboID < 2 ^ 32 ∧ b.code.length < 2 ^ 32 := by
    intro b hb
    exact hl b ((stdSort_perm _ _).mem_iff.1 hb)
  obtain ⟨st1, h1⟩ := outputDynamicCombos_returns maxBlock hc _ hl2 (PackState.init pBuf)
  rw [h1]
  exact FlushCombos_returns hc st1

/-- C10. For a static combo with a non-empty list of dynamic combos, the buffers
that `AssembleWorkerReplyPackage` hands to the compressor are, in order, the
records (`uint32 dynamic_id`, `uint32 payload_len`, `payload_bytes`) of
consecutive non-empty groups of the dynamic combos sorted ascending by dynamic
id: their concatenation is the concatenation of the records of the sorted list,
every record lies inside one block, and the sorted list is a permutation of the
dynamic combos. The call returns whenever the ids, the payload sizes and the
sizes the compressor returns fit in 32 bits. -/
theorem C10_blocks_hold_sorted_records (compress : List Byte → Option (List Byte))
    (maxBlock : Nat) (g_ShaderByteCode : CShaderMap) (m_szName : String) (nComboOfEntry : Nat)
    (pBuf : List Byte) (pStComboRec : CStaticCombo)
    (hrec : StaticComboFromDict g_ShaderByteCode m_szName nComboOfEntry = some pStComboRec)
    (hne : pStComboRec.m_DynamicCombos ≠ []) :
    ((∀ b ∈ pStComboRec.m_DynamicCombos, b.m_nComboID < 2 ^ 32 ∧ b.code.length < 2 ^ 32) →
      (∀ blk out, compress blk = some out → out.length < 2 ^ 32) →
      ∃ r, AssembleWorkerReplyPackage compress maxBlock g_ShaderByteCode m_szName nComboOfEntry
        pBuf = some r) ∧
    ∀ r, AssembleWorkerReplyPackage compress maxBlock g_ShaderByteCode m_szName nComboOfEntry
        pBuf = some r →
      (stdSort CompareDynamicComboIDs pStComboRec.m_DynamicCombos).Perm
        pStComboRec.m_DynamicCombos ∧
      (stdSort CompareDynamicComboIDs pStComboRec.m_DynamicCombos).Pairwise
        (fun a b => a.m_nComboID ≤ b.m_nComboID) ∧
      r.handedToCompressor.flatten =
        dynamicComboRecords (stdSort CompareDynamicComboIDs pStComboRec.m_DynamicCombos) ∧
      ∃ groups : List (List CByteCodeBlock),
        groups.flatten = stdSort CompareDynamicComboIDs pStComboRec.m_DynamicCombos ∧
        (∀ grp ∈ groups, grp ≠ []) ∧
        r.handedToCompressor = groups.map dynamicComboRecords := by
  have hemp : pStComboRec.m_DynamicCombos.isEmpty = false := by
    cases hd : pStComboRec.m_DynamicCombos with
    | nil => exact absurd hd hne
    | cons a t => rfl
  constructor
  · intro hl hc
    obtain ⟨st, hst⟩ := packDynamicCombos_returns maxBlock hc pStComboRec hl pBuf
    simp only [AssembleWorkerReplyPackage, hrec, hemp, hst]
    exact ⟨_, rfl⟩
  · intro r hr
    simp only [AssembleWorkerReplyPackage, hrec, hemp, Bool.false_eq_true, if_false] at hr
    split at hr
    · exact absurd hr (by simp)
    · rename_i st hst
      simp only [Option.some.injEq] at hr
      obtain ⟨⟨groups, cur, hd, hgne, hh, hb, -, -⟩, hempty⟩ := packDynamicCombos_inv hst
      have hcur : cur = [] := dynamicComboRecords_eq_nil.1 (hb ▸ hempty)
      subst hcur
      simp only [List.append_nil] at hd
      refine ⟨stdSort_perm _ _,
        stdSort_pairwise_le (fun b : CByteCodeBlock => b.m_nComboID) _ (fun _ _ => rfl) _, ?_,
        groups, hd, hgne, ?_⟩
      · rw [← hr]
        simp only [hh]
        rw [← hd]
        clear hd hgne hh
        induction groups with
        | nil => rfl
        | cons a t ih =>
          simp only [List.map_cons, List.flatten_cons, dynamicComboRecords_append, ih]
      · rw [← hr]; exact hh

/-! ## The bucketed duplicate search and the naive one -/

theorem findIdentical_eq_find (headers : List StaticComboAuxInfo_t) (nCRC32 : Nat)
    (code : List Byte) (idxs : List Nat) (hs : List StaticComboAuxInfo_t)
    (hmap : idxs.map (fun i => headers[i]?) = hs.map some) :
    findIdentical headers nCRC32 code idxs =
      hs.find? (fun check =>
        match check.m_pByteCode with
        | some p => decide (check.m_nCRC32 = nCRC32 ∧ p.m_abPackedCode = code)
        | none => false) := by
  induction idxs generalizing hs with
  | nil =>
    cases hs with
    | nil => rfl
    | cons a t => simp at hmap
  | cons i rest ih =>
    cases hs with
    | nil => simp at hmap
    | cons a t =>
      simp only [List.map_cons, List.cons.injEq] at hmap
      obtain ⟨h1, h2⟩ := hmap
      simp only [findIdentical, h1, List.find?_cons]
      cases hp : a.m_pByteCode with
      | none => simpa using ih t h2
      | some p =>
        simp only [List.take_length]
        by_cases hc : a.m_nCRC32 = nCRC32 ∧ p.m_abPackedCode = code
        · obtain ⟨hc1, hc2⟩ := hc
          simp [hc1, hc2]
        · have hc' : ¬ (a.m_nCRC32 = nCRC32 ∧ p.m_abPackedCode.length = code.length ∧
              p.m_abPackedCode = List.take p.m_abPackedCode.length code) := by
            rintro ⟨e1, e2, e3⟩
            apply hc
            refine ⟨e1, ?_⟩
            rw [e3, e2, List.take_length]
          simp only [hc', if_false, hc, decide_False]
          exact ih t h2

theorem find_congr_mem {α : Type} (p q : α → Bool) (l : List α)
    (h : ∀ a ∈ l, p a = q a) : l.find? p = l.find? q := by
  induction l with
  | nil => rfl
  | cons a t ih =>
    rw [List.find?_cons, List.find?_cons, h a (List.mem_cons_self _ _),
      ih (fun x hx => h x (List.mem_cons_of_mem _ hx))]

theorem find_filter_of_imp {α : Type} (p q : α → Bool) (l : List α)
    (h : ∀ a, p a = true → q a = true) : (l.filter q).find? p = l.find? p := by
  induction l with
  | nil => rfl
  | cons a t ih =>
    by_cases hq : q a = true
    · rw [List.filter_cons, if_pos hq, List.find?_cons, List.find?_cons, ih]
    · have hp : p a = false := by
        cases hpa : p a with
        | false => rfl
        | true => exact absurd (h a hpa) hq
      rw [List.filter_cons, if_neg hq, List.find?_cons, hp]
      exact ih

theorem BucketInv_init (crc32 : List Byte → Nat) : BucketInv crc32 DedupState.init := by
  refine ⟨by simp [DedupState.init], ?_, ?_⟩
  · intro k hk
    simp [DedupState.init, List.getElem?_replicate, hk]
  · intro h hh
    simp [DedupState.init] at hh

theorem bucketed_search_eq_naive {crc32 : List Byte → Nat} {st : DedupState}
    (hinv : BucketInv crc32 st) (code : List Byte) :
    findIdentical st.StaticComboHeaders (crc32 code) code
        (st.comboIndicesHashedByCRC32.getD (crc32 code % STATIC_COMBO_HASH_SIZE) []) =
      naiveFindIdentical st.StaticComboHeaders code := by
  obtain ⟨-, hb, hcrc⟩ := hinv
  have hk : crc32 code % STATIC_COMBO_HASH_SIZE < STATIC_COMBO_HASH_SIZE :=
    Nat.mod_lt _ (by decide)
  rw [findIdentical_eq_find _ _ _ _ _ (hb _ hk), find_filter_of_imp]
  · unfold naiveFindIdentical
    apply find_congr_mem
    intro a ha
    obtain ⟨p, hp, hc⟩ := hcrc a ha
    simp only [hp, hc]
    by_cases he : p.m_abPackedCode = code
    · simp [he]
    · simp [he]
  · intro a ha
    cases hp : a.m_pByteCode with
    | none => simp [hp] at ha
    | some p =>
      simp only [hp, decide_eq_true_eq] at ha
      simp [ha.1]

theorem map_getElem?_append {α : Type} (H t : List α) (idxs : List Nat) (hs : List α)
    (h : idxs.map (fun i => H[i]?) = hs.map some) :
    idxs.map (fun i => (H ++ t)[i]?) = hs.map some := by
  induction idxs generalizing hs with
  | nil => simpa using h
  | cons i rest ih =>
    cases hs with
    | nil => simp at h
    | cons a u =>
      simp only [List.map_cons, List.cons.injEq] at h ⊢
      obtain ⟨h1, h2⟩ := h
      refine ⟨?_, ih u h2⟩
      obtain ⟨hlt, -⟩ := List.getElem?_eq_some.1 h1
      rw [List.getElem?_append_left hlt, h1]

theorem BucketInv_accept {crc32 : List Byte → Nat} {st : DedupState}
    (hinv : BucketInv crc32 st) (hdr : StaticComboAuxInfo_t) (p : CStaticCombo)
    (hp : hdr.m_pByteCode = some p) (hc : hdr.m_nCRC32 = crc32 p.m_abPackedCode) :
    BucketInv crc32
      { st with
        StaticComboHeaders := st.StaticComboHeaders ++ [hdr]
        comboIndicesHashedByCRC32 :=
          st.comboIndicesHashedByCRC32.set (hdr.m_nCRC32 % STATIC_COMBO_HASH_SIZE)
            (st.comboIndicesHashedByCRC32.getD (hdr.m_nCRC32 % STATIC_COMBO_HASH_SIZE) [] ++
              [st.StaticComboHeaders.length]) } := by
  obtain ⟨hlen, hb, hcrc⟩ := hinv
  have hk0 : hdr.m_nCRC32 % STATIC_COMBO_HASH_SIZE < st.comboIndicesHashedByCRC32.length := by
    rw [hlen]; exact Nat.mod_lt _ (by decide)
  refine ⟨by simpa using hlen, ?_, ?_⟩
  · intro k hk
    simp only [List.getD_eq_getElem?_getD, List.getElem?_set]
    by_cases hkk : hdr.m_nCRC32 % STATIC_COMBO_HASH_SIZE = k
    · subst hkk
      simp only [if_true, hk0, Option.getD_some, List.map_append, List.map_cons, List.map_nil,
        List.filter_append, List.filter_cons, List.filter_nil, beq_self_eq_true]
      have h1 := map_getElem?_append st.StaticComboHeaders [hdr] _ _ (hb _ hk)
      simp only [List.getD_eq_getElem?_getD] at h1
      rw [h1]
      simp
    · have hne : (hdr.m_nCRC32 % STATIC_COMBO_HASH_SIZE == k) = false := by
        simpa using hkk
      simp only [hkk, if_false, List.filter_append, List.filter_cons, List.filter_nil, hne,
        List.append_nil]
      have h1 := map_getElem?_append st.StaticComboHeaders [hdr] _ _ (hb _ hk)
      simp only [List.getD_eq_getElem?_getD] at h1
      simpa using h1
  · intro h hh
    rcases List.mem_append.1 hh with hh | hh
    · exact hcrc h hh
    · simp only [List.mem_singleton] at hh
      subst hh
      exact ⟨p, hp, hc⟩

theorem dedupStep_naive {crc32 : List Byte → Nat} {st : DedupState} (hinv : BucketInv crc32 st)
    (pStatic : CStaticCombo) :
    (dedupStep crc32 pStatic st).map (fun s => (s.StaticComboHeaders, s.duplicateCombos)) =
      naiveDedupStep crc32 pStatic (st.StaticComboHeaders, st.duplicateCombos) ∧
    ∀ st1, dedupStep crc32 pStatic st = some st1 → BucketInv crc32 st1 := by
  unfold dedupStep naiveDedupStep
  by_cases h0 : pStatic.m_abPackedCode.length = 0
  · simp only [h0, if_true, Option.map_some', true_and]
    intro st1 h1
    simp only [Option.some.injEq] at h1
    rw [← h1]; exact hinv
  · simp only [h0, if_false]
    cases hn : narrowU32 pStatic.m_nStaticComboID with
    | none => simp
    | some id32 =>
      simp only [bucketed_search_eq_naive hinv]
      cases hf : naiveFindIdentical st.StaticComboHeaders pStatic.m_abPackedCode with
      | some check =>
        simp only [Option.map_some', true_and, Option.some.injEq]
        intro st1 h1
        rw [← h1]
        exact ⟨hinv.1, hinv.2.1, hinv.2.2⟩
      | none =>
        simp only [Option.map_some', true_and, Option.some.injEq]
        intro st1 h1
        rw [← h1]
        exact BucketInv_accept hinv _ pStatic rfl rfl

theorem dedupLoop_naive (crc32 : List Byte → Nat) (nodes : StaticComboNodeHash_t) :
    ∀ st, BucketInv crc32 st →
      (dedupLoop crc32 nodes st).map (fun s => (s.StaticComboHeaders, s.duplicateCombos)) =
        naiveDedupLoop crc32 nodes (st.StaticComboHeaders, st.duplicateCombos) ∧
      ∀ st1, dedupLoop crc32 nodes st = some st1 → BucketInv crc32 st1 := by
  induction nodes with
  | nil =>
    intro st hinv
    simp only [dedupLoop, naiveDedupLoop, Option.map_some', true_and, Option.some.injEq]
    intro st1 h1
    rw [← h1]; exact hinv
  | cons n rest ih =>
    intro st hinv
    obtain ⟨h1, h2⟩ := dedupStep_naive hinv n
    simp only [dedupLoop, naiveDedupLoop]
    cases hs : dedupStep crc32 n st with
    | none =>
      rw [hs] at h1
      simp only [Option.map_none'] at h1
      simp [← h1]
    | some st2 =>
      rw [hs] at h1
      simp only [Option.map_some'] at h1
      rw [← h1]
      exact ih st2 (h2 st2 hs)

/-! ## What the duplicate detection produces -/

theorem naiveFindIdentical_headerOf (crc32 : List Byte → Nat) (U : List CStaticCombo)
    (code : List Byte) :
    naiveFindIdentical (U.map (headerOf crc32)) code =
      (U.find? (fun p => decide (p.m_abPackedCode = code))).map (headerOf crc32) := by
  unfold naiveFindIdentical
  rw [List.find?_map]
  rfl

theorem Classified_nil (crc32 : List Byte → Nat) : Classified crc32 [] ([], []) :=
  ⟨[], [], rfl, rfl, by simp, by simp, List.Pairwise.nil, by simp⟩

theorem Classified_step {crc32 : List Byte → Nat} {nodes : StaticComboNodeHash_t}
    {acc acc1 : List StaticComboAuxInfo_t × List StaticComboAliasRecord_t} (n : CStaticCombo)
    (hcl : Classified crc32 nodes acc) (h : naiveDedupStep crc32 n acc = some acc1) :
    Classified crc32 (nodes ++ [n]) acc1 := by
  obtain ⟨U, Dn, hH, hD, hperm, hdn, hpw, hid⟩ := hcl
  unfold naiveDedupStep at h
  by_cases h0 : n.m_abPackedCode.length = 0
  · simp only [h0, if_true, Option.some.injEq] at h
    subst h
    have hnil : n.m_abPackedCode = [] := List.length_eq_zero.1 h0
    refine ⟨U, Dn, hH, hD, ?_, hdn, hpw, ?_⟩
    · simpa [List.filter_append, hnil] using hperm
    · intro p hp hne
      rcases List.mem_append.1 hp with hp | hp
      · exact hid p hp hne
      · simp only [List.mem_singleton] at hp
        subst hp; exact absurd hnil hne
  · have hne : n.m_abPackedCode ≠ [] := fun hc => h0 (by simp [hc])
    simp only [h0, if_false] at h
    cases hn : narrowU32 n.m_nStaticComboID with
    | none => simp [hn] at h
    | some id32 =>
      obtain ⟨hlt, rfl⟩ := narrowU32_eq_some.1 hn
      have hid1 : ∀ p ∈ nodes ++ [n], p.m_abPackedCode ≠ [] → p.m_nStaticComboID < 2 ^ 32 := by
        intro p hp hpne
        rcases List.mem_append.1 hp with hp | hp
        · exact hid p hp hpne
        · simp only [List.mem_singleton] at hp
          subst hp; exact hlt
      have hfilt : (nodes ++ [n]).filter (fun p => decide (p.m_abPackedCode ≠ [])) =
          nodes.filter (fun p => decide (p.m_abPackedCode ≠ [])) ++ [n] := by
        simp [List.filter_append, hne]
      simp only [hn, hH, naiveFindIdentical_headerOf] at h
      cases hf : U.find? (fun p => decide (p.m_abPackedCode = n.m_abPackedCode)) with
      | some c =>
        simp only [hf, Option.map_some', Option.some.injEq] at h
        subst h
        have hc1 : c ∈ U := List.mem_of_find?_eq_some hf
        have hc2 : c.m_abPackedCode = n.m_abPackedCode := by
          simpa using List.find?_some hf
        refine ⟨U, Dn ++ [(n, c)], rfl, ?_, ?_, ?_, hpw, hid1⟩
        · simp [hD, aliasOf, headerOf]
        · rw [hfilt, List.map_append, ← List.append_assoc]
          exact List.Perm.append_right _ hperm
        · intro x hx
          rcases List.mem_append.1 hx with hx | hx
          · exact hdn x hx
          · simp only [List.mem_singleton] at hx
            subst hx; exact ⟨hc1, hc2⟩
      | none =>
        simp only [hf, Option.map_none', Option.some.injEq] at h
        subst h
        have hall : ∀ u ∈ U, u.m_abPackedCode ≠ n.m_abPackedCode := by
          intro u hu
          have := List.find?_eq_none.1 hf u hu
          simpa using this
        refine ⟨U ++ [n], Dn, ?_, hD, ?_, ?_, ?_, hid1⟩
        · simp [hH, headerOf]
        · rw [hfilt]
          have h1 : (U ++ [n] ++ Dn.map Prod.fst).Perm (U ++ Dn.map Prod.fst ++ [n]) := by
            rw [List.append_assoc, List.append_assoc]
            exact List.Perm.append_left _ List.perm_append_comm
          exact h1.trans (List.Perm.append_right _ hperm)
        · intro x hx
          exact ⟨List.mem_append_left _ (hdn x hx).1, (hdn x hx).2⟩
        · rw [List.pairwise_append]
          refine ⟨hpw, List.pairwise_singleton _ _, ?_⟩
          intro a ha b hb
          simp only [List.mem_singleton] at hb
          subst hb; exact hall a ha

theorem Classified_loop {crc32 : List Byte → Nat} (rest : StaticComboNodeHash_t) :
    ∀ {nodes : StaticComboNodeHash_t}
      {acc acc1 : List StaticComboAuxInfo_t × List StaticComboAliasRecord_t},
      Classified crc32 nodes acc → naiveDedupLoop crc32 rest acc = some acc1 →
      Classified crc32 (nodes ++ rest) acc1 := by
  induction rest with
  | nil =>
    intro nodes acc acc1 hcl h
    simp only [naiveDedupLoop, Option.some.injEq] at h
    subst h; simpa using hcl
  | cons n rest ih =>
    intro nodes acc acc1 hcl h
    simp only [naiveDedupLoop] at h
    cases hs : naiveDedupStep crc32 n acc with
    | none => simp [hs] at h
    | some acc2 =>
      simp only [hs] at h
      have := ih (Classified_step n hcl hs) h
      simpa using this

theorem dedupLoop_classified {crc32 : List Byte → Nat} {nodes : StaticComboNodeHash_t}
    {st : DedupState} (h : dedupLoop crc32 nodes DedupState.init = some st) :
    Classified crc32 nodes (st.StaticComboHeaders, st.duplicateCombos) := by
  have h1 := (dedupLoop_naive crc32 nodes DedupState.init (BucketInv_init crc32)).1
  rw [h] at h1
  simp only [Option.map_some'] at h1
  have := @Classified_loop crc32 nodes [] _ _ (Classified_nil crc32) h1.symm
  simpa using this

/-! ## The file that `WriteShaderFiles` writes -/

theorem OFStream.write_at_end (f : OFStream) (bytes : List Byte)
    (h : f.tellp = f.content.length) :
    (f.write bytes).content = f.content ++ bytes ∧
      (f.write bytes).tellp = (f.write bytes).content.length := by
  simp [OFStream.write, h]

theorem OFStream.write_over (f : OFStream) (pre old post bytes : List Byte)
    (hc : f.content = pre ++ old ++ post) (hp : f.tellp = pre.length)
    (hl : old.length = bytes.length) :
    (f.write bytes).content = pre ++ bytes ++ post ∧
      (f.write bytes).tellp = (pre ++ bytes).length := by
  simp only [OFStream.write, hc, hp, List.length_append, and_true]
  rw [List.append_assoc pre old post, List.take_left, ← hl, ← List.length_append,
    ← List.append_assoc, List.drop_left]

theorem header_bytes_length (h : ShaderHeader_t) : h.bytes.length = 28 := by
  simp [ShaderHeader_t.bytes, putU32_length]

theorem record_bytes_length (r : StaticComboRecord_t) : r.bytes.length = 8 := by
  simp [StaticComboRecord_t.bytes, putU32_length]

theorem alias_bytes_length (r : StaticComboAliasRecord_t) : r.bytes.length = 8 := by
  simp [StaticComboAliasRecord_t.bytes, putU32_length]

theorem records_bytes_length (l : List StaticComboAuxInfo_t) :
    (l.flatMap (fun r => r.toStaticComboRecord_t.bytes)).length = 8 * l.length := by
  induction l with
  | nil => rfl
  | cons a t ih =>
    simp only [List.flatMap_cons, List.length_append, record_bytes_length, ih, List.length_cons]
    omega

theorem aliases_bytes_length (l : List StaticComboAliasRecord_t) :
    (l.flatMap StaticComboAliasRecord_t.bytes).length = 8 * l.length := by
  induction l with
  | nil => rfl
  | cons a t ih =>
    simp only [List.flatMap_cons, List.length_append, alias_bytes_length, ih, List.length_cons]
    omega

theorem withOffsets_length (hash : StaticComboNodeHash_t) (l : List StaticComboAuxInfo_t) :
    ∀ pos, (withOffsets hash l pos).length = l.length := by
  induction l with
  | nil => intro pos; rfl
  | cons a t ih => intro pos; simp [withOffsets, ih]

theorem writeStaticCombos_spec (hash : StaticComboNodeHash_t) (recs : List StaticComboAuxInfo_t) :
    ∀ (f f1 : OFStream) (recs1 : List StaticComboAuxInfo_t), f.tellp = f.content.length →
      writeStaticCombos hash recs f = some (recs1, f1) →
      recs1 = withOffsets hash recs f.tellp ∧
      f1.content = f.content ++ recs.flatMap (recordBody hash) ∧
      f1.tellp = f1.content.length ∧
      (∀ r ∈ recs1, r.m_nFileOffset < 2 ^ 32) ∧
      (∀ r ∈ recs, r.m_nStaticComboID ≠ 0xffffffff → ∃ p, FindByKey hash r.m_nStaticComboID = some p) := by
  induction recs with
  | nil =>
    intro f f1 recs1 hf h
    simp only [writeStaticCombos, Option.some.injEq, Prod.mk.injEq] at h
    obtain ⟨rfl, rfl⟩ := h
    simp [withOffsets, hf]
  | cons r rest ih =>
    intro f f1 recs1 hf h
    simp only [writeStaticCombos] at h
    cases hn : narrowU32 f.tellp with
    | none => simp [hn] at h
    | some off =>
      obtain ⟨hlt, rfl⟩ := narrowU32_eq_some.1 hn
      simp only [hn] at h
      split at h
      · exact absurd h (by simp)
      · rename_i f2 hw
        have hw2 : f2.content = f.content ++ recordBody hash r ∧ f2.tellp = f2.content.length ∧
            (r.m_nStaticComboID ≠ 0xffffffff → ∃ p, FindByKey hash r.m_nStaticComboID = some p) := by
          unfold recordBody
          by_cases hs : r.m_nStaticComboID = 0xffffffff
          · simp only [hs, ne_eq, not_true_eq_false, if_false, Option.some.injEq] at hw
            subst hw
            simp [hs, hf]
          · simp only [ne_eq, hs, not_false_eq_true, if_true] at hw
            cases hfind : FindByKey hash r.m_nStaticComboID with
            | none => simp [hfind] at hw
            | some p =>
              simp only [hfind, Option.some.injEq] at hw
              subst hw
              simp only [hs, if_false, forall_true_left]
              by_cases hcode : p.m_abPackedCode = []
              · simp only [hcode, ne_eq, not_true_eq_false, if_false, List.nil_append]
                have := OFStream.write_at_end f (putU32 0xffffffff) hf
                exact ⟨this.1, this.2, fun _ => ⟨p, rfl⟩⟩
              · simp only [ne_eq, hcode, not_false_eq_true, if_true]
                have h1 := OFStream.write_at_end f p.m_abPackedCode hf
                have h2 := OFStream.write_at_end _ (putU32 0xffffffff) h1.2
                refine ⟨?_, h2.2, fun _ => ⟨p, rfl⟩⟩
                rw [h2.1, h1.1, List.append_assoc]
        obtain ⟨hc2, ht2, hfk⟩ := hw2
        cases hrest : writeStaticCombos hash rest f2 with
        | none => simp [hrest] at h
        | some res =>
          obtain ⟨recs2, f3⟩ := res
          simp only [hrest, Option.some.injEq, Prod.mk.injEq] at h
          obtain ⟨rfl, rfl⟩ := h
          obtain ⟨e1, e2, e3, e4, e5⟩ := ih f2 f3 recs2 ht2 hrest
          have hpos : f2.tellp = f.tellp + (recordBody hash r).length := by
            rw [ht2, hc2, List.length_append, hf]
          refine ⟨?_, ?_, e3, ?_, ?_⟩
          · simp only [withOffsets, List.cons.injEq, true_and]
            rw [e1, hpos]
          · rw [e2, hc2, List.flatMap_cons, List.append_assoc]
          · intro x hx
            rcases List.mem_cons.1 hx with hx | hx
            · subst hx; exact hlt
            · exact e4 x hx
          · intro x hx
            rcases List.mem_cons.1 hx with hx | hx
            · subst hx; exact hfk
            · exact e5 x hx

theorem rewriteHeaders_spec (recs : List StaticComboAuxInfo_t) :
    ∀ (f : OFStream) (pre old post : List Byte), f.content = pre ++ old ++ post →
      f.tellp = pre.length → old.length = 8 * recs.length →
      (rewriteHeaders recs f).content =
        pre ++ recs.flatMap (fun r => r.toStaticComboRecord_t.bytes) ++ post := by
  induction recs with
  | nil =>
    intro f pre old post hc hp hl
    have : old = [] := List.length_eq_zero.1 (by simpa using hl)
    subst this
    simpa [rewriteHeaders] using hc
  | cons r rest ih =>
    intro f pre old post hc hp hl
    simp only [rewriteHeaders]
    have hsplit : old = old.take 8 ++ old.drop 8 := (List.take_append_drop 8 old).symm
    have hl8 : (old.take 8).length = r.toStaticComboRecord_t.bytes.length := by
      rw [record_bytes_length, List.length_take]
      simp only [List.length_cons] at hl
      omega
    have hc2 : f.content = pre ++ old.take 8 ++ (old.drop 8 ++ post) := by
      rw [hc, List.append_assoc pre, List.append_assoc pre, ← List.append_assoc (old.take 8),
        List.take_append_drop]
    obtain ⟨w1, w2⟩ := OFStream.write_over f pre (old.take 8) (old.drop 8 ++ post) _ hc2 hp hl8
    have w1' : (f.write r.toStaticComboRecord_t.bytes).content =
        (pre ++ r.toStaticComboRecord_t.bytes) ++ old.drop 8 ++ post := by
      rw [w1]; simp [List.append_assoc]
    have hl2 : (old.drop 8).length = 8 * rest.length := by
      rw [List.length_drop]
      simp only [List.length_cons] at hl
      omega
    rw [ih _ _ _ _ w1' w2 hl2]
    simp [List.append_assoc]

theorem stdSort_length {α : Type} (lt : α → α → Bool) (l : List α) :
    (stdSort lt l).length = l.length :=
  (stdSort_perm lt l).length_eq

theorem writeStream_eq_some {hash : StaticComboNodeHash_t} {header : ShaderHeader_t}
    {table : List StaticComboAuxInfo_t} {dupl : Nat} {dups : List StaticComboAliasRecord_t}
    {recs : List StaticComboAuxInfo_t} {bytes : List Byte}
    (h : writeStream hash header table dupl dups = some (recs, bytes)) :
    recs = withOffsets hash table (28 + 8 * table.length + 4 + 8 * dups.length) ∧
    bytes = header.bytes ++ recs.flatMap (fun r => r.toStaticComboRecord_t.bytes) ++ putU32 dupl
      ++ dups.flatMap StaticComboAliasRecord_t.bytes ++ table.flatMap (recordBody hash) ∧
    (∀ r ∈ recs, r.m_nFileOffset < 2 ^ 32) ∧
    (∀ r ∈ table, r.m_nStaticComboID ≠ 0xffffffff →
      ∃ p, FindByKey hash r.m_nStaticComboID = some p) := by
  unfold writeStream at h
  simp only at h
  split at h
  · exact absurd h (by simp)
  · rename_i recs1 f5 hw
    simp only [Option.some.injEq, Prod.mk.injEq] at h
    obtain ⟨rfl, hbytes⟩ := h
    have a1 := OFStream.write_at_end OFStream.opened header.bytes rfl
    have a2 := OFStream.write_at_end _ (List.replicate (8 * table.length) (0 : Byte)) a1.2
    have a3 := OFStream.write_at_end _ (putU32 dupl) a2.2
    have a4 := OFStream.write_at_end _ (dups.flatMap StaticComboAliasRecord_t.bytes) a3.2
    obtain ⟨e1, e2, -, e4, e5⟩ := writeStaticCombos_spec hash _ _ _ _ a4.2 hw
    have hpos4 : ((((OFStream.opened.write header.bytes).write
        (List.replicate (8 * table.length) (0 : Byte))).write (putU32 dupl)).write
        (dups.flatMap StaticComboAliasRecord_t.bytes)).tellp =
        28 + 8 * table.length + 4 + 8 * dups.length := by
      rw [a4.2, a4.1, a3.1, a2.1, a1.1]
      simp only [OFStream.opened, List.nil_append, List.length_append, header_bytes_length,
        List.length_replicate, putU32_length, aliases_bytes_length]
    have hlen1 : recs1.length = table.length := by rw [e1, withOffsets_length]
    have hcontent : f5.content =
        header.bytes ++ (List.replicate (8 * table.length) (0 : Byte)) ++
        (putU32 dupl ++ dups.flatMap StaticComboAliasRecord_t.bytes ++
          table.flatMap (recordBody hash)) := by
      rw [e2, a4.1, a3.1, a2.1, a1.1]
      simp only [OFStream.opened, List.nil_append, List.append_assoc]
    have hre := rewriteHeaders_spec recs1 (f5.seekp (OFStream.opened.write header.bytes).tellp)
      _ _ _ hcontent (by rw [a1.2, a1.1]; rfl) (by rw [List.length_replicate, hlen1])
    refine ⟨?_, ?_, e4, e5⟩
    · rw [e1, hpos4]
    · rw [← hbytes, hre]
      simp only [List.append_assoc]

theorem writeVcsFile_eq_some {crc32 : List Byte → Nat} {version : Nat} {shaderInfo : ShaderInfo_t}
    {hash : StaticComboNodeHash_t} {out : VcsFile}
    (h : writeVcsFile crc32 version shaderInfo hash = some out) :
    ∃ (st : DedupState) (table : List StaticComboAuxInfo_t),
      dedupLoop crc32 hash DedupState.init = some st ∧
      table = stdSort CompareComboIds (st.StaticComboHeaders ++ [sentinelHeader]) ∧
      out.duplicateCombos = stdSort CompareDupComboIndices st.duplicateCombos ∧
      out.StaticComboHeaders =
        withOffsets hash table (28 + 8 * table.length + 4 + 8 * out.duplicateCombos.length) ∧
      out.ShaderFile =
        out.header.bytes ++ out.StaticComboHeaders.flatMap (fun r => r.toStaticComboRecord_t.bytes)
          ++ putU32 out.duplicateCombos.length
          ++ out.duplicateCombos.flatMap StaticComboAliasRecord_t.bytes
          ++ table.flatMap (recordBody hash) ∧
      out.header =
        { m_nVersion := version
          m_nTotalCombos := narrowCastI32 shaderInfo.m_nTotalShaderCombos
          m_nDynamicCombos := shaderInfo.m_nDynamicCombos
          m_nFlags := 0
          m_nCentroidMask := shaderInfo.m_CentroidMask
          m_nNumStaticCombos := table.length
          m_nSourceCRC32 := shaderInfo.m_Crc32 } ∧
      shaderInfo.m_nDynamicCombos < 2 ^ 31 ∧ table.length < 2 ^ 32 ∧
      out.duplicateCombos.length < 2 ^ 32 ∧
      (∀ r ∈ out.StaticComboHeaders, r.m_nFileOffset < 2 ^ 32) ∧
      (∀ r ∈ table, r.m_nStaticComboID ≠ 0xffffffff →
        ∃ p, FindByKey hash r.m_nStaticComboID = some p) := by
  unfold writeVcsFile at h
  cases hd : dedupLoop crc32 hash DedupState.init with
  | none => simp [hd] at h
  | some st =>
    simp only [hd] at h
    cases hn1 : narrowI32 shaderInfo.m_nDynamicCombos with
    | none => simp [hn1] at h
    | some nDyn =>
      cases hn2 : narrowU32
          (stdSort CompareComboIds (st.StaticComboHeaders ++ [sentinelHeader])).length with
      | none => simp [hn1, hn2] at h
      | some nStat =>
        cases hn3 : narrowU32 st.duplicateCombos.length with
        | none => simp [hn1, hn2, hn3] at h
        | some dupl =>
          obtain ⟨hdyn, rfl⟩ := narrowI32_eq_some.1 hn1
          obtain ⟨hstat, rfl⟩ := narrowU32_eq_some.1 hn2
          obtain ⟨hdup, rfl⟩ := narrowU32_eq_some.1 hn3
          simp only [hn1, hn2, hn3] at h
          split at h
          · exact absurd h (by simp)
          · rename_i recs bytes hw
            simp only [Option.some.injEq] at h
            obtain ⟨e1, e2, e3, e4⟩ := writeStream_eq_some hw
            refine ⟨st, _, rfl, rfl, ?_, ?_, ?_, ?_, hdyn, hstat, ?_, ?_, e4⟩
            · rw [← h]
            · rw [← h]; exact e1
            · rw [← h]
              simp only
              rw [e2, stdSort_length CompareDupComboIndices st.duplicateCombos]
            · rw [← h]
            · rw [← h]
              simpa [stdSort_length] using hdup
            · rw [← h]
              exact e3

/-! ## The hash as a map -/

theorem FindByKey_of_mem {h : StaticComboNodeHash_t} (hnd : KeysNodup h) {p : CStaticCombo}
    (hp : p ∈ h) : FindByKey h p.m_nStaticComboID = some p := by
  induction h with
  | nil => simp at hp
  | cons a t ih =>
    simp only [KeysNodup, List.map_cons, List.nodup_cons, List.mem_map, not_exists, not_and] at hnd
    rcases List.mem_cons.1 hp with rfl | hp
    · simp [FindByKey]
    · have hne : a.m_nStaticComboID ≠ p.m_nStaticComboID := fun e => hnd.1 p hp e.symm
      have : (a.m_nStaticComboID == p.m_nStaticComboID) = false := by simpa using hne
      simp only [FindByKey, List.find?_cons, this]
      exact ih hnd.2 hp

theorem FindByKey_some {h : StaticComboNodeHash_t} {key : Nat} {p : CStaticCombo}
    (hf : FindByKey h key = some p) : p ∈ h ∧ p.m_nStaticComboID = key := by
  refine ⟨List.mem_of_find?_eq_some hf, ?_⟩
  simpa using List.find?_some hf

theorem eq_of_mem_of_key_eq {h : StaticComboNodeHash_t} (hnd : KeysNodup h) {p q : CStaticCombo}
    (hp : p ∈ h) (hq : q ∈ h) (hk : p.m_nStaticComboID = q.m_nStaticComboID) : p = q := by
  have h1 := FindByKey_of_mem hnd hp
  have h2 := FindByKey_of_mem hnd hq
  rw [hk, h2] at h1
  exact (Option.some.inj h1).symm

/-! ## The sorted table -/

theorem orderedInsert_append_last {α : Type} (r : α → α → Prop) [DecidableRel r] (a s : α)
    (hr : r a s) (m : List α) :
    List.orderedInsert r a (m ++ [s]) = List.orderedInsert r a m ++ [s] := by
  induction m with
  | nil => simp [List.orderedInsert, hr]
  | cons b t ih =>
    by_cases hab : r a b
    · simp [List.orderedInsert, hab]
    · simp [List.orderedInsert, hab, ih]

theorem stdSort_append_last {α : Type} (lt : α → α → Bool) (s : α) (l : List α)
    (hl : ∀ a ∈ l, lt s a = false) : stdSort lt (l ++ [s]) = stdSort lt l ++ [s] := by
  unfold stdSort
  induction l with
  | nil => rfl
  | cons a t ih =>
    have ih1 := ih (fun x hx => hl x (List.mem_cons_of_mem _ hx))
    show List.orderedInsert _ a (List.insertionSort _ (t ++ [s])) = _
    rw [ih1]
    exact orderedInsert_append_last _ a s (hl a (List.mem_cons_self _ _)) _

/-- C6. The duplicate search of `WriteShaderFiles` through the 73 buckets indexed by
`crc32 mod 73` (comparison of CRC32, length and bytes) gives, for every hash,
the same accepted headers and the same alias records, canonical combos
included, as the naive search, which classifies a static combo as a duplicate
iff some previously accepted combo has a byte-identical packed blob and takes
that combo as the canonical one; the bucket index is below the size of the
table, and the table keeps its 73 entries. -/
theorem C6_bucketed_search_is_naive_search (crc32 : List Byte → Nat)
    (nodes : StaticComboNodeHash_t) :
    (dedupLoop crc32 nodes DedupState.init).map
        (fun s => (s.StaticComboHeaders, s.duplicateCombos)) =
      naiveDedupLoop crc32 nodes ([], []) ∧
    (∀ code, crc32 code % STATIC_COMBO_HASH_SIZE < STATIC_COMBO_HASH_SIZE) ∧
    STATIC_COMBO_HASH_SIZE = 73 ∧
    (∀ st, dedupLoop crc32 nodes DedupState.init = some st →
      st.comboIndicesHashedByCRC32.length = STATIC_COMBO_HASH_SIZE) := by
  have h := dedupLoop_naive crc32 nodes DedupState.init (BucketInv_init crc32)
  refine ⟨h.1, fun code => Nat.mod_lt _ (by decide), rfl, fun st hst => (h.2 st hst).1⟩

theorem stdSort_map_headerOf (crc32 : List Byte → Nat) (U : List CStaticCombo) :
    stdSort CompareComboIds (U.map (headerOf crc32)) =
      (stdSort compareStaticIds U).map (headerOf crc32) := by
  unfold stdSort
  exact (List.map_insertionSort _ _ (headerOf crc32) U (fun a _ b _ => Iff.rfl)).symm

theorem stdSort_map_aliasOf (Dn : List (CStaticCombo × CStaticCombo)) :
    stdSort CompareDupComboIndices (Dn.map aliasOf) =
      (stdSort compareDuplicateIds Dn).map aliasOf := by
  unfold stdSort
  exact (List.map_insertionSort _ _ aliasOf Dn (fun a _ b _ => Iff.rfl)).symm

theorem writeVcsFile_archiveOf {crc32 : List Byte → Nat} {version : Nat}
    {shaderInfo : ShaderInfo_t} {hash : StaticComboNodeHash_t} {out : VcsFile}
    (hnd : KeysNodup hash) (h : writeVcsFile crc32 version shaderInfo hash = some out) :
    ∃ Us Ds, ArchiveOf crc32 version shaderInfo hash out Us Ds := by
  obtain ⟨st, table, hd, htab, hdup, hrec, hfile, hhead, hdyn, htl, hdl, hoff, -⟩ :=
    writeVcsFile_eq_some h
  obtain ⟨U, Dn, hH, hD, hperm, hcan, hpw, hid⟩ := dedupLoop_classified hd
  simp only at hH hD
  have hidU : ∀ u ∈ U, u.m_nStaticComboID < 2 ^ 32 := by
    intro u hu
    have hmem : u ∈ hash.filter (fun p => decide (p.m_abPackedCode ≠ [])) :=
      hperm.mem_iff.1 (List.mem_append_left _ hu)
    rw [List.mem_filter] at hmem
    exact hid u hmem.1 (by simpa using hmem.2)
  have htable : table = (stdSort compareStaticIds U).map (headerOf crc32) ++ [sentinelHeader] := by
    rw [htab, hH, stdSort_append_last, stdSort_map_headerOf]
    intro a ha
    obtain ⟨u, hu, rfl⟩ := List.mem_map.1 ha
    have := hidU u hu
    simp only [CompareComboIds, sentinelHeader, headerOf, decide_eq_false_iff_not, not_lt]
    omega
  have hdups : out.duplicateCombos = (stdSort compareDuplicateIds Dn).map aliasOf := by
    rw [hdup, hD, stdSort_map_aliasOf]
  have hpU := stdSort_perm compareStaticIds U
  have hpD := stdSort_perm compareDuplicateIds Dn
  have hperm2 : (stdSort compareStaticIds U ++ (stdSort compareDuplicateIds Dn).map Prod.fst).Perm
      (hash.filter (fun p => decide (p.m_abPackedCode ≠ []))) :=
    (List.Perm.append hpU (hpD.map _)).trans hperm
  have hnodup : ((stdSort compareStaticIds U ++ (stdSort compareDuplicateIds Dn).map Prod.fst).map
      (fun p => p.m_nStaticComboID)).Nodup := by
    rw [(hperm2.map _).nodup_iff]
    exact List.Nodup.sublist (List.Sublist.map _ (List.filter_sublist _)) hnd
  rw [List.map_append, List.nodup_append] at hnodup
  have hlenU : (stdSort compareStaticIds U).length = U.length := stdSort_length _ _
  have hlenD : (stdSort compareDuplicateIds Dn).length = Dn.length := stdSort_length _ _
  have hlenT : table.length = (stdSort compareStaticIds U).length + 1 := by rw [htable]; simp
  have hlenA : out.duplicateCombos.length = (stdSort compareDuplicateIds Dn).length := by
    rw [hdups]; simp
  refine ⟨stdSort compareStaticIds U, stdSort compareDuplicateIds Dn, ?_⟩
  refine
    { perm := hperm2
      canonical := ?_
      distinct := ?_
      sortedUs := ?_
      sortedDs := ?_
      idBound := hid
      records := ?_
      aliases := hdups
      file := ?_
      header := ?_
      dynBound := hdyn
      tableBound := by rw [← hlenT]; exact htl
      aliasBound := by rw [← hlenA]; exact hdl
      offsetBound := hoff }
  · intro x hx
    have hx' := hpD.mem_iff.1 hx
    exact ⟨hpU.mem_iff.2 (hcan x hx').1, (hcan x hx').2⟩
  · exact (hpU.pairwise_iff (fun {a b} hab => Ne.symm hab)).2 hpw
  · have h1 := stdSort_pairwise_lt (fun p : CStaticCombo => p.m_nStaticComboID) compareStaticIds
      (fun _ _ => rfl) U ((hpU.map _).nodup_iff.1 hnodup.1)
    exact h1
  · have hnd2 : (Dn.map (fun x => x.1.m_nStaticComboID)).Nodup := by
      have := hnodup.2.1
      rw [List.map_map] at this
      exact ((hpD.map _).nodup_iff.1 this)
    exact stdSort_pairwise_lt (fun x : CStaticCombo × CStaticCombo => x.1.m_nStaticComboID)
      compareDuplicateIds (fun _ _ => rfl) Dn hnd2
  · rw [hrec, hlenA, hlenT, htable]
  · rw [hfile, hlenA, htable]
  · rw [hhead, hlenT]

/-! ## Offsets and bodies -/

theorem withOffsets_append (hash : StaticComboNodeHash_t) (l1 l2 : List StaticComboAuxInfo_t) :
    ∀ pos, withOffsets hash (l1 ++ l2) pos =
      withOffsets hash l1 pos ++ withOffsets hash l2 (pos + (l1.flatMap (recordBody hash)).length) := by
  induction l1 with
  | nil => intro pos; simp [withOffsets]
  | cons a t ih =>
    intro pos
    have e := ih (pos + (recordBody hash a).length)
    show _ :: withOffsets hash (t ++ l2) _ = _
    rw [e]
    simp only [withOffsets, List.cons_append, List.flatMap_cons, List.length_append,
      Nat.add_assoc]

theorem withOffsets_map (hash : StaticComboNodeHash_t) {β : Type} (g : StaticComboAuxInfo_t → β)
    (hg : ∀ r off, g { r with m_nFileOffset := off } = g r) (l : List StaticComboAuxInfo_t) :
    ∀ pos, (withOffsets hash l pos).map g = l.map g := by
  induction l with
  | nil => intro pos; rfl
  | cons a t ih => intro pos; simp [withOffsets, ih, hg]

theorem withOffsets_flatMap (hash : StaticComboNodeHash_t) {β : Type}
    (g : StaticComboAuxInfo_t → List β) (hg : ∀ r off, g { r with m_nFileOffset := off } = g r)
    (l : List StaticComboAuxInfo_t) :
    ∀ pos, (withOffsets hash l pos).flatMap g = l.flatMap g := by
  induction l with
  | nil => intro pos; rfl
  | cons a t ih => intro pos; simp [withOffsets, ih, hg]

theorem recordBody_sentinel (hash : StaticComboNodeHash_t) :
    recordBody hash sentinelHeader = [] := by
  simp [recordBody, sentinelHeader]

theorem recordBody_headerOf {crc32 : List Byte → Nat} {hash : StaticComboNodeHash_t}
    (hnd : KeysNodup hash) {p : CStaticCombo} (hp : p ∈ hash)
    (hid : p.m_nStaticComboID ≠ 0xffffffff) :
    recordBody hash (headerOf crc32 p) = p.m_abPackedCode ++ putU32 0xffffffff := by
  simp only [recordBody, headerOf, hid, if_false, FindByKey_of_mem hnd hp]

theorem ArchiveOf.mem_hash {crc32 : List Byte → Nat} {version : Nat} {shaderInfo : ShaderInfo_t}
    {hash : StaticComboNodeHash_t} {out : VcsFile} {Us : List CStaticCombo}
    {Ds : List (CStaticCombo × CStaticCombo)}
    (ha : ArchiveOf crc32 version shaderInfo hash out Us Ds) :
    (∀ u ∈ Us, u ∈ hash ∧ u.m_abPackedCode ≠ []) ∧
    (∀ x ∈ Ds, x.1 ∈ hash ∧ x.1.m_abPackedCode ≠ []) := by
  constructor
  · intro u hu
    have := ha.perm.mem_iff.1 (List.mem_append_left _ hu)
    rw [List.mem_filter] at this
    exact ⟨this.1, by simpa using this.2⟩
  · intro x hx
    have := ha.perm.mem_iff.1 (List.mem_append_right _ (List.mem_map_of_mem _ hx))
    rw [List.mem_filter] at this
    exact ⟨this.1, by simpa using this.2⟩

theorem ArchiveOf.nodup_ids {crc32 : List Byte → Nat} {version : Nat} {shaderInfo : ShaderInfo_t}
    {hash : StaticComboNodeHash_t} {out : VcsFile} {Us : List CStaticCombo}
    {Ds : List (CStaticCombo × CStaticCombo)} (hnd : KeysNodup hash)
    (ha : ArchiveOf crc32 version shaderInfo hash out Us Ds) :
    ((Us ++ Ds.map Prod.fst).map (fun p => p.m_nStaticComboID)).Nodup := by
  rw [(ha.perm.map _).nodup_iff]
  exact List.Nodup.sublist (List.Sublist.map _ (List.filter_sublist _)) hnd

theorem ArchiveOf.id_ne {crc32 : List Byte → Nat} {version : Nat} {shaderInfo : ShaderInfo_t}
    {hash : StaticComboNodeHash_t} {out : VcsFile} {Us : List CStaticCombo}
    {Ds : List (CStaticCombo × CStaticCombo)} (hnd : KeysNodup hash)
    (ha : ArchiveOf crc32 version shaderInfo hash out Us Ds) :
    ∀ u ∈ Us, ∀ x ∈ Ds, u.m_nStaticComboID ≠ x.1.m_nStaticComboID := by
  have h := ha.nodup_ids hnd
  rw [List.map_append, List.nodup_append] at h
  intro u hu x hx he
  exact h.2.2 (List.mem_map_of_mem _ hu)
    (by rw [he]; exact List.mem_map_of_mem (fun p : CStaticCombo => p.m_nStaticComboID)
          (List.mem_map_of_mem Prod.fst hx))

theorem ArchiveOf.bodies {crc32 : List Byte → Nat} {version : Nat} {shaderInfo : ShaderInfo_t}
    {hash : StaticComboNodeHash_t} {out : VcsFile} {Us : List CStaticCombo}
    {Ds : List (CStaticCombo × CStaticCombo)} (hnd : KeysNodup hash)
    (ha : ArchiveOf crc32 version shaderInfo hash out Us Ds)
    (hid : ∀ u ∈ Us, u.m_nStaticComboID ≠ 0xffffffff) :
    (Us.map (headerOf crc32) ++ [sentinelHeader]).flatMap (recordBody hash) =
      Us.flatMap (fun p => p.m_abPackedCode ++ putU32 0xffffffff) := by
  rw [List.flatMap_append]
  simp only [List.flatMap_cons, List.flatMap_nil, recordBody_sentinel, List.append_nil]
  have hmem := ha.mem_hash.1
  clear ha
  induction Us with
  | nil => rfl
  | cons a t ih =>
    simp only [List.map_cons, List.flatMap_cons]
    rw [recordBody_headerOf hnd (hmem a (List.mem_cons_self _ _)).1 (hid a (List.mem_cons_self _ _)),
      ih (fun u hu => hid u (List.mem_cons_of_mem _ hu))
        (fun u hu => hmem u (List.mem_cons_of_mem _ hu))]

/-- C8. Assuming that the hash is a map and that every static combo id is below
`0xFFFFFFFF`: the `StaticComboRecord` table that `WriteShaderFiles` writes is
strictly ascending by id, its last entry has the sentinel id `0xFFFFFFFF`, the
bodies follow the alias table in the order of the table (for every record made
from a combo its packed code and the end mark, nothing for the sentinel), and
`num_static_combos` in the header is one more than the number of static combos
that have a non-empty packed blob and are not recorded as an alias. -/
theorem C8_table_ascending_sentinel_last (crc32 : List Byte → Nat) (version : Nat)
    (shaderInfo : ShaderInfo_t) (hash : StaticComboNodeHash_t) (out : VcsFile)
    (hnd : KeysNodup hash) (hid : ∀ p ∈ hash, p.m_nStaticComboID < 0xffffffff)
    (h : writeVcsFile crc32 version shaderInfo hash = some out) :
    (out.StaticComboHeaders.map (fun r => r.m_nStaticComboID)).Pairwise (fun a b => a < b) ∧
    (out.StaticComboHeaders.map (fun r => r.m_nStaticComboID)).getLast? = some 0xffffffff ∧
    out.ShaderFile =
      out.header.bytes ++ out.StaticComboHeaders.flatMap (fun r => r.toStaticComboRecord_t.bytes)
        ++ putU32 out.duplicateCombos.length
        ++ out.duplicateCombos.flatMap StaticComboAliasRecord_t.bytes
        ++ out.StaticComboHeaders.flatMap (fun r =>
            match r.m_pByteCode with
            | some p => p.m_abPackedCode ++ putU32 0xffffffff
            | none => []) ∧
    out.header.m_nNumStaticCombos = out.StaticComboHeaders.length ∧
    out.header.m_nNumStaticCombos =
      (hash.filter (fun p => decide (p.m_abPackedCode ≠ []) &&
        out.duplicateCombos.all (fun d => decide (d.m_nStaticComboID ≠ p.m_nStaticComboID)))).length
        + 1 := by
  obtain ⟨Us, Ds, ha⟩ := writeVcsFile_archiveOf hnd h
  have hmemU := ha.mem_hash.1
  have hidU : ∀ u ∈ Us, u.m_nStaticComboID ≠ 0xffffffff := fun u hu =>
    Nat.ne_of_lt (hid u (hmemU u hu).1)
  have hids : out.StaticComboHeaders.map (fun r => r.m_nStaticComboID) =
      Us.map (fun p => p.m_nStaticComboID) ++ [0xffffffff] := by
    rw [ha.records, withOffsets_map hash (fun r => r.m_nStaticComboID) (fun _ _ => rfl)]
    simp [headerOf, sentinelHeader, Function.comp_def]
  refine ⟨?_, ?_, ?_, ?_, ?_⟩
  · rw [hids, List.pairwise_append]
    refine ⟨List.pairwise_map.2 ha.sortedUs, List.pairwise_singleton _ _, ?_⟩
    intro a ha1 b hb
    obtain ⟨u, hu, rfl⟩ := List.mem_map.1 ha1
    simp only [List.mem_singleton] at hb
    subst hb
    exact hid u (hmemU u hu).1
  · rw [hids]; simp
  · have hb := ha.bodies hnd hidU
    rw [ha.file, hb, ha.aliases, List.length_map]
    congr 1
    rw [ha.records, withOffsets_flatMap hash (fun r : StaticComboAuxInfo_t =>
      match r.m_pByteCode with
      | some p => p.m_abPackedCode ++ putU32 0xffffffff
      | none => []) (fun _ _ => rfl), List.flatMap_append]
    simp only [List.flatMap_cons, List.flatMap_nil, sentinelHeader, List.append_nil]
    clear hb hids hidU hmemU ha
    induction Us with
    | nil => rfl
    | cons a t ih => simp only [List.map_cons, List.flatMap_cons, headerOf, ih]
  · rw [ha.header, ha.records, withOffsets_length]
    simp
  · rw [ha.header]
    simp only [Nat.add_right_cancel_iff]
    have hsplit : hash.filter (fun p => decide (p.m_abPackedCode ≠ []) &&
        out.duplicateCombos.all (fun d => decide (d.m_nStaticComboID ≠ p.m_nStaticComboID))) =
        (hash.filter (fun p => decide (p.m_abPackedCode ≠ []))).filter (fun p =>
          out.duplicateCombos.all (fun d => decide (d.m_nStaticComboID ≠ p.m_nStaticComboID))) := by
      rw [List.filter_filter]
      apply List.filter_congr
      intro x _
      rw [Bool.and_comm]
    rw [hsplit, ← (ha.perm.filter _).length_eq, List.filter_append]
    have hne := ha.id_ne hnd
    have h1 : Us.filter (fun p =>
        out.duplicateCombos.all (fun d => decide (d.m_nStaticComboID ≠ p.m_nStaticComboID))) = Us := by
      rw [List.filter_eq_self]
      intro u hu
      rw [List.all_eq_true]
      intro d hd
      rw [ha.aliases] at hd
      obtain ⟨x, hx, rfl⟩ := List.mem_map.1 hd
      simp only [aliasOf, decide_eq_true_eq]
      exact fun e => hne u hu x hx e.symm
    have h2 : (Ds.map Prod.fst).filter (fun p =>
        out.duplicateCombos.all (fun d => decide (d.m_nStaticComboID ≠ p.m_nStaticComboID))) = [] := by
      rw [List.filter_eq_nil_iff]
      intro p hp
      obtain ⟨x, hx, rfl⟩ := List.mem_map.1 hp
      rw [List.all_eq_true]
      intro hall
      have := hall (aliasOf x) (by rw [ha.aliases]; exact List.mem_map_of_mem _ hx)
      simp [aliasOf] at this
    rw [h1, h2, List.append_nil]

theorem C8_table_ascending_sentinel_last_witness :
    KeysNodup exampleHash ∧ (∀ p ∈ exampleHash, p.m_nStaticComboID < 0xffffffff) ∧
    ∃ out, writeVcsFile exampleCrc32 6 exampleInfo exampleHash = some out ∧
      (out.StaticComboHeaders.map (fun r => r.m_nStaticComboID)).Pairwise (fun a b => a < b) ∧
      (out.StaticComboHeaders.map (fun r => r.m_nStaticComboID)).getLast? = some 0xffffffff ∧
      out.header.m_nNumStaticCombos = 3 :=
  ⟨by decide, by decide, _, rfl,
    (C8_table_ascending_sentinel_last exampleCrc32 6 exampleInfo exampleHash _
      (by decide) (by decide) rfl).1,
    (C8_table_ascending_sentinel_last exampleCrc32 6 exampleInfo exampleHash _
      (by decide) (by decide) rfl).2.1,
    rfl⟩

/-- C9. Assuming that the hash is a map: the alias table that `WriteShaderFiles`
writes is strictly ascending by its first field, it is a rearrangement of the
alias records that the duplicate detection appended (every detected duplicate
is there exactly once), and the `uint32` written before it, right after the
`StaticComboRecord` table, is the number of alias records. -/
theorem C9_alias_table_sorted (crc32 : List Byte → Nat) (version : Nat)
    (shaderInfo : ShaderInfo_t) (hash : StaticComboNodeHash_t) (out : VcsFile)
    (hnd : KeysNodup hash) (h : writeVcsFile crc32 version shaderInfo hash = some out) :
    (out.duplicateCombos.map (fun d => d.m_nStaticComboID)).Pairwise (fun a b => a < b) ∧
    (∃ st, dedupLoop crc32 hash DedupState.init = some st ∧
      out.duplicateCombos.Perm st.duplicateCombos) ∧
    out.duplicateCombos.length < 2 ^ 32 ∧
    ∃ pre post, out.ShaderFile =
        pre ++ putU32 out.duplicateCombos.length
          ++ out.duplicateCombos.flatMap StaticComboAliasRecord_t.bytes ++ post ∧
      pre.length = 28 + 8 * out.StaticComboHeaders.length := by
  obtain ⟨Us, Ds, ha⟩ := writeVcsFile_archiveOf hnd h
  obtain ⟨st, table, hd, -, hdup, -⟩ := writeVcsFile_eq_some h
  refine ⟨?_, ⟨st, hd, ?_⟩, ?_, ?_⟩
  · rw [ha.aliases, List.map_map]
    exact List.pairwise_map.2 ha.sortedDs
  · rw [hdup]; exact stdSort_perm _ _
  · rw [ha.aliases, List.length_map]; exact ha.aliasBound
  · refine ⟨out.header.bytes ++
      out.StaticComboHeaders.flatMap (fun r => r.toStaticComboRecord_t.bytes),
      (Us.map (headerOf crc32) ++ [sentinelHeader]).flatMap (recordBody hash), ?_, ?_⟩
    · rw [ha.file, ha.aliases, List.length_map]
    · rw [List.length_append, header_bytes_length, records_bytes_length]

theorem C9_alias_table_sorted_witness :
    KeysNodup exampleHash ∧
    ∃ out, writeVcsFile exampleCrc32 6 exampleInfo exampleHash = some out ∧
      (out.duplicateCombos.map (fun d => d.m_nStaticComboID)).Pairwise (fun a b => a < b) ∧
      out.duplicateCombos = [{ m_nStaticComboID := 1, m_nSourceStaticCombo := 2 }] :=
  ⟨by decide, _, rfl,
    (C9_alias_table_sorted exampleCrc32 6 exampleInfo exampleHash _ (by decide) rfl).1, rfl⟩

theorem C10_blocks_hold_sorted_records_witness :
    StaticComboFromDict exampleShaderMap "example_ps20b" 3 = some exampleCombo ∧
    exampleCombo.m_DynamicCombos ≠ [] ∧
    ∀ r, AssembleWorkerReplyPackage (fun _ => none) 64 exampleShaderMap "example_ps20b" 3 []
        = some r →
      r.handedToCompressor.flatten =
        dynamicComboRecords [{ m_nComboID := 0, code := [9] }, { m_nComboID := 1, code := [7, 8] }] :=
  ⟨by decide, by decide, fun r hr =>
    ((C10_blocks_hold_sorted_records (fun _ => none) 64 exampleShaderMap "example_ps20b" 3 []
      exampleCombo (by decide) (by decide)).2 r hr).2.2.1⟩

theorem withOffsets_getElem? (hash : StaticComboNodeHash_t) (l : List StaticComboAuxInfo_t) :
    ∀ (i pos : Nat), (withOffsets hash l pos)[i]? =
      (l[i]?).map (fun r =>
        { r with m_nFileOffset := pos + ((l.take i).flatMap (recordBody hash)).length }) := by
  induction l with
  | nil => intro i pos; simp [withOffsets]
  | cons a t ih =>
    intro i pos
    cases i with
    | zero => simp [withOffsets]
    | succ j =>
      simp only [withOffsets, List.getElem?_cons_succ, ih, List.take_succ_cons, List.flatMap_cons,
        List.length_append, Nat.add_assoc]

theorem drop_flatMap_take {α β : Type} (f : α → List β) (l : List α) (pre : List β) :
    ∀ (i : Nat) (r : α), l[i]? = some r →
      (pre ++ l.flatMap f).drop (pre.length + ((l.take i).flatMap f).length) =
        f r ++ (l.drop (i + 1)).flatMap f := by
  induction l generalizing pre with
  | nil => intro i r h; simp at h
  | cons a t ih =>
    intro i r h
    cases i with
    | zero =>
      simp only [List.getElem?_cons_zero, Option.some.injEq] at h
      subst h
      simp
    | succ j =>
      simp only [List.getElem?_cons_succ] at h
      have := ih (pre ++ f a) j r h
      simp only [List.length_append, List.append_assoc] at this
      simp only [List.flatMap_cons, List.take_succ_cons, List.length_append, List.drop_succ_cons]
      rw [← Nat.add_assoc]
      exact this

theorem flatMap_recordBody_headerOf {crc32 : List Byte → Nat} {hash : StaticComboNodeHash_t}
    (hnd : KeysNodup hash) (l : List CStaticCombo)
    (hl : ∀ p ∈ l, p ∈ hash ∧ p.m_nStaticComboID ≠ 0xffffffff) :
    (l.map (headerOf crc32)).flatMap (recordBody hash) = l.flatMap comboBody := by
  induction l with
  | nil => rfl
  | cons a t ih =>
    simp only [List.map_cons, List.flatMap_cons]
    rw [recordBody_headerOf hnd (hl a (List.mem_cons_self _ _)).1 (hl a (List.mem_cons_self _ _)).2,
      ih (fun p hp => hl p (List.mem_cons_of_mem _ hp))]
    rfl

theorem ArchiveOf.file_eq {crc32 : List Byte → Nat} {version : Nat} {shaderInfo : ShaderInfo_t}
    {hash : StaticComboNodeHash_t} {out : VcsFile} {Us : List CStaticCombo}
    {Ds : List (CStaticCombo × CStaticCombo)} (hnd : KeysNodup hash)
    (ha : ArchiveOf crc32 version shaderInfo hash out Us Ds)
    (hid : ∀ u ∈ Us, u.m_nStaticComboID ≠ 0xffffffff) :
    ∃ pre, pre.length = 28 + 8 * (Us.length + 1) + 4 + 8 * Ds.length ∧
      pre = out.header.bytes ++ out.StaticComboHeaders.flatMap (fun r => r.toStaticComboRecord_t.bytes)
        ++ putU32 Ds.length ++ out.duplicateCombos.flatMap StaticComboAliasRecord_t.bytes ∧
      out.ShaderFile = pre ++ Us.flatMap comboBody := by
  refine ⟨_, ?_, rfl, ?_⟩
  · simp only [List.length_append, header_bytes_length, records_bytes_length, putU32_length,
      aliases_bytes_length, ha.records, withOffsets_length, ha.aliases, List.length_map,
      List.length_cons, List.length_nil]
  · rw [ha.file, List.flatMap_append]
    simp only [List.flatMap_cons, List.flatMap_nil, recordBody_sentinel, List.append_nil]
    rw [flatMap_recordBody_headerOf hnd Us (fun p hp => ⟨(ha.mem_hash.1 p hp).1, hid p hp⟩)]

theorem ArchiveOf.record_at {crc32 : List Byte → Nat} {version : Nat} {shaderInfo : ShaderInfo_t}
    {hash : StaticComboNodeHash_t} {out : VcsFile} {Us : List CStaticCombo}
    {Ds : List (CStaticCombo × CStaticCombo)} (hnd : KeysNodup hash)
    (ha : ArchiveOf crc32 version shaderInfo hash out Us Ds)
    (hid : ∀ u ∈ Us, u.m_nStaticComboID ≠ 0xffffffff) (i : Nat) (u : CStaticCombo)
    (hu : Us[i]? = some u) :
    ∃ r, out.StaticComboHeaders[i]? = some r ∧ r.m_nStaticComboID = u.m_nStaticComboID ∧
      r.m_pByteCode = some u ∧
      r.m_nFileOffset =
        28 + 8 * (Us.length + 1) + 4 + 8 * Ds.length + ((Us.take i).flatMap comboBody).length ∧
      out.ShaderFile.drop r.m_nFileOffset = comboBody u ++ (Us.drop (i + 1)).flatMap comboBody := by
  obtain ⟨hlt, hget⟩ := List.getElem?_eq_some.1 hu
  have htab : (Us.map (headerOf crc32) ++ [sentinelHeader])[i]? = some (headerOf crc32 u) := by
    rw [List.getElem?_append_left (by simpa using hlt), List.getElem?_map, hu]
    rfl
  have htake : (Us.map (headerOf crc32) ++ [sentinelHeader]).take i =
      (Us.take i).map (headerOf crc32) := by
    rw [List.take_append_of_le_length (by simp; omega), List.map_take]
  have hbod : (((Us.map (headerOf crc32) ++ [sentinelHeader]).take i).flatMap
      (recordBody hash)).length = ((Us.take i).flatMap comboBody).length := by
    rw [htake, flatMap_recordBody_headerOf hnd]
    intro p hp
    have hp' := List.mem_of_mem_take hp
    exact ⟨(ha.mem_hash.1 p hp').1, hid p hp'⟩
  have hrec : out.StaticComboHeaders[i]? = some
      { headerOf crc32 u with
        m_nFileOffset := 28 + 8 * (Us.length + 1) + 4 + 8 * Ds.length +
          ((Us.take i).flatMap comboBody).length } := by
    rw [ha.records, withOffsets_getElem?, htab]
    simp only [Option.map_some', hbod]
  refine ⟨_, hrec, rfl, rfl, rfl, ?_⟩
  obtain ⟨pre, hpl, -, hfile⟩ := ha.file_eq hnd hid
  simp only
  rw [hfile, ← hpl]
  exact drop_flatMap_take comboBody Us pre i u hu

theorem ArchiveOf.sentinel_at {crc32 : List Byte → Nat} {version : Nat}
    {shaderInfo : ShaderInfo_t} {hash : StaticComboNodeHash_t} {out : VcsFile}
    {Us : List CStaticCombo} {Ds : List (CStaticCombo × CStaticCombo)} (hnd : KeysNodup hash)
    (ha : ArchiveOf crc32 version shaderInfo hash out Us Ds)
    (hid : ∀ u ∈ Us, u.m_nStaticComboID ≠ 0xffffffff) :
    out.StaticComboHeaders.length = Us.length + 1 ∧
    ∃ r, out.StaticComboHeaders[Us.length]? = some r ∧ r.m_nStaticComboID = 0xffffffff ∧
      r.m_pByteCode = none ∧ r.m_nFileOffset = out.ShaderFile.length := by
  have htab : (Us.map (headerOf crc32) ++ [sentinelHeader])[Us.length]? = some sentinelHeader := by
    rw [List.getElem?_append_right (by simp)]
    simp
  have htake : (Us.map (headerOf crc32) ++ [sentinelHeader]).take Us.length =
      Us.map (headerOf crc32) := by
    rw [List.take_append_of_le_length (by simp)]
    exact List.take_of_length_le (by simp)
  obtain ⟨pre, hpl, -, hfile⟩ := ha.file_eq hnd hid
  have hrec : out.StaticComboHeaders[Us.length]? = some
      { sentinelHeader with m_nFileOffset := out.ShaderFile.length } := by
    rw [ha.records, withOffsets_getElem?, htab]
    simp only [Option.map_some', htake]
    rw [flatMap_recordBody_headerOf hnd Us (fun p hp => ⟨(ha.mem_hash.1 p hp).1, hid p hp⟩),
      hfile, List.length_append, hpl]
  exact ⟨by rw [ha.records, withOffsets_length]; simp, _, hrec, rfl, rfl, rfl⟩

theorem comboBody_length (p : CStaticCombo) :
    (comboBody p).length = p.m_abPackedCode.length + 4 := by
  simp [comboBody, putU32_length]

theorem take_succ_flatMap_length {α β : Type} (f : α → List β) (l : List α) (i : Nat) (u : α)
    (hu : l[i]? = some u) :
    ((l.take (i + 1)).flatMap f).length = ((l.take i).flatMap f).length + (f u).length := by
  rw [List.take_succ, hu]
  simp [List.flatMap_append]

/-- C7 as the code has it: a static combo whose id is `0xFFFFFFFF` is taken for the
sentinel by the loop that writes the bodies. Its record and the sentinel get
the same offset, `48`, which is also the length of the file: nothing is written
for the five bytes of its packed blob. -/
theorem C7_counterexample_sentinel_id :
    ∃ out, writeVcsFile exampleCrc32 6 exampleInfo sentinelIdHash = some out ∧
      out.StaticComboHeaders.map
          (fun r => (r.m_nStaticComboID, r.m_nFileOffset,
            r.m_pByteCode.map (fun p => p.m_abPackedCode.length))) =
        [(0xffffffff, 48, some 5), (0xffffffff, 48, none)] ∧
      out.ShaderFile.length = 48 :=
  ⟨_, rfl, rfl, rfl⟩

/-- C7, amended. Assuming that the hash is a map and that every static combo id is
below `0xFFFFFFFF`: with `n` records (sentinel included) and `a` alias records
the first record's `file_offset` is `28 + 8 * n + 4 + 8 * a`; of two consecutive
records the second offset is the first one plus the length of the packed blob
of the first record's combo plus 4; the last record is the sentinel and its
`file_offset` is the length of the file; and the table stored in the file after
the header is the table with these offsets, each of which fits in 32 bits. -/
theorem C7_back_patched_offsets (crc32 : List Byte → Nat) (version : Nat)
    (shaderInfo : ShaderInfo_t) (hash : StaticComboNodeHash_t) (out : VcsFile)
    (hnd : KeysNodup hash) (hid : ∀ p ∈ hash, p.m_nStaticComboID < 0xffffffff)
    (h : writeVcsFile crc32 version shaderInfo hash = some out) :
    (∃ r, out.StaticComboHeaders[0]? = some r ∧
      r.m_nFileOffset =
        28 + 8 * out.StaticComboHeaders.length + 4 + 8 * out.duplicateCombos.length) ∧
    (∀ i r1 r2, out.StaticComboHeaders[i]? = some r1 → out.StaticComboHeaders[i + 1]? = some r2 →
      ∃ p, p ∈ hash ∧ r1.m_pByteCode = some p ∧ r1.m_nStaticComboID = p.m_nStaticComboID ∧
        r2.m_nFileOffset = r1.m_nFileOffset + (p.m_abPackedCode.length + 4)) ∧
    (∃ s, out.StaticComboHeaders.getLast? = some s ∧ s.m_nStaticComboID = 0xffffffff ∧
      s.m_nFileOffset = out.ShaderFile.length) ∧
    (out.ShaderFile.drop 28).take (8 * out.StaticComboHeaders.length) =
      out.StaticComboHeaders.flatMap (fun r => r.toStaticComboRecord_t.bytes) ∧
    (∀ r ∈ out.StaticComboHeaders, r.m_nFileOffset < 2 ^ 32) := by
  obtain ⟨Us, Ds, ha⟩ := writeVcsFile_archiveOf hnd h
  have hidU : ∀ u ∈ Us, u.m_nStaticComboID ≠ 0xffffffff := fun u hu =>
    Nat.ne_of_lt (hid u (ha.mem_hash.1 u hu).1)
  obtain ⟨hlen, s, hs, hsid, -, hsoff⟩ := ha.sentinel_at hnd hidU
  obtain ⟨pre, hpl, hpre, hfile⟩ := ha.file_eq hnd hidU
  have hlenA : out.duplicateCombos.length = Ds.length := by rw [ha.aliases, List.length_map]
  -- the offset of the record at any position
  have hoff : ∀ i r, out.StaticComboHeaders[i]? = some r →
      r.m_nFileOffset =
        28 + 8 * (Us.length + 1) + 4 + 8 * Ds.length + ((Us.take i).flatMap comboBody).length := by
    intro i r hr
    have hi : i < Us.length + 1 := by
      rw [← hlen]; exact (List.getElem?_eq_some.1 hr).1
    by_cases hlt : i < Us.length
    · obtain ⟨r', hr', -, -, ho, -⟩ := ha.record_at hnd hidU i Us[i] (List.getElem?_eq_getElem hlt)
      rw [hr] at hr'
      rw [Option.some.inj hr']; exact ho
    · have hieq : i = Us.length := by omega
      subst hieq
      rw [hr] at hs
      rw [Option.some.inj hs, hsoff, hfile, List.length_append, hpl, List.take_length]
  refine ⟨?_, ?_, ?_, ?_, ha.offsetBound⟩
  · have h0 : 0 < out.StaticComboHeaders.length := by omega
    refine ⟨out.StaticComboHeaders[0], List.getElem?_eq_getElem h0, ?_⟩
    rw [hoff 0 _ (List.getElem?_eq_getElem h0), hlen, hlenA]
    simp
  · intro i r1 r2 h1 h2
    have hi : i + 1 < Us.length + 1 := by
      rw [← hlen]; exact (List.getElem?_eq_some.1 h2).1
    have hlt : i < Us.length := by omega
    have hu : Us[i]? = some Us[i] := List.getElem?_eq_getElem hlt
    obtain ⟨r', hr', hid', hp', -, -⟩ := ha.record_at hnd hidU i Us[i] hu
    rw [h1] at hr'
    have hr1 := Option.some.inj hr'
    refine ⟨Us[i], (ha.mem_hash.1 _ (List.getElem_mem hlt)).1, ?_, ?_, ?_⟩
    · rw [hr1]; exact hp'
    · rw [hr1]; exact hid'
    · rw [hoff i r1 h1, hoff (i + 1) r2 h2, take_succ_flatMap_length comboBody Us i _ hu,
        comboBody_length]
      omega
  · refine ⟨s, ?_, hsid, hsoff⟩
    rw [List.getLast?_eq_getElem?, hlen]
    simpa using hs
  · rw [hfile, hpre, hlen]
    simp only [List.append_assoc]
    rw [List.drop_left' (header_bytes_length _)]
    rw [List.take_left']
    rw [records_bytes_length, hlen]

theorem C7_back_patched_offsets_witness :
    KeysNodup exampleHash ∧ (∀ p ∈ exampleHash, p.m_nStaticComboID < 0xffffffff) ∧
    ∃ out, writeVcsFile exampleCrc32 6 exampleInfo exampleHash = some out ∧
      (∃ r, out.StaticComboHeaders[0]? = some r ∧
        r.m_nFileOffset =
          28 + 8 * out.StaticComboHeaders.length + 4 + 8 * out.duplicateCombos.length) ∧
      out.StaticComboHeaders.map (fun r => (r.m_nStaticComboID, r.m_nFileOffset)) =
        [(0, 64), (2, 73), (0xffffffff, 82)] :=
  ⟨by decide, by decide, _, rfl,
    (C7_back_patched_offsets exampleCrc32 6 exampleInfo exampleHash _
      (by decide) (by decide) rfl).1, rfl⟩

theorem ArchiveOf.records_cases {crc32 : List Byte → Nat} {version : Nat}
    {shaderInfo : ShaderInfo_t} {hash : StaticComboNodeHash_t} {out : VcsFile}
    {Us : List CStaticCombo} {Ds : List (CStaticCombo × CStaticCombo)}
    (ha : ArchiveOf crc32 version shaderInfo hash out Us Ds) :
    ∀ r ∈ out.StaticComboHeaders,
      (∃ u ∈ Us, r.m_pByteCode = some u ∧ r.m_nStaticComboID = u.m_nStaticComboID) ∨
      (r.m_pByteCode = none ∧ r.m_nStaticComboID = 0xffffffff) := by
  intro r hr
  have hmap := withOffsets_map hash (fun r : StaticComboAuxInfo_t => (r.m_nStaticComboID, r.m_pByteCode))
    (fun _ _ => rfl) (Us.map (headerOf crc32) ++ [sentinelHeader])
    (28 + 8 * (Us.length + 1) + 4 + 8 * Ds.length)
  rw [← ha.records] at hmap
  have hmem : (r.m_nStaticComboID, r.m_pByteCode) ∈
      (Us.map (headerOf crc32) ++ [sentinelHeader]).map
        (fun r : StaticComboAuxInfo_t => (r.m_nStaticComboID, r.m_pByteCode)) := by
    rw [← hmap]
    exact List.mem_map_of_mem (fun r : StaticComboAuxInfo_t => (r.m_nStaticComboID, r.m_pByteCode)) hr
  obtain ⟨t, ht, hte⟩ := List.mem_map.1 hmem
  simp only [Prod.mk.injEq] at hte
  rcases List.mem_append.1 ht with ht | ht
  · obtain ⟨u, hu, rfl⟩ := List.mem_map.1 ht
    left
    exact ⟨u, hu, hte.2.symm, hte.1.symm⟩
  · simp only [List.mem_singleton] at ht
    subst ht
    right
    exact ⟨hte.2.symm, hte.1.symm⟩

theorem ArchiveOf.record_of_mem {crc32 : List Byte → Nat} {version : Nat}
    {shaderInfo : ShaderInfo_t} {hash : StaticComboNodeHash_t} {out : VcsFile}
    {Us : List CStaticCombo} {Ds : List (CStaticCombo × CStaticCombo)} (hnd : KeysNodup hash)
    (ha : ArchiveOf crc32 version shaderInfo hash out Us Ds)
    (hid : ∀ u ∈ Us, u.m_nStaticComboID ≠ 0xffffffff) {u : CStaticCombo} (hu : u ∈ Us) :
    ∃ r ∈ out.StaticComboHeaders, r.m_pByteCode = some u ∧
      r.m_nStaticComboID = u.m_nStaticComboID ∧
      ∃ rest, out.ShaderFile.drop r.m_nFileOffset = comboBody u ++ rest := by
  obtain ⟨i, hi⟩ := List.mem_iff_getElem?.1 hu
  obtain ⟨r, hr, h1, h2, -, h4⟩ := ha.record_at hnd hid i u hi
  exact ⟨r, List.getElem?_mem hr, h2, h1, _, h4⟩

theorem ArchiveOf.eq_of_code_eq {crc32 : List Byte → Nat} {version : Nat}
    {shaderInfo : ShaderInfo_t} {hash : StaticComboNodeHash_t} {out : VcsFile}
    {Us : List CStaticCombo} {Ds : List (CStaticCombo × CStaticCombo)}
    (ha : ArchiveOf crc32 version shaderInfo hash out Us Ds) {u v : CStaticCombo}
    (hu : u ∈ Us) (hv : v ∈ Us) (hc : u.m_abPackedCode = v.m_abPackedCode) : u = v := by
  by_contra hne
  exact List.Pairwise.forall (fun _ _ h => Ne.symm h) ha.distinct hu hv hne hc

/-- C5 as the code has it: when the canonical combo of an alias has the id
`0xFFFFFFFF`, the alias record `5 -> 0xFFFFFFFF` is written, every record of the
table carries the sentinel key, and the file ends after the alias table: the
canonical combo has no body. -/
theorem C5_counterexample_sentinel_canonical :
    ∃ out, writeVcsFile exampleCrc32 6 exampleInfo sentinelCanonicalHash = some out ∧
      out.duplicateCombos = [{ m_nStaticComboID := 5, m_nSourceStaticCombo := 0xffffffff }] ∧
      (∀ r ∈ out.StaticComboHeaders, r.m_nStaticComboID = 0xffffffff) ∧
      out.ShaderFile.length = 28 + 8 * 2 + 4 + 8 * 1 :=
  ⟨_, rfl, rfl, by decide, rfl⟩

/-- C5, amended. Assuming that the hash is a map and that every static combo id is
below `0xFFFFFFFF`: for every alias record `a -> c` that `WriteShaderFiles`
writes, `c` is the id of a record of the table that does not have the sentinel
key, `c` differs from `a`, `c` is not the first field of any alias record, no
record of the table has the id `a`, and `a` and `c` are the ids of two static
combos of the hash with byte-identical packed blobs. -/
theorem C5_no_dangling_alias (crc32 : List Byte → Nat) (version : Nat)
    (shaderInfo : ShaderInfo_t) (hash : StaticComboNodeHash_t) (out : VcsFile)
    (hnd : KeysNodup hash) (hid : ∀ p ∈ hash, p.m_nStaticComboID < 0xffffffff)
    (h : writeVcsFile crc32 version shaderInfo hash = some out) :
    ∀ d ∈ out.duplicateCombos,
      (∃ r ∈ out.StaticComboHeaders, r.m_nStaticComboID = d.m_nSourceStaticCombo ∧
        r.m_nStaticComboID ≠ 0xffffffff) ∧
      d.m_nSourceStaticCombo ≠ d.m_nStaticComboID ∧
      (∀ e ∈ out.duplicateCombos, e.m_nStaticComboID ≠ d.m_nSourceStaticCombo) ∧
      (∀ r ∈ out.StaticComboHeaders, r.m_nStaticComboID ≠ d.m_nStaticComboID) ∧
      ∃ pa pc, pa ∈ hash ∧ pc ∈ hash ∧ pa.m_nStaticComboID = d.m_nStaticComboID ∧
        pc.m_nStaticComboID = d.m_nSourceStaticCombo ∧ pa.m_abPackedCode = pc.m_abPackedCode := by
  obtain ⟨Us, Ds, ha⟩ := writeVcsFile_archiveOf hnd h
  have hidU : ∀ u ∈ Us, u.m_nStaticComboID ≠ 0xffffffff := fun u hu =>
    Nat.ne_of_lt (hid u (ha.mem_hash.1 u hu).1)
  have hne := ha.id_ne hnd
  intro d hd
  rw [ha.aliases] at hd
  obtain ⟨x, hx, rfl⟩ := List.mem_map.1 hd
  obtain ⟨hcU, hcode⟩ := ha.canonical x hx
  obtain ⟨r, hr, -, hrid, -⟩ := ha.record_of_mem hnd hidU hcU
  refine ⟨⟨r, hr, hrid, ?_⟩, ?_, ?_, ?_, ?_⟩
  · rw [hrid]; exact hidU _ hcU
  · exact hne _ hcU x hx
  · intro e he
    rw [ha.aliases] at he
    obtain ⟨y, hy, rfl⟩ := List.mem_map.1 he
    exact fun e1 => hne _ hcU y hy e1.symm
  · intro r1 hr1
    rcases ha.records_cases r1 hr1 with ⟨u, hu, -, hu2⟩ | ⟨-, hs⟩
    · rw [hu2]; exact hne u hu x hx
    · rw [hs]
      exact fun e1 => Nat.ne_of_lt (hid _ (ha.mem_hash.2 x hx).1) e1.symm
  · exact ⟨x.1, x.2, (ha.mem_hash.2 x hx).1, (ha.mem_hash.1 _ hcU).1, rfl, rfl, hcode.symm⟩

theorem C5_no_dangling_alias_witness :
    KeysNodup exampleHash ∧ (∀ p ∈ exampleHash, p.m_nStaticComboID < 0xffffffff) ∧
    ∃ out, writeVcsFile exampleCrc32 6 exampleInfo exampleHash = some out ∧
      out.duplicateCombos = [{ m_nStaticComboID := 1, m_nSourceStaticCombo := 2 }] ∧
      ∀ d ∈ out.duplicateCombos,
        (∃ r ∈ out.StaticComboHeaders, r.m_nStaticComboID = d.m_nSourceStaticCombo ∧
          r.m_nStaticComboID ≠ 0xffffffff) ∧
        d.m_nSourceStaticCombo ≠ d.m_nStaticComboID :=
  ⟨by decide, by decide, _, rfl, rfl, fun d hd =>
    ⟨(C5_no_dangling_alias exampleCrc32 6 exampleInfo exampleHash _
        (by decide) (by decide) rfl d hd).1,
     (C5_no_dangling_alias exampleCrc32 6 exampleInfo exampleHash _
        (by decide) (by decide) rfl d hd).2.1⟩⟩

/-- C4 as the code has it. First, of three static combos with the same packed blob
only the first one reached gets a record; the combos `2` and `3` have byte-equal
blobs, and neither of them gets a record: both are aliases of combo `1`. Second,
of two static combos with the same blob, the first with the id `0xFFFFFFFF`,
the first one gets a record but no body and the other is its alias: the file
ends right after the alias table. -/
theorem C4_counterexample_three_equal_blobs_or_sentinel :
    (∃ out, writeVcsFile exampleCrc32 6 exampleInfo tripleHash = some out ∧
      out.StaticComboHeaders.map (fun r => r.m_nStaticComboID) = [1, 0xffffffff] ∧
      out.duplicateCombos =
        [{ m_nStaticComboID := 2, m_nSourceStaticCombo := 1 },
         { m_nStaticComboID := 3, m_nSourceStaticCombo := 1 }]) ∧
    (∃ out, writeVcsFile exampleCrc32 6 exampleInfo sentinelCanonicalHash = some out ∧
      out.StaticComboHeaders.map (fun r => (r.m_nStaticComboID, r.m_nFileOffset)) =
        [(0xffffffff, 56), (0xffffffff, 56)] ∧
      out.duplicateCombos = [{ m_nStaticComboID := 5, m_nSourceStaticCombo := 0xffffffff }] ∧
      out.ShaderFile.length = 28 + 8 * 2 + 4 + 8 * 1) :=
  ⟨⟨_, rfl, rfl, rfl⟩, ⟨_, rfl, rfl, rfl, rfl⟩⟩

/-- C4, amended. Assuming that the hash is a map and that every static combo id is
below `0xFFFFFFFF`: for every static combo `p` with a non-empty packed blob there
is a static combo `u` with the same blob that has a `StaticComboRecord` and, at
the offset of that record, its body in the file, and that is not an alias;
every other static combo with that blob is recorded as an alias of `u` and has
no record. No two records made from static combos have byte-equal blobs. -/
theorem C4_dedup_single_body (crc32 : List Byte → Nat) (version : Nat)
    (shaderInfo : ShaderInfo_t) (hash : StaticComboNodeHash_t) (out : VcsFile)
    (hnd : KeysNodup hash) (hid : ∀ p ∈ hash, p.m_nStaticComboID < 0xffffffff)
    (h : writeVcsFile crc32 version shaderInfo hash = some out) :
    (∀ p ∈ hash, p.m_abPackedCode ≠ [] →
      ∃ u ∈ hash, u.m_abPackedCode = p.m_abPackedCode ∧
        (∃ r ∈ out.StaticComboHeaders, r.m_pByteCode = some u ∧
          r.m_nStaticComboID = u.m_nStaticComboID ∧
          ∃ rest, out.ShaderFile.drop r.m_nFileOffset =
            u.m_abPackedCode ++ putU32 0xffffffff ++ rest) ∧
        (∀ d ∈ out.duplicateCombos, d.m_nStaticComboID ≠ u.m_nStaticComboID) ∧
        ∀ q ∈ hash, q.m_abPackedCode = p.m_abPackedCode → q ≠ u →
          { m_nStaticComboID := q.m_nStaticComboID
            m_nSourceStaticCombo := u.m_nStaticComboID } ∈ out.duplicateCombos ∧
          ∀ r ∈ out.StaticComboHeaders, r.m_nStaticComboID ≠ q.m_nStaticComboID) ∧
    (∀ r1 ∈ out.StaticComboHeaders, ∀ r2 ∈ out.StaticComboHeaders, ∀ p1 p2,
      r1.m_pByteCode = some p1 → r2.m_pByteCode = some p2 →
      p1.m_abPackedCode = p2.m_abPackedCode → p1 = p2) := by
  obtain ⟨Us, Ds, ha⟩ := writeVcsFile_archiveOf hnd h
  have hidU : ∀ u ∈ Us, u.m_nStaticComboID ≠ 0xffffffff := fun u hu =>
    Nat.ne_of_lt (hid u (ha.mem_hash.1 u hu).1)
  have hne := ha.id_ne hnd
  have hcases : ∀ q ∈ hash, q.m_abPackedCode ≠ [] → q ∈ Us ∨ ∃ x ∈ Ds, x.1 = q := by
    intro q hq hqc
    have hmem : q ∈ hash.filter (fun p => decide (p.m_abPackedCode ≠ [])) := by
      rw [List.mem_filter]; exact ⟨hq, by simpa using hqc⟩
    rcases List.mem_append.1 (ha.perm.mem_iff.2 hmem) with hu | hd
    · exact Or.inl hu
    · obtain ⟨x, hx, rfl⟩ := List.mem_map.1 hd
      exact Or.inr ⟨x, hx, rfl⟩
  constructor
  · intro p hp hpc
    have hu : ∃ u ∈ Us, u.m_abPackedCode = p.m_abPackedCode := by
      rcases hcases p hp hpc with hu | ⟨x, hx, rfl⟩
      · exact ⟨p, hu, rfl⟩
      · exact ⟨x.2, (ha.canonical x hx).1, (ha.canonical x hx).2⟩
    obtain ⟨u, huU, huc⟩ := hu
    obtain ⟨r, hr, hrp, hrid, rest, hrest⟩ := ha.record_of_mem hnd hidU huU
    refine ⟨u, (ha.mem_hash.1 u huU).1, huc, ⟨r, hr, hrp, hrid, rest, hrest⟩, ?_, ?_⟩
    · intro d hd
      rw [ha.aliases] at hd
      obtain ⟨y, hy, rfl⟩ := List.mem_map.1 hd
      exact fun e => hne u huU y hy e.symm
    · intro q hq hqc hqu
      have hqne : q.m_abPackedCode ≠ [] := by rw [hqc]; exact hpc
      rcases hcases q hq hqne with hqU | ⟨y, hy, rfl⟩
      · exact absurd (ha.eq_of_code_eq hqU huU (hqc.trans huc.symm)) hqu
      · obtain ⟨hyU, hyc⟩ := ha.canonical y hy
        have hyu : y.2 = u := ha.eq_of_code_eq hyU huU (hyc.trans (hqc.trans huc.symm))
        constructor
        · rw [ha.aliases, ← hyu]
          exact List.mem_map_of_mem aliasOf hy
        · intro r1 hr1
          rcases ha.records_cases r1 hr1 with ⟨v, hv, -, hv2⟩ | ⟨-, hs⟩
          · rw [hv2]; exact hne v hv y hy
          · rw [hs]
            exact fun e1 => Nat.ne_of_lt (hid _ hq) e1.symm
  · intro r1 hr1 r2 hr2 p1 p2 h1 h2 hc
    rcases ha.records_cases r1 hr1 with ⟨u1, hu1, hp1, -⟩ | ⟨hn1, -⟩
    · rcases ha.records_cases r2 hr2 with ⟨u2, hu2, hp2, -⟩ | ⟨hn2, -⟩
      · rw [h1] at hp1
        rw [h2] at hp2
        obtain rfl := Option.some.inj hp1
        obtain rfl := Option.some.inj hp2
        exact ha.eq_of_code_eq hu1 hu2 hc
      · rw [h2] at hn2; exact absurd hn2 (by simp)
    · rw [h1] at hn1; exact absurd hn1 (by simp)

theorem C4_dedup_single_body_witness :
    KeysNodup tripleHash ∧ (∀ p ∈ tripleHash, p.m_nStaticComboID < 0xffffffff) ∧
    ∃ out, writeVcsFile exampleCrc32 6 exampleInfo tripleHash = some out ∧
      ∀ r1 ∈ out.StaticComboHeaders, ∀ r2 ∈ out.StaticComboHeaders, ∀ p1 p2,
        r1.m_pByteCode = some p1 → r2.m_pByteCode = some p2 →
        p1.m_abPackedCode = p2.m_abPackedCode → p1 = p2 :=
  ⟨by decide, by decide, _, rfl,
    (C4_dedup_single_body exampleCrc32 6 exampleInfo tripleHash _
      (by decide) (by decide) rfl).2⟩

/-! ## Sealing: the hash after `TryToPackageData` -/

theorem FindByKey_eq_none {h : StaticComboNodeHash_t} {key : Nat} :
    FindByKey h key = none ↔ ∀ p ∈ h, p.m_nStaticComboID ≠ key := by
  unfold FindByKey
  rw [List.find?_eq_none]
  simp

theorem DeleteByKey_eq_filter {h : StaticComboNodeHash_t} (hnd : KeysNodup h) (key : Nat) :
    DeleteByKey h key = h.filter (fun p => p.m_nStaticComboID != key) := by
  induction h with
  | nil => rfl
  | cons a t ih =>
    simp only [KeysNodup, List.map_cons, List.nodup_cons, List.mem_map, not_exists, not_and] at hnd
    unfold DeleteByKey
    by_cases hk : a.m_nStaticComboID = key
    · have h1 : (a.m_nStaticComboID == key) = true := by simpa using hk
      have h2 : (a.m_nStaticComboID != key) = false := by simp [hk]
      rw [List.eraseP_cons, List.filter_cons, h2]
      simp only [h1, cond_true, Bool.false_eq_true, if_false]
      symm
      rw [List.filter_eq_self]
      intro p hp
      have := hnd.1 p hp
      rw [hk] at this
      simpa using this
    · have h1 : (a.m_nStaticComboID == key) = false := by simpa using hk
      have h2 : (a.m_nStaticComboID != key) = true := by simpa using hk
      rw [List.eraseP_cons, List.filter_cons, h2]
      simp only [h1, cond_false, if_true, List.cons.injEq, true_and]
      exact ih hnd.2

theorem KeysNodup_delete {h : StaticComboNodeHash_t} (hnd : KeysNodup h) (key : Nat) :
    KeysNodup (DeleteByKey h key) := by
  rw [DeleteByKey_eq_filter hnd]
  exact List.Nodup.sublist (List.Sublist.map _ (List.filter_sublist _)) hnd

theorem FindByKey_filter_ne (h : StaticComboNodeHash_t) (key j : Nat) :
    FindByKey (h.filter (fun p => p.m_nStaticComboID != key)) j =
      if j = key then none else FindByKey h j := by
  induction h with
  | nil => simp [FindByKey]
  | cons a t ih =>
    by_cases hk : a.m_nStaticComboID = key
    · have h2 : (a.m_nStaticComboID != key) = false := by simp [hk]
      rw [List.filter_cons, h2]
      simp only [Bool.false_eq_true, if_false]
      rw [ih]
      by_cases hj : j = key
      · simp [hj]
      · simp only [hj, if_false]
        have : (a.m_nStaticComboID == j) = false := by
          rw [hk]; simpa using fun e => hj e.symm
        simp only [FindByKey, List.find?_cons, this]
    · have h2 : (a.m_nStaticComboID != key) = true := by simpa using hk
      rw [List.filter_cons, h2]
      simp only [if_true]
      by_cases haj : a.m_nStaticComboID = j
      · have hjk : ¬ j = key := fun e => hk (haj.trans e)
        simp [FindByKey, haj, hjk]
      · have : (a.m_nStaticComboID == j) = false := by simpa using haj
        unfold FindByKey at ih ⊢
        simp only [List.find?_cons, this]
        exact ih

theorem FindByKey_delete {h : StaticComboNodeHash_t} (hnd : KeysNodup h) (key j : Nat) :
    FindByKey (DeleteByKey h key) j = if j = key then none else FindByKey h j := by
  rw [DeleteByKey_eq_filter hnd, FindByKey_filter_ne]

theorem Add_perm (slot : Nat → StaticComboNodeHash_t → Nat) (h : StaticComboNodeHash_t)
    (n : CStaticCombo) : (Add slot h n).Perm (n :: h) := by
  unfold Add
  have h1 : (h.take (slot n.m_nStaticComboID h) ++ n :: h.drop (slot n.m_nStaticComboID h)).Perm
      (n :: (h.take (slot n.m_nStaticComboID h) ++ h.drop (slot n.m_nStaticComboID h))) :=
    List.perm_middle
  rwa [List.take_append_drop] at h1

theorem KeysNodup_add {slot : Nat → StaticComboNodeHash_t → Nat} {h : StaticComboNodeHash_t}
    (hnd : KeysNodup h) {n : CStaticCombo} (hn : FindByKey h n.m_nStaticComboID = none) :
    KeysNodup (Add slot h n) := by
  unfold KeysNodup
  rw [((Add_perm slot h n).map _).nodup_iff, List.map_cons, List.nodup_cons]
  refine ⟨?_, hnd⟩
  intro hmem
  obtain ⟨p, hp, hpe⟩ := List.mem_map.1 hmem
  exact FindByKey_eq_none.1 hn p hp hpe

theorem FindByKey_eq_some_iff {h : StaticComboNodeHash_t} (hnd : KeysNodup h) {key : Nat}
    {p : CStaticCombo} : FindByKey h key = some p ↔ p ∈ h ∧ p.m_nStaticComboID = key := by
  constructor
  · exact FindByKey_some
  · rintro ⟨hp, rfl⟩
    exact FindByKey_of_mem hnd hp

theorem FindByKey_add {slot : Nat → StaticComboNodeHash_t → Nat} {h : StaticComboNodeHash_t}
    (hnd : KeysNodup h) {n : CStaticCombo} (hn : FindByKey h n.m_nStaticComboID = none) (j : Nat) :
    FindByKey (Add slot h n) j = if j = n.m_nStaticComboID then some n else FindByKey h j := by
  have hnd2 := @KeysNodup_add slot _ hnd _ hn
  by_cases hj : j = n.m_nStaticComboID
  · simp only [hj, if_true]
    exact (FindByKey_eq_some_iff hnd2).2
      ⟨(Add_perm slot h n).mem_iff.2 (List.mem_cons_self _ _), rfl⟩
  · simp only [hj, if_false]
    cases hf : FindByKey h j with
    | none =>
      rw [FindByKey_eq_none] at hf ⊢
      intro p hp
      rcases List.mem_cons.1 ((Add_perm slot h n).mem_iff.1 hp) with rfl | hp
      · exact fun e => hj e.symm
      · exact hf p hp
    | some p =>
      obtain ⟨hp, hpk⟩ := FindByKey_some hf
      exact (FindByKey_eq_some_iff hnd2).2
        ⟨(Add_perm slot h n).mem_iff.2 (List.mem_cons_of_mem _ hp), hpk⟩

theorem emittedBlock_length_pos (compress : List Byte → Option (List Byte)) (blk : List Byte) :
    4 ≤ (emittedBlock compress blk).length := by
  unfold emittedBlock
  split <;> simp [putU32_length]

theorem packDynamicCombos_total {compress : List Byte → Option (List Byte)} {maxBlock : Nat}
    {p : CStaticCombo} {st : PackState}
    (h : packDynamicCombos compress maxBlock p [] = some st) :
    st.pnTotalFlushedSize = st.pBuf.length ∧ (p.m_DynamicCombos ≠ [] → 0 < st.pnTotalFlushedSize) := by
  obtain ⟨⟨groups, cur, hd, hgne, hh, hb, hp, ht⟩, hempty⟩ := packDynamicCombos_inv h
  have hcur : cur = [] := dynamicComboRecords_eq_nil.1 (hb ▸ hempty)
  subst hcur
  simp only [List.append_nil] at hd
  refine ⟨by rw [ht, hp]; simp, ?_⟩
  intro hne
  have hsne : stdSort CompareDynamicComboIDs p.m_DynamicCombos ≠ [] := by
    intro hc
    have := (stdSort_perm CompareDynamicComboIDs p.m_DynamicCombos).length_eq
    rw [hc] at this
    exact hne (List.length_eq_zero.1 this.symm)
  cases groups with
  | nil =>
    simp only [List.flatten_nil] at hd
    exact absurd hd.symm hsne
  | cons a t =>
    rw [ht, hh]
    simp only [List.map_cons, List.flatMap_cons, List.length_append]
    have := emittedBlock_length_pos compress (dynamicComboRecords a)
    omega

theorem sealStaticCombo_lookup {compress : List Byte → Option (List Byte)} {maxBlock : Nat}
    {slot : Nat → StaticComboNodeHash_t → Nat} {g g1 : CShaderMap} {name : String} {k : Nat}
    {h : StaticComboNodeHash_t} (hg : g name = some h) (hnd : KeysNodup h)
    (hs : sealStaticCombo compress maxBlock slot g name k = some g1) :
    ∃ h1, g1 name = some h1 ∧ KeysNodup h1 ∧
      (∀ j, FindByKey h1 j =
        if j = k then (FindByKey h k).bind (sealedCombo compress maxBlock) else FindByKey h j) ∧
      (∀ p, FindByKey h k = some p → p.m_DynamicCombos ≠ [] →
        ∃ st, packDynamicCombos compress maxBlock p [] = some st) := by
  unfold sealStaticCombo AssembleWorkerReplyPackage at hs
  simp only [StaticComboFromDict, hg] at hs
  cases hf : FindByKey h k with
  | none =>
    simp only [hf, if_true, Option.some.injEq] at hs
    subst hs
    refine ⟨h, hg, hnd, ?_, ?_⟩
    · intro j
      by_cases hj : j = k
      · simp [hj, hf]
      · simp [hj]
    · intro p hp; simp at hp
  | some p =>
    obtain ⟨hpm, hpk⟩ := FindByKey_some hf
    simp only [hf, Option.getD_some] at hs
    by_cases he : p.m_DynamicCombos.isEmpty = true
    · simp only [he, if_true, Option.some.injEq] at hs
      subst hs
      refine ⟨DeleteByKey h k, by simp, KeysNodup_delete hnd k, ?_, ?_⟩
      · intro j
        rw [FindByKey_delete hnd]
        by_cases hj : j = k
        · simp [hj, sealedCombo, List.isEmpty_iff.1 he]
        · simp [hj]
      · intro q hq hne
        simp only [Option.some.injEq] at hq
        subst hq
        exact absurd (List.isEmpty_iff.1 he) hne
    · have he' : p.m_DynamicCombos.isEmpty = false := by simpa using he
      have hdne : p.m_DynamicCombos ≠ [] := fun hc => he (by simp [hc])
      simp only [he', Bool.false_eq_true, if_false] at hs
      cases hpk2 : packDynamicCombos compress maxBlock p [] with
      | none => simp [hpk2] at hs
      | some st =>
        obtain ⟨htot, hpos⟩ := packDynamicCombos_total hpk2
        have hne0 : ¬ st.pnTotalFlushedSize = 0 := Nat.ne_of_gt (hpos hdne)
        simp only [hpk2, hne0, if_false] at hs
        cases hn : narrowI32 st.pnTotalFlushedSize with
        | none => simp [hn] at hs
        | some n =>
          obtain ⟨-, rfl⟩ := narrowI32_eq_some.1 hn
          simp only [hn, Option.some.injEq] at hs
          subst hs
          have hfd : FindByKey (DeleteByKey h k) k = none := by
            rw [FindByKey_delete hnd]; simp
          have hnode : CStaticCombo.setPackedCode st.pnTotalFlushedSize st.pBuf (CStaticCombo.new k) =
              { m_nStaticComboID := p.m_nStaticComboID, m_DynamicCombos := []
                m_abPackedCode := packedBlob compress maxBlock p } := by
            simp [CStaticCombo.setPackedCode, CStaticCombo.new, packedBlob, hpk2, htot, hpk]
          have hfd2 : FindByKey (DeleteByKey h k)
              (CStaticCombo.setPackedCode st.pnTotalFlushedSize st.pBuf
                (CStaticCombo.new k)).m_nStaticComboID = none := by
            rw [hnode, hpk]; exact hfd
          refine ⟨Add slot (DeleteByKey h k)
            (CStaticCombo.setPackedCode st.pnTotalFlushedSize st.pBuf (CStaticCombo.new k)),
            ?_, KeysNodup_add (KeysNodup_delete hnd k) hfd2, ?_, ?_⟩
          · simp [StaticComboFromDictAdd, hfd]
          · intro j
            rw [FindByKey_add (KeysNodup_delete hnd k) hfd2, FindByKey_delete hnd]
            by_cases hj : j = k
            · simp [hj, hnode, hpk, sealedCombo, hdne]
            · have : ¬ j = (CStaticCombo.setPackedCode st.pnTotalFlushedSize st.pBuf
                  (CStaticCombo.new k)).m_nStaticComboID := by
                rw [hnode, hpk]; exact hj
              simp [hj, this]
          · intro q hq _
            simp only [Option.some.injEq] at hq
            subst hq
            exact ⟨st, hpk2⟩

theorem sealStaticCombos_lookup {compress : List Byte → Option (List Byte)} {maxBlock : Nat}
    {slot : Nat → StaticComboNodeHash_t → Nat} {name : String} (ids : List Nat) :
    ∀ {g g1 : CShaderMap} {h : StaticComboNodeHash_t}, g name = some h → KeysNodup h →
      ids.Nodup → sealStaticCombos compress maxBlock slot name ids g = some g1 →
      ∃ h1, g1 name = some h1 ∧ KeysNodup h1 ∧
        (∀ j, FindByKey h1 j =
          if j ∈ ids then (FindByKey h j).bind (sealedCombo compress maxBlock)
          else FindByKey h j) ∧
        (∀ p ∈ h, p.m_nStaticComboID ∈ ids → p.m_DynamicCombos ≠ [] →
          ∃ st, packDynamicCombos compress maxBlock p [] = some st) := by
  induction ids with
  | nil =>
    intro g g1 h hg hnd _ hs
    simp only [sealStaticCombos, Option.some.injEq] at hs
    subst hs
    exact ⟨h, hg, hnd, by simp, by simp⟩
  | cons k rest ih =>
    intro g g1 h hg hnd hids hs
    simp only [sealStaticCombos] at hs
    cases hstep : sealStaticCombo compress maxBlock slot g name k with
    | none => simp [hstep] at hs
    | some g2 =>
      simp only [hstep] at hs
      obtain ⟨h2, hg2, hnd2, hl2, hp2⟩ := sealStaticCombo_lookup hg hnd hstep
      rw [List.nodup_cons] at hids
      obtain ⟨h1, hg1, hnd1, hl1, hp1⟩ := ih hg2 hnd2 hids.2 hs
      refine ⟨h1, hg1, hnd1, ?_, ?_⟩
      · intro j
        rw [hl1, hl2]
        by_cases hjk : j = k
        · subst hjk
          simp [hids.1]
        · by_cases hjr : j ∈ rest
          · simp [hjk, hjr]
          · simp [hjk, hjr]
      · intro p hp hpid hne
        rcases List.mem_cons.1 hpid with hpk | hpr
        · exact hp2 p (by rw [← hpk]; exact FindByKey_of_mem hnd hp) hne
        · have hpk : p.m_nStaticComboID ≠ k := fun e => hids.1 (e ▸ hpr)
          have hf2 : FindByKey h2 p.m_nStaticComboID = some p := by
            rw [hl2]; simp only [hpk, if_false]
            exact FindByKey_of_mem hnd hp
          exact hp1 p (FindByKey_some hf2).1 hpr hne

theorem perm_of_lookup_eq {a b : StaticComboNodeHash_t} (ha : KeysNodup a) (hb : KeysNodup b)
    (h : ∀ j, FindByKey a j = FindByKey b j) : a.Perm b := by
  rw [List.perm_ext_iff_of_nodup (List.Nodup.of_map _ ha) (List.Nodup.of_map _ hb)]
  intro p
  constructor
  · intro hp
    have := FindByKey_of_mem ha hp
    rw [h] at this
    exact (FindByKey_some this).1
  · intro hp
    have := FindByKey_of_mem hb hp
    rw [← h] at this
    exact (FindByKey_some this).1

theorem sealedCombo_id {compress : List Byte → Option (List Byte)} {maxBlock : Nat}
    {p q : CStaticCombo} (h : sealedCombo compress maxBlock p = some q) :
    q.m_nStaticComboID = p.m_nStaticComboID := by
  unfold sealedCombo at h
  split at h
  · exact absurd h (by simp)
  · simp only [Option.some.injEq] at h
    rw [← h]

theorem filterMap_sealed_lookup (compress : List Byte → Option (List Byte)) (maxBlock : Nat)
    (h : StaticComboNodeHash_t) (hnd : KeysNodup h) :
    KeysNodup (h.filterMap (sealedCombo compress maxBlock)) ∧
    ∀ j, FindByKey (h.filterMap (sealedCombo compress maxBlock)) j =
      (FindByKey h j).bind (sealedCombo compress maxBlock) := by
  induction h with
  | nil => exact ⟨by simp [KeysNodup], fun j => rfl⟩
  | cons a t ih =>
    have hnd' := hnd
    simp only [KeysNodup, List.map_cons, List.nodup_cons, List.mem_map, not_exists, not_and] at hnd'
    obtain ⟨ih1, ih2⟩ := ih hnd'.2
    have hkeys : ∀ q ∈ t.filterMap (sealedCombo compress maxBlock),
        q.m_nStaticComboID ≠ a.m_nStaticComboID := by
      intro q hq
      obtain ⟨p, hp, hpq⟩ := List.mem_filterMap.1 hq
      rw [sealedCombo_id hpq]
      exact hnd'.1 p hp
    cases hs : sealedCombo compress maxBlock a with
    | none =>
      rw [List.filterMap_cons_none hs]
      refine ⟨ih1, ?_⟩
      intro j
      rw [ih2]
      by_cases hj : a.m_nStaticComboID = j
      · have hn : FindByKey t j = none := by
          rw [FindByKey_eq_none]
          intro p hp
          rw [← hj]; exact hnd'.1 p hp
        have ha : FindByKey (a :: t) j = some a := by
          simp [FindByKey, hj]
        rw [hn, ha]
        simp [hs]
      · have : (a.m_nStaticComboID == j) = false := by simpa using hj
        simp only [FindByKey, List.find?_cons, this]
    | some q =>
      rw [List.filterMap_cons_some hs]
      have hqid := sealedCombo_id hs
      refine ⟨?_, ?_⟩
      · simp only [KeysNodup, List.map_cons, List.nodup_cons, List.mem_map, not_exists, not_and]
        refine ⟨?_, ih1⟩
        intro x hx
        rw [hqid]; exact hkeys x hx
      · intro j
        by_cases hj : a.m_nStaticComboID = j
        · have h1 : (q.m_nStaticComboID == j) = true := by rw [hqid]; simpa using hj
          have h2 : (a.m_nStaticComboID == j) = true := by simpa using hj
          simp [FindByKey, List.find?_cons, h1, h2, hs]
        · have h1 : (q.m_nStaticComboID == j) = false := by rw [hqid]; simpa using hj
          have h2 : (a.m_nStaticComboID == j) = false := by simpa using hj
          have := ih2 j
          simp only [FindByKey, List.find?_cons, h1, h2] at this ⊢
          exact this

theorem sealStaticCombos_perm {compress : List Byte → Option (List Byte)} {maxBlock : Nat}
    {slot : Nat → StaticComboNodeHash_t → Nat} {name : String} {ids : List Nat}
    {g g1 : CShaderMap} {h h1 : StaticComboNodeHash_t} (hg : g name = some h)
    (hnd : KeysNodup h) (hids : ids.Nodup) (hcover : ∀ p ∈ h, p.m_nStaticComboID ∈ ids)
    (hs : sealStaticCombos compress maxBlock slot name ids g = some g1)
    (hg1 : g1 name = some h1) :
    KeysNodup h1 ∧ h1.Perm (h.filterMap (sealedCombo compress maxBlock)) ∧
    (∀ p ∈ h, p.m_DynamicCombos ≠ [] →
      ∃ st, packDynamicCombos compress maxBlock p [] = some st) := by
  obtain ⟨h1', hg1', hnd1, hl, hp⟩ := sealStaticCombos_lookup ids hg hnd hids hs
  rw [hg1] at hg1'
  obtain rfl := Option.some.inj hg1'
  obtain ⟨hb1, hb2⟩ := filterMap_sealed_lookup compress maxBlock h hnd
  refine ⟨hnd1, perm_of_lookup_eq hnd1 hb1 ?_, fun p hp1 hne => hp p hp1 (hcover p hp1) hne⟩
  intro j
  rw [hl, hb2]
  by_cases hj : j ∈ ids
  · simp [hj]
  · simp only [hj, if_false]
    have : FindByKey h j = none := by
      rw [FindByKey_eq_none]
      intro p hp1 hpe
      exact hj (hpe ▸ hcover p hp1)
    rw [this]; rfl

/-! ## Decoding a packed blob -/

theorem pack_bound_flush {compress : List Byte → Option (List Byte)} {st st1 : PackState}
    (hb : st.pDynamicComboBuffer.length < 2 ^ 30 ∧
      ∀ blk ∈ st.handedToCompressor, blk.length < 2 ^ 30)
    (h : FlushCombos compress st = some st1) :
    st1.pDynamicComboBuffer.length < 2 ^ 30 ∧
      ∀ blk ∈ st1.handedToCompressor, blk.length < 2 ^ 30 := by
  rcases FlushCombos_eq_some h with ⟨-, rfl⟩ | ⟨-, rfl⟩
  · exact hb
  · refine ⟨by simp, ?_⟩
    intro blk hblk
    rcases List.mem_append.1 hblk with hblk | hblk
    · exact hb.2 blk hblk
    · simp only [List.mem_singleton] at hblk
      rw [hblk]; exact hb.1

theorem pack_bound_output {compress : List Byte → Option (List Byte)} {maxBlock : Nat}
    {st st1 : PackState} {id : Nat} {code : List Byte} (hmax : maxBlock ≤ 2 ^ 30)
    (hsz : code.length + 8 < 2 ^ 30)
    (hb : st.pDynamicComboBuffer.length < 2 ^ 30 ∧
      ∀ blk ∈ st.handedToCompressor, blk.length < 2 ^ 30)
    (h : OutputDynamicCombo compress maxBlock st id code = some st1) :
    st1.pDynamicComboBuffer.length < 2 ^ 30 ∧
      ∀ blk ∈ st1.handedToCompressor, blk.length < 2 ^ 30 := by
  unfold OutputDynamicCombo at h
  cases hn : narrowU32 code.length with
  | none => simp [hn] at h
  | some n =>
    obtain ⟨-, rfl⟩ := narrowU32_eq_some.1 hn
    simp only [hn] at h
    split at h
    · exact absurd h (by simp)
    · rename_i st2 hfl
      cases hid : narrowU32 id with
      | none => simp [hid] at h
      | some id32 =>
        simp only [hid, Option.some.injEq] at h
        rw [← h]
        simp only [List.length_append, dynamicComboRecord_length, List.take_length]
        split at hfl
        · rename_i hcond
          have hb2 := pack_bound_flush hb hfl
          rcases FlushCombos_eq_some hfl with ⟨he, rfl⟩ | ⟨-, rfl⟩
          · refine ⟨?_, hb.2⟩
            rw [he]; simp only [List.length_nil]; omega
          · refine ⟨?_, hb2.2⟩
            simp only [List.length_nil]; omega
        · rename_i hcond
          simp only [Option.some.injEq] at hfl
          subst hfl
          refine ⟨?_, hb.2⟩
          have hlt : st.pDynamicComboBuffer.length + code.length + 16 < 2 ^ 32 := by
            have := hb.1; omega
          rw [Nat.mod_eq_of_lt hlt] at hcond
          omega

theorem pack_bound_outputs {compress : List Byte → Option (List Byte)} {maxBlock : Nat}
    (hmax : maxBlock ≤ 2 ^ 30) (l : List CByteCodeBlock)
    (hsz : ∀ b ∈ l, b.code.length + 8 < 2 ^ 30) :
    ∀ {st st1 : PackState},
      (st.pDynamicComboBuffer.length < 2 ^ 30 ∧
        ∀ blk ∈ st.handedToCompressor, blk.length < 2 ^ 30) →
      outputDynamicCombos compress maxBlock l st = some st1 →
      st1.pDynamicComboBuffer.length < 2 ^ 30 ∧
        ∀ blk ∈ st1.handedToCompressor, blk.length < 2 ^ 30 := by
  induction l with
  | nil =>
    intro st st1 hb h
    simp only [outputDynamicCombos, Option.some.injEq] at h
    subst h; exact hb
  | cons b t ih =>
    intro st st1 hb h
    simp only [outputDynamicCombos] at h
    cases h2 : OutputDynamicCombo compress maxBlock st b.m_nComboID b.code with
    | none => simp [h2] at h
    | some st2 =>
      simp only [h2] at h
      exact ih (fun x hx => hsz x (List.mem_cons_of_mem _ hx))
        (pack_bound_output hmax (hsz b (List.mem_cons_self _ _)) hb h2) h

theorem pack_blocks_small {compress : List Byte → Option (List Byte)} {maxBlock : Nat}
    (hmax : maxBlock ≤ 2 ^ 30) {p : CStaticCombo}
    (hsz : ∀ b ∈ p.m_DynamicCombos, b.code.length + 8 < 2 ^ 30) {pBuf : List Byte}
    {st : PackState} (h : packDynamicCombos compress maxBlock p pBuf = some st) :
    ∀ blk ∈ st.handedToCompressor, blk.length < 2 ^ 30 := by
  unfold packDynamicCombos at h
  split at h
  · exact absurd h (by simp)
  · rename_i st1 h1
    have hsz2 : ∀ b ∈ p.SortDynamicCombos.m_DynamicCombos, b.code.length + 8 < 2 ^ 30 :=
      fun b hb => hsz b ((stdSort_perm _ _).mem_iff.1 hb)
    have hb1 := @pack_bound_outputs _ _ hmax _ hsz2 (PackState.init pBuf) _
      ⟨by simp [PackState.init], by simp [PackState.init]⟩ h1
    exact (pack_bound_flush hb1 h).2

theorem decodeRecords_cons (fuel : Nat) (bs : List Byte) (hne : bs ≠ []) :
    decodeRecords (fuel + 1) bs =
      match getU32 bs with
      | none => none
      | some (id, r1) =>
        match getU32 r1 with
        | none => none
        | some (len, r2) =>
          if r2.length < len then none
          else
            match decodeRecords fuel (r2.drop len) with
            | none => none
            | some recs => some ((id, r2.take len) :: recs) := by
  cases bs with
  | nil => exact absurd rfl hne
  | cons b t => rfl

theorem decodeRecords_records (grp : List CByteCodeBlock) :
    ∀ fuel, grp.length ≤ fuel →
      (∀ b ∈ grp, b.m_nComboID < 2 ^ 32 ∧ b.code.length < 2 ^ 32) →
      decodeRecords fuel (dynamicComboRecords grp) =
        some (grp.map (fun b => (b.m_nComboID, b.code))) := by
  induction grp with
  | nil =>
    intro fuel _ _
    cases fuel <;> rfl
  | cons b t ih =>
    intro fuel hf hfit
    obtain ⟨hid, hlen⟩ := hfit b (List.mem_cons_self _ _)
    cases fuel with
    | zero => simp at hf
    | succ f =>
      have hne : dynamicComboRecords (b :: t) ≠ [] := by
        rw [Ne, dynamicComboRecords_eq_nil]; simp
      rw [decodeRecords_cons f _ hne]
      have hshape : dynamicComboRecords (b :: t) =
          putU32 b.m_nComboID ++ (putU32 b.code.length ++ (b.code ++ dynamicComboRecords t)) := by
        simp [dynamicComboRecords, dynamicComboRecord, List.append_assoc]
      rw [hshape, getU32_putU32 _ hid]
      simp only
      rw [getU32_putU32 _ hlen]
      simp only [List.length_append, List.drop_left, List.take_left]
      rw [ih f (by simpa using hf) (fun x hx => hfit x (List.mem_cons_of_mem _ hx))]
      simp

theorem decodeBlocks_end (decompress : List Byte → Option (List Byte)) (fuel : Nat)
    (rest : List Byte) :
    decodeBlocks decompress (fuel + 1) (putU32 0xffffffff ++ rest) = some [] := by
  unfold decodeBlocks
  rw [getU32_putU32 _ (by norm_num)]
  simp

theorem decodeBlocks_block {compress decompress : List Byte → Option (List Byte)}
    (hinv : ∀ b c, compress b = some c → decompress c = some b)
    (hsmall : ∀ b c, compress b = some c → c.length < 2 ^ 30)
    (fuel : Nat) (blk tail : List Byte) (hblk : blk.length < 2 ^ 30) :
    decodeBlocks decompress (fuel + 1) (emittedBlock compress blk ++ tail) =
      match decodeRecords blk.length blk, decodeBlocks decompress fuel tail with
      | some recs, some more => some (recs ++ more)
      | _, _ => none := by
  unfold emittedBlock
  cases hc : compress blk with
  | none =>
    simp only
    rw [Nat.mod_eq_of_lt (by omega : blk.length < 2 ^ 32), flag_stored _ hblk]
    conv_lhs => unfold decodeBlocks
    rw [List.append_assoc, getU32_putU32 _ (by omega)]
    have h1 : ¬ (2 ^ 31 + blk.length = 0xffffffff) := by omega
    have h2 : (2 ^ 31 + blk.length) % 2 ^ 30 = blk.length := by omega
    have h3 : (2 ^ 31 + blk.length) / 2 ^ 30 = 2 := by omega
    simp only [h1, if_false, h2, h3, List.length_append, List.take_left, List.drop_left]
    have h4 : ¬ (blk.length + tail.length < blk.length) := by omega
    simp only [h4, if_false, if_true]
  | some c =>
    have hcl := hsmall blk c hc
    simp only
    rw [flag_lzma _ hcl]
    conv_lhs => unfold decodeBlocks
    rw [List.append_assoc, getU32_putU32 _ (by omega)]
    have h1 : ¬ (2 ^ 30 + c.length = 0xffffffff) := by omega
    have h2 : (2 ^ 30 + c.length) % 2 ^ 30 = c.length := by omega
    have h3 : (2 ^ 30 + c.length) / 2 ^ 30 = 1 := by omega
    have h5 : ¬ ((1 : Nat) = 2) := by omega
    simp only [h1, if_false, h2, h3, h5, List.length_append, List.take_left, List.drop_left]
    have h4 : ¬ (c.length + tail.length < c.length) := by omega
    simp only [h4, if_false, if_true, hinv blk c hc]

theorem decodeBlocks_groups {compress decompress : List Byte → Option (List Byte)}
    (hinv : ∀ b c, compress b = some c → decompress c = some b)
    (hsmall : ∀ b c, compress b = some c → c.length < 2 ^ 30)
    (groups : List (List CByteCodeBlock)) (rest : List Byte) :
    ∀ fuel, groups.length < fuel →
      (∀ grp ∈ groups, (dynamicComboRecords grp).length < 2 ^ 30 ∧
        ∀ b ∈ grp, b.m_nComboID < 2 ^ 32 ∧ b.code.length < 2 ^ 32) →
      decodeBlocks decompress fuel
          ((groups.map dynamicComboRecords).flatMap (emittedBlock compress)
            ++ putU32 0xffffffff ++ rest) =
        some (groups.flatten.map (fun b => (b.m_nComboID, b.code))) := by
  induction groups with
  | nil =>
    intro fuel hf _
    cases fuel with
    | zero => simp at hf
    | succ f => simpa using decodeBlocks_end decompress f rest
  | cons grp t ih =>
    intro fuel hf hg
    cases fuel with
    | zero => simp at hf
    | succ f =>
      obtain ⟨hlen, hfit⟩ := hg grp (List.mem_cons_self _ _)
      simp only [List.map_cons, List.flatMap_cons, List.append_assoc]
      rw [decodeBlocks_block hinv hsmall f _ _ hlen]
      have hrec := decodeRecords_records grp (dynamicComboRecords grp).length (by
        clear ih hf hg hlen hfit
        induction grp with
        | nil => simp
        | cons b u ihu =>
          simp only [dynamicComboRecords, List.flatMap_cons, List.length_append,
            dynamicComboRecord_length, List.length_cons] at ihu ⊢
          omega) hfit
      have hih := ih f (by simpa using hf) (fun x hx => hg x (List.mem_cons_of_mem _ hx))
      simp only [List.append_assoc] at hih
      rw [hrec, hih]
      simp

theorem DecodesAs.decodedPairs_eq {decompress : List Byte → Option (List Byte)}
    {code : List Byte} {L : List (Nat × List Byte)} (h : DecodesAs decompress code L) :
    decodedPairs decompress code = L := by
  have := h [] (code.length + 4) (by omega)
  simp only [List.append_nil] at this
  simp [decodedPairs, this]

theorem flatMap_emittedBlock_length (compress : List Byte → Option (List Byte))
    (blks : List (List Byte)) : blks.length ≤ (blks.flatMap (emittedBlock compress)).length := by
  induction blks with
  | nil => simp
  | cons a t ih =>
    have := emittedBlock_length_pos compress a
    simp only [List.flatMap_cons, List.length_append, List.length_cons]
    omega

theorem sealedCombo_decodes {compress decompress : List Byte → Option (List Byte)}
    {maxBlock : Nat} (hinv : ∀ b c, compress b = some c → decompress c = some b)
    (hsmall : ∀ b c, compress b = some c → c.length < 2 ^ 30) (hmax : maxBlock ≤ 2 ^ 30)
    {p : CStaticCombo}
    (hfit : ∀ b ∈ p.m_DynamicCombos, b.m_nComboID < 2 ^ 32 ∧ b.code.length + 8 < 2 ^ 30)
    {st : PackState} (hpk : packDynamicCombos compress maxBlock p [] = some st) :
    DecodesAs decompress (packedBlob compress maxBlock p) (dynamicPairs p) := by
  intro rest fuel hfuel
  have hsmallblk := pack_blocks_small hmax (fun b hb => (hfit b hb).2) hpk
  obtain ⟨⟨groups, cur, hd, -, hh, hb, hp, -⟩, hempty⟩ := packDynamicCombos_inv hpk
  have hcur : cur = [] := dynamicComboRecords_eq_nil.1 (hb ▸ hempty)
  subst hcur
  simp only [List.append_nil] at hd
  have hblob : packedBlob compress maxBlock p =
      (groups.map dynamicComboRecords).flatMap (emittedBlock compress) := by
    simp [packedBlob, hpk, hp, hh]
  rw [hblob] at hfuel ⊢
  have hlen := flatMap_emittedBlock_length compress (groups.map dynamicComboRecords)
  rw [List.length_map] at hlen
  rw [decodeBlocks_groups hinv hsmall groups rest fuel (by omega), hd]
  · rfl
  · intro grp hgrp
    refine ⟨hsmallblk _ (by rw [hh]; exact List.mem_map_of_mem _ hgrp), ?_⟩
    intro b hbm
    have hbs : b ∈ stdSort CompareDynamicComboIDs p.m_DynamicCombos := by
      rw [← hd]; exact List.mem_flatten.2 ⟨grp, hgrp, hbm⟩
    have := hfit b ((stdSort_perm _ _).mem_iff.1 hbs)
    exact ⟨this.1, by omega⟩

theorem decodeStaticCombos_sentinel (decompress : List Byte → Option (List Byte))
    (file : List Byte) (off : Nat) :
    decodeStaticCombos decompress file [(0xffffffff, off)] = some [] := by
  simp [decodeStaticCombos]

theorem decodeStaticCombos_offsets {decompress : List Byte → Option (List Byte)}
    (file : List Byte) (x : Nat) (us : List CStaticCombo)
    (hus : ∀ u ∈ us, u.m_nStaticComboID ≠ 0xffffffff ∧
      DecodesAs decompress u.m_abPackedCode (decodedPairs decompress u.m_abPackedCode)) :
    ∀ pos tail, file.drop pos = us.flatMap comboBody ++ tail →
      decodeStaticCombos decompress file (offsetsFrom pos us ++ [(0xffffffff, x)]) =
        some (us.flatMap (comboTuples decompress)) := by
  induction us with
  | nil =>
    intro pos tail _
    exact decodeStaticCombos_sentinel decompress file x
  | cons u t ih =>
    intro pos tail hdrop
    obtain ⟨hid, hdec⟩ := hus u (List.mem_cons_self _ _)
    have hlen : (file.drop pos).length ≤ file.length := by
      rw [List.length_drop]; omega
    have hbody : decodeBody decompress file pos =
        some (decodedPairs decompress u.m_abPackedCode) := by
      unfold decodeBody
      rw [hdrop, List.flatMap_cons, comboBody, List.append_assoc]
      apply hdec
      rw [hdrop] at hlen
      simp only [List.flatMap_cons, comboBody, List.length_append, putU32_length] at hlen
      omega
    have hnext : file.drop (pos + (comboBody u).length) = t.flatMap comboBody ++ tail := by
      have hdd : file.drop (pos + (comboBody u).length) =
          (file.drop pos).drop (comboBody u).length := by
        simp [List.drop_drop, Nat.add_comm]
      rw [hdd, hdrop, List.flatMap_cons, List.append_assoc, List.drop_left]
    have hih := ih (fun v hv => hus v (List.mem_cons_of_mem _ hv)) _ tail hnext
    have hshape : offsetsFrom pos (u :: t) ++ [(0xffffffff, x)] =
        (u.m_nStaticComboID, pos) ::
          (offsetsFrom (pos + (comboBody u).length) t ++ [(0xffffffff, x)]) := rfl
    rw [hshape, decodeStaticCombos]
    simp only [hid, if_false, hbody, hih, List.flatMap_cons]
    rfl

theorem withOffsets_pairs {crc32 : List Byte → Nat} {hash : StaticComboNodeHash_t}
    (hnd : KeysNodup hash) (us : List CStaticCombo)
    (hus : ∀ u ∈ us, u ∈ hash ∧ u.m_nStaticComboID ≠ 0xffffffff) :
    ∀ pos, (withOffsets hash (us.map (headerOf crc32) ++ [sentinelHeader]) pos).map
        (fun r => (r.m_nStaticComboID, r.m_nFileOffset)) =
      offsetsFrom pos us ++ [(0xffffffff, pos + (us.flatMap comboBody).length)] := by
  induction us with
  | nil => intro pos; simp [withOffsets, offsetsFrom, sentinelHeader]
  | cons u t ih =>
    intro pos
    obtain ⟨hu, hid⟩ := hus u (List.mem_cons_self _ _)
    have hb : (recordBody hash (headerOf crc32 u)).length = (comboBody u).length := by
      rw [recordBody_headerOf hnd hu hid]; rfl
    have hih := ih (fun v hv => hus v (List.mem_cons_of_mem _ hv))
      (pos + (comboBody u).length)
    have hshape : withOffsets hash ((u :: t).map (headerOf crc32) ++ [sentinelHeader]) pos =
        { headerOf crc32 u with m_nFileOffset := pos } ::
          withOffsets hash (t.map (headerOf crc32) ++ [sentinelHeader])
            (pos + (recordBody hash (headerOf crc32 u)).length) := rfl
    rw [hshape, hb, List.map_cons, hih]
    simp only [offsetsFrom, List.cons_append, List.flatMap_cons, List.length_append,
      Nat.add_assoc]
    rfl

theorem decodeBody_at {decompress : List Byte → Option (List Byte)} {file : List Byte}
    {pos : Nat} {u : CStaticCombo} {rest : List Byte} {L : List (Nat × List Byte)}
    (hdrop : file.drop pos = comboBody u ++ rest)
    (hdec : DecodesAs decompress u.m_abPackedCode L) :
    decodeBody decompress file pos = some L := by
  have hlen : (file.drop pos).length ≤ file.length := by
    rw [List.length_drop]; omega
  unfold decodeBody
  rw [hdrop, comboBody]
  apply hdec
  rw [hdrop] at hlen
  simp only [comboBody, List.length_append, putU32_length] at hlen
  omega

theorem find_offsetsFrom {decompress : List Byte → Option (List Byte)} (file : List Byte)
    (extra : List (Nat × Nat)) (us : List CStaticCombo)
    (hsorted : us.Pairwise (fun a b => a.m_nStaticComboID < b.m_nStaticComboID))
    (hus : ∀ u ∈ us,
      DecodesAs decompress u.m_abPackedCode (decodedPairs decompress u.m_abPackedCode)) :
    ∀ pos tail, file.drop pos = us.flatMap comboBody ++ tail →
      ∀ u ∈ us, ∃ off,
        (offsetsFrom pos us ++ extra).find? (fun r => r.1 == u.m_nStaticComboID) =
          some (u.m_nStaticComboID, off) ∧
        decodeBody decompress file off = some (decodedPairs decompress u.m_abPackedCode) := by
  induction us with
  | nil => intro pos tail _ u hu; simp at hu
  | cons v t ih =>
    intro pos tail hdrop u hu
    rw [List.pairwise_cons] at hsorted
    have hshape : offsetsFrom pos (v :: t) ++ extra =
        (v.m_nStaticComboID, pos) :: (offsetsFrom (pos + (comboBody v).length) t ++ extra) := rfl
    rw [hshape, List.find?_cons]
    by_cases hvu : v.m_nStaticComboID = u.m_nStaticComboID
    · have huv : u = v := by
        rcases List.mem_cons.1 hu with h | h
        · exact h
        · exact absurd hvu (Nat.ne_of_lt (hsorted.1 u h))
      subst huv
      refine ⟨pos, by simp, ?_⟩
      rw [List.flatMap_cons, List.append_assoc] at hdrop
      exact decodeBody_at hdrop (hus u (List.mem_cons_self _ _))
    · have hut : u ∈ t := by
        rcases List.mem_cons.1 hu with h | h
        · exact absurd (h ▸ rfl) hvu
        · exact h
      have hne : (v.m_nStaticComboID == u.m_nStaticComboID) = false := by simpa using hvu
      simp only [hne]
      have hnext : file.drop (pos + (comboBody v).length) = t.flatMap comboBody ++ tail := by
        have hdd : file.drop (pos + (comboBody v).length) =
            (file.drop pos).drop (comboBody v).length := by
          simp [List.drop_drop, Nat.add_comm]
        rw [hdd, hdrop, List.flatMap_cons, List.append_assoc, List.drop_left]
      exact ih hsorted.2 (fun w hw => hus w (List.mem_cons_of_mem _ hw)) _ tail hnext u hut

theorem decodeAliases_pairs {decompress : List Byte → Option (List Byte)} (file : List Byte)
    (table : List (Nat × Nat)) (ds : List (CStaticCombo × CStaticCombo))
    (hds : ∀ x ∈ ds, ∃ off,
      table.find? (fun r => r.1 == x.2.m_nStaticComboID) = some (x.2.m_nStaticComboID, off) ∧
      decodeBody decompress file off = some (decodedPairs decompress x.1.m_abPackedCode)) :
    decodeAliases decompress file table
        (ds.map (fun x => (x.1.m_nStaticComboID, x.2.m_nStaticComboID))) =
      some ((ds.map Prod.fst).flatMap (comboTuples decompress)) := by
  induction ds with
  | nil => rfl
  | cons x t ih =>
    obtain ⟨off, hfind, hbody⟩ := hds x (List.mem_cons_self _ _)
    have hih := ih (fun y hy => hds y (List.mem_cons_of_mem _ hy))
    simp only [List.map_cons, decodeAliases, hfind, hbody, hih, List.flatMap_cons]
    rfl

theorem getPairs_pairs (l : List (Nat × Nat)) (rest : List Byte)
    (hl : ∀ x ∈ l, x.1 < 2 ^ 32 ∧ x.2 < 2 ^ 32) :
    getPairs l.length (l.flatMap (fun x => putU32 x.1 ++ putU32 x.2) ++ rest) = some (l, rest) := by
  induction l with
  | nil => rfl
  | cons a t ih =>
    obtain ⟨h1, h2⟩ := hl a (List.mem_cons_self _ _)
    have hih := ih (fun y hy => hl y (List.mem_cons_of_mem _ hy))
    simp only [List.length_cons, List.flatMap_cons, List.append_assoc, getPairs,
      getU32_putU32 _ h1, getU32_putU32 _ h2, hih]

theorem header_bytes_drop (h : ShaderHeader_t) (X : List Byte) :
    (h.bytes ++ X).drop 20 = putU32 h.m_nNumStaticCombos ++ (putU32 h.m_nSourceCRC32 ++ X) := by
  have hb : h.bytes ++ X =
      (putU32 h.m_nVersion ++ putU32 (int32Bits h.m_nTotalCombos) ++
        putU32 (int32Bits h.m_nDynamicCombos) ++ putU32 h.m_nFlags ++ putU32 h.m_nCentroidMask) ++
      (putU32 h.m_nNumStaticCombos ++ (putU32 h.m_nSourceCRC32 ++ X)) := by
    simp only [ShaderHeader_t.bytes, List.append_assoc]
  rw [hb, List.drop_left']
  simp [putU32_length]

theorem records_bytes_eq (l : List StaticComboAuxInfo_t) :
    l.flatMap (fun r => r.toStaticComboRecord_t.bytes) =
      (l.map (fun r => (r.m_nStaticComboID, r.m_nFileOffset))).flatMap
        (fun x => putU32 x.1 ++ putU32 x.2) := by
  rw [List.flatMap_map]
  rfl

theorem aliases_bytes_eq (ds : List (CStaticCombo × CStaticCombo)) :
    (ds.map aliasOf).flatMap StaticComboAliasRecord_t.bytes =
      (ds.map (fun x => (x.1.m_nStaticComboID, x.2.m_nStaticComboID))).flatMap
        (fun x => putU32 x.1 ++ putU32 x.2) := by
  rw [List.flatMap_map, List.flatMap_map]
  rfl

/-- Reading the header, the table and the alias table of a written file: what is
left for the reference decoder is to decode the bodies at the offsets of the
table. -/
theorem decodeArchive_layout {crc32 : List Byte → Nat} {version : Nat}
    {shaderInfo : ShaderInfo_t} {hash : StaticComboNodeHash_t} {out : VcsFile}
    {Us : List CStaticCombo} {Ds : List (CStaticCombo × CStaticCombo)}
    (decompress : List Byte → Option (List Byte)) (hnd : KeysNodup hash)
    (ha : ArchiveOf crc32 version shaderInfo hash out Us Ds)
    (hidU : ∀ u ∈ Us, u.m_nStaticComboID ≠ 0xffffffff) :
    out.StaticComboHeaders.map (fun r => (r.m_nStaticComboID, r.m_nFileOffset)) =
      offsetsFrom (28 + 8 * (Us.length + 1) + 4 + 8 * Ds.length) Us ++
        [(0xffffffff, 28 + 8 * (Us.length + 1) + 4 + 8 * Ds.length +
          (Us.flatMap comboBody).length)] ∧
    out.ShaderFile.drop (28 + 8 * (Us.length + 1) + 4 + 8 * Ds.length) =
      Us.flatMap comboBody ++ [] ∧
    decodeArchive decompress out.ShaderFile =
      match decodeStaticCombos decompress out.ShaderFile
          (out.StaticComboHeaders.map (fun r => (r.m_nStaticComboID, r.m_nFileOffset))),
        decodeAliases decompress out.ShaderFile
          (out.StaticComboHeaders.map (fun r => (r.m_nStaticComboID, r.m_nFileOffset)))
          (Ds.map (fun x => (x.1.m_nStaticComboID, x.2.m_nStaticComboID))) with
      | some own, some aliased => some (own ++ aliased)
      | _, _ => none := by
  have hmemU := ha.mem_hash.1
  have hmemD := ha.mem_hash.2
  obtain ⟨pre, hpl, hpre, hfile⟩ := ha.file_eq hnd hidU
  -- the table of (id, offset) pairs
  have htable : out.StaticComboHeaders.map (fun r => (r.m_nStaticComboID, r.m_nFileOffset)) =
      offsetsFrom (28 + 8 * (Us.length + 1) + 4 + 8 * Ds.length) Us ++
        [(0xffffffff, 28 + 8 * (Us.length + 1) + 4 + 8 * Ds.length +
          (Us.flatMap comboBody).length)] := by
    rw [ha.records]
    exact withOffsets_pairs hnd Us (fun u hu => ⟨(hmemU u hu).1, hidU u hu⟩) _
  have htlen : (out.StaticComboHeaders.map
      (fun r => (r.m_nStaticComboID, r.m_nFileOffset))).length = Us.length + 1 := by
    rw [List.length_map, ha.records, withOffsets_length]; simp
  have hdrop : out.ShaderFile.drop (28 + 8 * (Us.length + 1) + 4 + 8 * Ds.length) =
      Us.flatMap comboBody ++ [] := by
    rw [hfile, List.append_nil, List.drop_left' hpl]
  -- the layout of the file
  obtain ⟨tbl, htbl⟩ : ∃ tbl, tbl =
      out.StaticComboHeaders.map (fun r => (r.m_nStaticComboID, r.m_nFileOffset)) := ⟨_, rfl⟩
  obtain ⟨als, hals⟩ : ∃ als, als =
      Ds.map (fun x => (x.1.m_nStaticComboID, x.2.m_nStaticComboID)) := ⟨_, rfl⟩
  rw [← htbl] at htable htlen
  have hlayout : out.ShaderFile = out.header.bytes ++
      (tbl.flatMap (fun x => putU32 x.1 ++ putU32 x.2) ++
        (putU32 Ds.length ++
          (als.flatMap (fun x => putU32 x.1 ++ putU32 x.2) ++ Us.flatMap comboBody))) := by
    rw [hfile, hpre, ha.aliases, records_bytes_eq, aliases_bytes_eq, htbl, hals]
    simp only [List.append_assoc]
  have hpairs1 : ∀ x ∈ tbl, x.1 < 2 ^ 32 ∧ x.2 < 2 ^ 32 := by
    intro x hx
    rw [htbl] at hx
    obtain ⟨r, hr, rfl⟩ := List.mem_map.1 hx
    refine ⟨?_, ha.offsetBound r hr⟩
    rcases ha.records_cases r hr with ⟨u, hu, -, hu2⟩ | ⟨-, hs⟩
    · rw [hu2]; exact ha.idBound u (hmemU u hu).1 (hmemU u hu).2
    · rw [hs]; norm_num
  have hpairs2 : ∀ x ∈ als, x.1 < 2 ^ 32 ∧ x.2 < 2 ^ 32 := by
    intro x hx
    rw [hals] at hx
    obtain ⟨y, hy, rfl⟩ := List.mem_map.1 hx
    have hc := (ha.canonical y hy).1
    exact ⟨ha.idBound _ (hmemD y hy).1 (hmemD y hy).2,
      ha.idBound _ (hmemU _ hc).1 (hmemU _ hc).2⟩
  have halen : als.length = Ds.length := by rw [hals, List.length_map]
  -- reading the file
  have h1 : getU32 (out.ShaderFile.drop 20) = some (Us.length + 1,
      putU32 out.header.m_nSourceCRC32 ++
        (tbl.flatMap (fun x => putU32 x.1 ++ putU32 x.2) ++
          (putU32 Ds.length ++
            (als.flatMap (fun x => putU32 x.1 ++ putU32 x.2) ++ Us.flatMap comboBody)))) := by
    rw [hlayout, header_bytes_drop, getU32_putU32]
    · rw [ha.header]
    · rw [ha.header]; exact ha.tableBound
  have h2 : getPairs (Us.length + 1) (out.ShaderFile.drop 28) = some (tbl,
      putU32 Ds.length ++
        (als.flatMap (fun x => putU32 x.1 ++ putU32 x.2) ++ Us.flatMap comboBody)) := by
    rw [hlayout, List.drop_left' (header_bytes_length _), ← htlen]
    exact getPairs_pairs tbl _ hpairs1
  have h3 : getU32 (putU32 Ds.length ++
      (als.flatMap (fun x => putU32 x.1 ++ putU32 x.2) ++ Us.flatMap comboBody)) =
      some (Ds.length,
        als.flatMap (fun x => putU32 x.1 ++ putU32 x.2) ++ Us.flatMap comboBody) :=
    getU32_putU32 Ds.length ha.aliasBound _
  have h4 : getPairs Ds.length
      (als.flatMap (fun x => putU32 x.1 ++ putU32 x.2) ++ Us.flatMap comboBody) =
      some (als, Us.flatMap comboBody) := by
    rw [← halen]
    exact getPairs_pairs als _ hpairs2
  refine ⟨htbl ▸ htable, hdrop, ?_⟩
  unfold decodeArchive
  simp only [h1, h2, h3, h4]
  rw [htbl, hals]

theorem decodeArchive_archiveOf {crc32 : List Byte → Nat} {version : Nat}
    {shaderInfo : ShaderInfo_t} {hash : StaticComboNodeHash_t} {out : VcsFile}
    {Us : List CStaticCombo} {Ds : List (CStaticCombo × CStaticCombo)}
    {decompress : List Byte → Option (List Byte)} (hnd : KeysNodup hash)
    (ha : ArchiveOf crc32 version shaderInfo hash out Us Ds)
    (hid : ∀ p ∈ hash, p.m_nStaticComboID < 0xffffffff)
    (hdec : ∀ q ∈ hash,
      DecodesAs decompress q.m_abPackedCode (decodedPairs decompress q.m_abPackedCode)) :
    decodeArchive decompress out.ShaderFile =
      some ((Us ++ Ds.map Prod.fst).flatMap (comboTuples decompress)) := by
  have hmemU := ha.mem_hash.1
  have hmemD := ha.mem_hash.2
  have hidU : ∀ u ∈ Us, u.m_nStaticComboID ≠ 0xffffffff := fun u hu =>
    Nat.ne_of_lt (hid u (hmemU u hu).1)
  obtain ⟨htable, hdrop, hlayout⟩ := decodeArchive_layout decompress hnd ha hidU
  obtain ⟨tbl, htbl⟩ : ∃ tbl, tbl =
      out.StaticComboHeaders.map (fun r => (r.m_nStaticComboID, r.m_nFileOffset)) := ⟨_, rfl⟩
  obtain ⟨als, hals⟩ : ∃ als, als =
      Ds.map (fun x => (x.1.m_nStaticComboID, x.2.m_nStaticComboID)) := ⟨_, rfl⟩
  rw [← htbl] at htable hlayout
  rw [← hals] at hlayout
  -- decoding the bodies
  have hdecU : ∀ u ∈ Us, DecodesAs decompress u.m_abPackedCode
      (decodedPairs decompress u.m_abPackedCode) := fun u hu => hdec u (hmemU u hu).1
  have h5 : decodeStaticCombos decompress out.ShaderFile tbl =
      some (Us.flatMap (comboTuples decompress)) := by
    rw [htable]
    exact decodeStaticCombos_offsets out.ShaderFile _ Us
      (fun u hu => ⟨hidU u hu, hdecU u hu⟩) _ [] hdrop
  have h6 : decodeAliases decompress out.ShaderFile tbl als =
      some ((Ds.map Prod.fst).flatMap (comboTuples decompress)) := by
    rw [hals]
    apply decodeAliases_pairs
    intro x hx
    obtain ⟨hc, hcode⟩ := ha.canonical x hx
    obtain ⟨off, hf, hb⟩ := find_offsetsFrom out.ShaderFile
      [(0xffffffff, 28 + 8 * (Us.length + 1) + 4 + 8 * Ds.length +
        (Us.flatMap comboBody).length)] Us ha.sortedUs hdecU _ [] hdrop x.2 hc
    rw [← htable] at hf
    exact ⟨off, hf, by rw [← hcode]; exact hb⟩
  rw [hlayout]
  simp only [h5, h6, List.flatMap_append]

/-! ## Round trip -/

theorem flatMap_filter_of_nil {α β : Type} (p : α → Bool) (f : α → List β) (l : List α)
    (h : ∀ a ∈ l, p a = false → f a = []) : (l.filter p).flatMap f = l.flatMap f := by
  induction l with
  | nil => rfl
  | cons a t ih =>
    have iht := ih (fun x hx => h x (List.mem_cons_of_mem _ hx))
    cases hp : p a with
    | true => simp only [List.filter_cons, hp, if_true, List.flatMap_cons, iht]
    | false =>
      simp only [List.filter_cons, hp, Bool.false_eq_true, if_false, List.flatMap_cons, iht,
        h a (List.mem_cons_self _ _) hp, List.nil_append]

theorem flatMap_filterMap_eq {α β γ : Type} (g : α → Option β) (f : β → List γ) (l : List α) :
    (l.filterMap g).flatMap f = l.flatMap (fun a => ((g a).map f).getD []) := by
  induction l with
  | nil => rfl
  | cons a t ih =>
    cases hg : g a with
    | none => simp [List.filterMap_cons_none hg, hg, ih]
    | some b => simp [List.filterMap_cons_some hg, hg, ih]

theorem decodedPairs_nil (decompress : List Byte → Option (List Byte)) :
    decodedPairs decompress [] = [] := by
  unfold decodedPairs
  have := decodeBlocks_end decompress 3 []
  simp only [List.append_nil] at this
  simp [this]

/-! ## The writer returns -/

theorem recordBody_length_of_find {hash : StaticComboNodeHash_t} {r : StaticComboAuxInfo_t}
    {p : CStaticCombo} (hs : r.m_nStaticComboID ≠ 0xffffffff)
    (hf : FindByKey hash r.m_nStaticComboID = some p) :
    (recordBody hash r).length = p.m_abPackedCode.length + 4 := by
  unfold recordBody
  rw [if_neg hs, hf]
  simp [putU32_length]

/-- The loop that writes the bodies returns when `FindByKey` finds every combo of
the table and the file stays below `2^32` bytes. -/
theorem writeStaticCombos_returns (hash : StaticComboNodeHash_t) :
    ∀ (recs : List StaticComboAuxInfo_t) (f : OFStream),
      (∀ r ∈ recs, r.m_nStaticComboID ≠ 0xffffffff →
        ∃ p, FindByKey hash r.m_nStaticComboID = some p) →
      f.tellp + (recs.flatMap (recordBody hash)).length < 2 ^ 32 →
      ∃ res, writeStaticCombos hash recs f = some res := by
  intro recs
  induction recs with
  | nil => intro f _ _; exact ⟨_, rfl⟩
  | cons r rest ih =>
    intro f hfind hsz
    rw [List.flatMap_cons, List.length_append] at hsz
    have hoff : narrowU32 f.tellp = some f.tellp := narrowU32_eq_some.2 ⟨by omega, rfl⟩
    have hrest := fun r1 h1 => hfind r1 (List.mem_cons_of_mem _ h1)
    have step : ∀ f2 : OFStream, f2.tellp = f.tellp + (recordBody hash r).length →
        ∃ res, (match writeStaticCombos hash rest f2 with
          | none => none
          | some (recs, f3) => some ({ r with m_nFileOffset := f.tellp } :: recs, f3)) = some res := by
      intro f2 h2
      obtain ⟨res, hres⟩ := ih f2 hrest (by omega)
      rw [hres]
      exact ⟨_, rfl⟩
    simp only [writeStaticCombos, hoff]
    by_cases hs : r.m_nStaticComboID = 0xffffffff
    · have hcond : ¬ (r.m_nStaticComboID ≠ 0xffffffff) := fun h => h hs
      simp only [if_neg hcond]
      exact step f (by simp [recordBody, hs])
    · obtain ⟨p, hp⟩ := hfind r (List.mem_cons_self _ _) hs
      simp only [ne_eq, hs, not_false_eq_true, if_true, hp]
      apply step
      rw [recordBody_length_of_find hs hp]
      by_cases hc : p.m_abPackedCode = []
      · simp [hc, OFStream.write, putU32_length]
      · simp only [hc, not_false_eq_true, if_true, OFStream.write, putU32_length]
        omega

/-- The stream operations of `WriteShaderFiles` return when the file stays below
`2^32` bytes. -/
theorem writeStream_returns (hash : StaticComboNodeHash_t) (header : ShaderHeader_t)
    (table : List StaticComboAuxInfo_t) (dupl : Nat) (dups : List StaticComboAliasRecord_t)
    (hfind : ∀ r ∈ table, r.m_nStaticComboID ≠ 0xffffffff →
      ∃ p, FindByKey hash r.m_nStaticComboID = some p)
    (hsz : 28 + 8 * table.length + 4 + 8 * dups.length
      + (table.flatMap (recordBody hash)).length < 2 ^ 32) :
    ∃ res, writeStream hash header table dupl dups = some res := by
  unfold writeStream
  simp only
  obtain ⟨res, hres⟩ := writeStaticCombos_returns hash table
    ((((OFStream.opened.write header.bytes).write
      (List.replicate (8 * table.length) 0)).write (putU32 dupl)).write
        (dups.flatMap StaticComboAliasRecord_t.bytes)) hfind (by
      simp only [OFStream.write, OFStream.opened, header_bytes_length, List.length_replicate,
        putU32_length, aliases_bytes_length]
      omega)
  rw [hres]
  exact ⟨_, rfl⟩

/-! ## A payload that reaches the flag bits -/

/-- A block whose flag word is `0xC0000000` (both high bits set) is not part of the
format: the reference decoder stops. -/
theorem decodeBlocks_flag_unused (decompress : List Byte → Option (List Byte)) (fuel : Nat)
    (rest : List Byte) :
    decodeBlocks decompress (fuel + 1) (putU32 0xC0000000 ++ rest) = none := by
  unfold decodeBlocks
  rw [getU32_putU32 _ (by norm_num)]
  norm_num

theorem big_sealed (payload : List Byte) (h : payload.length + 8 = 2 ^ 30) :
    ∃ g1, sealStaticCombos (fun _ => none) (2 ^ 17) (fun _ _ => 0) "example_ps20b" [0]
        (bigPayloadShaderMap payload) = some g1 ∧
      g1 "example_ps20b" = some [{ m_nStaticComboID := 0, m_DynamicCombos := []
                                   m_abPackedCode := putU32 0xC0000000 ++ (putU32 0 ++ putU32 (2 ^ 30 - 8) ++ payload) }] := by
  have hlen : payload.length = 2 ^ 30 - 8 := by omega
  simp only [sealStaticCombos, sealStaticCombo, AssembleWorkerReplyPackage, StaticComboFromDict,
    bigPayloadShaderMap, Function.update_same, FindByKey, List.find?_cons, beq_self_eq_true,
    List.isEmpty_cons, Bool.false_eq_true, if_false, packDynamicCombos,
    CStaticCombo.SortDynamicCombos, stdSort, List.insertionSort, List.orderedInsert,
    outputDynamicCombos, OutputDynamicCombo, PackState.init, narrowU32, hlen]
  have htake : List.take 1073741816 payload = payload := List.take_of_length_le (by omega)
  have hrec : (dynamicComboRecord 0 payload).length = 2 ^ 30 := by
    simp only [dynamicComboRecord, List.length_append, putU32_length]
    omega
  norm_num
  simp only [FlushCombos, List.length_nil, if_true, htake, List.nil_append, hrec]
  norm_num
  have hor : (2147483648 ||| 1073741824 : Nat) = 3221225472 := by decide
  have hn : narrowI32 1073741828 = some 1073741828 := by simp [narrowI32]
  have hbuf : (putU32 3221225472 ++ dynamicComboRecord 0 payload).take 1073741828
      = putU32 3221225472 ++ dynamicComboRecord 0 payload :=
    List.take_of_length_le (by rw [List.length_append, putU32_length, hrec]; norm_num)
  simp only [hor, hn, StaticComboFromDictAdd, DeleteByKey, List.eraseP_cons, beq_self_eq_true,
    cond_true, Function.update_same, Option.getD_some, FindByKey, List.find?_nil, Add,
    List.take_nil, List.drop_nil, List.nil_append, CStaticCombo.setPackedCode, CStaticCombo.new,
    hbuf, Function.update_idem]
  refine ⟨_, rfl, ?_⟩
  simp [dynamicComboRecord, hlen]

theorem big_written (P : List Byte) (hP : P.length = 2 ^ 30 + 4) :
    ∃ out, writeVcsFile (fun _ => 0) 6 exampleInfo
        [{ m_nStaticComboID := 0, m_DynamicCombos := [], m_abPackedCode := P }] = some out := by
  have hne : P ≠ [] := fun h0 => by rw [h0] at hP; simp at hP
  simp only [writeVcsFile, dedupLoop, dedupStep, hP, DedupState.init, narrowU32, findIdentical,
    STATIC_COMBO_HASH_SIZE, exampleInfo, narrowI32]
  norm_num
  have hsort : stdSort CompareComboIds
      [{ m_nStaticComboID := 0, m_nFileOffset := 0, m_nCRC32 := 0,
         m_pByteCode := some { m_nStaticComboID := 0, m_DynamicCombos := [], m_abPackedCode := P } },
       sentinelHeader] =
      [{ m_nStaticComboID := 0, m_nFileOffset := 0, m_nCRC32 := 0,
         m_pByteCode := some { m_nStaticComboID := 0, m_DynamicCombos := [], m_abPackedCode := P } },
       sentinelHeader] := by
    simp [stdSort, List.insertionSort, List.orderedInsert, CompareComboIds, sentinelHeader]
  have hsort2 : stdSort CompareDupComboIndices [] = [] := rfl
  rw [hsort, hsort2]
  simp only [List.length_cons, List.length_nil]
  norm_num
  obtain ⟨res, hres⟩ := writeStream_returns
    [{ m_nStaticComboID := 0, m_DynamicCombos := [], m_abPackedCode := P }]
    { m_nVersion := 6, m_nTotalCombos := narrowCastI32 6, m_nDynamicCombos := 2, m_nFlags := 0,
      m_nCentroidMask := 0, m_nNumStaticCombos := 2, m_nSourceCRC32 := 77 }
    [{ m_nStaticComboID := 0, m_nFileOffset := 0, m_nCRC32 := 0,
       m_pByteCode := some { m_nStaticComboID := 0, m_DynamicCombos := [], m_abPackedCode := P } },
     sentinelHeader] 0 []
    (by
      intro r hr hs
      simp only [List.mem_cons, List.mem_singleton, List.not_mem_nil, or_false] at hr
      rcases hr with rfl | rfl
      · exact ⟨{ m_nStaticComboID := 0, m_DynamicCombos := [], m_abPackedCode := P }, by
          simp [FindByKey]⟩
      · exact absurd rfl hs)
    (by
      simp [recordBody, sentinelHeader, FindByKey, putU32_length, hP])
  rw [hres]
  exact ⟨_, rfl⟩

/-- A static combo whose only dynamic combo has a payload of `2^30 - 8` bytes is
sealed and written, and the reference decoder, whatever the decompressor, does
not decode the file: the block of `2^30` bytes carries the flag word
`0xC0000000`. -/
theorem big_payload_not_decoded (payload : List Byte) (h : payload.length + 8 = 2 ^ 30) :
    ∃ out, sealAndWrite (fun _ => none) (2 ^ 17) (fun _ _ => 0) (fun _ => 0) 6 exampleInfo
        "example_ps20b" [0] (bigPayloadShaderMap payload) = some out ∧
      ∀ decompress, decodeArchive decompress out.ShaderFile = none := by
  obtain ⟨g1, hs, hg1⟩ := big_sealed payload h
  obtain ⟨P, hPdef⟩ : ∃ P, P = putU32 0xC0000000 ++ (putU32 0 ++ putU32 (2 ^ 30 - 8) ++ payload) :=
    ⟨_, rfl⟩
  rw [← hPdef] at hg1
  have hP : P.length = 2 ^ 30 + 4 := by
    rw [hPdef]
    simp only [List.length_append, putU32_length]
    omega
  obtain ⟨out, hout⟩ := big_written P hP
  refine ⟨out, by simp only [sealAndWrite, hs, hg1, hout], ?_⟩
  intro decompress
  obtain ⟨node, hnode⟩ : ∃ node : CStaticCombo,
      node = { m_nStaticComboID := 0, m_DynamicCombos := [], m_abPackedCode := P } := ⟨_, rfl⟩
  rw [← hnode] at hout
  have hcode : node.m_abPackedCode = P := by rw [hnode]
  have hnid : node.m_nStaticComboID = 0 := by rw [hnode]
  have hnd : KeysNodup [node] := by simp [KeysNodup]
  obtain ⟨Us, Ds, ha⟩ := writeVcsFile_archiveOf hnd hout
  have hperm : (Us ++ Ds.map Prod.fst).Perm [node] := by
    have := ha.perm
    have hne : node.m_abPackedCode ≠ [] := by
      rw [hcode]; intro h0; rw [h0] at hP; simp at hP
    simpa [List.filter_cons, hne] using this
  have hlen := hperm.length_eq
  simp only [List.length_append, List.length_map, List.length_singleton] at hlen
  have hDs : Ds = [] := by
    cases Ds with
    | nil => rfl
    | cons x t =>
      have hx := (ha.canonical x (List.mem_cons_self _ _)).1
      have : 0 < Us.length := List.length_pos_of_mem hx
      simp only [List.length_cons] at hlen
      omega
  subst hDs
  have hUs : Us = [node] := by
    simpa using List.perm_singleton.1 hperm
  subst hUs
  have hidU : ∀ u ∈ [node], u.m_nStaticComboID ≠ 0xffffffff := by
    intro u hu
    rw [List.mem_singleton.1 hu, hnid]
    norm_num
  obtain ⟨htable, hdrop, hlayout⟩ := decodeArchive_layout decompress hnd ha hidU
  have hpos : 0 < out.ShaderFile.length := by
    by_contra h0
    have hnil : out.ShaderFile = [] := List.length_eq_zero.1 (by omega)
    rw [hnil] at hdrop
    simp [comboBody, hcode, putU32] at hdrop
  obtain ⟨n, hn⟩ : ∃ n, out.ShaderFile.length = n + 1 := ⟨_, (Nat.succ_pred_eq_of_pos hpos).symm⟩
  have hbody : decodeBody decompress out.ShaderFile
      (28 + 8 * ([node].length + 1) + 4 + 8 * ([] : List (CStaticCombo × CStaticCombo)).length)
      = none := by
    unfold decodeBody
    rw [hdrop, hn]
    simp only [List.flatMap_cons, List.flatMap_nil, List.append_nil, comboBody, hcode, hPdef,
      List.append_assoc]
    exact decodeBlocks_flag_unused decompress n _
  rw [hlayout, htable]
  simp only [offsetsFrom, List.cons_append, List.nil_append, decodeStaticCombos, hnid]
  rw [if_neg (by norm_num), hbody]

/-- C1 as the code has it. First, two accumulators whose only static combo has the
id `0xFFFFFFFF` (an id that fits in 32 bits) and a dynamic combo with the payload
`1` in one and `2` in the other are sealed and written to the same bytes, so no
decoder recovers the tuples from the file; the reference decoder finds no tuple
at all. Second, a static combo with one dynamic combo of `2^30 - 8` bytes (a
size that fits in 32 bits) is sealed and written, and the reference decoder
does not decode the file, whatever the decompressor. -/
theorem C1_counterexample_sentinel_id_or_size :
    (∃ outA outB,
      sealAndWrite (fun _ => none) (2 ^ 17) (fun _ _ => 0) exampleCrc32 6 exampleInfo
        "example_ps20b" [0xffffffff] (sentinelIdShaderMap 1) = some outA ∧
      sealAndWrite (fun _ => none) (2 ^ 17) (fun _ _ => 0) exampleCrc32 6 exampleInfo
        "example_ps20b" [0xffffffff] (sentinelIdShaderMap 2) = some outB ∧
      outA.ShaderFile = outB.ShaderFile ∧
      ((sentinelIdShaderMap 1 "example_ps20b").map addedTuples) = some [(0xffffffff, 0, [1])] ∧
      ((sentinelIdShaderMap 2 "example_ps20b").map addedTuples) = some [(0xffffffff, 0, [2])] ∧
      decodeArchive (fun _ => none) outA.ShaderFile = some []) ∧
    (∃ out,
      sealAndWrite (fun _ => none) (2 ^ 17) (fun _ _ => 0) (fun _ => 0) 6 exampleInfo
        "example_ps20b" [0] (bigPayloadShaderMap (List.replicate (2 ^ 30 - 8) 0)) = some out ∧
      ∀ decompress, decodeArchive decompress out.ShaderFile = none) :=
  ⟨⟨_, _, rfl, rfl, rfl, rfl, rfl, rfl⟩,
    big_payload_not_decoded _ (by rw [List.length_replicate]; norm_num)⟩

/-- C1, amended. Let the static combos `ids` (each once, and among them the id of
every static combo of the shader) be sealed by the loop of `TryToPackageData`
and the file then be written by `WriteShaderFiles`. Provided that the hash is a
map, every static combo id is below `0xFFFFFFFF`, every dynamic id fits in 32
bits, every payload is shorter than `2^30 - 8` bytes,
`MAX_SHADER_UNPACKED_BLOCK_SIZE` is at most `2^30`, and the compressor returns
less than `2^30` bytes and is inverted by the decompressor: the reference
decoder succeeds on the file, and the tuples it returns are, up to their order,
exactly the tuples `(static_combo_id, dynamic_combo_id, payload_bytes)` that
were added with `AddDynamicCombo`. -/
theorem C1_archive_round_trip (compress decompress : List Byte → Option (List Byte))
    (maxBlock : Nat) (slot : Nat → StaticComboNodeHash_t → Nat) (crc32 : List Byte → Nat)
    (version : Nat) (shaderInfo : ShaderInfo_t) (name : String) (ids : List Nat)
    (g : CShaderMap) (h0 : StaticComboNodeHash_t) (out : VcsFile)
    (hinv : ∀ b c, compress b = some c → decompress c = some b)
    (hsmall : ∀ b c, compress b = some c → c.length < 2 ^ 30)
    (hmax : maxBlock ≤ 2 ^ 30)
    (hg : g name = some h0) (hnd : KeysNodup h0)
    (hid : ∀ p ∈ h0, p.m_nStaticComboID < 0xffffffff)
    (hfit : ∀ p ∈ h0, ∀ b ∈ p.m_DynamicCombos,
      b.m_nComboID < 2 ^ 32 ∧ b.code.length + 8 < 2 ^ 30)
    (hids : ids.Nodup) (hcover : ∀ p ∈ h0, p.m_nStaticComboID ∈ ids)
    (hout : sealAndWrite compress maxBlock slot crc32 version shaderInfo name ids g = some out) :
    ∃ tuples, decodeArchive decompress out.ShaderFile = some tuples ∧
      tuples.Perm (addedTuples h0) := by
  unfold sealAndWrite at hout
  cases hseal : sealStaticCombos compress maxBlock slot name ids g with
  | none => simp [hseal] at hout
  | some g1 =>
    simp only [hseal] at hout
    cases hg1 : g1 name with
    | none => simp [hg1] at hout
    | some h1 =>
      simp only [hg1] at hout
      obtain ⟨hnd1, hperm1, hpack⟩ := sealStaticCombos_perm hg hnd hids hcover hseal hg1
      -- every combo of the sealed hash comes from a combo of the accumulator
      have hsrc : ∀ q ∈ h1, ∃ p ∈ h0, sealedCombo compress maxBlock p = some q := by
        intro q hq
        obtain ⟨p, hp, hpq⟩ := List.mem_filterMap.1 (hperm1.mem_iff.1 hq)
        exact ⟨p, hp, hpq⟩
      have hsealed : ∀ p q, p ∈ h0 → sealedCombo compress maxBlock p = some q →
          p.m_DynamicCombos ≠ [] ∧ q.m_nStaticComboID = p.m_nStaticComboID ∧
          q.m_abPackedCode = packedBlob compress maxBlock p ∧
          DecodesAs decompress (packedBlob compress maxBlock p) (dynamicPairs p) := by
        intro p q hp hpq
        have hne : p.m_DynamicCombos ≠ [] := by
          intro hc
          simp [sealedCombo, hc] at hpq
        obtain ⟨st, hst⟩ := hpack p hp hne
        refine ⟨hne, sealedCombo_id hpq, ?_, sealedCombo_decodes hinv hsmall hmax (hfit p hp) hst⟩
        simp only [sealedCombo, List.isEmpty_iff, hne, if_false, Option.some.injEq] at hpq
        rw [← hpq]
      have hid1 : ∀ q ∈ h1, q.m_nStaticComboID < 0xffffffff := by
        intro q hq
        obtain ⟨p, hp, hpq⟩ := hsrc q hq
        rw [(hsealed p q hp hpq).2.1]; exact hid p hp
      have hdec1 : ∀ q ∈ h1, DecodesAs decompress q.m_abPackedCode
          (decodedPairs decompress q.m_abPackedCode) := by
        intro q hq
        obtain ⟨p, hp, hpq⟩ := hsrc q hq
        obtain ⟨-, -, hcode, hd⟩ := hsealed p q hp hpq
        rw [hcode, hd.decodedPairs_eq]; exact hd
      obtain ⟨Us, Ds, ha⟩ := writeVcsFile_archiveOf hnd1 hout
      refine ⟨_, decodeArchive_archiveOf hnd1 ha hid1 hdec1, ?_⟩
      have e1 : ((Us ++ Ds.map Prod.fst).flatMap (comboTuples decompress)).Perm
          (h1.flatMap (comboTuples decompress)) := by
        have := List.Perm.flatMap_right (comboTuples decompress) ha.perm
        rwa [flatMap_filter_of_nil] at this
        intro a _ hpa
        have hnil : a.m_abPackedCode = [] := by simpa using hpa
        simp [comboTuples, hnil, decodedPairs_nil]
      have e2 : (h1.flatMap (comboTuples decompress)).Perm
          ((h0.filterMap (sealedCombo compress maxBlock)).flatMap (comboTuples decompress)) :=
        List.Perm.flatMap_right _ hperm1
      refine e1.trans (e2.trans ?_)
      rw [flatMap_filterMap_eq]
      unfold addedTuples
      apply List.Perm.flatMap_left
      intro p hp
      cases hs : sealedCombo compress maxBlock p with
      | none =>
        have hnil : p.m_DynamicCombos = [] := by
          by_contra hc
          simp [sealedCombo, hc] at hs
        simp [hnil]
      | some q =>
        obtain ⟨-, hqid, hcode, hd⟩ := hsealed p q hp hs
        simp only [Option.map_some', Option.getD_some, comboTuples, hcode, hd.decodedPairs_eq,
          hqid, dynamicPairs, List.map_map]
        exact (stdSort_perm CompareDynamicComboIDs p.m_DynamicCombos).map _

theorem exampleSealAndWrite_isSome :
    (sealAndWrite (fun _ => none) (2 ^ 17) (fun _ _ => 0) exampleCrc32 6 exampleInfo
      "example_ps20b" [3] exampleShaderMap).isSome = true := by
  decide

theorem C1_archive_round_trip_witness :
    (∀ b c : List Byte, (fun _ => none : List Byte → Option (List Byte)) b = some c →
      (fun _ => none : List Byte → Option (List Byte)) c = some b) ∧
    exampleShaderMap "example_ps20b" = some [exampleCombo] ∧ KeysNodup [exampleCombo] ∧
    (∀ p ∈ [exampleCombo], p.m_nStaticComboID < 0xffffffff) ∧
    ∃ out, sealAndWrite (fun _ => none) (2 ^ 17) (fun _ _ => 0) exampleCrc32 6 exampleInfo
        "example_ps20b" [3] exampleShaderMap = some out ∧
      ∃ tuples, decodeArchive (fun _ => none) out.ShaderFile = some tuples ∧
        tuples.Perm (addedTuples [exampleCombo]) :=
  ⟨fun _ _ h => absurd h (by simp), by decide, by decide, by decide,
    Option.get _ exampleSealAndWrite_isSome, (Option.some_get exampleSealAndWrite_isSome).symm,
    C1_archive_round_trip (fun _ => none) (fun _ => none) (2 ^ 17) (fun _ _ => 0) exampleCrc32 6
      exampleInfo "example_ps20b" [3] exampleShaderMap [exampleCombo] _
      (fun _ _ h => absurd h (by simp)) (fun _ _ h => absurd h (by simp)) (by norm_num)
      (by decide) (by decide) (by decide) (by decide) (by decide) (by decide)
      (Option.some_get exampleSealAndWrite_isSome).symm⟩

/-! ## Packaging safety of the dispatcher -/

theorem Combo_GetCombo_some {cfg : List CfgEntryInfo} {c : Nat} {e : CfgEntryInfo} {n : Nat}
    (h : Combo_GetCombo cfg c = some (e, n)) :
    e ∈ cfg ∧ e.m_iCommandStart ≤ c ∧ c < e.m_iCommandEnd ∧
      n = e.m_numCombos - 1 - (c - e.m_iCommandStart) := by
  unfold Combo_GetCombo at h
  cases hf : cfg.find? (fun e =>
      decide (e.m_iCommandStart ≤ c ∧ c < e.m_iCommandEnd)) with
  | none => rw [hf] at h; simp at h
  | some e1 =>
    rw [hf] at h
    simp only [Option.map_some', Option.some.injEq, Prod.mk.injEq] at h
    obtain ⟨h1, h2⟩ := h
    subst h1
    have hp := List.find?_some hf
    simp only [decide_eq_true_eq] at hp
    exact ⟨List.mem_of_find?_eq_some hf, hp.1, hp.2, h2.symm⟩

theorem entries_apart {cfg : List CfgEntryInfo}
    (hcfg : cfg.Pairwise (fun a b => a.m_iCommandEnd ≤ b.m_iCommandStart))
    {a b : CfgEntryInfo} (ha : a ∈ cfg) (hb : b ∈ cfg) (hab : a ≠ b) :
    a.m_iCommandEnd ≤ b.m_iCommandStart ∨ b.m_iCommandEnd ≤ a.m_iCommandStart := by
  have hsym : Symmetric (fun a b : CfgEntryInfo =>
      a.m_iCommandEnd ≤ b.m_iCommandStart ∨ b.m_iCommandEnd ≤ a.m_iCommandStart) :=
    fun _ _ h => h.symm
  exact (hcfg.imp (fun h => Or.inl h)).forall hsym ha hb hab

/-- Every static combo that the loop of `TryToPackageData` seals has all of its
commands below `iFinishedByNow`. -/
theorem packageLoop_sealed {cfg : List CfgEntryInfo}
    (hcfg : cfg.Pairwise (fun a b => a.m_iCommandEnd ≤ b.m_iCommandStart))
    {pInfoEnd : CfgEntryInfo} {nEnd iFinishedByNow : Nat}
    (hEnd : Combo_GetCombo cfg iFinishedByNow = some (pInfoEnd, nEnd)) (fuel : Nat) :
    ∀ (pInfoBegin : CfgEntryInfo) (nComboBegin : Nat) (l : List (CfgEntryInfo × Nat)),
      pInfoBegin ∈ cfg → pInfoBegin.m_iCommandStart < pInfoBegin.m_iCommandEnd →
      pInfoBegin.m_iCommandStart ≤ pInfoEnd.m_iCommandStart →
      packageLoop cfg pInfoEnd (nEnd / pInfoEnd.m_numDynamicCombos) fuel pInfoBegin nComboBegin
        = some l →
      ∀ es ∈ l, ∀ c, CommandOf cfg c es → c < iFinishedByNow := by
  obtain ⟨hE1, hE2, hE3, hE4⟩ := Combo_GetCombo_some hEnd
  induction fuel with
  | zero =>
    intro pInfoBegin nComboBegin l _ _ _ h es hes
    unfold packageLoop at h
    split at h
    · exact absurd h (by simp)
    · simp only [Option.some.injEq] at h
      subst h
      exact absurd hes (List.not_mem_nil _)
  | succ fuel ih =>
    intro pInfoBegin nComboBegin l hmem hne hle h es hes c hc
    unfold packageLoop at h
    split at h
    · rename_i hcond
      simp only [Option.map_eq_some'] at h
      obtain ⟨l1, hl1, hl⟩ := h
      subst hl
      rcases List.mem_cons.1 hes with heq | hin
      · subst heq
        obtain ⟨n, hn, hs⟩ := hc
        obtain ⟨_, hc2, hc3, hc4⟩ := Combo_GetCombo_some hn
        simp only at hc2 hc3 hc4 hs
        by_cases hlt : pInfoBegin.m_iCommandStart < pInfoEnd.m_iCommandStart
        · have hab : pInfoBegin ≠ pInfoEnd := fun he => by rw [he] at hlt; omega
          rcases entries_apart hcfg hmem hE1 hab with h1 | h1 <;> omega
        · have hsame : pInfoBegin = pInfoEnd := by
            by_contra hab
            rcases entries_apart hcfg hmem hE1 hab with h1 | h1 <;> omega
          subst hsame
          have hgt : nComboBegin > nEnd / pInfoBegin.m_numDynamicCombos := by
            rcases hcond with h1 | h1
            · exact absurd h1 hlt
            · exact h1
          have hnn : nEnd < n := by
            by_contra hnot
            have := Nat.div_le_div_right (c := pInfoBegin.m_numDynamicCombos) (Nat.le_of_not_lt hnot)
            unfold nStComboIdx at hs
            omega
          omega
      · refine ih _ _ l1 ?_ ?_ ?_ hl1 es hin c hc
        · split
          · split
            · rename_i e n1 hnext
              exact (Combo_GetCombo_some hnext).1
            · exact hmem
          · exact hmem
        · split
          · split
            · rename_i e n1 hnext
              have := Combo_GetCombo_some hnext
              show e.m_iCommandStart < e.m_iCommandEnd
              omega
            · exact hne
          · exact hne
        · split
          · rename_i hzero
            split
            · rename_i e n1 hnext
              have h3 := Combo_GetCombo_some hnext
              have hlt : pInfoBegin.m_iCommandStart < pInfoEnd.m_iCommandStart := by
                rcases hcond with h1 | h1
                · exact h1
                · rw [hzero] at h1
                  exact absurd h1 (Nat.not_lt_zero _)
              have hab : pInfoBegin ≠ pInfoEnd := fun he => by rw [he] at hlt; omega
              show e.m_iCommandStart ≤ pInfoEnd.m_iCommandStart
              rcases entries_apart hcfg hmem hE1 hab with h1 | h1 <;> omega
            · exact hle
          · exact hle
    · simp only [Option.some.injEq] at h
      subst h
      exact absurd hes (List.not_mem_nil _)

/-- C3 as the code has it: in the run `raceState` the second worker has
completed the command 1 and its slot still holds 1 when its call
`TryToPackageData( 1 )` seals the static combo 1 of the entry, to which the
command 1 belongs: a command of the sealed static combo is in
`m_arrSubProcessInfos` at that instant. -/
theorem C3_counterexample_own_slot :
    raceState = some ⟨[2, 1], 0, 4, 1, some 3⟩ ∧
      (TryToPackageData [raceEntry] 4 ⟨[2, 1], 0, 4, 1, some 3⟩ 1).map Prod.snd
        = some [(raceEntry, 1)] ∧
      CommandOf [raceEntry] 1 (raceEntry, 1) ∧
      1 ∈ (⟨[2, 1], 0, 4, 1, some 3⟩ : CWorkerAccumState).m_arrSubProcessInfos :=
  ⟨by decide, by decide, ⟨2, by decide, by decide⟩, by decide⟩

/-- C3, amended. Packaging safety: when a call `TryToPackageData( cmd )` seals
static combos (entries in command order with disjoint ranges), then in the state
under the mutex in which it decides to seal no slot of `m_arrSubProcessInfos`
holds a number below `cmd`, and every command of a sealed static combo is at
most `cmd`. So no slot is below a command of a sealed static combo, and a slot
that holds a command of a sealed static combo holds `cmd` itself, the command
just completed, which stays in the slot of the calling worker. -/
theorem C3_packaging_safety (cfg : List CfgEntryInfo) (fuel : Nat) (st st1 : CWorkerAccumState)
    (cmd : Nat) (packaged : List (CfgEntryInfo × Nat))
    (hcfg : cfg.Pairwise (fun a b => a.m_iCommandEnd ≤ b.m_iCommandStart))
    (h : TryToPackageData cfg fuel st cmd = some (st1, packaged)) :
    (packaged ≠ [] → ∀ r ∈ st.m_arrSubProcessInfos, cmd ≤ r) ∧
      (∀ es ∈ packaged, ∀ c, CommandOf cfg c es → c ≤ cmd) ∧
      (∀ es ∈ packaged, ∀ c, CommandOf cfg c es →
        ∀ r ∈ st.m_arrSubProcessInfos, c ≤ r ∧ (r = c → r = cmd)) := by
  have key : (packaged ≠ [] → ∀ r ∈ st.m_arrSubProcessInfos, cmd ≤ r) ∧
      (∀ es ∈ packaged, ∀ c, CommandOf cfg c es → c ≤ cmd) := by
    unfold TryToPackageData at h
    simp only at h
    have hnone : ∀ {p : CWorkerAccumState × List (CfgEntryInfo × Nat)},
        some p = some (st1, packaged) → p.2 = [] →
        (packaged ≠ [] → ∀ r ∈ st.m_arrSubProcessInfos, cmd ≤ r) ∧
          (∀ es ∈ packaged, ∀ c, CommandOf cfg c es → c ≤ cmd) := by
      intro p hp hp2
      simp only [Option.some.injEq] at hp
      have hpk : packaged = [] := by rw [← hp2, hp]
      subst hpk
      exact ⟨fun hne => absurd rfl hne, fun es hes => absurd hes (List.not_mem_nil _)⟩
    by_cases hany : st.m_arrSubProcessInfos.any (fun r => decide (r < cmd)) = true
    · rw [if_pos hany, if_neg (Nat.not_lt_zero _)] at h
      exact hnone h rfl
    · rw [if_neg hany] at h
      have hslots : ∀ r ∈ st.m_arrSubProcessInfos, cmd ≤ r := by
        intro r hr
        by_contra hlt
        exact hany (List.any_eq_true.2 ⟨r, hr, by simpa using hlt⟩)
      refine ⟨fun _ => hslots, ?_⟩
      have hF : (cmd + 1) % 2 ^ 64 ≤ cmd + 1 := Nat.mod_le _ _
      split at h
      · split at h
        · rename_i pInfoBegin nBegin pInfoEnd nEnd hB hE
          split at h
          · exact absurd h (by simp)
          · simp only [Option.map_eq_some', Prod.mk.injEq] at h
            obtain ⟨l, hl, _, hpk⟩ := h
            subst hpk
            obtain ⟨hB1, hB2, hB3, _⟩ := Combo_GetCombo_some hB
            obtain ⟨hE1, hE2, hE3, _⟩ := Combo_GetCombo_some hE
            have hle : pInfoBegin.m_iCommandStart ≤ pInfoEnd.m_iCommandStart := by
              by_contra hgt
              have hab : pInfoBegin ≠ pInfoEnd := fun he => by rw [he] at hgt; omega
              rcases entries_apart hcfg hB1 hE1 hab with h1 | h1 <;> omega
            intro es hes c hc
            have := packageLoop_sealed hcfg hE fuel pInfoBegin _ l hB1 (by omega) hle hl es hes c hc
            omega
        · exact absurd h (by simp)
      · exact (hnone h rfl).2
  refine ⟨key.1, key.2, ?_⟩
  intro es hes c hc r hr
  have h1 := key.2 es hes c hc
  have h2 := key.1 (List.ne_nil_of_mem hes) r hr
  omega

/-- The amended C3 at the call `TryToPackageData( 1 )` of the run
`raceState`. -/
theorem C3_packaging_safety_witness :
    [raceEntry].Pairwise (fun a b => a.m_iCommandEnd ≤ b.m_iCommandStart) ∧
      TryToPackageData [raceEntry] 4 ⟨[2, 1], 0, 4, 1, some 3⟩ 1
        = some (⟨[2, 1], 0, 4, 2, some 3⟩, [(raceEntry, 1)]) ∧
      ((([(raceEntry, 1)] : List (CfgEntryInfo × Nat)) ≠ [] →
          ∀ r ∈ (⟨[2, 1], 0, 4, 1, some 3⟩ : CWorkerAccumState).m_arrSubProcessInfos, 1 ≤ r) ∧
        (∀ es ∈ [(raceEntry, 1)], ∀ c, CommandOf [raceEntry] c es → c ≤ 1) ∧
        (∀ es ∈ [(raceEntry, 1)], ∀ c, CommandOf [raceEntry] c es →
          ∀ r ∈ (⟨[2, 1], 0, 4, 1, some 3⟩ : CWorkerAccumState).m_arrSubProcessInfos,
            c ≤ r ∧ (r = c → r = 1))) :=
  ⟨List.pairwise_singleton _ _, by decide,
    C3_packaging_safety [raceEntry] 4 ⟨[2, 1], 0, 4, 1, some 3⟩ ⟨[2, 1], 0, 4, 2, some 3⟩ 1
      [(raceEntry, 1)] (List.pairwise_singleton _ _) (by decide)⟩

/-! ## The flag word of a block -/

theorem FlushCombos_stored (compress : List Byte → Option (List Byte)) (st : PackState)
    (hne : st.pDynamicComboBuffer ≠ []) (hc : compress st.pDynamicComboBuffer = none) :
    FlushCombos compress st = some
      { pnTotalFlushedSize := st.pnTotalFlushedSize + (4 + st.pDynamicComboBuffer.length)
        pDynamicComboBuffer := []
        pBuf := st.pBuf ++ putU32 (0x80000000 ||| (st.pDynamicComboBuffer.length % 2 ^ 32))
          ++ st.pDynamicComboBuffer
        handedToCompressor := st.handedToCompressor ++ [st.pDynamicComboBuffer] } := by
  have h0 : st.pDynamicComboBuffer.length ≠ 0 := fun h => hne (List.length_eq_zero.1 h)
  unfold FlushCombos
  rw [if_neg h0, hc]

theorem FlushCombos_lzma (compress : List Byte → Option (List Byte)) (st : PackState)
    (hne : st.pDynamicComboBuffer ≠ []) {c : List Byte}
    (hc : compress st.pDynamicComboBuffer = some c) (hlen : c.length < 2 ^ 32) :
    FlushCombos compress st = some
      { pnTotalFlushedSize := st.pnTotalFlushedSize + (4 + c.length)
        pDynamicComboBuffer := []
        pBuf := st.pBuf ++ putU32 (0x40000000 ||| c.length) ++ c
        handedToCompressor := st.handedToCompressor ++ [st.pDynamicComboBuffer] } := by
  have h0 : st.pDynamicComboBuffer.length ≠ 0 := fun h => hne (List.length_eq_zero.1 h)
  unfold FlushCombos
  rw [if_neg h0, hc]
  simp only [narrowU32_eq_some.2 ⟨hlen, rfl⟩, List.take_length]

theorem FlushCombos_two_pow_30 (buf : List Byte) (h : buf.length = 2 ^ 30) :
    (FlushCombos (fun _ => none)
        { pnTotalFlushedSize := 0, pDynamicComboBuffer := buf, pBuf := []
          handedToCompressor := [] }).map (fun s => getU32 s.pBuf) =
      some (some (0xC0000000, buf)) := by
  have hne : buf ≠ [] := by
    intro h0
    rw [h0] at h
    simp at h
  rw [FlushCombos_stored _ _ hne rfl]
  simp only [Option.map_some', List.nil_append, h]
  rw [show (0x80000000 ||| (2 ^ 30 % 2 ^ 32) : Nat) = 0xC0000000 by decide]
  rw [getU32_putU32 _ (by norm_num)]

/-- C11 as the code has it: for a buffer of `2^30` bytes that the compressor does
not shrink, `FlushCombos` emits the flag word `0xC0000000`: its two high bits are
`11`, not `10`, and its low 30 bits are `0`, not the `2^30` data bytes that
follow. -/
theorem C11_counterexample_block_of_two_pow_30 :
    (FlushCombos (fun _ => none)
        { pnTotalFlushedSize := 0, pDynamicComboBuffer := List.replicate (2 ^ 30) 0, pBuf := []
          handedToCompressor := [] }).map (fun s => getU32 s.pBuf) =
      some (some (0xC0000000, List.replicate (2 ^ 30) 0)) ∧
    0xC0000000 / 2 ^ 30 = 3 ∧ 0xC0000000 % 2 ^ 30 = 0 ∧
    (List.replicate (2 ^ 30) (0 : Byte)).length = 2 ^ 30 :=
  ⟨FlushCombos_two_pow_30 _ (List.length_replicate _ _), by norm_num, by norm_num,
    List.length_replicate _ _⟩

/-- C11, amended. When the number of data bytes is below `2^30` (the buffer when the
compressor returns nothing, its output otherwise), `FlushCombos` returns, and
for a non-empty buffer it appends to `pBuf` one `uint32` `w` and the data bytes:
the two high bits of `w` are `10` and the data is the buffer when the compressor
returned nothing, they are `01` and the data is the compressor's output
otherwise, and the low 30 bits of `w` are the number of data bytes. For an empty
buffer nothing changes. -/
theorem C11_block_flag_word (compress : List Byte → Option (List Byte)) (st : PackState)
    (hstored : compress st.pDynamicComboBuffer = none → st.pDynamicComboBuffer.length < 2 ^ 30)
    (hlzma : ∀ c, compress st.pDynamicComboBuffer = some c → c.length < 2 ^ 30) :
    ∃ st1, FlushCombos compress st = some st1 ∧
      (st.pDynamicComboBuffer = [] → st1 = st) ∧
      (st.pDynamicComboBuffer ≠ [] →
        ∃ w data, st1.pBuf = st.pBuf ++ (putU32 w ++ data) ∧
          getU32 (putU32 w ++ data) = some (w, data) ∧
          w % 2 ^ 30 = data.length ∧
          (compress st.pDynamicComboBuffer = none →
            w / 2 ^ 30 = 2 ∧ data = st.pDynamicComboBuffer) ∧
          (∀ c, compress st.pDynamicComboBuffer = some c → w / 2 ^ 30 = 1 ∧ data = c)) := by
  by_cases hne : st.pDynamicComboBuffer = []
  · refine ⟨st, ?_, fun _ => rfl, fun h => absurd hne h⟩
    unfold FlushCombos
    rw [if_pos (by rw [hne]; rfl)]
  · cases hc : compress st.pDynamicComboBuffer with
    | none =>
      have hlt := hstored hc
      refine ⟨_, FlushCombos_stored compress st hne hc, fun h => absurd h hne, fun _ => ?_⟩
      have hw : (0x80000000 ||| (st.pDynamicComboBuffer.length % 2 ^ 32))
          = 2 ^ 31 + st.pDynamicComboBuffer.length := by
        rw [Nat.mod_eq_of_lt (by omega)]
        exact flag_stored _ hlt
      refine ⟨0x80000000 ||| (st.pDynamicComboBuffer.length % 2 ^ 32), st.pDynamicComboBuffer,
        by rw [List.append_assoc], ?_, ?_, ?_, ?_⟩
      · exact getU32_putU32 _ (by rw [hw]; omega) _
      · rw [hw]; omega
      · intro _
        refine ⟨?_, rfl⟩
        rw [hw]; omega
      · intro c hc2
        exact absurd hc2 (by simp)
    | some c =>
      have hlt := hlzma c hc
      refine ⟨_, FlushCombos_lzma compress st hne hc (by omega), fun h => absurd h hne,
        fun _ => ?_⟩
      have hw : (0x40000000 ||| c.length) = 2 ^ 30 + c.length := flag_lzma _ hlt
      refine ⟨0x40000000 ||| c.length, c, by rw [List.append_assoc], ?_, ?_, ?_, ?_⟩
      · exact getU32_putU32 _ (by rw [hw]; omega) _
      · rw [hw]; omega
      · intro h2
        exact absurd h2 (by simp)
      · intro c2 hc2
        simp only [Option.some.injEq] at hc2
        subst hc2
        refine ⟨?_, rfl⟩
        rw [hw]; omega

/-- The amended C11 at a buffer of three bytes that the compressor does not
shrink. -/
theorem C11_block_flag_word_witness :
    ((fun _ : List Byte => (none : Option (List Byte))) [1, 2, 3] = none →
        ([1, 2, 3] : List Byte).length < 2 ^ 30) ∧
      (∀ c, (fun _ : List Byte => (none : Option (List Byte))) [1, 2, 3] = some c →
        c.length < 2 ^ 30) ∧
      ∃ st1, FlushCombos (fun _ => none)
          { pnTotalFlushedSize := 0, pDynamicComboBuffer := [1, 2, 3], pBuf := []
            handedToCompressor := [] } = some st1 ∧
        st1.pBuf = [3, 0, 0, 128, 1, 2, 3] := by
  refine ⟨fun _ => by decide, fun c h => absurd h (by simp), ?_⟩
  obtain ⟨st1, h1, -, -⟩ := C11_block_flag_word (fun _ => none)
    { pnTotalFlushedSize := 0, pDynamicComboBuffer := [1, 2, 3], pBuf := []
      handedToCompressor := [] } (fun _ => by decide) (fun c h => absurd h (by simp))
  refine ⟨st1, h1, ?_⟩
  have h2 : FlushCombos (fun _ => none)
      { pnTotalFlushedSize := 0, pDynamicComboBuffer := [1, 2, 3], pBuf := []
        handedToCompressor := [] } = some
      { pnTotalFlushedSize := 7, pDynamicComboBuffer := [], pBuf := [3, 0, 0, 128, 1, 2, 3]
        handedToCompressor := [[1, 2, 3]] } := by decide
  rw [h2] at h1
  simp only [Option.some.injEq] at h1
  rw [← h1]

/-! ## Bounded blocks -/

theorem block_bound_flush {compress : List Byte → Option (List Byte)} {maxBlock : Nat}
    {st st1 : PackState}
    (hb : st.pDynamicComboBuffer.length ≤ maxBlock ∧
      ∀ blk ∈ st.handedToCompressor, blk.length ≤ maxBlock)
    (h : FlushCombos compress st = some st1) :
    st1.pDynamicComboBuffer.length ≤ maxBlock ∧
      ∀ blk ∈ st1.handedToCompressor, blk.length ≤ maxBlock := by
  rcases FlushCombos_eq_some h with ⟨-, rfl⟩ | ⟨-, rfl⟩
  · exact hb
  · refine ⟨by simp, ?_⟩
    intro blk hblk
    rcases List.mem_append.1 hblk with hblk | hblk
    · exact hb.2 blk hblk
    · simp only [List.mem_singleton] at hblk
      rw [hblk]; exact hb.1

theorem block_bound_output {compress : List Byte → Option (List Byte)} {maxBlock : Nat}
    {st st1 : PackState} {id : Nat} {code : List Byte} (hmax : maxBlock ≤ 2 ^ 30)
    (hsz : code.length + 8 ≤ maxBlock)
    (hb : st.pDynamicComboBuffer.length ≤ maxBlock ∧
      ∀ blk ∈ st.handedToCompressor, blk.length ≤ maxBlock)
    (h : OutputDynamicCombo compress maxBlock st id code = some st1) :
    st1.pDynamicComboBuffer.length ≤ maxBlock ∧
      ∀ blk ∈ st1.handedToCompressor, blk.length ≤ maxBlock := by
  unfold OutputDynamicCombo at h
  cases hn : narrowU32 code.length with
  | none => simp [hn] at h
  | some n =>
    obtain ⟨-, rfl⟩ := narrowU32_eq_some.1 hn
    simp only [hn] at h
    split at h
    · exact absurd h (by simp)
    · rename_i st2 hfl
      cases hid : narrowU32 id with
      | none => simp [hid] at h
      | some id32 =>
        simp only [hid, Option.some.injEq] at h
        rw [← h]
        simp only [List.length_append, dynamicComboRecord_length, List.take_length]
        split at hfl
        · rename_i hcond
          have hb2 := block_bound_flush hb hfl
          rcases FlushCombos_eq_some hfl with ⟨he, rfl⟩ | ⟨-, rfl⟩
          · refine ⟨?_, hb.2⟩
            rw [he]; simp only [List.length_nil]; omega
          · refine ⟨?_, hb2.2⟩
            simp only [List.length_nil]; omega
        · rename_i hcond
          simp only [Option.some.injEq] at hfl
          subst hfl
          refine ⟨?_, hb.2⟩
          have hlt : st.pDynamicComboBuffer.length + code.length + 16 < 2 ^ 32 := by
            have := hb.1; omega
          rw [Nat.mod_eq_of_lt hlt] at hcond
          omega

theorem block_bound_outputs {compress : List Byte → Option (List Byte)} {maxBlock : Nat}
    (hmax : maxBlock ≤ 2 ^ 30) (l : List CByteCodeBlock)
    (hsz : ∀ b ∈ l, b.code.length + 8 ≤ maxBlock) :
    ∀ (st st1 : PackState),
      (st.pDynamicComboBuffer.length ≤ maxBlock ∧
        ∀ blk ∈ st.handedToCompressor, blk.length ≤ maxBlock) →
      outputDynamicCombos compress maxBlock l st = some st1 →
      st1.pDynamicComboBuffer.length ≤ maxBlock ∧
        ∀ blk ∈ st1.handedToCompressor, blk.length ≤ maxBlock := by
  induction l with
  | nil =>
    intro st st1 hb h
    simp only [outputDynamicCombos, Option.some.injEq] at h
    subst h; exact hb
  | cons b t ih =>
    intro st st1 hb h
    simp only [outputDynamicCombos] at h
    cases h2 : OutputDynamicCombo compress maxBlock st b.m_nComboID b.code with
    | none => simp [h2] at h
    | some st2 =>
      simp only [h2] at h
      exact ih (fun x hx => hsz x (List.mem_cons_of_mem _ hx)) st2 st1
        (block_bound_output hmax (hsz b (List.mem_cons_self _ _)) hb h2) h

/-- One dynamic combo alone is handed to the compressor as one block of its record,
whatever the limit is. -/
theorem single_record_block (compress : List Byte → Option (List Byte)) (maxBlock : Nat)
    (id : Nat) (code pBuf : List Byte) (hid : id < 2 ^ 32) (hlen : code.length < 2 ^ 32)
    (st2 : PackState)
    (h : (outputDynamicCombos compress maxBlock [{ m_nComboID := id, code := code }]
      (PackState.init pBuf)).bind (FlushCombos compress) = some st2) :
    st2.handedToCompressor = [dynamicComboRecord id code] := by
  have hout : outputDynamicCombos compress maxBlock [{ m_nComboID := id, code := code }]
      (PackState.init pBuf) = some
      { pnTotalFlushedSize := 0, pDynamicComboBuffer := dynamicComboRecord id code, pBuf := pBuf
        handedToCompressor := [] } := by
    simp only [outputDynamicCombos, OutputDynamicCombo, narrowU32_eq_some.2 ⟨hlen, rfl⟩,
      narrowU32_eq_some.2 ⟨hid, rfl⟩, PackState.init, List.length_nil, List.take_length,
      List.nil_append]
    have hfl : FlushCombos compress
        { pnTotalFlushedSize := 0, pDynamicComboBuffer := [], pBuf := pBuf
          handedToCompressor := [] } = some
        { pnTotalFlushedSize := 0, pDynamicComboBuffer := [], pBuf := pBuf
          handedToCompressor := [] } := by
      unfold FlushCombos
      simp
    simp only [hfl, ite_self, List.nil_append]
  rw [hout, Option.some_bind] at h
  have hne : dynamicComboRecord id code ≠ [] := by
    intro h0
    have := congrArg List.length h0
    rw [dynamicComboRecord_length] at this
    simp at this
  rcases FlushCombos_eq_some h with ⟨he, -⟩ | ⟨-, rfl⟩
  · exact absurd he hne
  · simp

/-- C12 as the code has it: a record is never split, so a record that is longer
than the limit is handed to the compressor as a block that is longer than the
limit. With the limit `64`, one dynamic combo of 100 bytes gives one block of 108
bytes; and with any limit, a single dynamic combo whose record is longer than
the limit gives a block that is longer than the limit. -/
theorem C12_counterexample_oversized_record :
    (∃ st2, (outputDynamicCombos (fun _ => none) 64
        [{ m_nComboID := 0, code := List.replicate 100 0 }] (PackState.init [])).bind
          (FlushCombos (fun _ => none)) = some st2 ∧
      st2.handedToCompressor.map List.length = [108]) ∧
    (∀ (maxBlock : Nat) (code : List Byte), maxBlock < code.length + 8 → code.length < 2 ^ 32 →
      ∃ st2, (outputDynamicCombos (fun _ => none) maxBlock [{ m_nComboID := 0, code := code }]
          (PackState.init [])).bind (FlushCombos (fun _ => none)) = some st2 ∧
        ∃ blk ∈ st2.handedToCompressor, maxBlock < blk.length) := by
  have key : ∀ (maxBlock : Nat) (code : List Byte), code.length < 2 ^ 32 →
      ∃ st2, (outputDynamicCombos (fun _ => none) maxBlock [{ m_nComboID := 0, code := code }]
          (PackState.init [])).bind (FlushCombos (fun _ => none)) = some st2 ∧
        st2.handedToCompressor = [dynamicComboRecord 0 code] := by
    intro maxBlock code hlen
    have hc : ∀ blk out, (fun _ : List Byte => (none : Option (List Byte))) blk = some out →
        out.length < 2 ^ 32 := fun _ _ h => absurd h (by simp)
    obtain ⟨st1, h1⟩ := outputDynamicCombos_returns maxBlock hc
      [{ m_nComboID := 0, code := code }]
      (fun b hb => by rw [List.mem_singleton.1 hb]; exact ⟨by norm_num, hlen⟩) (PackState.init [])
    obtain ⟨st2, h2⟩ := FlushCombos_returns hc st1
    have h3 : (outputDynamicCombos (fun _ => none) maxBlock [{ m_nComboID := 0, code := code }]
        (PackState.init [])).bind (FlushCombos (fun _ => none)) = some st2 := by
      rw [h1, Option.some_bind, h2]
    exact ⟨st2, h3, single_record_block _ maxBlock 0 code [] (by norm_num) hlen st2 h3⟩
  constructor
  · obtain ⟨st2, h2, h3⟩ := key 64 (List.replicate 100 0) (by simp)
    refine ⟨st2, h2, ?_⟩
    rw [h3]
    simp [dynamicComboRecord_length]
  · intro maxBlock code hgt hlen
    obtain ⟨st2, h2, h3⟩ := key maxBlock code hlen
    refine ⟨st2, h2, dynamicComboRecord 0 code, by rw [h3]; exact List.mem_singleton_self _, ?_⟩
    rw [dynamicComboRecord_length]
    omega

/-- C12, amended. Let `MAX_SHADER_UNPACKED_BLOCK_SIZE` be at most `2^30` and let every
record (8 bytes of id and size, then the payload) be at most that limit long.
Then for every list of dynamic combos fed through `OutputDynamicCombo` and a
final `FlushCombos`, every uncompressed block handed to the compressor is at
most `MAX_SHADER_UNPACKED_BLOCK_SIZE` bytes long; and the calls return when the
dynamic ids and the sizes that the compressor returns fit in 32 bits. -/
theorem C12_bounded_blocks (compress : List Byte → Option (List Byte)) (maxBlock : Nat)
    (l : List CByteCodeBlock) (pBuf : List Byte) (hmax : maxBlock ≤ 2 ^ 30)
    (hfit : ∀ b ∈ l, b.code.length + 8 ≤ maxBlock) :
    ((∀ b ∈ l, b.m_nComboID < 2 ^ 32) →
      (∀ blk out, compress blk = some out → out.length < 2 ^ 32) →
      ∃ st2, (outputDynamicCombos compress maxBlock l (PackState.init pBuf)).bind
        (FlushCombos compress) = some st2) ∧
    ∀ st2, (outputDynamicCombos compress maxBlock l (PackState.init pBuf)).bind
        (FlushCombos compress) = some st2 →
      ∀ blk ∈ st2.handedToCompressor, blk.length ≤ maxBlock := by
  constructor
  · intro hid hc
    obtain ⟨st1, h1⟩ := outputDynamicCombos_returns maxBlock hc l
      (fun b hb => ⟨hid b hb, by have := hfit b hb; omega⟩) (PackState.init pBuf)
    obtain ⟨st2, h2⟩ := FlushCombos_returns hc st1
    exact ⟨st2, by rw [h1, Option.some_bind, h2]⟩
  · intro st2 h
    cases h1 : outputDynamicCombos compress maxBlock l (PackState.init pBuf) with
    | none => rw [h1] at h; simp at h
    | some st1 =>
      rw [h1, Option.some_bind] at h
      have hb1 := block_bound_outputs hmax l hfit (PackState.init pBuf) st1
        ⟨by simp [PackState.init], by simp [PackState.init]⟩ h1
      exact (block_bound_flush hb1 h).2

/-- The amended C12 at two dynamic combos and the limit `24`: the first record is
flushed before the second one is put, and the blocks have `9` and `10` bytes. -/
theorem C12_bounded_blocks_witness :
    (24 : Nat) ≤ 2 ^ 30 ∧
    (∀ b ∈ ([{ m_nComboID := 0, code := [9] }, { m_nComboID := 1, code := [7, 8] }] :
        List CByteCodeBlock), b.code.length + 8 ≤ 24) ∧
    ∃ st2, (outputDynamicCombos (fun _ => none) 24
        [{ m_nComboID := 0, code := [9] }, { m_nComboID := 1, code := [7, 8] }]
        (PackState.init [])).bind (FlushCombos (fun _ => none)) = some st2 ∧
      st2.handedToCompressor.map List.length = [9, 10] ∧
      ∀ blk ∈ st2.handedToCompressor, blk.length ≤ 24 :=
  ⟨by decide, by decide, _, rfl, rfl,
    (C12_bounded_blocks (fun _ => none) 24
      [{ m_nComboID := 0, code := [9] }, { m_nComboID := 1, code := [7, 8] }] []
      (by decide) (by decide)).2 _ rfl⟩

/-! ## The static combos that `TryToPackageData` seals -/

theorem Combo_GetCombo_of_mem {cfg : List CfgEntryInfo}
    (hcfg : cfg.Pairwise (fun a b => a.m_iCommandEnd ≤ b.m_iCommandStart))
    {e : CfgEntryInfo} (he : e ∈ cfg) {c : Nat} (h1 : e.m_iCommandStart ≤ c)
    (h2 : c < e.m_iCommandEnd) :
    Combo_GetCombo cfg c = some (e, e.m_numCombos - 1 - (c - e.m_iCommandStart)) := by
  cases hf : Combo_GetCombo cfg c with
  | none =>
    unfold Combo_GetCombo at hf
    simp only [Option.map_eq_none', List.find?_eq_none, decide_eq_true_eq] at hf
    exact absurd ⟨h1, h2⟩ (hf e he)
  | some r =>
    obtain ⟨e1, n⟩ := r
    obtain ⟨hm, h3, h4, h5⟩ := Combo_GetCombo_some hf
    have : e1 = e := by
      by_contra hne
      rcases entries_apart hcfg hm he hne with h | h <;> omega
    subst this
    rw [h5]

theorem descending_nil {lo hi : Nat} (h : hi < lo) : descending lo hi = [] := by
  unfold descending
  rw [show hi + 1 - lo = 0 by omega]
  rfl

theorem descending_cons {lo hi : Nat} (h : lo ≤ hi + 1) :
    descending lo (hi + 1) = (hi + 1) :: descending lo hi := by
  unfold descending
  rw [show hi + 1 + 1 - lo = (hi + 1 - lo) + 1 by omega, List.range'_concat, List.reverse_append]
  simp only [List.reverse_cons, List.reverse_nil, List.nil_append, List.singleton_append,
    Nat.one_mul]
  rw [show lo + (hi + 1 - lo) = hi + 1 by omega]

theorem descending_zero : descending 0 0 = [0] := rfl

theorem mem_descending {lo hi s : Nat} : s ∈ descending lo hi ↔ lo ≤ s ∧ s ≤ hi := by
  unfold descending
  rw [List.mem_reverse, List.mem_range'_1]
  omega

theorem descending_pairwise (lo hi : Nat) : (descending lo hi).Pairwise (fun a b => b < a) := by
  unfold descending
  rw [List.pairwise_reverse]
  exact List.pairwise_lt_range' lo _

/-- The loop of `TryToPackageData` inside one entry: it seals the static combos from
`nComboBegin` down to `nComboEnd + 1`. -/
theorem packageLoop_same_entry (cfg : List CfgEntryInfo) (e : CfgEntryInfo) (nComboEnd : Nat) :
    ∀ (nComboBegin fuel : Nat), nComboBegin - nComboEnd ≤ fuel →
      packageLoop cfg e nComboEnd fuel e nComboBegin =
        some ((descending (nComboEnd + 1) nComboBegin).map (fun s => (e, s))) := by
  intro nComboBegin
  induction nComboBegin with
  | zero =>
    intro fuel _
    have hc : ¬ (e.m_iCommandStart < e.m_iCommandStart ∨ 0 > nComboEnd) := by omega
    rw [descending_nil (by omega)]
    cases fuel with
    | zero => simp only [packageLoop, if_neg hc, List.map_nil]
    | succ f => simp only [packageLoop, if_neg hc, List.map_nil]
  | succ n ih =>
    intro fuel hfuel
    by_cases hgt : n + 1 > nComboEnd
    · have hc : e.m_iCommandStart < e.m_iCommandStart ∨ n + 1 > nComboEnd := Or.inr hgt
      cases fuel with
      | zero => omega
      | succ f =>
        simp only [packageLoop, if_pos hc, Nat.add_one_ne_zero, if_false, Nat.add_sub_cancel]
        rw [ih f (by omega), descending_cons (by omega)]
        simp
    · have hc : ¬ (e.m_iCommandStart < e.m_iCommandStart ∨ n + 1 > nComboEnd) := by omega
      rw [descending_nil (by omega)]
      cases fuel with
      | zero => simp only [packageLoop, if_neg hc, List.map_nil]
      | succ f => simp only [packageLoop, if_neg hc, List.map_nil]

/-- The loop of `TryToPackageData` when `iFinishedByNow` is the first command of a
later entry: it seals the static combos from `nComboBegin` down to `0` of the
entry and stops at the entry that follows. -/
theorem packageLoop_to_entry_end (cfg : List CfgEntryInfo) (e pInfoEnd : CfgEntryInfo)
    (nComboEnd n1 : Nat) (hlt : e.m_iCommandStart < pInfoEnd.m_iCommandStart)
    (hnext : Combo_GetCombo cfg e.m_iCommandEnd = some (pInfoEnd, n1))
    (hstop : (pInfoEnd.m_numStaticCombos + (2 ^ 64 - 1)) % 2 ^ 64 ≤ nComboEnd) :
    ∀ (nComboBegin fuel : Nat), nComboBegin < fuel →
      packageLoop cfg pInfoEnd nComboEnd fuel e nComboBegin =
        some ((descending 0 nComboBegin).map (fun s => (e, s))) := by
  have hstop2 : ∀ f, packageLoop cfg pInfoEnd nComboEnd f pInfoEnd
      ((pInfoEnd.m_numStaticCombos + (2 ^ 64 - 1)) % 2 ^ 64) = some [] := by
    intro f
    have hc2 : ¬ (pInfoEnd.m_iCommandStart < pInfoEnd.m_iCommandStart ∨
        (pInfoEnd.m_numStaticCombos + (2 ^ 64 - 1)) % 2 ^ 64 > nComboEnd) := by omega
    cases f with
    | zero => simp only [packageLoop, if_neg hc2]
    | succ f => simp only [packageLoop, if_neg hc2]
  intro nComboBegin
  induction nComboBegin with
  | zero =>
    intro fuel hfuel
    cases fuel with
    | zero => omega
    | succ f =>
      have hc1 : e.m_iCommandStart < pInfoEnd.m_iCommandStart ∨ 0 > nComboEnd := Or.inl hlt
      simp only [packageLoop, if_pos hc1, if_true, hnext, hstop2, Option.map_some', descending_zero,
        List.map_cons, List.map_nil]
  | succ n ih =>
    intro fuel hfuel
    cases fuel with
    | zero => omega
    | succ f =>
      have hc1 : e.m_iCommandStart < pInfoEnd.m_iCommandStart ∨ n + 1 > nComboEnd := Or.inl hlt
      simp only [packageLoop, if_pos hc1, Nat.add_one_ne_zero, if_false, Nat.add_sub_cancel]
      rw [ih f (by omega), descending_cons (by omega)]
      simp

theorem staticComboOf_le_iff {e : CfgEntryInfo} (hwf : e.WellFormed) {s c : Nat}
    (hs : s < e.m_numStaticCombos) (h1 : e.m_iCommandStart ≤ c) (h2 : c < e.m_iCommandEnd) :
    s ≤ staticComboOf e c ↔
      c ≤ e.m_iCommandStart + e.m_numCombos - 1 - s * e.m_numDynamicCombos := by
  obtain ⟨hd, hN, hE⟩ := hwf
  unfold staticComboOf nStComboIdx
  rw [Nat.le_div_iff_mul_le hd]
  have hsd : s * e.m_numDynamicCombos + e.m_numDynamicCombos ≤ e.m_numCombos := by
    rw [hN]
    calc s * e.m_numDynamicCombos + e.m_numDynamicCombos
        = (s + 1) * e.m_numDynamicCombos := by ring
      _ ≤ e.m_numStaticCombos * e.m_numDynamicCombos := Nat.mul_le_mul_right _ hs
  omega

/-- The last command of the static combo `s` of an entry. -/
theorem staticComboOf_last {e : CfgEntryInfo} (hwf : e.WellFormed) {s : Nat}
    (hs : s < e.m_numStaticCombos) :
    e.m_iCommandStart ≤ e.m_iCommandStart + e.m_numCombos - 1 - s * e.m_numDynamicCombos ∧
    e.m_iCommandStart + e.m_numCombos - 1 - s * e.m_numDynamicCombos < e.m_iCommandEnd ∧
    staticComboOf e (e.m_iCommandStart + e.m_numCombos - 1 - s * e.m_numDynamicCombos) = s := by
  obtain ⟨hd, hN, hE⟩ := hwf
  have hsd : s * e.m_numDynamicCombos + e.m_numDynamicCombos ≤ e.m_numCombos := by
    rw [hN]
    calc s * e.m_numDynamicCombos + e.m_numDynamicCombos
        = (s + 1) * e.m_numDynamicCombos := by ring
      _ ≤ e.m_numStaticCombos * e.m_numDynamicCombos := Nat.mul_le_mul_right _ hs
  refine ⟨by omega, by omega, ?_⟩
  unfold staticComboOf nStComboIdx
  rw [show e.m_numCombos - 1 - (e.m_iCommandStart + e.m_numCombos - 1 - s * e.m_numDynamicCombos
      - e.m_iCommandStart) = s * e.m_numDynamicCombos by omega]
  exact Nat.mul_div_cancel _ hd

theorem staticComboOf_lt {e : CfgEntryInfo} (hwf : e.WellFormed) {c : Nat}
    (h1 : e.m_iCommandStart ≤ c) (h2 : c < e.m_iCommandEnd) :
    staticComboOf e c < e.m_numStaticCombos := by
  obtain ⟨hd, hN, hE⟩ := hwf
  unfold staticComboOf nStComboIdx
  rw [Nat.div_lt_iff_lt_mul hd, ← hN]
  omega

/-- What a call of `TryToPackageData` that advances the watermark inside the range
of the entry `e` returns: the new watermark and the static combos from the one
of the old watermark `L` down to the one after the combo of `F = cmd + 1`, or
down to `0` when `F` is the end of the entry. -/
theorem TryToPackageData_in_entry (cfg : List CfgEntryInfo) (e : CfgEntryInfo) (fuel : Nat)
    (st : CWorkerAccumState) (cmd : Nat)
    (hcfg : cfg.Pairwise (fun a b => a.m_iCommandEnd ≤ b.m_iCommandStart))
    (hwf : ∀ x ∈ cfg, x.WellFormed) (he : e ∈ cfg)
    (hL : e.m_iCommandStart ≤ st.m_iLastFinished) (hLF : st.m_iLastFinished < cmd + 1)
    (hF : cmd + 1 ≤ e.m_iCommandEnd) (h64 : cmd + 1 < 2 ^ 64)
    (hslots : ∀ r ∈ st.m_arrSubProcessInfos, cmd ≤ r)
    (hend : cmd + 1 = e.m_iCommandEnd → (Combo_GetCombo cfg (cmd + 1)).isSome = true)
    (hfuel : e.m_numStaticCombos ≤ fuel) :
    TryToPackageData cfg fuel st cmd =
      some ({ st with m_iLastFinished := cmd + 1 },
        (descending (if cmd + 1 < e.m_iCommandEnd then staticComboOf e (cmd + 1) + 1 else 0)
          (staticComboOf e st.m_iLastFinished)).map (fun s => (e, s))) := by
  have hany : st.m_arrSubProcessInfos.any (fun r => decide (r < cmd)) = false := by
    rw [List.any_eq_false]
    intro r hr
    have := hslots r hr
    simp only [decide_eq_true_eq]
    omega
  have hLlt : st.m_iLastFinished < e.m_iCommandEnd := by omega
  have hB := Combo_GetCombo_of_mem hcfg he hL hLlt
  have hsL := staticComboOf_lt (hwf e he) hL hLlt
  obtain ⟨hd, hN, hE⟩ := hwf e he
  unfold TryToPackageData
  simp only [hany, Bool.false_eq_true, if_false, Nat.mod_eq_of_lt h64, gt_iff_lt, hLF, if_true, hB]
  by_cases hin : cmd + 1 < e.m_iCommandEnd
  · have hEq := Combo_GetCombo_of_mem hcfg he (by omega : e.m_iCommandStart ≤ cmd + 1) hin
    have hdz : ¬ (e.m_numDynamicCombos = 0 ∨ e.m_numDynamicCombos = 0) := by omega
    simp only [hEq, if_neg hdz, if_pos hin]
    have hloop := packageLoop_same_entry cfg e
      ((e.m_numCombos - 1 - (cmd + 1 - e.m_iCommandStart)) / e.m_numDynamicCombos)
      ((e.m_numCombos - 1 - (st.m_iLastFinished - e.m_iCommandStart)) / e.m_numDynamicCombos)
      fuel (le_trans (Nat.sub_le _ _) (le_trans (Nat.le_of_lt hsL) hfuel))
    rw [hloop]
    rfl
  · have hFe : cmd + 1 = e.m_iCommandEnd := by omega
    have hsome := hend hFe
    cases hEq : Combo_GetCombo cfg (cmd + 1) with
    | none => rw [hEq] at hsome; simp at hsome
    | some r =>
      obtain ⟨e1, n1⟩ := r
      obtain ⟨hm1, h1a, h1b, h1c⟩ := Combo_GetCombo_some hEq
      obtain ⟨hd1, hN1, hE1⟩ := hwf e1 hm1
      have hne : e ≠ e1 := by
        intro h0
        rw [← h0] at h1b
        omega
      have hstart : e.m_iCommandStart < e1.m_iCommandStart := by
        rcases entries_apart hcfg he hm1 hne with h | h <;> omega
      have hs1 : e1.m_iCommandStart = cmd + 1 := by
        rcases entries_apart hcfg he hm1 hne with h | h <;> omega
      have hdz : ¬ (e.m_numDynamicCombos = 0 ∨ e1.m_numDynamicCombos = 0) := by omega
      simp only [if_neg hdz, if_neg hin]
      have hpos : 0 < e1.m_numStaticCombos := by
        rcases Nat.eq_zero_or_pos e1.m_numStaticCombos with h0 | h0
        · rw [h0, Nat.zero_mul] at hN1
          omega
        · exact h0
      have hn1 : n1 / e1.m_numDynamicCombos = e1.m_numStaticCombos - 1 := by
        rw [h1c, hs1, Nat.sub_self, Nat.sub_zero, hN1]
        apply Nat.div_eq_of_lt_le
        · have : (e1.m_numStaticCombos - 1) * e1.m_numDynamicCombos + e1.m_numDynamicCombos
              = e1.m_numStaticCombos * e1.m_numDynamicCombos := by
            rw [← Nat.succ_mul, Nat.succ_eq_add_one, Nat.sub_add_cancel hpos]
          omega
        · have : (e1.m_numStaticCombos - 1 + 1) * e1.m_numDynamicCombos
              = e1.m_numStaticCombos * e1.m_numDynamicCombos := by
            rw [Nat.sub_add_cancel hpos]
          have h3 : 0 < e1.m_numStaticCombos * e1.m_numDynamicCombos := Nat.mul_pos hpos hd1
          omega
      have hstop : (e1.m_numStaticCombos + (2 ^ 64 - 1)) % 2 ^ 64
          ≤ n1 / e1.m_numDynamicCombos := by
        rw [hn1]
        have : e1.m_numStaticCombos + (2 ^ 64 - 1) = (e1.m_numStaticCombos - 1) + 2 ^ 64 := by
          omega
        rw [this, Nat.add_mod_right]
        exact Nat.mod_le _ _
      have hnext : Combo_GetCombo cfg e.m_iCommandEnd = some (e1, n1) := by
        rw [← hFe]; exact hEq
      have hloop := packageLoop_to_entry_end cfg e e1 (n1 / e1.m_numDynamicCombos) n1 hstart
        hnext hstop
        ((e.m_numCombos - 1 - (st.m_iLastFinished - e.m_iCommandStart)) / e.m_numDynamicCombos)
        fuel (lt_of_lt_of_le hsL hfuel)
      rw [hloop]
      rfl

theorem staticComboOf_antitone (e : CfgEntryInfo) {c1 c2 : Nat} (h : c1 ≤ c2) :
    staticComboOf e c2 ≤ staticComboOf e c1 := by
  unfold staticComboOf nStComboIdx
  exact Nat.div_le_div_right (by omega)

/-- C13. Let command `c` of an entry have the combo number
`numCombos - 1 - (c - commandStart)`, let the entries be well formed and laid out
in command order, and let a call `TryToPackageData( cmd )` advance the watermark
from `L` to `F = cmd + 1` inside the range of the entry `e` (no slot holds a
command below `cmd`, `commandStart ≤ L < F ≤ commandEnd`, and `Combo_GetCombo`
returns a handle for `F`). With fuel for one pass per static combo the call
returns; it seals static combos of `e` only, in strictly descending order of
their ids (so each once); a static combo is sealed iff all of its commands are
below `F` and one of its commands is at least `L`; and the static combo of the
command `F` is not sealed. -/
theorem C13_sealed_static_combos (cfg : List CfgEntryInfo) (e : CfgEntryInfo) (fuel : Nat)
    (st : CWorkerAccumState) (cmd : Nat)
    (hcfg : cfg.Pairwise (fun a b => a.m_iCommandEnd ≤ b.m_iCommandStart))
    (hwf : ∀ x ∈ cfg, x.WellFormed) (he : e ∈ cfg)
    (hL : e.m_iCommandStart ≤ st.m_iLastFinished) (hLF : st.m_iLastFinished < cmd + 1)
    (hF : cmd + 1 ≤ e.m_iCommandEnd) (h64 : cmd + 1 < 2 ^ 64)
    (hslots : ∀ r ∈ st.m_arrSubProcessInfos, cmd ≤ r)
    (hend : cmd + 1 = e.m_iCommandEnd → (Combo_GetCombo cfg (cmd + 1)).isSome = true)
    (hfuel : e.m_numStaticCombos ≤ fuel) :
    ∃ packaged : List Nat,
      TryToPackageData cfg fuel st cmd =
        some ({ st with m_iLastFinished := cmd + 1 }, packaged.map (fun s => (e, s))) ∧
      packaged.Pairwise (fun a b => b < a) ∧
      (∀ s, s ∈ packaged ↔
        s < e.m_numStaticCombos ∧
        (∀ c, e.m_iCommandStart ≤ c → c < e.m_iCommandEnd → staticComboOf e c = s → c < cmd + 1) ∧
        ∃ c, e.m_iCommandStart ≤ c ∧ c < e.m_iCommandEnd ∧ staticComboOf e c = s ∧
          st.m_iLastFinished ≤ c) ∧
      (cmd + 1 < e.m_iCommandEnd → staticComboOf e (cmd + 1) ∉ packaged) := by
  refine ⟨_, TryToPackageData_in_entry cfg e fuel st cmd hcfg hwf he hL hLF hF h64 hslots hend
    hfuel, descending_pairwise _ _, ?_, ?_⟩
  · have hw := hwf e he
    have hLlt : st.m_iLastFinished < e.m_iCommandEnd := by omega
    have hsL := staticComboOf_lt hw hL hLlt
    intro s
    rw [mem_descending]
    constructor
    · rintro ⟨hlo, hhi⟩
      have hs : s < e.m_numStaticCombos := lt_of_le_of_lt hhi hsL
      obtain ⟨l1, l2, l3⟩ := staticComboOf_last hw hs
      refine ⟨hs, ?_, ⟨_, l1, l2, l3, (staticComboOf_le_iff hw hs hL hLlt).1 hhi⟩⟩
      intro c hc1 hc2 hcs
      by_contra hge
      have hin : cmd + 1 < e.m_iCommandEnd := by omega
      rw [if_pos hin] at hlo
      have := staticComboOf_antitone e (Nat.le_of_not_lt hge)
      omega
    · rintro ⟨hs, hall, c, hc1, hc2, hcs, hLc⟩
      constructor
      · split
        · rename_i hin
          by_contra hnot
          have hle : s ≤ staticComboOf e (cmd + 1) := by omega
          obtain ⟨l1, l2, l3⟩ := staticComboOf_last hw hs
          have h1 := (staticComboOf_le_iff hw hs (by omega) hin).1 hle
          have h2 := hall _ l1 l2 l3
          omega
        · exact Nat.zero_le _
      · rw [← hcs]
        exact staticComboOf_antitone e hLc
  · intro hin
    rw [mem_descending, if_pos hin]
    omega

/-- C13 at an entry of six commands, three static combos of two dynamic combos each:
the watermark is `1`, the command `4` completes and no command below it is in a
slot; the call seals the static combos `2` and `1`. -/
theorem C13_sealed_static_combos_witness :
    [sixEntry].Pairwise (fun a b => a.m_iCommandEnd ≤ b.m_iCommandStart) ∧
    (∀ x ∈ [sixEntry], x.WellFormed) ∧
    TryToPackageData [sixEntry] 3 ⟨[4, 5], 0, 6, 1, none⟩ 4 =
      some (⟨[4, 5], 0, 6, 5, none⟩, [(sixEntry, 2), (sixEntry, 1)]) ∧
    ∃ packaged : List Nat,
      TryToPackageData [sixEntry] 3 ⟨[4, 5], 0, 6, 1, none⟩ 4 =
        some (⟨[4, 5], 0, 6, 5, none⟩, packaged.map (fun s => (sixEntry, s))) ∧
      packaged.Pairwise (fun a b => b < a) ∧
      (∀ s, s ∈ packaged ↔
        s < sixEntry.m_numStaticCombos ∧
        (∀ c, sixEntry.m_iCommandStart ≤ c → c < sixEntry.m_iCommandEnd →
          staticComboOf sixEntry c = s → c < 4 + 1) ∧
        ∃ c, sixEntry.m_iCommandStart ≤ c ∧ c < sixEntry.m_iCommandEnd ∧
          staticComboOf sixEntry c = s ∧ 1 ≤ c) ∧
      (4 + 1 < sixEntry.m_iCommandEnd → staticComboOf sixEntry (4 + 1) ∉ packaged) :=
  ⟨List.pairwise_singleton _ _, by decide, by decide,
    C13_sealed_static_combos [sixEntry] sixEntry 3 ⟨[4, 5], 0, 6, 1, none⟩ 4
      (List.pairwise_singleton _ _) (by decide) (by decide) (by decide) (by decide) (by decide)
      (by decide) (by decide) (by decide) (by decide)⟩

/-! ## The watermark -/

theorem TryToPackageData_state {cfg : List CfgEntryInfo} {fuel : Nat} {st st1 : CWorkerAccumState}
    {cmd : Nat} {packaged : List (CfgEntryInfo × Nat)}
    (h : TryToPackageData cfg fuel st cmd = some (st1, packaged)) :
    st1 = (TryToPackageData_locked st cmd).1 := by
  unfold TryToPackageData at h
  unfold TryToPackageData_locked
  simp only at h ⊢
  generalize (if st.m_arrSubProcessInfos.any (fun r => decide (r < cmd)) = true then 0
    else (cmd + 1) % 2 ^ 64) = F at h ⊢
  by_cases hadv : F > st.m_iLastFinished
  · rw [if_pos hadv] at h ⊢
    split at h
    · split at h
      · exact absurd h (by simp)
      · simp only [Option.map_eq_some', Prod.mk.injEq] at h
        obtain ⟨l, -, h1, -⟩ := h
        exact h1.symm
    · exact absurd h (by simp)
  · rw [if_neg hadv] at h ⊢
    simp only [Option.some.injEq, Prod.mk.injEq] at h
    exact h.1.symm

theorem TryToPackageData_locked_mono (st : CWorkerAccumState) (cmd : Nat) :
    st.m_iLastFinished ≤ (TryToPackageData_locked st cmd).1.m_iLastFinished := by
  unfold TryToPackageData_locked
  simp only
  generalize (if st.m_arrSubProcessInfos.any (fun r => decide (r < cmd)) = true then 0
    else (cmd + 1) % 2 ^ 64) = F
  by_cases hadv : F > st.m_iLastFinished
  · rw [if_pos hadv]
    exact Nat.le_of_lt hadv
  · rw [if_neg hadv]

theorem dispatcherStep_mono (alive : Nat → Bool) (st : CWorkerAccumState) (ev : DispatcherEvent) :
    st.m_iLastFinished ≤ (dispatcherStep alive st ev).m_iLastFinished := by
  cases ev with
  | enter => exact Nat.le_refl _
  | take w =>
    cases h : st.m_hCombo <;> simp [dispatcherStep, OnProcessTake, h]
  | tryToPackage cmd => exact TryToPackageData_locked_mono st cmd

theorem dispatcherRun_mono (alive : Nat → Bool) (events : List DispatcherEvent) :
    ∀ st : CWorkerAccumState,
      st.m_iLastFinished ≤ (dispatcherRun alive events st).m_iLastFinished := by
  induction events with
  | nil => intro st; exact Nat.le_refl _
  | cons ev t ih =>
    intro st
    exact le_trans (dispatcherStep_mono alive st ev) (ih _)

/-- C14. The watermark after `TryToPackageData( cmd )`, with `cmd + 1` computed in
`uint64_t`. If a slot holds a number below `cmd`, or `cmd + 1` is not above the
watermark, the call returns the dispatcher state it got, seals nothing, and the
accumulator stays as it is. Otherwise the locked part of the call sets the
watermark to `cmd + 1` and changes nothing else, and that is the state of every
call that returns. The watermark never goes down: not in one call, and not over
a sequence of calls with workers entering and taking commands in between. -/
theorem C14_watermark_postcondition (cfg : List CfgEntryInfo) (fuel : Nat)
    (st : CWorkerAccumState) (cmd : Nat) :
    ((∃ r ∈ st.m_arrSubProcessInfos, r < cmd) ∨ (cmd + 1) % 2 ^ 64 ≤ st.m_iLastFinished →
      TryToPackageData cfg fuel st cmd = some (st, []) ∧
      TryToPackageData_locked st cmd = (st, none) ∧
      ∀ compress maxBlock slot g, sealPackaged compress maxBlock slot [] g = some g) ∧
    (¬ ((∃ r ∈ st.m_arrSubProcessInfos, r < cmd) ∨ (cmd + 1) % 2 ^ 64 ≤ st.m_iLastFinished) →
      TryToPackageData_locked st cmd =
        ({ st with m_iLastFinished := (cmd + 1) % 2 ^ 64 },
          some (st.m_iLastFinished, (cmd + 1) % 2 ^ 64)) ∧
      ∀ st1 packaged, TryToPackageData cfg fuel st cmd = some (st1, packaged) →
        st1 = { st with m_iLastFinished := (cmd + 1) % 2 ^ 64 }) ∧
    (cmd + 1 < 2 ^ 64 → (cmd + 1) % 2 ^ 64 = cmd + 1) ∧
    st.m_iLastFinished ≤ (TryToPackageData_locked st cmd).1.m_iLastFinished ∧
    ∀ (alive : Nat → Bool) (events : List DispatcherEvent),
      st.m_iLastFinished ≤ (dispatcherRun alive events st).m_iLastFinished := by
  refine ⟨?_, ?_, fun h => Nat.mod_eq_of_lt h, TryToPackageData_locked_mono st cmd,
    fun alive events => dispatcherRun_mono alive events st⟩
  · intro h
    have hno : ¬ ((if st.m_arrSubProcessInfos.any (fun r => decide (r < cmd)) then 0
        else (cmd + 1) % 2 ^ 64) > st.m_iLastFinished) := by
      rcases h with ⟨r, hr, hlt⟩ | hle
      · have hany : st.m_arrSubProcessInfos.any (fun r => decide (r < cmd)) = true :=
          List.any_eq_true.2 ⟨r, hr, by simpa using hlt⟩
        rw [if_pos hany]
        exact Nat.not_lt_zero _
      · split
        · exact Nat.not_lt_zero _
        · omega
    refine ⟨?_, ?_, fun _ _ _ _ => rfl⟩
    · unfold TryToPackageData
      simp only
      rw [if_neg hno]
    · unfold TryToPackageData_locked
      simp only
      rw [if_neg hno]
  · intro h
    have hany : st.m_arrSubProcessInfos.any (fun r => decide (r < cmd)) = false := by
      rw [List.any_eq_false]
      intro r hr hlt
      exact h (Or.inl ⟨r, hr, by simpa using hlt⟩)
    have hgt : (cmd + 1) % 2 ^ 64 > st.m_iLastFinished := by
      by_contra hle
      exact h (Or.inr (Nat.le_of_not_lt hle))
    have hlocked : TryToPackageData_locked st cmd =
        ({ st with m_iLastFinished := (cmd + 1) % 2 ^ 64 },
          some (st.m_iLastFinished, (cmd + 1) % 2 ^ 64)) := by
      unfold TryToPackageData_locked
      simp only [hany, Bool.false_eq_true, if_false]
      rw [if_pos hgt]
    refine ⟨hlocked, fun st1 packaged h1 => ?_⟩
    rw [TryToPackageData_state h1, hlocked]

/-! ## `WriteShaderFiles` on the global state -/

theorem WriteShaderFiles_written {env : Environment} {name : String} {s s1 : ProgramState}
    (h : WriteShaderFiles env name s = some s1) : name ∈ s1.g_ShaderWrittenToDisk := by
  unfold WriteShaderFiles at h
  by_cases hw : name ∈ s.g_ShaderWrittenToDisk
  · rw [if_pos hw] at h
    simp only [Option.some.injEq] at h
    rw [← h]; exact hw
  · rw [if_neg hw] at h
    simp only at h
    have hmem : name ∈ s.g_ShaderWrittenToDisk ++ [name] :=
      List.mem_append_right _ (List.mem_singleton_self _)
    split at h
    · simp only [Option.some.injEq] at h
      rw [← h]; exact hmem
    · split at h
      · simp only [Option.some.injEq] at h
        rw [← h]; exact hmem
      · split at h
        · simp only [Option.some.injEq] at h
          rw [← h]; exact hmem
        · split at h
          · exact absurd h (by simp)
          · simp only [Option.some.injEq] at h
            rw [← h]; exact hmem

theorem WriteShaderFiles_of_written (env : Environment) {name : String} {s : ProgramState}
    (h : name ∈ s.g_ShaderWrittenToDisk) : WriteShaderFiles env name s = some s := by
  unfold WriteShaderFiles
  rw [if_pos h]

theorem GetVCSFilenames_spec (g_pShaderPath : String) (si : ShaderInfo_t) (fs : FileSystem) :
    (GetVCSFilenames g_pShaderPath si fs).1 = vcsPath g_pShaderPath si.m_pShaderName ∧
    (GetVCSFilenames g_pShaderPath si fs).2.files = fs.files ∧
    ∃ ops, (GetVCSFilenames g_pShaderPath si fs).2.operations = fs.operations ++ ops ∧
      ∀ op ∈ ops, op = FileOperation.createDirectories (vcsDirectory g_pShaderPath) ∨
        op = FileOperation.permissions (vcsPath g_pShaderPath si.m_pShaderName) := by
  refine ⟨rfl, ?_, ?_⟩
  · unfold GetVCSFilenames
    simp only
    split <;> split <;> rfl
  · unfold GetVCSFilenames
    simp only
    split
    · split
      · exact ⟨[FileOperation.permissions (vcsPath g_pShaderPath si.m_pShaderName)], rfl,
          fun op hop => Or.inr (List.mem_singleton.1 hop)⟩
      · exact ⟨[], (List.append_nil _).symm, fun op hop => absurd hop (List.not_mem_nil _)⟩
    · split
      · refine ⟨[FileOperation.createDirectories (vcsDirectory g_pShaderPath),
          FileOperation.permissions (vcsPath g_pShaderPath si.m_pShaderName)], by simp, ?_⟩
        intro op hop
        simp only [List.mem_cons, List.mem_singleton, List.not_mem_nil, or_false] at hop
        exact hop
      · exact ⟨[FileOperation.createDirectories (vcsDirectory g_pShaderPath)], rfl,
          fun op hop => Or.inl (List.mem_singleton.1 hop)⟩

/-- C16. A second call `WriteShaderFiles( name )` after a first one returns the
state that the first call left: the accumulator, the shader-info table, the
written-set and the file system, the record of the operations on it included,
are the same, so the second call has done nothing to a file. This holds for
every state and every name. -/
theorem C16_write_is_idempotent (env : Environment) (name : String) (s : ProgramState) :
    (WriteShaderFiles env name s).bind (WriteShaderFiles env name) = WriteShaderFiles env name s ∧
    ∀ s1, WriteShaderFiles env name s = some s1 →
      name ∈ s1.g_ShaderWrittenToDisk ∧ WriteShaderFiles env name s1 = some s1 := by
  have key : ∀ s1, WriteShaderFiles env name s = some s1 →
      name ∈ s1.g_ShaderWrittenToDisk ∧ WriteShaderFiles env name s1 = some s1 :=
    fun s1 h => ⟨WriteShaderFiles_written h, WriteShaderFiles_of_written env
      (WriteShaderFiles_written h)⟩
  refine ⟨?_, key⟩
  cases h : WriteShaderFiles env name s with
  | none => rfl
  | some s1 => rw [Option.some_bind]; exact (key s1 h).2

/-- C18. Let the shader `name` be in the had-error set, let its shader info be
registered (the info carries the name, which is not empty), and let the call be
the first one for the name. Then `WriteShaderFiles( name )` returns; the files
are as before except that there is no file at `<root>/shaders/fxc/<name>.vcs`;
and the operations it has done on the file system are at most the creation of
the directory and a change of permissions of the file, and then the removal of
the file: nothing is written, whatever byte code was accumulated. -/
theorem C18_failed_shader_file_removed (env : Environment) (name : String) (s : ProgramState)
    (si : ShaderInfo_t) (hfailed : name ∈ s.g_ShaderHadError)
    (hinfo : s.g_ShaderToShaderInfo name = some si) (hname : si.m_pShaderName = name)
    (hne : name ≠ "") (hfirst : name ∉ s.g_ShaderWrittenToDisk) :
    ∃ s1, WriteShaderFiles env name s = some s1 ∧
      s1.fileSystem.files =
        Function.update s.fileSystem.files (vcsPath env.g_pShaderPath name) none ∧
      s1.fileSystem.files (vcsPath env.g_pShaderPath name) = none ∧
      ∃ ops, s1.fileSystem.operations =
          s.fileSystem.operations ++ ops ++ [FileOperation.remove (vcsPath env.g_pShaderPath name)] ∧
        ∀ op ∈ ops, op = FileOperation.createDirectories (vcsDirectory env.g_pShaderPath) ∨
          op = FileOperation.permissions (vcsPath env.g_pShaderPath name) := by
  have hne2 : ¬ (si.m_pShaderName = "") := by rw [hname]; exact hne
  obtain ⟨h1, h2, ops, h3, h4⟩ := GetVCSFilenames_spec env.g_pShaderPath si
    { s with
      g_ShaderWrittenToDisk := s.g_ShaderWrittenToDisk ++ [name]
      g_ShaderByteCode := Function.update s.g_ShaderByteCode name none
      g_ShaderToShaderInfo := Function.update s.g_ShaderToShaderInfo name (some si) }.fileSystem
  rw [hname] at h1 h4
  unfold WriteShaderFiles
  rw [if_neg hfirst]
  simp only [hinfo, Option.getD_some, if_neg hne2, hfailed, decide_True, if_true]
  refine ⟨_, rfl, ?_, ?_, ?_⟩
  · simp only [FileSystem.remove, h1, h2]
  · simp only [FileSystem.remove, h1, Function.update_same]
  · exact ⟨ops, by simp only [FileSystem.remove, h1, h3], h4⟩

/-- C18 at `failedShaderState`: the stale file of `example_ps20b` is removed, after
the directory was created and the permissions of the file were changed. -/
theorem C18_failed_shader_file_removed_witness :
    "example_ps20b" ∈ failedShaderState.g_ShaderHadError ∧
    failedShaderState.fileSystem.files (vcsPath "root" "example_ps20b") = some [1, 2] ∧
    ∃ s1, WriteShaderFiles exampleEnvironment "example_ps20b" failedShaderState = some s1 ∧
      s1.fileSystem.files =
        Function.update failedShaderState.fileSystem.files
          (vcsPath exampleEnvironment.g_pShaderPath "example_ps20b") none ∧
      s1.fileSystem.files (vcsPath exampleEnvironment.g_pShaderPath "example_ps20b") = none ∧
      ∃ ops, s1.fileSystem.operations =
          failedShaderState.fileSystem.operations ++ ops ++
            [FileOperation.remove (vcsPath exampleEnvironment.g_pShaderPath "example_ps20b")] ∧
        ∀ op ∈ ops,
          op = FileOperation.createDirectories (vcsDirectory exampleEnvironment.g_pShaderPath) ∨
          op = FileOperation.permissions
            (vcsPath exampleEnvironment.g_pShaderPath "example_ps20b") :=
  ⟨by decide, by decide,
    C18_failed_shader_file_removed exampleEnvironment "example_ps20b" failedShaderState
      exampleInfo (by decide) (by decide) rfl (by decide) (by decide)⟩

/-! ## The effect of the steps of a run on the globals -/

theorem Combo_GetNext_some {alive : Nat → Bool} {iFrom iEnd n : Nat}
    (h : Combo_GetNext alive iFrom iEnd = some n) : iFrom ≤ n ∧ n < iEnd ∧ alive n = true := by
  unfold Combo_GetNext at h
  have hm := List.mem_of_find?_eq_some h
  have ha := List.find?_some h
  rw [List.mem_range'_1] at hm
  exact ⟨hm.1, by omega, ha⟩

/-- A call of `TryToPackageData` that returns either leaves the dispatcher as it
was and seals nothing, or moves the watermark up to `cmd + 1` while no slot
holds a command below `cmd`. -/
theorem TryToPackageData_cases {cfg : List CfgEntryInfo} {fuel : Nat}
    {st st1 : CWorkerAccumState} {cmd : Nat} {passes : List (CfgEntryInfo × Nat)}
    (h : TryToPackageData cfg fuel st cmd = some (st1, passes)) :
    (st1 = st ∧ passes = [] ∧
      ((∃ r ∈ st.m_arrSubProcessInfos, r < cmd) ∨ (cmd + 1) % 2 ^ 64 ≤ st.m_iLastFinished)) ∨
    (st1 = { st with m_iLastFinished := (cmd + 1) % 2 ^ 64 } ∧
      st.m_iLastFinished < (cmd + 1) % 2 ^ 64 ∧ ∀ r ∈ st.m_arrSubProcessInfos, cmd ≤ r) := by
  have hst := TryToPackageData_state h
  unfold TryToPackageData at h
  unfold TryToPackageData_locked at hst
  simp only at h hst
  by_cases hany : st.m_arrSubProcessInfos.any (fun r => decide (r < cmd)) = true
  · rw [if_pos hany] at h hst
    have hno : ¬ (0 > st.m_iLastFinished) := Nat.not_lt_zero _
    rw [if_neg hno] at h hst
    simp only [Option.some.injEq, Prod.mk.injEq] at h
    rw [List.any_eq_true] at hany
    obtain ⟨r, hr, hlt⟩ := hany
    exact Or.inl ⟨h.1.symm, h.2.symm, Or.inl ⟨r, hr, by simpa using hlt⟩⟩
  · rw [if_neg hany] at h hst
    by_cases hadv : (cmd + 1) % 2 ^ 64 > st.m_iLastFinished
    · rw [if_pos hadv] at hst
      refine Or.inr ⟨hst, hadv, ?_⟩
      intro r hr
      by_contra hlt
      exact hany (List.any_eq_true.2 ⟨r, hr, by simpa using hlt⟩)
    · rw [if_neg hadv] at h
      simp only [Option.some.injEq, Prod.mk.injEq] at h
      exact Or.inl ⟨h.1.symm, h.2.symm, Or.inr (by omega)⟩

theorem TryToPackageData_sealing_frame {env : Environment} {cmd : Nat} {s s1 : RunState}
    (h : TryToPackageData_sealing env cmd s = some s1) :
    s1.program.fileSystem = s.program.fileSystem ∧
    s1.program.g_ShaderWrittenToDisk = s.program.g_ShaderWrittenToDisk ∧
    s1.program.g_ShaderToShaderInfo = s.program.g_ShaderToShaderInfo ∧
    s1.program.g_ShaderHadError = s.program.g_ShaderHadError ∧
    s1.handled = s.handled ∧ s1.m_bStopped = s.m_bStopped ∧ s1.m_bBreak = s.m_bBreak ∧
    s1.dispatcher.m_iEndCommand = s.dispatcher.m_iEndCommand ∧
    s1.dispatcher.m_hCombo = s.dispatcher.m_hCombo ∧
    s1.dispatcher.m_arrSubProcessInfos = s.dispatcher.m_arrSubProcessInfos ∧
    s1.dispatcher.m_iFirstCommand = s.dispatcher.m_iFirstCommand := by
  unfold TryToPackageData_sealing at h
  cases ht : TryToPackageData env.cfg env.fuel s.dispatcher cmd with
  | none => rw [ht] at h; exact absurd h (by simp)
  | some r =>
    obtain ⟨st1, passes⟩ := r
    rw [ht] at h
    simp only at h
    cases hs : sealPackaged env.compress env.maxBlock env.slot passes s.program.g_ShaderByteCode with
    | none => rw [hs] at h; exact absurd h (by simp)
    | some g =>
      rw [hs] at h
      simp only [Option.some.injEq] at h
      subst h
      rcases TryToPackageData_cases ht with ⟨h1, -, -⟩ | ⟨h1, -, -⟩ <;> subst h1 <;> simp

theorem RangeEffect_begin (env : Environment) (s0 : RunState) (iFirst iEnd : Nat) :
    RangeEffect env iFirst iEnd s0
      { s0 with dispatcher := RangeBegin env.alive s0.dispatcher iFirst iEnd } [] where
  fileSystem := rfl
  written := rfl
  shaderInfo := rfl
  handled := (List.append_nil _).symm
  inRange := fun cr hcr => absurd hcr (List.not_mem_nil _)
  hadError := rfl
  stoppedOnly := fun h => Or.inl h
  iEndCommand := rfl
  cursor := fun n hn => by
    have := Combo_GetNext_some hn
    exact ⟨this.1, this.2.1⟩

theorem failedShaders_append (env : Environment) (a b : List (Nat × IResponse)) :
    failedShaders env (a ++ b) = failedShaders env a ++ failedShaders env b := by
  unfold failedShaders
  rw [List.filterMap_append]

theorem RangeEffect_store {env : Environment} {iFirst iEnd : Nat} {s0 s s1 : RunState}
    {H : List (Nat × IResponse)} (he : RangeEffect env iFirst iEnd s0 s H) {c : Nat}
    (h1 : iFirst ≤ c) (h2 : c < iEnd)
    (h : HandleCommandResponse_store env c (env.execute c) s = some s1) :
    RangeEffect env iFirst iEnd s0 s1 (H ++ [(c, env.execute c)]) ∧
    s1.dispatcher = s.dispatcher ∧ s1.m_bStopped = s.m_bStopped ∧ s1.m_bBreak = s.m_bBreak := by
  unfold HandleCommandResponse_store at h
  cases hg : Combo_GetCombo env.cfg c with
  | none => rw [hg] at h; exact absurd h (by simp)
  | some r =>
    obtain ⟨pEntryInfo, iComboIndex⟩ := r
    rw [hg] at h
    simp only at h
    have hin : ∀ cr ∈ H ++ [(c, env.execute c)], iFirst ≤ cr.1 ∧ cr.1 < iEnd ∧
        cr.2 = env.execute cr.1 ∧ (Combo_GetCombo env.cfg cr.1).isSome = true := by
      intro cr hcr
      rcases List.mem_append.1 hcr with hcr | hcr
      · exact he.inRange cr hcr
      · rw [List.mem_singleton] at hcr
        subst hcr
        exact ⟨h1, h2, rfl, by rw [hg]; rfl⟩
    have hstop : ∀ b : Bool, b = s.m_bStopped → b = true → s0.m_bStopped = true ∨
        (env.g_bFastFail = true ∧ ∃ cr ∈ H ++ [(c, env.execute c)], cr.2.Succeeded = false) := by
      intro b hb hbt
      rcases he.stoppedOnly (hb ▸ hbt) with h0 | ⟨hf, cr, hcr, hfail⟩
      · exact Or.inl h0
      · exact Or.inr ⟨hf, cr, List.mem_append_left _ hcr, hfail⟩
    by_cases hsucc : (env.execute c).Succeeded = true
    · rw [if_pos hsucc] at h
      split at h
      · exact absurd h (by simp)
      · simp only [Option.some.injEq] at h
        subst h
        refine ⟨⟨he.fileSystem, he.written, he.shaderInfo, ?_, hin, ?_, hstop _ rfl,
          he.iEndCommand, he.cursor⟩, rfl, rfl, rfl⟩
        · simp only [he.handled, List.append_assoc]
        · rw [failedShaders_append]
          simp only [failedShaders, List.filterMap_cons, hsucc, if_true, List.filterMap_nil,
            List.append_nil]
          exact he.hadError
    · rw [if_neg hsucc] at h
      simp only [Option.some.injEq] at h
      subst h
      refine ⟨⟨he.fileSystem, he.written, he.shaderInfo, ?_, hin, ?_, hstop _ rfl,
        he.iEndCommand, he.cursor⟩, rfl, rfl, rfl⟩
      · simp only [he.handled, List.append_assoc]
      · rw [failedShaders_append, List.foldl_append, ← he.hadError]
        simp [failedShaders, hsucc, hg, ShaderHadErrorDispatchInt]

theorem RangeEffect_stop {env : Environment} {iFirst iEnd : Nat} {s0 s : RunState}
    {H : List (Nat × IResponse)} (he : RangeEffect env iFirst iEnd s0 s H) {c : Nat}
    (hc : (c, env.execute c) ∈ H) :
    RangeEffect env iFirst iEnd s0 (HandleCommandResponse_stop env (env.execute c) s) H := by
  unfold HandleCommandResponse_stop
  by_cases hstop : (!(env.execute c).Succeeded && env.g_bFastFail) = true
  · rw [if_pos hstop]
    simp only [Bool.and_eq_true, Bool.not_eq_true'] at hstop
    exact ⟨he.fileSystem, he.written, he.shaderInfo, he.handled, he.inRange, he.hadError,
      fun _ => Or.inr ⟨hstop.2, _, hc, hstop.1⟩, he.iEndCommand, he.cursor⟩
  · rw [if_neg hstop]
    exact he

theorem HandleCommandResponse_stop_stopped (env : Environment) (r : IResponse) (s : RunState) :
    (HandleCommandResponse_stop env r s).m_bStopped =
      (s.m_bStopped || (!r.Succeeded && env.g_bFastFail)) := by
  unfold HandleCommandResponse_stop
  by_cases hstop : (!r.Succeeded && env.g_bFastFail) = true
  · rw [if_pos hstop, hstop, Bool.or_true]
    rfl
  · rw [if_neg hstop]
    simp only [Bool.not_eq_true] at hstop
    rw [hstop, Bool.or_false]

theorem HandleCommandResponse_stop_frame (env : Environment) (r : IResponse) (s : RunState) :
    (HandleCommandResponse_stop env r s).program = s.program ∧
    (HandleCommandResponse_stop env r s).dispatcher = s.dispatcher ∧
    (HandleCommandResponse_stop env r s).handled = s.handled ∧
    (HandleCommandResponse_stop env r s).packaged = s.packaged := by
  unfold HandleCommandResponse_stop
  split <;> exact ⟨rfl, rfl, rfl, rfl⟩

theorem RangeEffect_sealing {env : Environment} {iFirst iEnd : Nat} {s0 s s1 : RunState}
    {H : List (Nat × IResponse)} (he : RangeEffect env iFirst iEnd s0 s H) {cmd : Nat}
    (h : TryToPackageData_sealing env cmd s = some s1) :
    RangeEffect env iFirst iEnd s0 s1 H := by
  obtain ⟨h1, h2, h3, h4, h5, h6, -, h8, h9, -, -⟩ := TryToPackageData_sealing_frame h
  exact ⟨h1 ▸ he.fileSystem, h2 ▸ he.written, h3 ▸ he.shaderInfo, h5 ▸ he.handled, he.inRange,
    h4 ▸ he.hadError, fun hs => he.stoppedOnly (h6 ▸ hs), h8 ▸ he.iEndCommand,
    fun n hn => he.cursor n (h9 ▸ hn)⟩

/-- A change of the dispatcher that keeps `m_iEndCommand` and leaves the shared
handle inside the range keeps the effect. -/
theorem RangeEffect_dispatcher {env : Environment} {iFirst iEnd : Nat} {s0 s : RunState}
    {H : List (Nat × IResponse)} (he : RangeEffect env iFirst iEnd s0 s H)
    (d : CWorkerAccumState) (hend : d.m_iEndCommand = iEnd)
    (hcur : ∀ n, d.m_hCombo = some n → iFirst ≤ n ∧ n < iEnd) :
    RangeEffect env iFirst iEnd s0 { s with dispatcher := d } H :=
  ⟨he.fileSystem, he.written, he.shaderInfo, he.handled, he.inRange, he.hadError,
    he.stoppedOnly, hend, hcur⟩

/-- The effect of a whole call `HandleCommandResponse` in the single-threaded
mode, where no other step comes between its parts. -/
theorem RangeEffect_handle {env : Environment} {iFirst iEnd : Nat} {s0 s s1 : RunState}
    {H : List (Nat × IResponse)} (he : RangeEffect env iFirst iEnd s0 s H) {c : Nat}
    (h1 : iFirst ≤ c) (h2 : c < iEnd)
    (h : ExecuteCompileCommand env c s = some s1) :
    RangeEffect env iFirst iEnd s0 s1 (H ++ [(c, env.execute c)]) ∧
    s1.m_bStopped = (s.m_bStopped || (!(env.execute c).Succeeded && env.g_bFastFail)) ∧
    s1.m_bBreak = (s.m_bBreak || (!(env.execute c).Succeeded && env.g_bFastFail)) ∧
    s1.dispatcher.m_hCombo = s.dispatcher.m_hCombo := by
  unfold ExecuteCompileCommand HandleCommandResponse at h
  cases hst : HandleCommandResponse_store env c (env.execute c) s with
  | none => rw [hst] at h; exact absurd h (by simp)
  | some s2 =>
    rw [hst, Option.some_bind] at h
    obtain ⟨he2, hd, hs, hb⟩ := RangeEffect_store he h1 h2 hst
    have he3 := RangeEffect_stop he2 (List.mem_append_right _ (List.mem_singleton_self _))
    obtain ⟨-, -, -, -, -, h6, h7, -, h9, -, -⟩ := TryToPackageData_sealing_frame h
    refine ⟨RangeEffect_sealing he3 h, ?_, ?_, ?_⟩
    · rw [h6, HandleCommandResponse_stop_stopped, hs]
    · rw [h7]
      unfold HandleCommandResponse_stop
      by_cases hstop : (!(env.execute c).Succeeded && env.g_bFastFail) = true
      · rw [if_pos hstop, hstop, Bool.or_true]
        rfl
      · rw [if_neg hstop]
        simp only [Bool.not_eq_true] at hstop
        rw [hstop, Bool.or_false, hb]
    · rw [h9, (HandleCommandResponse_stop_frame env _ s2).2.1, hd]

theorem find?_range'_skips {p : Nat → Bool} {a n m c : Nat}
    (h : (List.range' a n).find? p = some m) (h1 : a ≤ c) (h2 : c < m) : p c = false := by
  have := (List.find?_range'_eq_some.1 h).2.2 c h1 h2
  simpa using this

/-- The commands that `Combo_GetNext` passes over are skipped ones. -/
theorem Combo_GetNext_skips {alive : Nat → Bool} {iFrom iEnd c : Nat} (h1 : iFrom ≤ c)
    (h2 : c < (Combo_GetNext alive iFrom iEnd).getD iEnd) : alive c = false := by
  unfold Combo_GetNext at h2
  cases hf : (List.range' iFrom (iEnd - iFrom)).find? alive with
  | none =>
    rw [hf] at h2
    simp only [Option.getD_none] at h2
    have := (List.find?_range'_eq_none.1 hf) c h1 (by omega)
    simpa using this
  | some m =>
    rw [hf] at h2
    exact find?_range'_skips hf h1 h2

theorem HandleCommandResponse_stop_break (env : Environment) (r : IResponse) (s : RunState) :
    (HandleCommandResponse_stop env r s).m_bBreak =
      (s.m_bBreak || (!r.Succeeded && env.g_bFastFail)) := by
  unfold HandleCommandResponse_stop
  by_cases hstop : (!r.Succeeded && env.g_bFastFail) = true
  · rw [if_pos hstop, hstop, Bool.or_true]
    rfl
  · rw [if_neg hstop]
    simp only [Bool.not_eq_true] at hstop
    rw [hstop, Bool.or_false]

theorem OnProcessST_effect {env : Environment} {iFirst iEnd : Nat} {s0 : RunState}
    (fuel : Nat) :
    ∀ {s s1 : RunState} {H : List (Nat × IResponse)},
      RangeEffect env iFirst iEnd s0 s H →
      s.m_bStopped = (s0.m_bStopped || (env.g_bFastFail && H.any (fun cr => !cr.2.Succeeded))) →
      (s.m_bBreak = true →
        s0.m_bBreak = true ∨ (env.g_bFastFail = true ∧ ∃ cr ∈ H, cr.2.Succeeded = false)) →
      (s.m_bBreak = false → ∀ c, iFirst ≤ c → c < s.dispatcher.nextCommand →
        env.alive c = true → (c, env.execute c) ∈ H) →
      OnProcessST env fuel s = some s1 →
      ∃ H1, RangeEffect env iFirst iEnd s0 s1 H1 ∧
        s1.m_bStopped =
          (s0.m_bStopped || (env.g_bFastFail && H1.any (fun cr => !cr.2.Succeeded))) ∧
        (s1.m_bBreak = true →
          s0.m_bBreak = true ∨ (env.g_bFastFail = true ∧ ∃ cr ∈ H1, cr.2.Succeeded = false)) ∧
        (s1.m_bBreak = false → ∀ c, iFirst ≤ c → c < iEnd → env.alive c = true →
          (c, env.execute c) ∈ H1) := by
  have hdone : ∀ {s : RunState} {H : List (Nat × IResponse)},
      RangeEffect env iFirst iEnd s0 s H →
      (s.m_bBreak = false → ∀ c, iFirst ≤ c → c < s.dispatcher.nextCommand →
        env.alive c = true → (c, env.execute c) ∈ H) →
      (s.m_bBreak = false → s.dispatcher.m_hCombo = none) →
      s.m_bBreak = false → ∀ c, iFirst ≤ c → c < iEnd → env.alive c = true →
        (c, env.execute c) ∈ H := by
    intro s H he hlive hnone hb c h1 h2 ha
    refine hlive hb c h1 ?_ ha
    unfold CWorkerAccumState.nextCommand
    rw [hnone hb, he.iEndCommand]
    exact h2
  induction fuel with
  | zero =>
    intro s s1 H he hs hbo hlive h
    unfold OnProcessST at h
    split at h
    · exact absurd h (by simp)
    · rename_i hcond
      simp only [Option.some.injEq] at h
      subst h
      refine ⟨H, he, hs, hbo, hdone he hlive ?_⟩
      intro hb
      cases hc : s.dispatcher.m_hCombo with
      | none => rfl
      | some c => simp [hc, hb] at hcond
  | succ fuel ih =>
    intro s s1 H he hs hbo hlive h
    unfold OnProcessST at h
    cases hc : s.dispatcher.m_hCombo with
    | none =>
      rw [hc] at h
      simp only [Option.some.injEq] at h
      subst h
      exact ⟨H, he, hs, hbo, hdone he hlive (fun _ => hc)⟩
    | some c =>
      rw [hc] at h
      simp only at h
      by_cases hb : s.m_bBreak = true
      · rw [if_pos hb] at h
        simp only [Option.some.injEq] at h
        subst h
        exact ⟨H, he, hs, hbo, fun hf => absurd hb (by rw [hf]; simp)⟩
      · rw [if_neg hb] at h
        cases hx : ExecuteCompileCommand env c s with
        | none => rw [hx] at h; exact absurd h (by simp)
        | some s2 =>
          rw [hx] at h
          simp only at h
          obtain ⟨hr1, hr2⟩ := he.cursor c hc
          obtain ⟨he2, hst2, hbr2, -⟩ := RangeEffect_handle he hr1 hr2 hx
          have hnx : s.dispatcher.nextCommand = c := by
            unfold CWorkerAccumState.nextCommand
            rw [hc]
            rfl
          refine ih (RangeEffect_dispatcher he2
            { s2.dispatcher with
              m_hCombo := Combo_GetNext env.alive (c + 1) s2.dispatcher.m_iEndCommand }
            he2.iEndCommand ?_) ?_ ?_ ?_ h
          · intro n hn
            have := Combo_GetNext_some hn
            rw [he2.iEndCommand] at this
            exact ⟨by omega, this.2.1⟩
          · show s2.m_bStopped = _
            rw [hst2, hs, List.any_append]
            simp only [List.any_cons, List.any_nil, Bool.or_false]
            cases s0.m_bStopped <;> cases env.g_bFastFail <;>
              cases (env.execute c).Succeeded <;> simp
          · intro hb2
            have hb3 : s2.m_bBreak = true := hb2
            rw [hbr2] at hb3
            simp only [Bool.or_eq_true, Bool.and_eq_true, Bool.not_eq_true'] at hb3
            rcases hb3 with hb3 | ⟨hfail, hff⟩
            · exact absurd hb3 hb
            · exact Or.inr ⟨hff, _, List.mem_append_right _ (List.mem_singleton_self _), hfail⟩
          · intro hb2 c1 h1 h2 ha
            have hb3 : s2.m_bBreak = false := hb2
            have h3 : c1 < (Combo_GetNext env.alive (c + 1) s2.dispatcher.m_iEndCommand).getD
                s2.dispatcher.m_iEndCommand := h2
            by_cases hlt : c1 < c
            · exact List.mem_append_left _
                (hlive (by simpa using hb) c1 h1 (by rw [hnx]; exact hlt) ha)
            · by_cases heq : c1 = c
              · subst heq
                exact List.mem_append_right _ (List.mem_singleton_self _)
              · have := Combo_GetNext_skips (by omega : c + 1 ≤ c1) h3
                rw [ha] at this
                exact absurd this (by simp)
theorem getElem?_set_cases {α : Type} {l : List α} {w w1 : Nat} {a p : α}
    (h : (l.set w a)[w1]? = some p) :
    (w1 = w ∧ p = a) ∨ (w1 ≠ w ∧ l[w1]? = some p) := by
  rw [List.getElem?_set] at h
  by_cases hw : w = w1
  · rw [if_pos hw] at h
    split at h
    · simp only [Option.some.injEq] at h
      exact Or.inl ⟨hw.symm, h.symm⟩
    · exact absurd h (by simp)
  · rw [if_neg hw] at h
    exact Or.inr ⟨fun e => hw e.symm, h⟩

theorem getElem?_set_other {α : Type} (l : List α) {w w1 : Nat} (a : α) (h : w1 ≠ w) :
    (l.set w a)[w1]? = l[w1]? := by
  rw [List.getElem?_set, if_neg (fun e => h e.symm)]

theorem getElem?_set_self {α : Type} {l : List α} {w : Nat} {p : α} (a : α)
    (h : l[w]? = some p) : (l.set w a)[w]? = some a := by
  rw [List.getElem?_set, if_pos rfl, if_pos]
  exact (List.getElem?_eq_some_iff.1 h).1
theorem ThreadedEffect_set {env : Environment} {iFirst iEnd : Nat} {s0 : RunState}
    {t : ThreadedState} {H : List (Nat × IResponse)}
    (he : ThreadedEffect env iFirst iEnd s0 t H) (w : Nat) (a : WorkerPhase) (run1 : RunState)
    (H1 : List (Nat × IResponse)) (heff : RangeEffect env iFirst iEnd s0 run1 H1)
    (hsub : ∀ x ∈ H, x ∈ H1)
    (hcmd : ∀ c, a.command = some c → iFirst ≤ c ∧ c < iEnd)
    (hstored : ∀ c, a = WorkerPhase.responded c → (c, env.execute c) ∈ H1)
    (hstop : ∀ cr ∈ H1, cr.2.Succeeded = false → env.g_bFastFail = true →
      run1.m_bStopped = true ∨
      (∃ w1 : Nat, w1 ≠ w ∧ t.workers[w1]? = some (WorkerPhase.responded cr.1)) ∨
      (a = WorkerPhase.responded cr.1 ∧ w < t.workers.length))
    (hkept : t.run.m_bStopped = true → run1.m_bStopped = true)
    (hw : w < t.workers.length)
    (hlive : run1.m_bBreak = false → ∀ c, iFirst ≤ c → c < run1.dispatcher.nextCommand →
      env.alive c = true →
      (c, env.execute c) ∈ H1 ∨ (a.pending = true ∧ a.command = some c) ∨
        ∃ (w1 : Nat) (p1 : WorkerPhase), w1 ≠ w ∧ t.workers[w1]? = some p1 ∧
          p1.pending = true ∧ p1.command = some c)
    (hexited : run1.m_bBreak = false →
      (a = WorkerPhase.exited ∨ ∃ w1 : Nat, w1 ≠ w ∧ t.workers[w1]? = some WorkerPhase.exited) →
      run1.dispatcher.m_hCombo = none)
    (hbreak : run1.m_bBreak = true →
      s0.m_bBreak = true ∨ (env.g_bFastFail = true ∧ ∃ cr ∈ H1, cr.2.Succeeded = false)) :
    ThreadedEffect env iFirst iEnd s0 { run := run1, workers := t.workers.set w a } H1 where
  live := by
    intro hb c h1 h2 ha
    rcases hlive hb c h1 h2 ha with h3 | ⟨h3, h4⟩ | ⟨w1, p1, hne, hp1, h3, h4⟩
    · exact Or.inl h3
    · refine Or.inr ⟨w, a, ?_, h3, h4⟩
      show (t.workers.set w a)[w]? = _
      rw [List.getElem?_set, if_pos rfl, if_pos hw]
    · refine Or.inr ⟨w1, p1, ?_, h3, h4⟩
      show (t.workers.set w a)[w1]? = _
      rw [getElem?_set_other _ _ hne]
      exact hp1
  exitedOnly := by
    intro hb w1 hw1
    rcases getElem?_set_cases hw1 with ⟨-, hpa⟩ | ⟨hne, hold⟩
    · exact hexited hb (Or.inl hpa.symm)
    · exact hexited hb (Or.inr ⟨w1, hne, hold⟩)
  breakOnly := hbreak
  effect := heff
  commands := by
    intro w1 p c hp hc
    rcases getElem?_set_cases hp with ⟨-, hpa⟩ | ⟨-, hold⟩
    · exact hcmd c (hpa ▸ hc)
    · exact he.commands w1 p c hold hc
  stored := by
    intro w1 c hp
    rcases getElem?_set_cases hp with ⟨-, hpa⟩ | ⟨-, hold⟩
    · exact hstored c hpa.symm
    · exact hsub _ (he.stored w1 c hold)
  stoppedIf := by
    intro cr hcr hfail hff
    rcases hstop cr hcr hfail hff with h1 | ⟨w1, hne, hw1⟩ | ⟨ha, hlt⟩
    · exact Or.inl h1
    · exact Or.inr ⟨w1, by
        show (t.workers.set w a)[w1]? = _
        rw [getElem?_set_other _ _ hne]; exact hw1⟩
    · refine Or.inr ⟨w, ?_⟩
      show (t.workers.set w a)[w]? = _
      rw [List.getElem?_set, if_pos rfl, if_pos hlt, ha]
  stoppedKept := fun h0 => hkept (he.stoppedKept h0)

/-- What `stoppedIf` gives for the responses handled before a step of the worker
`w`, whose phase is `p`. -/
theorem ThreadedEffect_stopped_before {env : Environment} {iFirst iEnd : Nat} {s0 : RunState}
    {t : ThreadedState} {H : List (Nat × IResponse)}
    (he : ThreadedEffect env iFirst iEnd s0 t H) {w : Nat} {p : WorkerPhase}
    (hp : t.workers[w]? = some p) {cr : Nat × IResponse} (hcr : cr ∈ H)
    (hfail : cr.2.Succeeded = false) (hff : env.g_bFastFail = true) :
    t.run.m_bStopped = true ∨
      (∃ w1 : Nat, w1 ≠ w ∧ t.workers[w1]? = some (WorkerPhase.responded cr.1)) ∨
      p = WorkerPhase.responded cr.1 := by
  rcases he.stoppedIf cr hcr hfail hff with h1 | ⟨w1, hw1⟩
  · exact Or.inl h1
  · by_cases hne : w1 = w
    · subst hne
      rw [hp] at hw1
      simp only [Option.some.injEq] at hw1
      exact Or.inr (Or.inr hw1)
    · exact Or.inr (Or.inl ⟨w1, hne, hw1⟩)

/-- What `live` gives before a step of the worker `w`, whose phase is `p`. -/
theorem ThreadedEffect_live_before {env : Environment} {iFirst iEnd : Nat} {s0 : RunState}
    {t : ThreadedState} {H : List (Nat × IResponse)}
    (he : ThreadedEffect env iFirst iEnd s0 t H) {w : Nat} {p : WorkerPhase}
    (hp : t.workers[w]? = some p) (hb : t.run.m_bBreak = false) {c : Nat} (h1 : iFirst ≤ c)
    (h2 : c < t.run.dispatcher.nextCommand) (ha : env.alive c = true) :
    (c, env.execute c) ∈ H ∨ (p.pending = true ∧ p.command = some c) ∨
      ∃ (w1 : Nat) (p1 : WorkerPhase), w1 ≠ w ∧ t.workers[w1]? = some p1 ∧
        p1.pending = true ∧ p1.command = some c := by
  rcases he.live hb c h1 h2 ha with h3 | ⟨w1, p1, hp1, h3, h4⟩
  · exact Or.inl h3
  · by_cases hne : w1 = w
    · subst hne
      rw [hp] at hp1
      simp only [Option.some.injEq] at hp1
      subst hp1
      exact Or.inr (Or.inl ⟨h3, h4⟩)
    · exact Or.inr (Or.inr ⟨w1, p1, hne, hp1, h3, h4⟩)

theorem ThreadedEffect_exited_before {env : Environment} {iFirst iEnd : Nat} {s0 : RunState}
    {t : ThreadedState} {H : List (Nat × IResponse)}
    (he : ThreadedEffect env iFirst iEnd s0 t H) {w : Nat} (hb : t.run.m_bBreak = false)
    (h : ∃ w1 : Nat, w1 ≠ w ∧ t.workers[w1]? = some WorkerPhase.exited) :
    t.run.dispatcher.m_hCombo = none := by
  obtain ⟨w1, -, hw1⟩ := h
  exact he.exitedOnly hb w1 hw1

theorem workerStep_effect {env : Environment} {iFirst iEnd : Nat} {s0 : RunState}
    {t t1 : ThreadedState} {H : List (Nat × IResponse)} (w : Nat)
    (he : ThreadedEffect env iFirst iEnd s0 t H) (h : workerStep env w t = some t1) :
    ∃ H1, ThreadedEffect env iFirst iEnd s0 t1 H1 := by
  unfold workerStep at h
  cases hp : t.workers[w]? with
  | none =>
    rw [hp] at h
    simp only [Option.some.injEq] at h
    subst h
    exact ⟨H, he⟩
  | some p =>
    rw [hp] at h
    have hold : ∀ cr ∈ H, cr.2.Succeeded = false → env.g_bFastFail = true →
        t.run.m_bStopped = true ∨
        (∃ w1 : Nat, w1 ≠ w ∧ t.workers[w1]? = some (WorkerPhase.responded cr.1)) ∨
        p = WorkerPhase.responded cr.1 :=
      fun cr hcr hfail hff => ThreadedEffect_stopped_before he hp hcr hfail hff
    have hwl : w < t.workers.length := (List.getElem?_eq_some_iff.1 hp).1
    cases p with
    | ready =>
      simp only [Option.some.injEq] at h
      subst h
      refine ⟨H, ThreadedEffect_set he w _ _ H ?_ (fun x hx => hx) ?_ ?_ ?_ (fun hs => hs) hwl
        ?_ ?_ he.breakOnly⟩
      · refine RangeEffect_dispatcher he.effect _ ?_ ?_
        · unfold OnProcessTake
          cases t.run.dispatcher.m_hCombo <;> exact he.effect.iEndCommand
        · intro n hn
          unfold OnProcessTake at hn
          cases hc : t.run.dispatcher.m_hCombo with
          | none => rw [hc] at hn; exact he.effect.cursor n (by rw [hc]; exact hn)
          | some c =>
            rw [hc] at hn
            have := Combo_GetNext_some hn
            have hcr := he.effect.cursor c hc
            rw [he.effect.iEndCommand] at this
            exact ⟨by omega, this.2.1⟩
      · intro c hc
        unfold OnProcessTake at hc
        cases hcur : t.run.dispatcher.m_hCombo with
        | none => rw [hcur] at hc; simp [WorkerPhase.command] at hc
        | some n =>
          rw [hcur] at hc
          simp only [WorkerPhase.command, Option.some.injEq] at hc
          exact hc ▸ he.effect.cursor n hcur
      · intro c hc
        unfold OnProcessTake at hc
        cases hcur : t.run.dispatcher.m_hCombo <;> rw [hcur] at hc <;> simp at hc
      · intro cr hcr hfail hff
        rcases hold cr hcr hfail hff with h1 | h2 | h3
        · exact Or.inl h1
        · exact Or.inr (Or.inl h2)
        · exact absurd h3 (by simp)
      · intro hb c h1 h2 ha
        have hb0 : t.run.m_bBreak = false := hb
        cases hcur : t.run.dispatcher.m_hCombo with
        | none =>
          have h3 : c < t.run.dispatcher.nextCommand := by
            simpa [OnProcessTake, hcur, CWorkerAccumState.nextCommand] using h2
          rcases ThreadedEffect_live_before he hp hb0 h1 h3 ha with h4 | ⟨h4, -⟩ | h4
          · exact Or.inl h4
          · simp [WorkerPhase.pending] at h4
          · exact Or.inr (Or.inr h4)
        | some n =>
          have h3 : c < (Combo_GetNext env.alive (n + 1) t.run.dispatcher.m_iEndCommand).getD
              t.run.dispatcher.m_iEndCommand := by
            simpa [OnProcessTake, hcur, CWorkerAccumState.nextCommand] using h2
          by_cases hlt : c < n
          · have h5 : c < t.run.dispatcher.nextCommand := by
              simpa [CWorkerAccumState.nextCommand, hcur] using hlt
            rcases ThreadedEffect_live_before he hp hb0 h1 h5 ha with h4 | ⟨h4, -⟩ | h4
            · exact Or.inl h4
            · simp [WorkerPhase.pending] at h4
            · exact Or.inr (Or.inr h4)
          · by_cases heq : c = n
            · subst heq
              refine Or.inr (Or.inl ?_)
              simp [OnProcessTake, hcur, WorkerPhase.pending, WorkerPhase.command]
            · have := Combo_GetNext_skips (by omega : n + 1 ≤ c) h3
              rw [ha] at this
              exact absurd this (by simp)
      · intro hb hex
        have hb0 : t.run.m_bBreak = false := hb
        cases hcur : t.run.dispatcher.m_hCombo with
        | none => simp [OnProcessTake, hcur]
        | some n =>
          rcases hex with hex | hex
          · simp [OnProcessTake, hcur] at hex
          · have := ThreadedEffect_exited_before he hb0 hex
            rw [hcur] at this
            exact absurd this (by simp)
    | taken c =>
      simp only [Option.some.injEq] at h
      subst h
      refine ⟨H, ThreadedEffect_set he w _ t.run H he.effect (fun x hx => hx) ?_ ?_ ?_
        (fun hs => hs) hwl ?_ ?_ he.breakOnly⟩
      · intro c1 hc1
        have hr := he.commands w _ c hp rfl
        split at hc1
        · simp [WorkerPhase.command] at hc1
        · simp only [WorkerPhase.command, Option.some.injEq] at hc1
          exact hc1 ▸ hr
      · intro c1 hc1
        split at hc1 <;> simp at hc1
      · intro cr hcr hfail hff
        rcases hold cr hcr hfail hff with h1 | h2 | h3
        · exact Or.inl h1
        · exact Or.inr (Or.inl h2)
        · exact absurd h3 (by simp)
      · intro hb c1 h1 h2 ha
        rcases ThreadedEffect_live_before he hp hb h1 h2 ha with h4 | ⟨-, h4⟩ | h4
        · exact Or.inl h4
        · refine Or.inr (Or.inl ?_)
          simp only [WorkerPhase.command, Option.some.injEq] at h4
          subst h4
          simp [hb, WorkerPhase.pending, WorkerPhase.command]
        · exact Or.inr (Or.inr h4)
      · intro hb hex
        rcases hex with hex | hex
        · simp [hb] at hex
        · exact ThreadedEffect_exited_before he hb hex
    | compiling c =>
      simp only [Option.map_eq_some'] at h
      obtain ⟨s1, hst, h⟩ := h
      subst h
      obtain ⟨hr1, hr2⟩ := he.commands w _ c hp rfl
      obtain ⟨he2, hd2, hs, hbr⟩ := RangeEffect_store he.effect hr1 hr2 hst
      refine ⟨H ++ [(c, env.execute c)], ThreadedEffect_set he w _ s1 _ he2
        (fun x hx => List.mem_append_left _ hx) ?_ ?_ ?_ (fun h0 => by rw [hs]; exact h0) hwl
        ?_ ?_ ?_⟩
      · intro c1 hc1
        simp only [WorkerPhase.command, Option.some.injEq] at hc1
        exact hc1 ▸ ⟨hr1, hr2⟩
      · intro c1 hc1
        simp only [WorkerPhase.responded.injEq] at hc1
        subst hc1
        exact List.mem_append_right _ (List.mem_singleton_self _)
      · intro cr hcr hfail hff
        rcases List.mem_append.1 hcr with hcr | hcr
        · rcases hold cr hcr hfail hff with h1 | h2 | h3
          · exact Or.inl (by rw [hs]; exact h1)
          · exact Or.inr (Or.inl h2)
          · exact absurd h3 (by simp)
        · rw [List.mem_singleton] at hcr
          subst hcr
          exact Or.inr (Or.inr ⟨rfl, (List.getElem?_eq_some_iff.1 hp).1⟩)
      · intro hb c1 h1 h2 ha
        rw [hbr] at hb
        rw [hd2] at h2
        rcases ThreadedEffect_live_before he hp hb h1 h2 ha with h4 | ⟨-, h4⟩ | h4
        · exact Or.inl (List.mem_append_left _ h4)
        · simp only [WorkerPhase.command, Option.some.injEq] at h4
          subst h4
          exact Or.inl (List.mem_append_right _ (List.mem_singleton_self _))
        · exact Or.inr (Or.inr h4)
      · intro hb hex
        rw [hbr] at hb
        rw [hd2]
        rcases hex with hex | hex
        · simp at hex
        · exact ThreadedEffect_exited_before he hb hex
      · intro hb
        rw [hbr] at hb
        rcases he.breakOnly hb with h0 | ⟨hff, cr, hcr, hfail⟩
        · exact Or.inl h0
        · exact Or.inr ⟨hff, cr, List.mem_append_left _ hcr, hfail⟩
    | responded c =>
      simp only [Option.some.injEq] at h
      subst h
      have hmem := he.stored w c hp
      have hbk := HandleCommandResponse_stop_break env (env.execute c) t.run
      have hdk := (HandleCommandResponse_stop_frame env (env.execute c) t.run).2.1
      refine ⟨H, ThreadedEffect_set he w _ _ H (RangeEffect_stop he.effect hmem)
        (fun x hx => hx) ?_ ?_ ?_ ?_ hwl ?_ ?_ ?_⟩
      · intro c1 hc1
        simp only [WorkerPhase.command, Option.some.injEq] at hc1
        exact hc1 ▸ he.commands w _ c hp rfl
      · intro c1 hc1
        simp at hc1
      · intro cr hcr hfail hff
        rw [HandleCommandResponse_stop_stopped]
        rcases hold cr hcr hfail hff with h1 | h2 | h3
        · exact Or.inl (by rw [h1]; rfl)
        · exact Or.inr (Or.inl h2)
        · simp only [WorkerPhase.responded.injEq] at h3
          have hx := (he.effect.inRange cr hcr).2.2.1
          rw [← h3] at hx
          rw [← hx, hfail, hff]
          exact Or.inl (by simp)
      · intro hs
        rw [HandleCommandResponse_stop_stopped, hs]
        rfl
      · intro hb c1 h1 h2 ha
        rw [hbk] at hb
        simp only [Bool.or_eq_false_iff] at hb
        rw [hdk] at h2
        rcases ThreadedEffect_live_before he hp hb.1 h1 h2 ha with h4 | ⟨h4, -⟩ | h4
        · exact Or.inl h4
        · simp [WorkerPhase.pending] at h4
        · exact Or.inr (Or.inr h4)
      · intro hb hex
        rw [hbk] at hb
        simp only [Bool.or_eq_false_iff] at hb
        rw [hdk]
        rcases hex with hex | hex
        · simp at hex
        · exact ThreadedEffect_exited_before he hb.1 hex
      · intro hb
        rw [hbk] at hb
        simp only [Bool.or_eq_true, Bool.and_eq_true, Bool.not_eq_true'] at hb
        rcases hb with hb | ⟨hfail, hff⟩
        · exact he.breakOnly hb
        · exact Or.inr ⟨hff, _, hmem, hfail⟩
    | packaging c =>
      simp only [Option.map_eq_some'] at h
      obtain ⟨s1, hst, h⟩ := h
      subst h
      obtain ⟨-, -, -, -, -, h6, h7, h8, h9, -, -⟩ := TryToPackageData_sealing_frame hst
      have hnx : s1.dispatcher.nextCommand = t.run.dispatcher.nextCommand := by
        unfold CWorkerAccumState.nextCommand
        rw [h8, h9]
      refine ⟨H, ThreadedEffect_set he w _ s1 H (RangeEffect_sealing he.effect hst)
        (fun x hx => hx) ?_ ?_ ?_ (fun h0 => by rw [h6]; exact h0) hwl ?_ ?_
        (fun hb => he.breakOnly (h7 ▸ hb))⟩
      · intro c1 hc1
        simp [WorkerPhase.command] at hc1
      · intro c1 hc1
        simp at hc1
      · intro cr hcr hfail hff
        rcases hold cr hcr hfail hff with h1 | h2 | h3
        · exact Or.inl (by rw [h6]; exact h1)
        · exact Or.inr (Or.inl h2)
        · exact absurd h3 (by simp)
      · intro hb c1 h1 h2 ha
        rw [h7] at hb
        rw [hnx] at h2
        rcases ThreadedEffect_live_before he hp hb h1 h2 ha with h4 | ⟨h4, -⟩ | h4
        · exact Or.inl h4
        · simp [WorkerPhase.pending] at h4
        · exact Or.inr (Or.inr h4)
      · intro hb hex
        rw [h7] at hb
        rw [h9]
        rcases hex with hex | hex
        · simp at hex
        · exact ThreadedEffect_exited_before he hb hex
    | exited =>
      simp only [Option.some.injEq] at h
      subst h
      exact ⟨H, he⟩
theorem getElem?_concat_cases {α : Type} {l : List α} {w : Nat} {a p : α}
    (h : (l ++ [a])[w]? = some p) : l[w]? = some p ∨ (w = l.length ∧ p = a) := by
  by_cases hw : w < l.length
  · rw [List.getElem?_append_left hw] at h
    exact Or.inl h
  · rw [List.getElem?_append_right (by omega)] at h
    have hlt := (List.getElem?_eq_some_iff.1 h).1
    simp only [List.length_singleton] at hlt
    have h0 : w - l.length = 0 := by omega
    rw [h0] at h
    simp only [List.getElem?_cons_zero, Option.some.injEq] at h
    exact Or.inr ⟨by omega, h.symm⟩

theorem getElem?_concat_of {α : Type} {l : List α} {w : Nat} (a : α) {p : α}
    (h : l[w]? = some p) : (l ++ [a])[w]? = some p := by
  rw [List.getElem?_append_left (List.getElem?_eq_some_iff.1 h).1]
  exact h

theorem workerEvent_effect {env : Environment} {iFirst iEnd : Nat} {s0 : RunState}
    {t t1 : ThreadedState} {H : List (Nat × IResponse)} (i : Nat) (ev : WorkerEvent)
    (he : ThreadedEffect env iFirst iEnd s0 t H) (h : workerEvent env i ev t = some t1) :
    ∃ H1, ThreadedEffect env iFirst iEnd s0 t1 H1 := by
  cases ev with
  | step w => exact workerStep_effect w he h
  | start =>
    unfold workerEvent at h
    simp only at h
    split at h
    · simp only [Option.some.injEq] at h
      subst h
      refine ⟨H, ?_, ?_, ?_, ?_, he.stoppedKept, ?_, ?_, he.breakOnly⟩
      · exact RangeEffect_dispatcher he.effect _ he.effect.iEndCommand he.effect.cursor
      · intro w p c hp hc
        rcases getElem?_concat_cases hp with hold | ⟨-, hpa⟩
        · exact he.commands w p c hold hc
        · subst hpa
          simp [WorkerPhase.command] at hc
      · intro w c hp
        rcases getElem?_concat_cases hp with hold | ⟨-, hpa⟩
        · exact he.stored w c hold
        · exact absurd hpa (by simp)
      · intro cr hcr hfail hff
        rcases he.stoppedIf cr hcr hfail hff with h1 | ⟨w1, hw1⟩
        · exact Or.inl h1
        · exact Or.inr ⟨w1, getElem?_concat_of _ hw1⟩
      · intro hb c h1 h2 ha
        rcases he.live hb c h1 h2 ha with h3 | ⟨w1, p1, hp1, h3, h4⟩
        · exact Or.inl h3
        · exact Or.inr ⟨w1, p1, getElem?_concat_of _ hp1, h3, h4⟩
      · intro hb w hp
        rcases getElem?_concat_cases hp with hold | ⟨-, hpa⟩
        · exact he.exitedOnly hb w hold
        · exact absurd hpa (by simp)
    · simp only [Option.some.injEq] at h
      subst h
      exact ⟨H, he⟩

theorem workerEvents_effect {env : Environment} {iFirst iEnd : Nat} {s0 : RunState} (i : Nat)
    (events : List WorkerEvent) :
    ∀ {t t1 : ThreadedState} {H : List (Nat × IResponse)},
      ThreadedEffect env iFirst iEnd s0 t H → workerEvents env i events t = some t1 →
      ∃ H1, ThreadedEffect env iFirst iEnd s0 t1 H1 := by
  induction events with
  | nil =>
    intro t t1 H he h
    simp only [workerEvents, Option.some.injEq] at h
    subst h
    exact ⟨H, he⟩
  | cons ev evs ih =>
    intro t t1 H he h
    simp only [workerEvents] at h
    cases hev : workerEvent env i ev t with
    | none => rw [hev] at h; exact absurd h (by simp)
    | some t2 =>
      rw [hev] at h
      obtain ⟨H2, he2⟩ := workerEvent_effect i ev he hev
      exact ih he2 h

/-- The effect of a call of `ProcessCommandRange` that returns: the globals other
than the accumulator and the had-error set are untouched, the responses handled
are those of commands of the range, the had-error set has got the names of the
failed ones, the run is stopped exactly if it was stopped before or a response
has failed under fast-fail, `m_bBreak` is only set by such a response, and
unless `m_bBreak` is set every command of the range that is not skipped has
been compiled and its response handled. -/
theorem ProcessCommandRange_effect {env : Environment} {m_nThreads : Nat}
    {events : List WorkerEvent} {s0 s1 : RunState} {iFirst iEnd : Nat}
    (h : ProcessCommandRange env m_nThreads events s0 iFirst iEnd = some s1) :
    ∃ H, RangeEffect env iFirst iEnd s0 s1 H ∧
      s1.m_bStopped =
        (s0.m_bStopped || (env.g_bFastFail && H.any (fun cr => !cr.2.Succeeded))) ∧
      (s1.m_bBreak = true →
        s0.m_bBreak = true ∨ (env.g_bFastFail = true ∧ ∃ cr ∈ H, cr.2.Succeeded = false)) ∧
      (s1.m_bBreak = false → ∀ c, iFirst ≤ c → c < iEnd → env.alive c = true →
        (c, env.execute c) ∈ H) := by
  unfold ProcessCommandRange at h
  simp only at h
  have hbegin := RangeEffect_begin env s0 iFirst iEnd
  by_cases hmt : m_nThreads > 1
  · rw [if_pos hmt] at h
    cases hrun : Run env m_nThreads events
        { s0 with dispatcher := RangeBegin env.alive s0.dispatcher iFirst iEnd } with
    | none => rw [hrun] at h; exact absurd h (by simp)
    | some s2 =>
      rw [hrun, Option.some_bind] at h
      unfold Run at hrun
      cases hev : workerEvents env m_nThreads events
          { run := { s0 with dispatcher := RangeBegin env.alive s0.dispatcher iFirst iEnd }
            workers := [] } with
      | none => rw [hev] at hrun; exact absurd hrun (by simp)
      | some t =>
        rw [hev] at hrun
        simp only at hrun
        split at hrun
        · rename_i hdone
          simp only [Option.some.injEq] at hrun
          subst hrun
          have h0 : ThreadedEffect env iFirst iEnd s0
              { run := { s0 with dispatcher := RangeBegin env.alive s0.dispatcher iFirst iEnd }
                workers := [] } [] :=
            ⟨hbegin, fun w p c hp => absurd hp (by simp), fun w c hp => absurd hp (by simp),
              fun cr hcr => absurd hcr (List.not_mem_nil _), fun hs => hs,
              fun _ c h1 h2 ha => by
                have h3 : c < (Combo_GetNext env.alive iFirst iEnd).getD iEnd := h2
                have := Combo_GetNext_skips h1 h3
                rw [ha] at this
                exact absurd this (by simp),
              fun _ w hp => absurd hp (by simp), fun hb => Or.inl hb⟩
          obtain ⟨H, he⟩ := workerEvents_effect m_nThreads events h0 hev
          have heff : RangeEffect env iFirst iEnd s0
              { t.run with dispatcher := { t.run.dispatcher with m_arrSubProcessInfos := [] } } H :=
            RangeEffect_dispatcher he.effect _ he.effect.iEndCommand he.effect.cursor
          obtain ⟨-, -, -, -, -, h6, h7, -⟩ := TryToPackageData_sealing_frame h
          have hall := hdone.2
          rw [List.all_eq_true] at hall
          have hexit : ∀ (w : Nat) (p : WorkerPhase), t.workers[w]? = some p →
              p = WorkerPhase.exited := by
            intro w p hp
            obtain ⟨hlt, hget⟩ := List.getElem?_eq_some_iff.1 hp
            have := hall _ (hget ▸ List.getElem_mem hlt)
            simpa using this
          refine ⟨H, RangeEffect_sealing heff h, ?_, fun hb => he.breakOnly (h7 ▸ hb), ?_⟩
          swap
          · intro hb c h1 h2 ha
            have hb0 : t.run.m_bBreak = false := h7 ▸ hb
            have hw0 : (0 : Nat) < t.workers.length := by rw [hdone.1]; omega
            have h0 : t.workers[0]? = some WorkerPhase.exited := by
              rw [List.getElem?_eq_getElem hw0]
              exact congrArg some (hexit 0 _ (List.getElem?_eq_getElem hw0))
            have hnone := he.exitedOnly hb0 0 h0
            have h3 : c < t.run.dispatcher.nextCommand := by
              unfold CWorkerAccumState.nextCommand
              rw [hnone, he.effect.iEndCommand]
              exact h2
            rcases he.live hb0 c h1 h3 ha with h4 | ⟨w1, p1, hp1, h4, -⟩
            · exact h4
            · rw [hexit w1 p1 hp1] at h4
              simp [WorkerPhase.pending] at h4
          rw [h6]
          show t.run.m_bStopped = _
          cases hst : t.run.m_bStopped with
          | true =>
            rcases he.effect.stoppedOnly hst with h00 | ⟨hff, cr, hcr, hfail⟩
            · rw [h00]; rfl
            · have hany : H.any (fun cr => !cr.2.Succeeded) = true :=
                List.any_eq_true.2 ⟨cr, hcr, by rw [hfail]; rfl⟩
              rw [hff, hany]
              simp
          | false =>
            have h00 : s0.m_bStopped = false := by
              cases hs0 : s0.m_bStopped with
              | false => rfl
              | true => rw [he.stoppedKept hs0] at hst; exact absurd hst (by simp)
            rw [h00]
            cases hff : env.g_bFastFail with
            | false => rfl
            | true =>
              cases hany : H.any (fun cr => !cr.2.Succeeded) with
              | false => rfl
              | true =>
                rw [List.any_eq_true] at hany
                obtain ⟨cr, hcr, hfail⟩ := hany
                simp only [Bool.not_eq_true'] at hfail
                rcases he.stoppedIf cr hcr hfail hff with h1 | ⟨w1, hw1⟩
                · rw [h1] at hst; exact absurd hst (by simp)
                · obtain ⟨hlt, hget⟩ := List.getElem?_eq_some_iff.1 hw1
                  have := hall _ (hget ▸ List.getElem_mem hlt)
                  simp at this
        · exact absurd hrun (by simp)
  · rw [if_neg hmt] at h
    cases hrun : OnProcessST env (iEnd - iFirst)
        { s0 with dispatcher := RangeBegin env.alive s0.dispatcher iFirst iEnd } with
    | none => rw [hrun] at h; exact absurd h (by simp)
    | some s2 =>
      rw [hrun, Option.some_bind] at h
      obtain ⟨H, he, hs, hbo, hlive⟩ := OnProcessST_effect (iEnd - iFirst) hbegin
        (by simp) (fun hb => Or.inl hb)
        (fun _ c h1 h2 ha => by
          have h3 : c < (Combo_GetNext env.alive iFirst iEnd).getD iEnd := h2
          have := Combo_GetNext_skips h1 h3
          rw [ha] at this
          exact absurd this (by simp)) hrun
      obtain ⟨-, -, -, -, -, h6, h7, -⟩ := TryToPackageData_sealing_frame h
      exact ⟨H, RangeEffect_sealing he h, by rw [h6, hs], fun hb => hbo (h7 ▸ hb),
        fun hb => hlive (h7 ▸ hb)⟩
/-! ## The accumulator during the processing of a command range -/

theorem FindByKey_modifyByKey {f : CStaticCombo → CStaticCombo}
    (hid : ∀ p, (f p).m_nStaticComboID = p.m_nStaticComboID) (k j : Nat)
    (h : StaticComboNodeHash_t) :
    FindByKey (modifyByKey k f h) j = if j = k then (FindByKey h k).map f else FindByKey h j := by
  induction h with
  | nil => simp [modifyByKey, FindByKey]
  | cons n ns ih =>
    unfold FindByKey at ih ⊢
    by_cases hn : n.m_nStaticComboID = k
    · simp only [modifyByKey, hn, beq_self_eq_true, if_true, List.find?_cons, hid]
      by_cases hj : j = k
      · subst hj
        simp [hn]
      · have hkj : (k == j) = false := by simpa using fun e : k = j => hj e.symm
        simp [hj, hn, hkj]
    · have hnk : (n.m_nStaticComboID == k) = false := by simpa using hn
      simp only [modifyByKey, hnk, Bool.false_eq_true, if_false, List.find?_cons]
      by_cases hj : j = k
      · subst hj
        simp only [hnk, if_true] at ih ⊢
        exact ih
      · simp only [hj, if_false] at ih ⊢
        rw [ih]

theorem KeysNodup_modifyByKey {f : CStaticCombo → CStaticCombo}
    (hid : ∀ p, (f p).m_nStaticComboID = p.m_nStaticComboID) (k : Nat)
    {h : StaticComboNodeHash_t} (hnd : KeysNodup h) : KeysNodup (modifyByKey k f h) := by
  have hmap : (modifyByKey k f h).map (fun p => p.m_nStaticComboID) =
      h.map (fun p => p.m_nStaticComboID) := by
    induction h with
    | nil => rfl
    | cons n ns ih =>
      unfold modifyByKey
      split
      · simp [hid]
      · simp only [List.map_cons]
        rw [ih (List.Nodup.of_cons hnd)]
  unfold KeysNodup
  rw [hmap]
  exact hnd

/-- The lookups after `StaticComboFromDictAdd` with an update that keeps the id. -/
theorem StaticComboFromDictAdd_lookup {slot : Nat → StaticComboNodeHash_t → Nat}
    {g : CShaderMap} {name : String} (k : Nat) {f : CStaticCombo → CStaticCombo}
    (hid : ∀ p, (f p).m_nStaticComboID = p.m_nStaticComboID)
    (hnd : ∀ h, g name = some h → KeysNodup h) :
    (∀ j, StaticComboFromDict (StaticComboFromDictAdd slot g name k f) name j =
      if j = k then some (f ((StaticComboFromDict g name k).getD (CStaticCombo.new k)))
      else StaticComboFromDict g name j) ∧
    (∀ h, StaticComboFromDictAdd slot g name k f name = some h → KeysNodup h) := by
  have hview : ∀ j, StaticComboFromDict g name j = FindByKey ((g name).getD []) j := by
    intro j
    unfold StaticComboFromDict
    cases g name <;> rfl
  have hnd0 : KeysNodup ((g name).getD []) := by
    cases hg : g name with
    | none => simp [KeysNodup]
    | some h => exact hnd h hg
  unfold StaticComboFromDictAdd
  simp only [StaticComboFromDict, Function.update_same]
  cases hf : FindByKey ((g name).getD []) k with
  | some p =>
    simp only
    refine ⟨?_, ?_⟩
    · intro j
      rw [FindByKey_modifyByKey hid, hf]
      by_cases hj : j = k
      · have := hview k
        unfold StaticComboFromDict at this
        simp only [hj, if_true, Option.map_some', this, hf, Option.getD_some]
      · have := hview j
        unfold StaticComboFromDict at this
        simp only [hj, if_false, this]
    · intro h hh
      simp only [Option.some.injEq] at hh
      rw [← hh]
      exact KeysNodup_modifyByKey hid k hnd0
  | none =>
    simp only
    have hn : FindByKey ((g name).getD []) (f (CStaticCombo.new k)).m_nStaticComboID = none := by
      rw [hid]
      exact hf
    refine ⟨?_, ?_⟩
    · intro j
      rw [FindByKey_add hnd0 hn, hid]
      by_cases hj : j = k
      · have := hview k
        unfold StaticComboFromDict at this
        simp only [hj, if_true, this, hf, Option.getD_none]
        exact if_pos rfl
      · have := hview j
        unfold StaticComboFromDict at this
        have hj2 : ¬ (j = (CStaticCombo.new k).m_nStaticComboID) := hj
        simp only [hj, hj2, if_false, this]
    · intro h hh
      simp only [Option.some.injEq] at hh
      rw [← hh]
      exact KeysNodup_add hnd0 hn

theorem StaticComboFromDictAdd_other {slot : Nat → StaticComboNodeHash_t → Nat}
    (g : CShaderMap) {name other : String} (k : Nat) (f : CStaticCombo → CStaticCombo)
    (h : other ≠ name) : StaticComboFromDictAdd slot g name k f other = g other := by
  unfold StaticComboFromDictAdd
  simp only [Function.update_noteq h]

theorem sealPackaged_map (compress : List Byte → Option (List Byte)) (maxBlock : Nat)
    (slot : Nat → StaticComboNodeHash_t → Nat) (e : CfgEntryInfo) (ids : List Nat) :
    ∀ g : CShaderMap, sealPackaged compress maxBlock slot (ids.map (fun j => (e, j))) g =
      sealStaticCombos compress maxBlock slot e.m_szName ids g := by
  induction ids with
  | nil => intro g; rfl
  | cons k rest ih =>
    intro g
    simp only [List.map_cons, sealPackaged, sealStaticCombos]
    cases sealStaticCombo compress maxBlock slot g e.m_szName k with
    | none => rfl
    | some g1 => exact ih g1

theorem sealStaticCombo_of_null {compress : List Byte → Option (List Byte)} {maxBlock : Nat}
    {slot : Nat → StaticComboNodeHash_t → Nat} {g : CShaderMap} {name : String}
    (hg : g name = none) (k : Nat) : sealStaticCombo compress maxBlock slot g name k = some g := by
  simp [sealStaticCombo, AssembleWorkerReplyPackage, StaticComboFromDict, hg]

theorem sealStaticCombos_of_null {compress : List Byte → Option (List Byte)} {maxBlock : Nat}
    {slot : Nat → StaticComboNodeHash_t → Nat} {g : CShaderMap} {name : String}
    (hg : g name = none) (ids : List Nat) :
    sealStaticCombos compress maxBlock slot name ids g = some g := by
  induction ids with
  | nil => rfl
  | cons k rest ih =>
    simp only [sealStaticCombos, sealStaticCombo_of_null hg]
    exact ih

theorem sealStaticCombo_other {compress : List Byte → Option (List Byte)} {maxBlock : Nat}
    {slot : Nat → StaticComboNodeHash_t → Nat} {g g1 : CShaderMap} {name : String} {k : Nat}
    (hs : sealStaticCombo compress maxBlock slot g name k = some g1) {other : String}
    (h : other ≠ name) : g1 other = g other := by
  unfold sealStaticCombo at hs
  cases ha : AssembleWorkerReplyPackage compress maxBlock g name k [] with
  | none => rw [ha] at hs; exact absurd hs (by simp)
  | some r =>
    rw [ha] at hs
    simp only at hs
    have hr : r.g_ShaderByteCode other = g other := by
      unfold AssembleWorkerReplyPackage at ha
      split at ha
      · simp only [Option.some.injEq] at ha
        rw [← ha]
      · simp only at ha
        split at ha
        · simp only [Option.some.injEq] at ha
          rw [← ha]
          exact Function.update_noteq h _ _
        · split at ha
          · exact absurd ha (by simp)
          · simp only [Option.some.injEq] at ha
            rw [← ha]
            exact Function.update_noteq h _ _
    split at hs
    · simp only [Option.some.injEq] at hs
      rw [← hs, hr]
    · split at hs
      · exact absurd hs (by simp)
      · simp only [Option.some.injEq] at hs
        rw [← hs, StaticComboFromDictAdd_other _ _ _ h, hr]

theorem sealStaticCombos_other {compress : List Byte → Option (List Byte)} {maxBlock : Nat}
    {slot : Nat → StaticComboNodeHash_t → Nat} {name : String} (ids : List Nat) :
    ∀ {g g1 : CShaderMap}, sealStaticCombos compress maxBlock slot name ids g = some g1 →
      ∀ {other : String}, other ≠ name → g1 other = g other := by
  induction ids with
  | nil =>
    intro g g1 hs other _
    simp only [sealStaticCombos, Option.some.injEq] at hs
    rw [hs]
  | cons k rest ih =>
    intro g g1 hs other h
    simp only [sealStaticCombos] at hs
    cases hk : sealStaticCombo compress maxBlock slot g name k with
    | none => rw [hk] at hs; exact absurd hs (by simp)
    | some g2 =>
      rw [hk] at hs
      rw [ih hs h, sealStaticCombo_other hk h]

/-- The lookups after the sealing passes for the static combos `ids` of a shader,
whether the shader has a hash or not. -/
theorem sealStaticCombos_view {compress : List Byte → Option (List Byte)} {maxBlock : Nat}
    {slot : Nat → StaticComboNodeHash_t → Nat} {name : String} {ids : List Nat}
    {g g1 : CShaderMap} (hnd : ∀ h, g name = some h → KeysNodup h) (hids : ids.Nodup)
    (hs : sealStaticCombos compress maxBlock slot name ids g = some g1) :
    (∀ j, StaticComboFromDict g1 name j =
      if j ∈ ids then (StaticComboFromDict g name j).bind (sealedCombo compress maxBlock)
      else StaticComboFromDict g name j) ∧
    (∀ h, g1 name = some h → KeysNodup h) ∧
    (∀ j ∈ ids, ∀ p, StaticComboFromDict g name j = some p → p.m_DynamicCombos ≠ [] →
      ∃ st, packDynamicCombos compress maxBlock p [] = some st) := by
  cases hg : g name with
  | none =>
    rw [sealStaticCombos_of_null hg] at hs
    simp only [Option.some.injEq] at hs
    subst hs
    refine ⟨?_, hnd, ?_⟩
    · intro j
      simp [StaticComboFromDict, hg]
    · intro j _ p hp
      simp [StaticComboFromDict, hg] at hp
  | some h =>
    obtain ⟨h1, hg1, hnd1, hl, hpk⟩ := sealStaticCombos_lookup ids hg (hnd h hg) hids hs
    refine ⟨?_, ?_, ?_⟩
    · intro j
      simp only [StaticComboFromDict, hg1, hg]
      exact hl j
    · intro h2 hh2
      rw [hg1] at hh2
      simp only [Option.some.injEq] at hh2
      exact hh2 ▸ hnd1
    · intro j hj p hp hne
      simp only [StaticComboFromDict, hg] at hp
      obtain ⟨hmem, hid⟩ := FindByKey_some hp
      exact hpk p hmem (hid ▸ hj) hne

theorem descending_append {a b c : Nat} (h1 : a ≤ b + 1) (h2 : b ≤ c) :
    descending (b + 1) c ++ descending a b = descending a c := by
  unfold descending
  rw [← List.reverse_append]
  congr 1
  have := List.range'_append a (b + 1 - a) (c + 1 - (b + 1)) 1
  simp only [Nat.one_mul] at this
  rw [show a + (b + 1 - a) = b + 1 by omega] at this
  rw [this]
  congr 1
  omega
theorem staticComboOf_first {e : CfgEntryInfo} (hwf : e.WellFormed)
    (hne : 0 < e.m_numStaticCombos) :
    staticComboOf e e.m_iCommandStart = e.m_numStaticCombos - 1 := by
  obtain ⟨hd, hN, hE⟩ := hwf
  unfold staticComboOf nStComboIdx
  rw [Nat.sub_self, Nat.sub_zero, hN]
  apply Nat.le_antisymm
  · have : (e.m_numStaticCombos * e.m_numDynamicCombos - 1) / e.m_numDynamicCombos <
        e.m_numStaticCombos := by
      rw [Nat.div_lt_iff_lt_mul hd]
      have := Nat.mul_pos hne hd
      omega
    omega
  · rw [Nat.le_div_iff_mul_le hd, Nat.sub_mul]
    have := Nat.mul_pos hne hd
    omega

theorem EntryReady.range_nonempty {env : Environment} {e : CfgEntryInfo}
    (hr : EntryReady env e) : e.m_iCommandStart < e.m_iCommandEnd := by
  obtain ⟨hd, hN, hE⟩ := hr.wellFormed e hr.mem
  have := Nat.mul_pos hr.nonempty hd
  omega

theorem sealedFrom_first {env : Environment} {e : CfgEntryInfo} (hr : EntryReady env e) :
    sealedFrom e e.m_iCommandStart = e.m_numStaticCombos := by
  unfold sealedFrom
  rw [if_pos hr.range_nonempty, staticComboOf_first (hr.wellFormed e hr.mem) hr.nonempty]
  have := hr.nonempty
  omega

theorem unsealedCombo_bind (compress : List Byte → Option (List Byte)) (maxBlock : Nat)
    (p : CStaticCombo) :
    (unsealedCombo p).bind (sealedCombo compress maxBlock) = sealedCombo compress maxBlock p := by
  unfold unsealedCombo sealedCombo
  split <;> simp_all

theorem arrivals_nil (e : CfgEntryInfo) (j : Nat) : arrivals e [] j = [] := rfl

theorem arrivals_concat (e : CfgEntryInfo) (H : List (Nat × IResponse)) (c : Nat)
    (r : IResponse) (j : Nat) :
    arrivals e (H ++ [(c, r)]) j =
      if r.Succeeded = true ∧ staticComboOf e c = j then
        arrivals e H j ++
          [{ m_nComboID :=
               nDyComboIdx (e.m_numCombos - 1 - (c - e.m_iCommandStart)) e.m_numDynamicCombos
             code := r.GetResultBuffer }]
      else arrivals e H j := by
  unfold arrivals
  rw [List.filter_append, List.map_append]
  by_cases h : r.Succeeded = true ∧ staticComboOf e c = j
  · rw [if_pos h]
    simp [List.filter_cons, h.1, h.2]
  · rw [if_neg h]
    have : (r.Succeeded && decide (staticComboOf e c = j)) = false := by
      simpa using h
    simp [List.filter_cons, this]

theorem RangeSealing_begin {env : Environment} {e : CfgEntryInfo} (hr : EntryReady env e)
    (s0 : RunState) (hfresh : s0.program.g_ShaderByteCode e.m_szName = none) :
    RangeSealing env e s0
      { s0 with
        dispatcher := RangeBegin env.alive s0.dispatcher e.m_iCommandStart e.m_iCommandEnd }
      [] where
  handled := (List.append_nil _).symm
  inRange := fun cr hcr => absurd hcr (List.not_mem_nil _)
  nodup := List.nodup_nil
  packed := fun j _ hne => absurd (arrivals_nil e j) hne
  watermark := ⟨Nat.le_refl _, Nat.le_of_lt hr.range_nonempty⟩
  lookup := by
    intro j
    simp [StaticComboFromDict, hfresh, sealedCombo, unsealedCombo, accumulated, arrivals_nil]
  keys := fun h hh => by
    have hh2 : s0.program.g_ShaderByteCode e.m_szName = some h := hh
    rw [hfresh] at hh2
    exact absurd hh2 (by simp)
  others := fun _ _ => rfl
  packaged := by
    show s0.packaged = s0.packaged ++
      (descending (sealedFrom e e.m_iCommandStart) (e.m_numStaticCombos - 1)).map (fun j => (e, j))
    rw [sealedFrom_first hr, descending_nil (by have := hr.nonempty; omega)]
    simp

/-- The locked block of `HandleCommandResponse` for a command of the range that is
not below the watermark keeps the state of the accumulator in order. -/
theorem RangeSealing_store {env : Environment} {e : CfgEntryInfo} (hr : EntryReady env e)
    {s0 s s1 : RunState} {H : List (Nat × IResponse)} (hs : RangeSealing env e s0 s H)
    {c : Nat} (h1 : s.dispatcher.m_iLastFinished ≤ c) (h2 : c < e.m_iCommandEnd)
    (hnew : ∀ cr ∈ H, cr.1 ≠ c)
    (h : HandleCommandResponse_store env c (env.execute c) s = some s1) :
    RangeSealing env e s0 s1 (H ++ [(c, env.execute c)]) ∧ s1.dispatcher = s.dispatcher := by
  have hstart : e.m_iCommandStart ≤ c := le_trans hs.watermark.1 h1
  have hg := Combo_GetCombo_of_mem hr.ordered hr.mem hstart h2
  obtain ⟨hd, hN, hE⟩ := hr.wellFormed e hr.mem
  have hin : ∀ cr ∈ H ++ [(c, env.execute c)], e.m_iCommandStart ≤ cr.1 ∧
      cr.1 < e.m_iCommandEnd ∧ cr.2 = env.execute cr.1 := by
    intro cr hcr
    rcases List.mem_append.1 hcr with hcr | hcr
    · exact hs.inRange cr hcr
    · rw [List.mem_singleton] at hcr
      subst hcr
      exact ⟨hstart, h2, rfl⟩
  have hnd : ((H ++ [(c, env.execute c)]).map Prod.fst).Nodup := by
    rw [List.map_append, List.nodup_append]
    refine ⟨hs.nodup, List.nodup_singleton _, ?_⟩
    intro a ha hb
    simp only [List.map_cons, List.map_nil, List.mem_singleton] at hb
    obtain ⟨cr, hcr, hcra⟩ := List.mem_map.1 ha
    exact hnew cr hcr (hcra.trans hb)
  have hunsealed : ¬ (sealedFrom e s.dispatcher.m_iLastFinished ≤ staticComboOf e c) := by
    unfold sealedFrom
    rw [if_pos (by omega)]
    have := staticComboOf_antitone e h1
    omega
  have hpk : ∀ j, sealedFrom e s.dispatcher.m_iLastFinished ≤ j →
      arrivals e (H ++ [(c, env.execute c)]) j ≠ [] →
      ∃ st, packDynamicCombos env.compress env.maxBlock
        (accumulated e (H ++ [(c, env.execute c)]) j) [] = some st := by
    intro j hj hne
    have harr : arrivals e (H ++ [(c, env.execute c)]) j = arrivals e H j := by
      rw [arrivals_concat]
      exact if_neg (fun (hh : (env.execute c).Succeeded = true ∧ staticComboOf e c = j) =>
        hunsealed (hh.2 ▸ hj))
    simp only [accumulated, harr] at hne ⊢
    exact hs.packed j hj hne
  unfold HandleCommandResponse_store at h
  rw [hg] at h
  simp only at h
  by_cases hsucc : (env.execute c).Succeeded = true
  · rw [if_pos hsucc, if_neg (by omega)] at h
    simp only [Option.some.injEq] at h
    subst h
    have hid : ∀ p : CStaticCombo, (p.AddDynamicCombo
        (nDyComboIdx (e.m_numCombos - 1 - (c - e.m_iCommandStart)) e.m_numDynamicCombos)
        (env.execute c).GetResultBuffer).m_nStaticComboID = p.m_nStaticComboID := fun p => rfl
    obtain ⟨hl, hk⟩ := @StaticComboFromDictAdd_lookup env.slot s.program.g_ShaderByteCode
      e.m_szName (nStComboIdx (e.m_numCombos - 1 - (c - e.m_iCommandStart)) e.m_numDynamicCombos)
      _ hid hs.keys
    refine ⟨⟨?_, hin, hnd, hs.watermark, ?_, hpk, hk,
      fun name hname => by
        show StaticComboFromDictAdd env.slot s.program.g_ShaderByteCode e.m_szName _ _ name = _
        rw [StaticComboFromDictAdd_other _ _ _ hname]
        exact hs.others name hname, hs.packaged⟩, rfl⟩
    · simp only [hs.handled, List.append_assoc]
    · intro j
      have hold := hs.lookup j
      simp only at hl ⊢
      rw [hl j]
      have hsc : staticComboOf e c =
          nStComboIdx (e.m_numCombos - 1 - (c - e.m_iCommandStart)) e.m_numDynamicCombos := rfl
      rw [← hsc]
      by_cases hj : j = staticComboOf e c
      · subst hj
        rw [if_pos rfl, if_neg hunsealed]
        have hold2 := hs.lookup (staticComboOf e c)
        rw [if_neg hunsealed] at hold2
        rw [hold2]
        have harr : arrivals e (H ++ [(c, env.execute c)]) (staticComboOf e c) =
            arrivals e H (staticComboOf e c) ++
              [{ m_nComboID := nDyComboIdx (e.m_numCombos - 1 - (c - e.m_iCommandStart))
                   e.m_numDynamicCombos
                 code := (env.execute c).GetResultBuffer }] := by
          rw [arrivals_concat]
          exact if_pos ⟨hsucc, rfl⟩
        simp only [unsealedCombo, accumulated, harr]
        by_cases hemp : arrivals e H (staticComboOf e c) = []
        · simp [hemp, CStaticCombo.new, CStaticCombo.AddDynamicCombo]
        · simp [hemp, CStaticCombo.AddDynamicCombo]
      · rw [if_neg hj, hold]
        have harr : arrivals e (H ++ [(c, env.execute c)]) j = arrivals e H j := by
          rw [arrivals_concat, if_neg (fun hh => hj hh.2.symm)]
        simp only [accumulated, harr]
  · rw [if_neg hsucc] at h
    simp only [Option.some.injEq] at h
    subst h
    refine ⟨⟨?_, hin, hnd, hs.watermark, ?_, hpk, hs.keys, hs.others, hs.packaged⟩, rfl⟩
    · simp only [hs.handled, List.append_assoc]
    · intro j
      have harr : arrivals e (H ++ [(c, env.execute c)]) j = arrivals e H j := by
        rw [arrivals_concat, if_neg (fun hh => hsucc hh.1)]
      simp only [accumulated, harr]
      exact hs.lookup j
/-- A call of `TryToPackageData` for a command of the range keeps the state of the
accumulator in order: the static combos that the watermark passes are sealed. -/
theorem RangeSealing_sealing {env : Environment} {e : CfgEntryInfo} (hr : EntryReady env e)
    {s0 s s1 : RunState} {H : List (Nat × IResponse)} (hs : RangeSealing env e s0 s H)
    {cmd : Nat} (h1 : e.m_iCommandStart ≤ cmd) (h2 : cmd < e.m_iCommandEnd)
    (h : TryToPackageData_sealing env cmd s = some s1) :
    RangeSealing env e s0 s1 H ∧
    (s1.dispatcher = s.dispatcher ∧
        ((∃ r ∈ s.dispatcher.m_arrSubProcessInfos, r < cmd) ∨
          cmd + 1 ≤ s.dispatcher.m_iLastFinished) ∨
      (s1.dispatcher = { s.dispatcher with m_iLastFinished := cmd + 1 } ∧
        s.dispatcher.m_iLastFinished < cmd + 1 ∧
        ∀ r ∈ s.dispatcher.m_arrSubProcessInfos, cmd ≤ r)) := by
  have h64 : (cmd + 1) % 2 ^ 64 = cmd + 1 :=
    Nat.mod_eq_of_lt (by have := hr.below64; omega)
  unfold TryToPackageData_sealing at h
  cases ht : TryToPackageData env.cfg env.fuel s.dispatcher cmd with
  | none => rw [ht] at h; exact absurd h (by simp)
  | some r =>
    obtain ⟨st1, passes⟩ := r
    rw [ht] at h
    simp only at h
    cases hsp : sealPackaged env.compress env.maxBlock env.slot passes
        s.program.g_ShaderByteCode with
    | none => rw [hsp] at h; exact absurd h (by simp)
    | some g =>
      rw [hsp] at h
      simp only [Option.some.injEq] at h
      subst h
      rcases TryToPackageData_cases ht with ⟨hst, hp, hwhy⟩ | ⟨hst, hadv, hslots⟩
      · subst hst hp
        simp only [sealPackaged, Option.some.injEq] at hsp
        subst hsp
        rw [h64] at hwhy
        refine ⟨⟨hs.handled, hs.inRange, hs.nodup, hs.watermark, hs.lookup, hs.packed,
          hs.keys, hs.others, ?_⟩, Or.inl ⟨rfl, hwhy⟩⟩
        simp only [List.append_nil]
        exact hs.packaged
      · rw [h64] at hst hadv
        have hL : s.dispatcher.m_iLastFinished < e.m_iCommandEnd := by omega
        have ht2 := TryToPackageData_in_entry env.cfg e env.fuel s.dispatcher cmd hr.ordered
          hr.wellFormed hr.mem hs.watermark.1 hadv (by omega) (by have := hr.below64; omega)
          hslots (fun heq => heq ▸ hr.following) hr.fuel
        rw [ht] at ht2
        simp only [Option.some.injEq, Prod.mk.injEq] at ht2
        obtain ⟨-, hpasses⟩ := ht2
        have hlow : sealedFrom e (cmd + 1) =
            (if cmd + 1 < e.m_iCommandEnd then staticComboOf e (cmd + 1) + 1 else 0) := rfl
        rw [← hlow] at hpasses
        subst hpasses
        rw [sealPackaged_map] at hsp
        have hnodup : (descending (sealedFrom e (cmd + 1))
            (staticComboOf e s.dispatcher.m_iLastFinished)).Nodup :=
          (descending_pairwise _ _).imp (fun hab => Nat.ne_of_gt hab)
        obtain ⟨hl, hk, hpk⟩ := sealStaticCombos_view hs.keys hnodup hsp
        have hanti := staticComboOf_antitone e (Nat.le_of_lt hadv)
        have hsL := staticComboOf_lt (hr.wellFormed e hr.mem) hs.watermark.1 hL
        have hold : sealedFrom e s.dispatcher.m_iLastFinished =
            staticComboOf e s.dispatcher.m_iLastFinished + 1 := by
          unfold sealedFrom
          rw [if_pos hL]
        have hle : sealedFrom e (cmd + 1) ≤ staticComboOf e s.dispatcher.m_iLastFinished + 1 := by
          unfold sealedFrom
          split <;> omega
        subst hst
        refine ⟨⟨hs.handled, hs.inRange, hs.nodup, ⟨by show e.m_iCommandStart ≤ cmd + 1; omega,
          by show cmd + 1 ≤ e.m_iCommandEnd; omega⟩, ?_, ?_, hk,
          fun name hname => by
            show g name = _
            rw [sealStaticCombos_other _ hsp hname]
            exact hs.others name hname, ?_⟩,
          Or.inr ⟨rfl, hadv, hslots⟩⟩
        · intro j
          show StaticComboFromDict g e.m_szName j =
            if sealedFrom e (cmd + 1) ≤ j then
              sealedCombo env.compress env.maxBlock (accumulated e H j)
            else unsealedCombo (accumulated e H j)
          rw [hl j, hs.lookup j, hold]
          by_cases hj1 : sealedFrom e (cmd + 1) ≤ j
          · by_cases hj2 : j ≤ staticComboOf e s.dispatcher.m_iLastFinished
            · rw [if_pos (mem_descending.2 ⟨hj1, hj2⟩), if_pos hj1, if_neg (by omega),
                unsealedCombo_bind]
            · rw [if_neg (fun hh => hj2 (mem_descending.1 hh).2), if_pos hj1, if_pos (by omega)]
          · rw [if_neg (fun hh => hj1 (mem_descending.1 hh).1), if_neg hj1, if_neg (by omega)]
        · intro j hj hne
          have hj0 : sealedFrom e (cmd + 1) ≤ j := hj
          by_cases hj2 : j ≤ staticComboOf e s.dispatcher.m_iLastFinished
          · have hlk := hs.lookup j
            rw [hold, if_neg (by omega)] at hlk
            refine hpk j (mem_descending.2 ⟨hj0, hj2⟩) (accumulated e H j) ?_ hne
            rw [hlk]
            unfold unsealedCombo
            rw [if_neg]
            simpa [accumulated] using hne
          · exact hs.packed j (by rw [hold]; omega) hne
        · show s.packaged ++ _ = s0.packaged ++
            (descending (sealedFrom e (cmd + 1)) (e.m_numStaticCombos - 1)).map (fun j => (e, j))
          rw [hs.packaged, hold, List.append_assoc, ← List.map_append,
            descending_append hle (by omega)]

/-- The call `RangeFinished` after the slots are cleared moves the watermark to the
end of the range: every static combo of the entry is sealed. -/
theorem RangeSealing_finished {env : Environment} {e : CfgEntryInfo} (hr : EntryReady env e)
    {s0 s s1 : RunState} {H : List (Nat × IResponse)} (hs : RangeSealing env e s0 s H)
    (hend : s.dispatcher.m_iEndCommand = e.m_iCommandEnd)
    (hslots : s.dispatcher.m_arrSubProcessInfos = [])
    (h : RangeFinished env s = some s1) :
    RangeSealing env e s0 s1 H ∧ s1.dispatcher.m_iLastFinished = e.m_iCommandEnd := by
  unfold RangeFinished at h
  have hne := hr.range_nonempty
  have hcmd : (s.dispatcher.m_iEndCommand + (2 ^ 64 - 1)) % 2 ^ 64 = e.m_iCommandEnd - 1 := by
    rw [hend]
    have := hr.below64
    omega
  rw [hcmd] at h
  obtain ⟨hs1, hcase⟩ := RangeSealing_sealing hr hs (by omega) (by omega) h
  refine ⟨hs1, ?_⟩
  rcases hcase with ⟨hd, hwhy⟩ | ⟨hd, -, -⟩
  · rw [hd]
    rcases hwhy with ⟨r, hr1, -⟩ | hle
    · rw [hslots] at hr1
      exact absurd hr1 (List.not_mem_nil _)
    · have := hs.watermark.2
      omega
  · rw [hd]
    show e.m_iCommandEnd - 1 + 1 = e.m_iCommandEnd
    omega
theorem RangeSealing_congr {env : Environment} {e : CfgEntryInfo} {s0 s s1 : RunState}
    {H : List (Nat × IResponse)} (hs : RangeSealing env e s0 s H)
    (h1 : s1.handled = s.handled)
    (h2 : s1.dispatcher.m_iLastFinished = s.dispatcher.m_iLastFinished)
    (h3 : s1.program.g_ShaderByteCode = s.program.g_ShaderByteCode)
    (h4 : s1.packaged = s.packaged) : RangeSealing env e s0 s1 H :=
  ⟨h1 ▸ hs.handled, hs.inRange, hs.nodup, h2 ▸ hs.watermark, by rw [h2, h3]; exact hs.lookup,
    by rw [h2]; exact hs.packed, by rw [h3]; exact hs.keys, by rw [h3]; exact hs.others,
    by rw [h2, h4]; exact hs.packaged⟩

/-- The loop of `OnProcessST` keeps the state of the accumulator in order: the
commands are compiled in ascending order, each is sealed past at once. -/
theorem OnProcessST_sealing {env : Environment} {e : CfgEntryInfo} (hr : EntryReady env e)
    {s0 : RunState} (fuel : Nat) :
    ∀ {s s1 : RunState} {H : List (Nat × IResponse)},
      RangeSealing env e s0 s H → s.dispatcher.m_arrSubProcessInfos = [] →
      s.dispatcher.m_iEndCommand = e.m_iCommandEnd →
      (∀ n, s.dispatcher.m_hCombo = some n →
        s.dispatcher.m_iLastFinished ≤ n ∧ n < e.m_iCommandEnd) →
      (∀ cr ∈ H, cr.1 < s.dispatcher.m_iLastFinished) →
      OnProcessST env fuel s = some s1 →
      ∃ H1, RangeSealing env e s0 s1 H1 ∧ s1.dispatcher.m_arrSubProcessInfos = [] ∧
        s1.dispatcher.m_iEndCommand = e.m_iCommandEnd := by
  induction fuel with
  | zero =>
    intro s s1 H hs hslots hend hcur hbelow h
    unfold OnProcessST at h
    split at h
    · exact absurd h (by simp)
    · simp only [Option.some.injEq] at h
      subst h
      exact ⟨H, hs, hslots, hend⟩
  | succ fuel ih =>
    intro s s1 H hs hslots hend hcur hbelow h
    unfold OnProcessST at h
    cases hc : s.dispatcher.m_hCombo with
    | none =>
      rw [hc] at h
      simp only [Option.some.injEq] at h
      subst h
      exact ⟨H, hs, hslots, hend⟩
    | some c =>
      rw [hc] at h
      simp only at h
      by_cases hb : s.m_bBreak = true
      · rw [if_pos hb] at h
        simp only [Option.some.injEq] at h
        subst h
        exact ⟨H, hs, hslots, hend⟩
      · rw [if_neg hb] at h
        cases hx : ExecuteCompileCommand env c s with
        | none => rw [hx] at h; exact absurd h (by simp)
        | some s2 =>
          rw [hx] at h
          simp only at h
          obtain ⟨hc1, hc2⟩ := hcur c hc
          unfold ExecuteCompileCommand HandleCommandResponse at hx
          cases hst : HandleCommandResponse_store env c (env.execute c) s with
          | none => rw [hst] at hx; exact absurd hx (by simp)
          | some s3 =>
            rw [hst, Option.some_bind] at hx
            obtain ⟨hs3, hd3⟩ := RangeSealing_store hr hs hc1 hc2
              (fun cr hcr => Nat.ne_of_lt (lt_of_lt_of_le (hbelow cr hcr) hc1)) hst
            obtain ⟨hp, hd, hh, hk⟩ := HandleCommandResponse_stop_frame env (env.execute c) s3
            have hs4 : RangeSealing env e s0
                (HandleCommandResponse_stop env (env.execute c) s3) (H ++ [(c, env.execute c)]) :=
              RangeSealing_congr hs3 hh (by rw [hd]) (by rw [hp]) hk
            obtain ⟨hs5, hcase⟩ := RangeSealing_sealing hr hs4
              (le_trans hs.watermark.1 hc1) hc2 hx
            obtain ⟨-, -, -, -, -, -, -, h8, -, h10, -⟩ := TryToPackageData_sealing_frame hx
            rw [hd, hd3] at h8 h10
            have hL2 : s2.dispatcher.m_iLastFinished = c + 1 := by
              rcases hcase with ⟨-, hwhy⟩ | ⟨hd2, -, -⟩
              · rw [hd, hd3] at hwhy
                rcases hwhy with ⟨r, hr1, -⟩ | hle
                · rw [hslots] at hr1
                  exact absurd hr1 (List.not_mem_nil _)
                · omega
              · rw [hd2]
            have hs6 : RangeSealing env e s0
                { s2 with
                  dispatcher :=
                    { s2.dispatcher with
                      m_hCombo :=
                        Combo_GetNext env.alive (c + 1) s2.dispatcher.m_iEndCommand } }
                (H ++ [(c, env.execute c)]) :=
              RangeSealing_congr hs5 rfl rfl rfl rfl
            refine ih hs6 ?_ ?_ ?_ ?_ h
            · show s2.dispatcher.m_arrSubProcessInfos = []
              rw [h10, hslots]
            · show s2.dispatcher.m_iEndCommand = e.m_iCommandEnd
              rw [h8, hend]
            · intro n hn
              have := Combo_GetNext_some hn
              rw [h8, hend] at this
              show s2.dispatcher.m_iLastFinished ≤ n ∧ n < e.m_iCommandEnd
              rw [hL2]
              exact ⟨this.1, this.2.1⟩
            · intro cr hcr
              show cr.1 < s2.dispatcher.m_iLastFinished
              rw [hL2]
              rcases List.mem_append.1 hcr with hcr | hcr
              · have := hbelow cr hcr
                omega
              · rw [List.mem_singleton] at hcr
                subst hcr
                exact Nat.lt_succ_self _
theorem ThreadedSealing_set {env : Environment} {e : CfgEntryInfo} {s0 : RunState}
    {t : ThreadedState} {H : List (Nat × IResponse)} (hts : ThreadedSealing env e s0 t H)
    (w : Nat) (a : WorkerPhase) (run1 : RunState) (H1 : List (Nat × IResponse))
    (hseal : RangeSealing env e s0 run1 H1)
    (hlen : run1.dispatcher.m_arrSubProcessInfos.length =
      t.run.dispatcher.m_arrSubProcessInfos.length)
    (hend : run1.dispatcher.m_iEndCommand = e.m_iCommandEnd)
    (hcursor : run1.dispatcher.m_iLastFinished ≤ run1.dispatcher.nextCommand ∧
      run1.dispatcher.nextCommand ≤ e.m_iCommandEnd)
    (hcursorIn : ∀ n, run1.dispatcher.m_hCombo = some n → n < e.m_iCommandEnd)
    (hnext : t.run.dispatcher.nextCommand ≤ run1.dispatcher.nextCommand)
    (hslots : ∀ w1 : Nat, w1 ≠ w →
      run1.dispatcher.m_arrSubProcessInfos[w1]? = t.run.dispatcher.m_arrSubProcessInfos[w1]?)
    (hself : ∀ c, a.command = some c →
      run1.dispatcher.m_arrSubProcessInfos[w]? = some c ∧ e.m_iCommandStart ≤ c ∧
      c < run1.dispatcher.nextCommand ∧
      (a.pending = true → run1.dispatcher.m_iLastFinished ≤ c) ∧
      ∀ (w1 : Nat) (p1 : WorkerPhase), w1 ≠ w → t.workers[w1]? = some p1 →
        p1.command ≠ some c)
    (hpending : ∀ (w1 : Nat) (p1 : WorkerPhase) (c1 : Nat), w1 ≠ w →
      t.workers[w1]? = some p1 → p1.command = some c1 → p1.pending = true →
      run1.dispatcher.m_iLastFinished ≤ c1)
    (hbelow : ∀ cr ∈ H1, cr.1 < run1.dispatcher.nextCommand)
    (hdoneSelf : ∀ cr ∈ H1, a.pending = true → a.command ≠ some cr.1)
    (hdoneOthers : ∀ cr ∈ H1, ∀ (w1 : Nat) (p1 : WorkerPhase), w1 ≠ w →
      t.workers[w1]? = some p1 → p1.pending = true → p1.command ≠ some cr.1) :
    ThreadedSealing env e s0 { run := run1, workers := t.workers.set w a } H1 where
  handledBelow := hbelow
  handledDone := by
    intro cr hcr w1 p hp hpe
    rcases getElem?_set_cases hp with ⟨hw, hpa⟩ | ⟨hw, hold⟩
    · subst hpa
      exact hdoneSelf cr hcr hpe
    · exact hdoneOthers cr hcr w1 p hw hold hpe
  sealing := hseal
  slots := by
    show (t.workers.set w a).length = _
    rw [List.length_set, hlen]
    exact hts.slots
  iEndCommand := hend
  cursor := hcursor
  cursorIn := hcursorIn
  held := by
    intro w1 p c hp hc
    rcases getElem?_set_cases hp with ⟨hw, hpa⟩ | ⟨hw, hold⟩
    · subst hw hpa
      obtain ⟨h1, h2, h3, -, -⟩ := hself c hc
      exact ⟨h1, h2, h3⟩
    · obtain ⟨h1, h2, h3⟩ := hts.held w1 p c hold hc
      exact ⟨by show run1.dispatcher.m_arrSubProcessInfos[w1]? = _; rw [hslots w1 hw]; exact h1,
        h2, lt_of_lt_of_le h3 hnext⟩
  pending := by
    intro w1 p c hp hc hpend
    rcases getElem?_set_cases hp with ⟨hw, hpa⟩ | ⟨hw, hold⟩
    · subst hw hpa
      exact (hself c hc).2.2.2.1 hpend
    · exact hpending w1 p c hw hold hc hpend
  distinct := by
    intro w1 w2 p1 p2 c hp1 hp2 hc1 hc2
    rcases getElem?_set_cases hp1 with ⟨hw1, hpa1⟩ | ⟨hw1, hold1⟩
    · rcases getElem?_set_cases hp2 with ⟨hw2, hpa2⟩ | ⟨hw2, hold2⟩
      · rw [hw1, hw2]
      · subst hpa1
        exact absurd hc2 ((hself c hc1).2.2.2.2 w2 p2 hw2 hold2)
    · rcases getElem?_set_cases hp2 with ⟨hw2, hpa2⟩ | ⟨hw2, hold2⟩
      · subst hpa2
        exact absurd hc1 ((hself c hc2).2.2.2.2 w1 p1 hw1 hold1)
      · exact hts.distinct w1 w2 p1 p2 c hold1 hold2 hc1 hc2

/-- A step of a worker that keeps its command, or drops it, and leaves the
dispatcher as it is. -/
theorem ThreadedSealing_phase {env : Environment} {e : CfgEntryInfo} {s0 : RunState}
    {t : ThreadedState} {H : List (Nat × IResponse)} (hts : ThreadedSealing env e s0 t H)
    {w : Nat} {p : WorkerPhase} (hp : t.workers[w]? = some p) (a : WorkerPhase)
    (run1 : RunState) (H1 : List (Nat × IResponse))
    (hseal : RangeSealing env e s0 run1 H1) (hd : run1.dispatcher = t.run.dispatcher)
    (hcmd : ∀ c, a.command = some c → p.command = some c)
    (hpend : a.pending = true → p.pending = true)
    (hH : ∀ cr ∈ H1, cr ∈ H ∨ (p.command = some cr.1 ∧ a.pending = false)) :
    ThreadedSealing env e s0 { run := run1, workers := t.workers.set w a } H1 := by
  refine ThreadedSealing_set hts w a run1 H1 hseal (by rw [hd]) (by rw [hd]; exact hts.iEndCommand)
    (by rw [hd]; exact hts.cursor) (by rw [hd]; exact hts.cursorIn) (by rw [hd])
    (fun w1 _ => by rw [hd]) ?_ ?_ ?_ ?_ ?_
  · intro c hc
    obtain ⟨h1, h2, h3⟩ := hts.held w p c hp (hcmd c hc)
    rw [hd]
    refine ⟨h1, h2, h3, fun hpe => hts.pending w p c hp (hcmd c hc) (hpend hpe), ?_⟩
    intro w1 p1 hw1 hp1 hc1
    exact hw1 (hts.distinct w1 w p1 p c hp1 hp hc1 (hcmd c hc))
  · intro w1 p1 c1 _ hp1 hc1 hpe
    rw [hd]
    exact hts.pending w1 p1 c1 hp1 hc1 hpe
  · intro cr hcr
    rw [hd]
    rcases hH cr hcr with hold | ⟨hc, -⟩
    · exact hts.handledBelow cr hold
    · exact (hts.held w p cr.1 hp hc).2.2
  · intro cr hcr hpe hc
    rcases hH cr hcr with hold | ⟨-, hnp⟩
    · exact hts.handledDone cr hold w p hp (hpend hpe) (hcmd _ hc)
    · rw [hpe] at hnp
      exact absurd hnp (by simp)
  · intro cr hcr w1 p1 hw1 hp1 hpe hc1
    rcases hH cr hcr with hold | ⟨hc, -⟩
    · exact hts.handledDone cr hold w1 p1 hp1 hpe hc1
    · exact hw1 (hts.distinct w1 w p1 p cr.1 hp1 hp hc1 hc)
theorem nextCommand_lt_of_some {st : CWorkerAccumState} {n : Nat} (h : st.m_hCombo = some n) :
    st.nextCommand = n := by
  unfold CWorkerAccumState.nextCommand
  rw [h]
  rfl

theorem workerStep_sealing {env : Environment} {e : CfgEntryInfo} (hr : EntryReady env e)
    {s0 : RunState} {t t1 : ThreadedState} {H : List (Nat × IResponse)} (w : Nat)
    (hts : ThreadedSealing env e s0 t H) (h : workerStep env w t = some t1) :
    ∃ H1, ThreadedSealing env e s0 t1 H1 := by
  unfold workerStep at h
  cases hp : t.workers[w]? with
  | none =>
    rw [hp] at h
    simp only [Option.some.injEq] at h
    subst h
    exact ⟨H, hts⟩
  | some p =>
    rw [hp] at h
    have hwlt : w < t.run.dispatcher.m_arrSubProcessInfos.length := by
      rw [← hts.slots]
      exact (List.getElem?_eq_some_iff.1 hp).1
    cases p with
    | ready =>
      simp only [Option.some.injEq] at h
      subst h
      cases hc : t.run.dispatcher.m_hCombo with
      | none =>
        simp only [OnProcessTake, hc]
        refine ⟨H, ThreadedSealing_set hts w _ _ H
          (RangeSealing_congr hts.sealing rfl rfl rfl rfl) (by simp) hts.iEndCommand ?_ ?_ ?_
          (fun w1 hw1 => getElem?_set_other _ _ hw1) ?_ ?_ ?_ ?_ ?_⟩
        · have := hts.cursor
          simpa [CWorkerAccumState.nextCommand, hc] using this
        · intro n hn
          exact hts.cursorIn n (by rw [hc]; exact hn)
        · simp [CWorkerAccumState.nextCommand, hc]
        · intro c hcc
          simp [WorkerPhase.command] at hcc
        · intro w1 p1 c1 _ hp1 hc1 hpe
          exact hts.pending w1 p1 c1 hp1 hc1 hpe
        · intro cr hcr
          have := hts.handledBelow cr hcr
          simpa [CWorkerAccumState.nextCommand, hc] using this
        · intro cr _ hpe
          simp [WorkerPhase.pending] at hpe
        · intro cr hcr w1 p1 _ hp1 hpe
          exact hts.handledDone cr hcr w1 p1 hp1 hpe
      | some n =>
        simp only [OnProcessTake, hc]
        have hn := nextCommand_lt_of_some hc
        have hnend := hts.cursorIn n hc
        have hnext : n + 1 ≤ CWorkerAccumState.nextCommand
            { t.run.dispatcher with
              m_arrSubProcessInfos := t.run.dispatcher.m_arrSubProcessInfos.set w n
              m_hCombo := Combo_GetNext env.alive (n + 1) t.run.dispatcher.m_iEndCommand } ∧
            CWorkerAccumState.nextCommand
              { t.run.dispatcher with
                m_arrSubProcessInfos := t.run.dispatcher.m_arrSubProcessInfos.set w n
                m_hCombo := Combo_GetNext env.alive (n + 1) t.run.dispatcher.m_iEndCommand } ≤
              e.m_iCommandEnd := by
          unfold CWorkerAccumState.nextCommand
          simp only
          cases hg : Combo_GetNext env.alive (n + 1) t.run.dispatcher.m_iEndCommand with
          | none =>
            simp only [Option.getD_none]
            rw [hts.iEndCommand]
            omega
          | some m =>
            simp only [Option.getD_some]
            have := Combo_GetNext_some hg
            rw [hts.iEndCommand] at this
            omega
        have hL := hts.cursor.1
        rw [hn] at hL
        refine ⟨H, ThreadedSealing_set hts w _ _ H
          (RangeSealing_congr hts.sealing rfl rfl rfl rfl) (by simp) hts.iEndCommand
          ⟨le_trans (Nat.le_succ_of_le hL) hnext.1, hnext.2⟩ ?_
          (by rw [hn]; exact le_trans (Nat.le_succ n) hnext.1)
          (fun w1 hw1 => getElem?_set_other _ _ hw1) ?_ ?_ ?_ ?_ ?_⟩
        · intro m hm
          have := Combo_GetNext_some hm
          rw [hts.iEndCommand] at this
          exact this.2.1
        · intro c hcc
          simp only [WorkerPhase.command, Option.some.injEq] at hcc
          subst hcc
          refine ⟨?_, le_trans hts.sealing.watermark.1 hL, Nat.lt_of_succ_le hnext.1,
            fun _ => hL, ?_⟩
          · show (t.run.dispatcher.m_arrSubProcessInfos.set w n)[w]? = some n
            rw [List.getElem?_set, if_pos rfl, if_pos hwlt]
          · intro w1 p1 _ hp1 hc1
            have := (hts.held w1 p1 n hp1 hc1).2.2
            omega
        · intro w1 p1 c1 _ hp1 hc1 hpe
          exact hts.pending w1 p1 c1 hp1 hc1 hpe
        · intro cr hcr
          have := hts.handledBelow cr hcr
          rw [hn] at this
          exact lt_of_lt_of_le this (le_trans (Nat.le_succ n) hnext.1)
        · intro cr hcr _ hcc
          simp only [WorkerPhase.command, Option.some.injEq] at hcc
          have := hts.handledBelow cr hcr
          omega
        · intro cr hcr w1 p1 _ hp1 hpe
          exact hts.handledDone cr hcr w1 p1 hp1 hpe
    | taken c =>
      simp only [Option.some.injEq] at h
      subst h
      refine ⟨H, ThreadedSealing_phase hts hp _ t.run H hts.sealing rfl ?_ ?_
        (fun cr hcr => Or.inl hcr)⟩
      · intro c1 hc1
        split at hc1
        · simp [WorkerPhase.command] at hc1
        · exact hc1
      · intro _
        rfl
    | compiling c =>
      simp only [Option.map_eq_some'] at h
      obtain ⟨s1, hst, h⟩ := h
      subst h
      have hL := hts.pending w _ c hp rfl rfl
      obtain ⟨-, -, hlt⟩ := hts.held w _ c hp rfl
      obtain ⟨hs1, hd1⟩ := RangeSealing_store hr hts.sealing hL
        (lt_of_lt_of_le hlt hts.cursor.2)
        (fun cr hcr heq => hts.handledDone cr hcr w _ hp rfl (by rw [heq]; rfl)) hst
      refine ⟨_, ThreadedSealing_phase hts hp _ s1 _ hs1 hd1 (fun c1 hc1 => hc1)
        (fun hpe => by simp [WorkerPhase.pending] at hpe) ?_⟩
      intro cr hcr
      rcases List.mem_append.1 hcr with hcr | hcr
      · exact Or.inl hcr
      · rw [List.mem_singleton] at hcr
        subst hcr
        exact Or.inr ⟨rfl, rfl⟩
    | responded c =>
      simp only [Option.some.injEq] at h
      subst h
      obtain ⟨hpr, hd, hh, hk⟩ := HandleCommandResponse_stop_frame env (env.execute c) t.run
      exact ⟨H, ThreadedSealing_phase hts hp _ _ H
        (RangeSealing_congr hts.sealing hh (by rw [hd]) (by rw [hpr]) hk) hd
        (fun c1 hc1 => hc1) (fun hpe => by simp [WorkerPhase.pending] at hpe)
        (fun cr hcr => Or.inl hcr)⟩
    | packaging c =>
      simp only [Option.map_eq_some'] at h
      obtain ⟨s1, hst, h⟩ := h
      subst h
      obtain ⟨hslot, hstart, hlt⟩ := hts.held w _ c hp rfl
      obtain ⟨hs1, hcase⟩ := RangeSealing_sealing hr hts.sealing hstart
        (lt_of_lt_of_le hlt hts.cursor.2) hst
      obtain ⟨-, -, -, -, -, -, -, h8, h9, h10, -⟩ := TryToPackageData_sealing_frame hst
      have hnx : s1.dispatcher.nextCommand = t.run.dispatcher.nextCommand := by
        unfold CWorkerAccumState.nextCommand
        rw [h8, h9]
      refine ⟨H, ThreadedSealing_set hts w _ s1 H hs1 (by rw [h10])
        (by rw [h8]; exact hts.iEndCommand) ?_ (by rw [h9]; exact hts.cursorIn)
        (by rw [hnx]) (fun w1 _ => by rw [h10]) ?_ ?_
        (fun cr hcr => by rw [hnx]; exact hts.handledBelow cr hcr)
        (fun cr _ hpe => by simp [WorkerPhase.pending] at hpe)
        (fun cr hcr w1 p1 _ hp1 hpe => hts.handledDone cr hcr w1 p1 hp1 hpe)⟩
      · rw [hnx]
        refine ⟨?_, hts.cursor.2⟩
        rcases hcase with ⟨hd, -⟩ | ⟨hd, -, -⟩
        · rw [hd]; exact hts.cursor.1
        · rw [hd]
          show c + 1 ≤ _
          omega
      · intro c1 hc1
        simp [WorkerPhase.command] at hc1
      · intro w1 p1 c1 hw1 hp1 hc1 hpe
        rcases hcase with ⟨hd, -⟩ | ⟨hd, -, hslots⟩
        · rw [hd]; exact hts.pending w1 p1 c1 hp1 hc1 hpe
        · rw [hd]
          show c + 1 ≤ c1
          obtain ⟨hs1slot, -, -⟩ := hts.held w1 p1 c1 hp1 hc1
          obtain ⟨hl1, hg1⟩ := List.getElem?_eq_some_iff.1 hs1slot
          have hge := hslots c1 (hg1 ▸ List.getElem_mem hl1)
          have hne : c1 ≠ c := by
            intro heq
            subst heq
            exact hw1 (hts.distinct w1 w p1 _ c1 hp1 hp hc1 rfl)
          omega
    | exited =>
      simp only [Option.some.injEq] at h
      subst h
      exact ⟨H, hts⟩
theorem workerEvent_sealing {env : Environment} {e : CfgEntryInfo} (hr : EntryReady env e)
    {s0 : RunState} {t t1 : ThreadedState} {H : List (Nat × IResponse)} (i : Nat)
    (ev : WorkerEvent) (hts : ThreadedSealing env e s0 t H)
    (h : workerEvent env i ev t = some t1) : ∃ H1, ThreadedSealing env e s0 t1 H1 := by
  cases ev with
  | step w => exact workerStep_sealing hr w hts h
  | start =>
    unfold workerEvent at h
    simp only at h
    split at h
    · simp only [Option.some.injEq] at h
      subst h
      refine ⟨H, RangeSealing_congr hts.sealing rfl rfl rfl rfl, ?_, hts.iEndCommand, hts.cursor,
        hts.cursorIn, ?_, ?_, ?_, hts.handledBelow, ?_⟩
      · show (t.workers ++ [WorkerPhase.ready]).length =
          (t.run.dispatcher.m_arrSubProcessInfos ++ [0]).length
        rw [List.length_append, List.length_append, hts.slots]
        rfl
      · intro w p c hp hc
        rcases getElem?_concat_cases hp with hold | ⟨-, hpa⟩
        · obtain ⟨h1, h2, h3⟩ := hts.held w p c hold hc
          exact ⟨getElem?_concat_of _ h1, h2, h3⟩
        · subst hpa
          simp [WorkerPhase.command] at hc
      · intro w p c hp hc hpe
        rcases getElem?_concat_cases hp with hold | ⟨-, hpa⟩
        · exact hts.pending w p c hold hc hpe
        · subst hpa
          simp [WorkerPhase.command] at hc
      · intro w1 w2 p1 p2 c hp1 hp2 hc1 hc2
        rcases getElem?_concat_cases hp1 with hold1 | ⟨-, hpa⟩
        · rcases getElem?_concat_cases hp2 with hold2 | ⟨-, hpa⟩
          · exact hts.distinct w1 w2 p1 p2 c hold1 hold2 hc1 hc2
          · subst hpa
            simp [WorkerPhase.command] at hc2
        · subst hpa
          simp [WorkerPhase.command] at hc1
      · intro cr hcr w p hp hpe
        rcases getElem?_concat_cases hp with hold | ⟨-, hpa⟩
        · exact hts.handledDone cr hcr w p hold hpe
        · subst hpa
          simp [WorkerPhase.pending] at hpe
    · simp only [Option.some.injEq] at h
      subst h
      exact ⟨H, hts⟩

theorem workerEvents_sealing {env : Environment} {e : CfgEntryInfo} (hr : EntryReady env e)
    {s0 : RunState} (i : Nat) (events : List WorkerEvent) :
    ∀ {t t1 : ThreadedState} {H : List (Nat × IResponse)},
      ThreadedSealing env e s0 t H → workerEvents env i events t = some t1 →
      ∃ H1, ThreadedSealing env e s0 t1 H1 := by
  induction events with
  | nil =>
    intro t t1 H hts h
    simp only [workerEvents, Option.some.injEq] at h
    subst h
    exact ⟨H, hts⟩
  | cons ev evs ih =>
    intro t t1 H hts h
    simp only [workerEvents] at h
    cases hev : workerEvent env i ev t with
    | none => rw [hev] at h; exact absurd h (by simp)
    | some t2 =>
      rw [hev] at h
      obtain ⟨H2, hts2⟩ := workerEvent_sealing hr i ev hts hev
      exact ih hts2 h

/-- After a call of `ProcessCommandRange` on the range of an entry whose shader has
no hash yet, the accumulator is in order and the watermark is at the end of
the range, in both modes and under every schedule. -/
theorem ProcessCommandRange_sealing {env : Environment} {e : CfgEntryInfo}
    (hr : EntryReady env e) {m_nThreads : Nat} {events : List WorkerEvent} {s0 s1 : RunState}
    (hfresh : s0.program.g_ShaderByteCode e.m_szName = none)
    (hslots : s0.dispatcher.m_arrSubProcessInfos = [])
    (h : ProcessCommandRange env m_nThreads events s0 e.m_iCommandStart e.m_iCommandEnd =
      some s1) :
    ∃ H, RangeSealing env e s0 s1 H ∧ s1.dispatcher.m_iLastFinished = e.m_iCommandEnd ∧
      s1.dispatcher.m_arrSubProcessInfos = [] := by
  unfold ProcessCommandRange at h
  simp only at h
  have hbegin := RangeSealing_begin hr s0 hfresh
  have hcur : ∀ n, Combo_GetNext env.alive e.m_iCommandStart e.m_iCommandEnd = some n →
      e.m_iCommandStart ≤ n ∧ n < e.m_iCommandEnd := fun n hn =>
    ⟨(Combo_GetNext_some hn).1, (Combo_GetNext_some hn).2.1⟩
  by_cases hmt : m_nThreads > 1
  · rw [if_pos hmt] at h
    cases hrun : Run env m_nThreads events
        { s0 with
          dispatcher := RangeBegin env.alive s0.dispatcher e.m_iCommandStart e.m_iCommandEnd } with
    | none => rw [hrun] at h; exact absurd h (by simp)
    | some s2 =>
      rw [hrun, Option.some_bind] at h
      unfold Run at hrun
      cases hev : workerEvents env m_nThreads events
          { run :=
              { s0 with
                dispatcher :=
                  RangeBegin env.alive s0.dispatcher e.m_iCommandStart e.m_iCommandEnd }
            workers := [] } with
      | none => rw [hev] at hrun; exact absurd hrun (by simp)
      | some t =>
        rw [hev] at hrun
        simp only at hrun
        split at hrun
        · simp only [Option.some.injEq] at hrun
          subst hrun
          have h0 : ThreadedSealing env e s0
              { run :=
                  { s0 with
                    dispatcher :=
                      RangeBegin env.alive s0.dispatcher e.m_iCommandStart e.m_iCommandEnd }
                workers := [] } [] := by
            refine ⟨hbegin, ?_, rfl, ?_, ?_, fun w p c hp => absurd hp (by simp),
              fun w p c hp => absurd hp (by simp), fun w1 w2 p1 p2 c hp => absurd hp (by simp),
              fun cr hcr => absurd hcr (List.not_mem_nil _),
              fun cr hcr => absurd hcr (List.not_mem_nil _)⟩
            · show ([] : List WorkerPhase).length = s0.dispatcher.m_arrSubProcessInfos.length
              rw [hslots]
              rfl
            · show e.m_iCommandStart ≤
                (Combo_GetNext env.alive e.m_iCommandStart e.m_iCommandEnd).getD e.m_iCommandEnd ∧
                (Combo_GetNext env.alive e.m_iCommandStart e.m_iCommandEnd).getD e.m_iCommandEnd ≤
                  e.m_iCommandEnd
              cases hg : Combo_GetNext env.alive e.m_iCommandStart e.m_iCommandEnd with
              | none => exact ⟨Nat.le_of_lt hr.range_nonempty, Nat.le_refl _⟩
              | some n => exact ⟨(hcur n hg).1, Nat.le_of_lt (hcur n hg).2⟩
            · intro n hn
              exact (hcur n hn).2
          obtain ⟨H, hts⟩ := workerEvents_sealing hr m_nThreads events h0 hev
          have hs2 : RangeSealing env e s0
              { t.run with dispatcher := { t.run.dispatcher with m_arrSubProcessInfos := [] } } H :=
            RangeSealing_congr hts.sealing rfl rfl rfl rfl
          obtain ⟨hs3, hL⟩ := RangeSealing_finished hr hs2 hts.iEndCommand rfl h
          obtain ⟨-, -, -, -, -, -, -, -, -, h10, -⟩ := TryToPackageData_sealing_frame h
          exact ⟨H, hs3, hL, h10⟩
        · exact absurd hrun (by simp)
  · rw [if_neg hmt] at h
    cases hrun : OnProcessST env (e.m_iCommandEnd - e.m_iCommandStart)
        { s0 with
          dispatcher := RangeBegin env.alive s0.dispatcher e.m_iCommandStart e.m_iCommandEnd } with
    | none => rw [hrun] at h; exact absurd h (by simp)
    | some s2 =>
      rw [hrun, Option.some_bind] at h
      obtain ⟨H, hs2, hsl, hend⟩ := OnProcessST_sealing hr (e.m_iCommandEnd - e.m_iCommandStart)
        hbegin hslots rfl hcur (fun cr hcr => absurd hcr (List.not_mem_nil _)) hrun
      obtain ⟨hs3, hL⟩ := RangeSealing_finished hr hs2 hend hsl h
      obtain ⟨-, -, -, -, -, -, -, -, -, h10, -⟩ := TryToPackageData_sealing_frame h
      exact ⟨H, hs3, hL, h10.trans hsl⟩
/-! ## The sealing step returns -/

theorem emittedBlock_length_le {compress : List Byte → Option (List Byte)}
    (hshrinks : ∀ blk out, compress blk = some out → out.length ≤ blk.length) (blk : List Byte) :
    (emittedBlock compress blk).length ≤ 4 + blk.length := by
  unfold emittedBlock
  cases h : compress blk with
  | none => simp [putU32_length]
  | some out =>
    have := hshrinks blk out h
    simp only [List.length_append, putU32_length]
    omega

theorem dynamicComboRecords_length (l : List CByteCodeBlock) :
    (dynamicComboRecords l).length = (l.map (fun b => 8 + b.code.length)).sum := by
  induction l with
  | nil => rfl
  | cons b t ih =>
    have : dynamicComboRecords (b :: t) =
        dynamicComboRecord b.m_nComboID b.code ++ dynamicComboRecords t := by
      simp [dynamicComboRecords]
    rw [this, List.length_append, dynamicComboRecord_length, ih]
    simp

theorem group_weight {grp : List CByteCodeBlock} (hne : grp ≠ []) :
    4 + (grp.map (fun b => 8 + b.code.length)).sum ≤
      (grp.map (fun b => b.code.length + 12)).sum := by
  cases grp with
  | nil => exact absurd rfl hne
  | cons b t =>
    have : (t.map (fun b => 8 + b.code.length)).sum ≤
        (t.map (fun b => b.code.length + 12)).sum :=
      List.sum_le_sum (fun i _ => by omega)
    simp only [List.map_cons, List.sum_cons]
    omega

theorem groups_weight {compress : List Byte → Option (List Byte)}
    (hshrinks : ∀ blk out, compress blk = some out → out.length ≤ blk.length)
    (groups : List (List CByteCodeBlock)) (hne : ∀ grp ∈ groups, grp ≠ []) :
    ((groups.map dynamicComboRecords).flatMap (emittedBlock compress)).length ≤
      (groups.flatten.map (fun b => b.code.length + 12)).sum := by
  induction groups with
  | nil => simp
  | cons grp rest ih =>
    have h1 := emittedBlock_length_le hshrinks (dynamicComboRecords grp)
    rw [dynamicComboRecords_length] at h1
    have h2 := group_weight (hne grp (List.mem_cons_self _ _))
    have h3 := ih (fun g hg => hne g (List.mem_cons_of_mem _ hg))
    simp only [List.map_cons, List.flatMap_cons, List.length_append, List.flatten_cons,
      List.map_append, List.sum_append]
    omega

/-- The packer returns for a static combo whose ids and sizes fit in 32 bits, and
what it writes is at most the byte code with 12 bytes for each dynamic combo. -/
theorem packDynamicCombos_fits {compress : List Byte → Option (List Byte)} (maxBlock : Nat)
    (hsmall : ∀ blk out, compress blk = some out → out.length < 2 ^ 32)
    (hshrinks : ∀ blk out, compress blk = some out → out.length ≤ blk.length)
    (p : CStaticCombo)
    (hl : ∀ b ∈ p.m_DynamicCombos, b.m_nComboID < 2 ^ 32 ∧ b.code.length < 2 ^ 32) :
    ∃ st, packDynamicCombos compress maxBlock p [] = some st ∧
      st.pnTotalFlushedSize ≤ (p.m_DynamicCombos.map (fun b => b.code.length + 12)).sum := by
  obtain ⟨st, hst⟩ := packDynamicCombos_returns maxBlock hsmall p hl []
  refine ⟨st, hst, ?_⟩
  obtain ⟨⟨groups, cur, hd, hgne, hh, hb, -, ht⟩, hempty⟩ := packDynamicCombos_inv hst
  have hcur : cur = [] := dynamicComboRecords_eq_nil.1 (hb ▸ hempty)
  subst hcur
  simp only [List.append_nil] at hd
  rw [ht, hh]
  refine le_trans (groups_weight hshrinks groups hgne) ?_
  rw [hd]
  exact le_of_eq (((stdSort_perm _ _).map _).sum_eq)

theorem sealStaticCombo_returns {compress : List Byte → Option (List Byte)} {maxBlock : Nat}
    (slot : Nat → StaticComboNodeHash_t → Nat) {g : CShaderMap} {name : String} {k : Nat}
    (hpk : ∀ p, StaticComboFromDict g name k = some p → p.m_DynamicCombos ≠ [] →
      ∃ st, packDynamicCombos compress maxBlock p [] = some st ∧
        st.pnTotalFlushedSize < 2 ^ 31) :
    ∃ g1, sealStaticCombo compress maxBlock slot g name k = some g1 := by
  unfold sealStaticCombo AssembleWorkerReplyPackage
  cases hf : StaticComboFromDict g name k with
  | none => exact ⟨g, by simp⟩
  | some p =>
    simp only
    by_cases hemp : p.m_DynamicCombos.isEmpty = true
    · rw [if_pos hemp]
      exact ⟨_, rfl⟩
    · rw [if_neg hemp]
      obtain ⟨st, hst, hlt⟩ := hpk p hf (by simpa using hemp)
      rw [hst]
      simp only
      by_cases h0 : st.pnTotalFlushedSize = 0
      · rw [if_pos h0]
        exact ⟨_, rfl⟩
      · rw [if_neg h0]
        simp only [narrowI32, if_pos hlt]
        exact ⟨_, rfl⟩

theorem sealStaticCombos_returns {compress : List Byte → Option (List Byte)} {maxBlock : Nat}
    (slot : Nat → StaticComboNodeHash_t → Nat) {name : String} (ids : List Nat) :
    ∀ {g : CShaderMap}, (∀ h, g name = some h → KeysNodup h) → ids.Nodup →
      (∀ j ∈ ids, ∀ p, StaticComboFromDict g name j = some p → p.m_DynamicCombos ≠ [] →
        ∃ st, packDynamicCombos compress maxBlock p [] = some st ∧
          st.pnTotalFlushedSize < 2 ^ 31) →
      ∃ g1, sealStaticCombos compress maxBlock slot name ids g = some g1 := by
  induction ids with
  | nil => intro g _ _ _; exact ⟨g, rfl⟩
  | cons k rest ih =>
    intro g hnd hids hpk
    obtain ⟨g2, hg2⟩ := sealStaticCombo_returns slot (hpk k (List.mem_cons_self _ _))
    have hone : sealStaticCombos compress maxBlock slot name [k] g = some g2 := by
      simp [sealStaticCombos, hg2]
    obtain ⟨hl, hk, -⟩ := sealStaticCombos_view hnd (List.nodup_singleton k) hone
    rw [List.nodup_cons] at hids
    simp only [sealStaticCombos, hg2]
    refine ih hk hids.2 ?_
    intro j hj p hp hne
    have hjk : j ∉ [k] := by
      rw [List.mem_singleton]
      exact fun e => hids.1 (e ▸ hj)
    rw [hl j, if_neg hjk] at hp
    exact hpk j (List.mem_cons_of_mem _ hj) p hp hne
theorem arrivals_weight {env : Environment} {e : CfgEntryInfo} {H : List (Nat × IResponse)}
    (hin : ∀ cr ∈ H, cr.2 = env.execute cr.1) (j : Nat) :
    ((arrivals e H j).map (fun b => b.code.length + 12)).sum ≤
      ((H.map Prod.fst).map (fun c => (env.execute c).GetResultBuffer.length + 12)).sum := by
  unfold arrivals
  rw [List.map_map, List.map_map]
  have hsub : ((H.filter (fun cr => cr.2.Succeeded && decide (staticComboOf e cr.1 = j))).map
      (fun cr => cr.2.GetResultBuffer.length + 12)).Sublist
      (H.map (fun cr => cr.2.GetResultBuffer.length + 12)) :=
    (List.filter_sublist H).map _
  refine le_trans (le_trans (le_of_eq ?_) (hsub.sum_le_sum (fun a _ => Nat.zero_le a)))
    (le_of_eq ?_)
  · rfl
  · congr 1
    apply List.map_congr_left
    intro cr hcr
    simp only [Function.comp]
    rw [hin cr hcr]

theorem handled_weight {env : Environment} {e : CfgEntryInfo} (hwf : e.WellFormed)
    {H : List (Nat × IResponse)}
    (hin : ∀ cr ∈ H, e.m_iCommandStart ≤ cr.1 ∧ cr.1 < e.m_iCommandEnd)
    (hnd : (H.map Prod.fst).Nodup) :
    ((H.map Prod.fst).map (fun c => (env.execute c).GetResultBuffer.length + 12)).sum ≤
      ((List.range' e.m_iCommandStart e.m_numCombos).map
        (fun c => (env.execute c).GetResultBuffer.length + 12)).sum := by
  obtain ⟨-, -, hE⟩ := hwf
  have hsubset : H.map Prod.fst ⊆ List.range' e.m_iCommandStart e.m_numCombos := by
    intro c hc
    obtain ⟨cr, hcr, rfl⟩ := List.mem_map.1 hc
    rw [List.mem_range'_1]
    have := hin cr hcr
    omega
  obtain ⟨l, hperm, hsub⟩ := hnd.subperm hsubset
  rw [← (hperm.map _).sum_eq]
  exact (hsub.map _).sum_le_sum (fun a _ => Nat.zero_le a)

/-- While the range of an entry whose results fit is processed, the packer returns
for every static combo as it is accumulated, with less than `2^31` bytes. -/
theorem accumulated_fits {env : Environment} {e : CfgEntryInfo} (hr : EntryReady env e)
    (hfit : ResultsFit env e) {s0 s : RunState} {H : List (Nat × IResponse)}
    (hs : RangeSealing env e s0 s H) (j : Nat) :
    ∃ st, packDynamicCombos env.compress env.maxBlock (accumulated e H j) [] = some st ∧
      st.pnTotalFlushedSize < 2 ^ 31 := by
  have hwf := hr.wellFormed e hr.mem
  have hw := le_trans (@arrivals_weight env e H (fun cr hcr => (hs.inRange cr hcr).2.2) j)
    (handled_weight hwf (fun cr hcr => ⟨(hs.inRange cr hcr).1, (hs.inRange cr hcr).2.1⟩) hs.nodup)
  have htot := hfit.total
  have hl : ∀ b ∈ (accumulated e H j).m_DynamicCombos,
      b.m_nComboID < 2 ^ 32 ∧ b.code.length < 2 ^ 32 := by
    intro b hb
    constructor
    · simp only [accumulated, arrivals, List.mem_map] at hb
      obtain ⟨cr, -, rfl⟩ := hb
      simp only
      obtain ⟨hd, -, hE⟩ := hwf
      rw [nDyComboIdx_eq_mod _ _ (by have := hr.below64; omega)]
      exact lt_of_lt_of_le (Nat.mod_lt _ hd) hfit.dynamic
    · have hmem : b.code.length + 12 ∈ (arrivals e H j).map (fun b => b.code.length + 12) :=
        List.mem_map_of_mem _ hb
      have := List.single_le_sum (fun x _ => Nat.zero_le x) _ hmem
      omega
  obtain ⟨st, hst, hle⟩ := packDynamicCombos_fits env.maxBlock hfit.small hfit.shrinks _ hl
  exact ⟨st, hst, by
    have : (accumulated e H j).m_DynamicCombos = arrivals e H j := rfl
    rw [this] at hle
    omega⟩

/-- A call of `TryToPackageData` for a command of the range returns when the
results of the entry fit. -/
theorem TryToPackageData_sealing_returns {env : Environment} {e : CfgEntryInfo}
    (hr : EntryReady env e) (hfit : ResultsFit env e) {s0 s : RunState}
    {H : List (Nat × IResponse)} (hs : RangeSealing env e s0 s H) {cmd : Nat}
    (h1 : e.m_iCommandStart ≤ cmd) (h2 : cmd < e.m_iCommandEnd) :
    ∃ s1, TryToPackageData_sealing env cmd s = some s1 := by
  have h64 : (cmd + 1) % 2 ^ 64 = cmd + 1 :=
    Nat.mod_eq_of_lt (by have := hr.below64; omega)
  have hret : ∃ st1 passes, TryToPackageData env.cfg env.fuel s.dispatcher cmd =
      some (st1, passes) ∧
      (passes = [] ∨ passes = (descending (sealedFrom e (cmd + 1))
        (staticComboOf e s.dispatcher.m_iLastFinished)).map (fun j => (e, j)) ∧
        s.dispatcher.m_iLastFinished < e.m_iCommandEnd) := by
    by_cases hany : s.dispatcher.m_arrSubProcessInfos.any (fun r => decide (r < cmd)) = true
    · refine ⟨s.dispatcher, [], ?_, Or.inl rfl⟩
      unfold TryToPackageData
      simp only [hany, if_true]
      rw [if_neg (Nat.not_lt_zero _)]
    · by_cases hadv : s.dispatcher.m_iLastFinished < cmd + 1
      · have hslots : ∀ r ∈ s.dispatcher.m_arrSubProcessInfos, cmd ≤ r := by
          intro r hr1
          by_contra hlt
          exact hany (List.any_eq_true.2 ⟨r, hr1, by simpa using hlt⟩)
        exact ⟨_, _, TryToPackageData_in_entry env.cfg e env.fuel s.dispatcher cmd hr.ordered
          hr.wellFormed hr.mem hs.watermark.1 hadv (by omega) (by have := hr.below64; omega)
          hslots (fun heq => heq ▸ hr.following) hr.fuel, Or.inr ⟨rfl, by omega⟩⟩
      · refine ⟨s.dispatcher, [], ?_, Or.inl rfl⟩
        unfold TryToPackageData
        simp only [hany, Bool.false_eq_true, if_false, h64]
        rw [if_neg hadv]
  obtain ⟨st1, passes, ht, hpasses⟩ := hret
  unfold TryToPackageData_sealing
  rw [ht]
  simp only
  rcases hpasses with hp | ⟨hp, hL⟩
  · subst hp
    simp only [sealPackaged]
    exact ⟨_, rfl⟩
  · subst hp
    rw [sealPackaged_map]
    have hnodup : (descending (sealedFrom e (cmd + 1))
        (staticComboOf e s.dispatcher.m_iLastFinished)).Nodup :=
      (descending_pairwise _ _).imp (fun hab => Nat.ne_of_gt hab)
    obtain ⟨g1, hg1⟩ := @sealStaticCombos_returns env.compress env.maxBlock env.slot e.m_szName
      _ _ hs.keys hnodup (by
        intro j hj p hp hne
        have hlk := hs.lookup j
        have hold : sealedFrom e s.dispatcher.m_iLastFinished =
            staticComboOf e s.dispatcher.m_iLastFinished + 1 := by
          unfold sealedFrom
          rw [if_pos hL]
        rw [hold, if_neg (by have := (mem_descending.1 hj).2; omega), hp] at hlk
        unfold unsealedCombo at hlk
        split at hlk
        · exact absurd hlk (by simp)
        · simp only [Option.some.injEq] at hlk
          rw [hlk]
          exact accumulated_fits hr hfit hs j)
    rw [hg1]
    exact ⟨_, rfl⟩

theorem HandleCommandResponse_store_returns {env : Environment} {e : CfgEntryInfo}
    (hr : EntryReady env e) {c : Nat} (h1 : e.m_iCommandStart ≤ c) (h2 : c < e.m_iCommandEnd)
    (r : IResponse) (s : RunState) : ∃ s1, HandleCommandResponse_store env c r s = some s1 := by
  have hg := Combo_GetCombo_of_mem hr.ordered hr.mem h1 h2
  obtain ⟨hd, -, -⟩ := hr.wellFormed e hr.mem
  unfold HandleCommandResponse_store
  rw [hg]
  simp only
  split
  · rw [if_neg (by omega)]
    exact ⟨_, rfl⟩
  · exact ⟨_, rfl⟩
theorem RangeFinished_returns {env : Environment} {e : CfgEntryInfo}
    (hr : EntryReady env e) (hfit : ResultsFit env e) {s0 s : RunState}
    {H : List (Nat × IResponse)} (hs : RangeSealing env e s0 s H)
    (hend : s.dispatcher.m_iEndCommand = e.m_iCommandEnd) :
    ∃ s1, RangeFinished env s = some s1 := by
  unfold RangeFinished
  have hne := hr.range_nonempty
  have hcmd : (s.dispatcher.m_iEndCommand + (2 ^ 64 - 1)) % 2 ^ 64 = e.m_iCommandEnd - 1 := by
    rw [hend]
    have := hr.below64
    omega
  rw [hcmd]
  exact TryToPackageData_sealing_returns hr hfit hs (by omega) (by omega)

/-- One pass of the loop of `OnProcessST`: the compile of the command of the shared
handle returns when the results fit, and leaves the watermark just above the
command. -/
theorem ExecuteCompileCommand_sealing {env : Environment} {e : CfgEntryInfo}
    (hr : EntryReady env e) {s0 s : RunState} {H : List (Nat × IResponse)}
    (hs : RangeSealing env e s0 s H) (hslots : s.dispatcher.m_arrSubProcessInfos = [])
    {c : Nat} (hc1 : s.dispatcher.m_iLastFinished ≤ c) (hc2 : c < e.m_iCommandEnd)
    (hbelow : ∀ cr ∈ H, cr.1 < s.dispatcher.m_iLastFinished) :
    (ResultsFit env e → ∃ s2, ExecuteCompileCommand env c s = some s2) ∧
    ∀ s2, ExecuteCompileCommand env c s = some s2 →
      RangeSealing env e s0 s2 (H ++ [(c, env.execute c)]) ∧
      s2.dispatcher.m_arrSubProcessInfos = [] ∧
      s2.dispatcher.m_iEndCommand = s.dispatcher.m_iEndCommand ∧
      s2.dispatcher.m_iLastFinished = c + 1 := by
  have hstart := le_trans hs.watermark.1 hc1
  obtain ⟨s3, hst⟩ := HandleCommandResponse_store_returns hr hstart hc2 (env.execute c) s
  obtain ⟨hs3, hd3⟩ := RangeSealing_store hr hs hc1 hc2
    (fun cr hcr => Nat.ne_of_lt (lt_of_lt_of_le (hbelow cr hcr) hc1)) hst
  obtain ⟨hp, hd, hh, hk⟩ := HandleCommandResponse_stop_frame env (env.execute c) s3
  have hs4 : RangeSealing env e s0
      (HandleCommandResponse_stop env (env.execute c) s3) (H ++ [(c, env.execute c)]) :=
    RangeSealing_congr hs3 hh (by rw [hd]) (by rw [hp]) hk
  unfold ExecuteCompileCommand HandleCommandResponse
  rw [hst, Option.some_bind]
  refine ⟨fun hfit => TryToPackageData_sealing_returns hr hfit hs4 hstart hc2, ?_⟩
  intro s2 hx
  obtain ⟨hs5, hcase⟩ := RangeSealing_sealing hr hs4 hstart hc2 hx
  obtain ⟨-, -, -, -, -, -, -, h8, -, h10, -⟩ := TryToPackageData_sealing_frame hx
  rw [hd, hd3] at h8 h10
  refine ⟨hs5, by rw [h10, hslots], h8, ?_⟩
  rcases hcase with ⟨-, hwhy⟩ | ⟨hd2, -, -⟩
  · rw [hd, hd3] at hwhy
    rcases hwhy with ⟨r, hr1, -⟩ | hle
    · rw [hslots] at hr1
      exact absurd hr1 (List.not_mem_nil _)
    · omega
  · rw [hd2]

theorem OnProcessST_returns {env : Environment} {e : CfgEntryInfo} (hr : EntryReady env e)
    (hfit : ResultsFit env e) {s0 : RunState} (fuel : Nat) :
    ∀ {s : RunState} {H : List (Nat × IResponse)},
      RangeSealing env e s0 s H → s.dispatcher.m_arrSubProcessInfos = [] →
      s.dispatcher.m_iEndCommand = e.m_iCommandEnd →
      (∀ n, s.dispatcher.m_hCombo = some n →
        s.dispatcher.m_iLastFinished ≤ n ∧ n < e.m_iCommandEnd) →
      (∀ cr ∈ H, cr.1 < s.dispatcher.m_iLastFinished) →
      e.m_iCommandEnd - s.dispatcher.nextCommand ≤ fuel →
      ∃ s1, OnProcessST env fuel s = some s1 := by
  induction fuel with
  | zero =>
    intro s H hs hslots hend hcur hbelow hfuel
    unfold OnProcessST
    cases hc : s.dispatcher.m_hCombo with
    | none => exact ⟨s, by simp⟩
    | some c =>
      have := (hcur c hc).2
      rw [nextCommand_lt_of_some hc] at hfuel
      omega
  | succ fuel ih =>
    intro s H hs hslots hend hcur hbelow hfuel
    unfold OnProcessST
    cases hc : s.dispatcher.m_hCombo with
    | none => exact ⟨s, rfl⟩
    | some c =>
      simp only
      by_cases hb : s.m_bBreak = true
      · rw [if_pos hb]
        exact ⟨s, rfl⟩
      · rw [if_neg hb]
        obtain ⟨hc1, hc2⟩ := hcur c hc
        obtain ⟨hret, hpost⟩ := ExecuteCompileCommand_sealing hr hs hslots hc1 hc2 hbelow
        obtain ⟨s2, hx⟩ := hret hfit
        obtain ⟨hs5, hsl2, hend2, hL2⟩ := hpost s2 hx
        rw [hx]
        simp only
        have hs6 : RangeSealing env e s0
            { s2 with
              dispatcher :=
                { s2.dispatcher with
                  m_hCombo := Combo_GetNext env.alive (c + 1) s2.dispatcher.m_iEndCommand } }
            (H ++ [(c, env.execute c)]) :=
          RangeSealing_congr hs5 rfl rfl rfl rfl
        refine ih hs6 hsl2 (by show s2.dispatcher.m_iEndCommand = _; rw [hend2, hend]) ?_ ?_ ?_
        · intro n hn
          have := Combo_GetNext_some hn
          rw [hend2, hend] at this
          show s2.dispatcher.m_iLastFinished ≤ n ∧ n < e.m_iCommandEnd
          rw [hL2]
          exact ⟨this.1, this.2.1⟩
        · intro cr hcr
          show cr.1 < s2.dispatcher.m_iLastFinished
          rw [hL2]
          rcases List.mem_append.1 hcr with hcr | hcr
          · have := hbelow cr hcr
            omega
          · rw [List.mem_singleton] at hcr
            subst hcr
            exact Nat.lt_succ_self _
        · show e.m_iCommandEnd -
            (Combo_GetNext env.alive (c + 1) s2.dispatcher.m_iEndCommand).getD
              s2.dispatcher.m_iEndCommand ≤ fuel
          rw [nextCommand_lt_of_some hc] at hfuel
          cases hg : Combo_GetNext env.alive (c + 1) s2.dispatcher.m_iEndCommand with
          | none =>
            simp only [Option.getD_none]
            rw [hend2, hend]
            omega
          | some m =>
            simp only [Option.getD_some]
            have := Combo_GetNext_some hg
            omega

theorem workerEvent_returns {env : Environment} {e : CfgEntryInfo} (hr : EntryReady env e)
    (hfit : ResultsFit env e) {s0 : RunState} {t : ThreadedState}
    {H : List (Nat × IResponse)} (i : Nat) (ev : WorkerEvent)
    (hts : ThreadedSealing env e s0 t H) : ∃ t1, workerEvent env i ev t = some t1 := by
  cases ev with
  | start =>
    unfold workerEvent
    simp only
    split <;> exact ⟨_, rfl⟩
  | step w =>
    unfold workerEvent workerStep
    simp only
    cases hp : t.workers[w]? with
    | none => exact ⟨t, rfl⟩
    | some p =>
      cases p with
      | ready => exact ⟨_, rfl⟩
      | taken c => exact ⟨_, rfl⟩
      | compiling c =>
        obtain ⟨-, hstart, hlt⟩ := hts.held w _ c hp rfl
        obtain ⟨s1, hs1⟩ := HandleCommandResponse_store_returns hr hstart
          (lt_of_lt_of_le hlt hts.cursor.2) (env.execute c) t.run
        simp only [hs1, Option.map_some']
        exact ⟨_, rfl⟩
      | responded c => exact ⟨_, rfl⟩
      | packaging c =>
        obtain ⟨-, hstart, hlt⟩ := hts.held w _ c hp rfl
        obtain ⟨s1, hs1⟩ := TryToPackageData_sealing_returns hr hfit hts.sealing hstart
          (lt_of_lt_of_le hlt hts.cursor.2)
        simp only [hs1, Option.map_some']
        exact ⟨_, rfl⟩
      | exited => exact ⟨t, rfl⟩

theorem workerEvents_returns {env : Environment} {e : CfgEntryInfo} (hr : EntryReady env e)
    (hfit : ResultsFit env e) {s0 : RunState} (i : Nat) (events : List WorkerEvent) :
    ∀ {t : ThreadedState} {H : List (Nat × IResponse)},
      ThreadedSealing env e s0 t H → ∃ t1, workerEvents env i events t = some t1 := by
  induction events with
  | nil => intro t H _; exact ⟨t, rfl⟩
  | cons ev evs ih =>
    intro t H hts
    obtain ⟨t2, hev⟩ := workerEvent_returns hr hfit i ev hts
    obtain ⟨H2, hts2⟩ := workerEvent_sealing hr i ev hts hev
    simp only [workerEvents, hev]
    exact ih hts2
theorem ThreadedSealing_begin {env : Environment} {e : CfgEntryInfo} (hr : EntryReady env e)
    (s0 : RunState) (hfresh : s0.program.g_ShaderByteCode e.m_szName = none)
    (hslots : s0.dispatcher.m_arrSubProcessInfos = []) :
    ThreadedSealing env e s0
      { run :=
          { s0 with
            dispatcher :=
              RangeBegin env.alive s0.dispatcher e.m_iCommandStart e.m_iCommandEnd }
        workers := [] } [] := by
  have hcur : ∀ n, Combo_GetNext env.alive e.m_iCommandStart e.m_iCommandEnd = some n →
      e.m_iCommandStart ≤ n ∧ n < e.m_iCommandEnd := fun n hn =>
    ⟨(Combo_GetNext_some hn).1, (Combo_GetNext_some hn).2.1⟩
  refine ⟨RangeSealing_begin hr s0 hfresh, ?_, rfl, ?_, ?_, fun w p c hp => absurd hp (by simp),
    fun w p c hp => absurd hp (by simp), fun w1 w2 p1 p2 c hp => absurd hp (by simp),
    fun cr hcr => absurd hcr (List.not_mem_nil _),
    fun cr hcr => absurd hcr (List.not_mem_nil _)⟩
  · show ([] : List WorkerPhase).length = s0.dispatcher.m_arrSubProcessInfos.length
    rw [hslots]
    rfl
  · show e.m_iCommandStart ≤
      (Combo_GetNext env.alive e.m_iCommandStart e.m_iCommandEnd).getD e.m_iCommandEnd ∧
      (Combo_GetNext env.alive e.m_iCommandStart e.m_iCommandEnd).getD e.m_iCommandEnd ≤
        e.m_iCommandEnd
    cases hg : Combo_GetNext env.alive e.m_iCommandStart e.m_iCommandEnd with
    | none => exact ⟨Nat.le_of_lt hr.range_nonempty, Nat.le_refl _⟩
    | some n => exact ⟨(hcur n hg).1, Nat.le_of_lt (hcur n hg).2⟩
  · intro n hn
    exact (hcur n hn).2

/-- When the results of the entry fit, a call of `ProcessCommandRange` on its range
returns, unless the schedule of the worker threads ends before the threads are
done. -/
theorem ProcessCommandRange_returns {env : Environment} {e : CfgEntryInfo}
    (hr : EntryReady env e) (hfit : ResultsFit env e) {m_nThreads : Nat}
    {events : List WorkerEvent} {s0 : RunState}
    (hfresh : s0.program.g_ShaderByteCode e.m_szName = none)
    (hslots : s0.dispatcher.m_arrSubProcessInfos = [])
    (h : ProcessCommandRange env m_nThreads events s0 e.m_iCommandStart e.m_iCommandEnd = none) :
    1 < m_nThreads ∧
    ∃ t, workerEvents env m_nThreads events
        { run :=
            { s0 with
              dispatcher :=
                RangeBegin env.alive s0.dispatcher e.m_iCommandStart e.m_iCommandEnd }
          workers := [] } = some t ∧
      ¬ (t.workers.length = m_nThreads ∧
        t.workers.all (fun p => p == WorkerPhase.exited) = true) := by
  unfold ProcessCommandRange at h
  simp only at h
  have hcur : ∀ n, Combo_GetNext env.alive e.m_iCommandStart e.m_iCommandEnd = some n →
      e.m_iCommandStart ≤ n ∧ n < e.m_iCommandEnd := fun n hn =>
    ⟨(Combo_GetNext_some hn).1, (Combo_GetNext_some hn).2.1⟩
  by_cases hmt : m_nThreads > 1
  · rw [if_pos hmt] at h
    have h0 := ThreadedSealing_begin hr s0 hfresh hslots
    obtain ⟨t, hev⟩ := workerEvents_returns hr hfit m_nThreads events h0
    refine ⟨hmt, t, hev, ?_⟩
    intro hdone
    obtain ⟨H, hts⟩ := workerEvents_sealing hr m_nThreads events h0 hev
    have hs2 : RangeSealing env e s0
        { t.run with dispatcher := { t.run.dispatcher with m_arrSubProcessInfos := [] } } H :=
      RangeSealing_congr hts.sealing rfl rfl rfl rfl
    obtain ⟨s1, hs1⟩ := RangeFinished_returns hr hfit hs2 hts.iEndCommand
    unfold Run at h
    rw [hev] at h
    simp only at h
    rw [if_pos hdone, Option.some_bind, hs1] at h
    exact absurd h (by simp)
  · rw [if_neg hmt] at h
    have hbegin := RangeSealing_begin hr s0 hfresh
    obtain ⟨s2, hrun⟩ := OnProcessST_returns hr hfit (e.m_iCommandEnd - e.m_iCommandStart)
      hbegin hslots rfl hcur (fun cr hcr => absurd hcr (List.not_mem_nil _)) (by
        show e.m_iCommandEnd -
          (Combo_GetNext env.alive e.m_iCommandStart e.m_iCommandEnd).getD e.m_iCommandEnd ≤
            e.m_iCommandEnd - e.m_iCommandStart
        cases hg : Combo_GetNext env.alive e.m_iCommandStart e.m_iCommandEnd with
        | none =>
          simp only [Option.getD_none]
          omega
        | some n =>
          simp only [Option.getD_some]
          have := hcur n hg
          omega)
    obtain ⟨H, hs2, -, hend⟩ := OnProcessST_sealing hr (e.m_iCommandEnd - e.m_iCommandStart)
      hbegin hslots rfl hcur (fun cr hcr => absurd hcr (List.not_mem_nil _)) hrun
    obtain ⟨s1, hs1⟩ := RangeFinished_returns hr hfit hs2 hend
    rw [hrun, Option.some_bind, hs1] at h
    exact absurd h (by simp)
/-- C15. Let the range of an entry `e` be processed by `ProcessCommandRange`, in the
single-threaded mode or by worker threads under any schedule, from a state in
which the shader of the entry has no hash yet and no slot is left over (the
configuration is in command order and well formed, and `Combo_GetCombo` gives a
handle for the command number at the end of the range). If the call returns,
then the responses handled are those of distinct commands of the range; the
sealing loop has made one pass for each static combo of the entry, in descending
order; and every static combo that received a successful dynamic combo is one
of them and is in the accumulator with an empty list of dynamic combos and a
non-empty packed blob, which is the sequence of the emitted blocks of the
records of all its arrivals in ascending order of the dynamic id. And when the
results of the entry fit, the call does return, unless the schedule of the
worker threads ends before the threads are done. -/
theorem C15_sealed_after_range (env : Environment) (e : CfgEntryInfo) (m_nThreads : Nat)
    (events : List WorkerEvent) (s0 : RunState) (hready : EntryReady env e)
    (hfresh : s0.program.g_ShaderByteCode e.m_szName = none)
    (hslots : s0.dispatcher.m_arrSubProcessInfos = []) :
    (∀ s1, ProcessCommandRange env m_nThreads events s0 e.m_iCommandStart e.m_iCommandEnd =
        some s1 →
      ∃ responses, s1.handled = s0.handled ++ responses ∧
        (∀ cr ∈ responses, e.m_iCommandStart ≤ cr.1 ∧ cr.1 < e.m_iCommandEnd ∧
          cr.2 = env.execute cr.1) ∧
        (responses.map Prod.fst).Nodup ∧
        s1.packaged = s0.packaged ++
          (descending 0 (e.m_numStaticCombos - 1)).map (fun j => (e, j)) ∧
        ∀ j, arrivals e responses j ≠ [] →
          j < e.m_numStaticCombos ∧
          ∃ (p : CStaticCombo) (groups : List (List CByteCodeBlock)), StaticComboFromDict s1.program.g_ShaderByteCode e.m_szName j = some p ∧
            p.m_nStaticComboID = j ∧ p.m_DynamicCombos = [] ∧ p.m_abPackedCode ≠ [] ∧
            groups.flatten = stdSort CompareDynamicComboIDs (arrivals e responses j) ∧
            p.m_abPackedCode =
              (groups.map dynamicComboRecords).flatMap (emittedBlock env.compress)) ∧
    (ResultsFit env e →
      ProcessCommandRange env m_nThreads events s0 e.m_iCommandStart e.m_iCommandEnd = none →
      1 < m_nThreads ∧
      ∃ t, workerEvents env m_nThreads events
          { run :=
              { s0 with
                dispatcher :=
                  RangeBegin env.alive s0.dispatcher e.m_iCommandStart e.m_iCommandEnd }
            workers := [] } = some t ∧
        ¬ (t.workers.length = m_nThreads ∧
          t.workers.all (fun p => p == WorkerPhase.exited) = true)) := by
  refine ⟨?_, fun hfit h => ProcessCommandRange_returns hready hfit hfresh hslots h⟩
  intro s1 h
  obtain ⟨H, hs, hL, -⟩ := ProcessCommandRange_sealing hready hfresh hslots h
  have hfrom : sealedFrom e s1.dispatcher.m_iLastFinished = 0 := by
    unfold sealedFrom
    rw [hL, if_neg (Nat.lt_irrefl _)]
  refine ⟨H, hs.handled, hs.inRange, hs.nodup, by rw [hs.packaged, hfrom], ?_⟩
  intro j hne
  have hj : j < e.m_numStaticCombos := by
    obtain ⟨b, hb⟩ := List.exists_mem_of_ne_nil _ hne
    simp only [arrivals, List.mem_map, List.mem_filter, Bool.and_eq_true,
      decide_eq_true_eq] at hb
    obtain ⟨cr, ⟨hcr, -, hsc⟩, -⟩ := hb
    rw [← hsc]
    exact staticComboOf_lt (hready.wellFormed e hready.mem) (hs.inRange cr hcr).1
      (hs.inRange cr hcr).2.1
  obtain ⟨st, hst⟩ := hs.packed j (by rw [hfrom]; exact Nat.zero_le _) hne
  have hlk := hs.lookup j
  rw [hfrom, if_pos (Nat.zero_le _)] at hlk
  have hemp : ¬ ((accumulated e H j).m_DynamicCombos.isEmpty = true) := by
    simpa [accumulated] using hne
  unfold sealedCombo at hlk
  rw [if_neg hemp] at hlk
  obtain ⟨⟨groups, cur, hd, -, hh, hb, hp, -⟩, hempty⟩ := packDynamicCombos_inv hst
  have hcur : cur = [] := dynamicComboRecords_eq_nil.1 (hb ▸ hempty)
  subst hcur
  simp only [List.append_nil] at hd
  have hblob : packedBlob env.compress env.maxBlock (accumulated e H j) = st.pBuf := by
    simp [packedBlob, hst]
  obtain ⟨hlen, hpos⟩ := packDynamicCombos_total hst
  refine ⟨hj, _, groups, hlk, rfl, rfl, ?_, hd, ?_⟩
  · show packedBlob env.compress env.maxBlock (accumulated e H j) ≠ []
    rw [hblob]
    intro hnil
    have := hpos hne
    rw [hlen, hnil] at this
    exact absurd this (by simp)
  · show packedBlob env.compress env.maxBlock (accumulated e H j) = _
    rw [hblob, hp, hh]
    simp

theorem sixEnvironment_ready : EntryReady sixEnvironment sixEntry where
  ordered := by decide
  wellFormed := by decide
  mem := by decide
  nonempty := by decide
  below64 := by decide
  following := by decide
  fuel := by decide

/-- The run of `ProcessCommandRange` on `sixEntry` returns in the single-threaded
mode, and with two worker threads under `sixSchedule`. -/
theorem sixEntry_runs :
    (ProcessCommandRange sixEnvironment 1 [] (RunState.init ProgramState.init)
      0 6).isSome = true ∧
    (ProcessCommandRange sixEnvironment 2 sixSchedule (RunState.init ProgramState.init)
      0 6).isSome = true := by
  constructor <;> decide

theorem sixEnvironment_fits : ResultsFit sixEnvironment sixEntry where
  small := fun blk out h => absurd h (by simp [sixEnvironment, exampleEnvironment])
  shrinks := fun blk out h => absurd h (by simp [sixEnvironment, exampleEnvironment])
  dynamic := by decide
  total := by decide

/-- C15 at `sixEntry` with two worker threads under `sixSchedule`, the command `3`
failing. -/
theorem C15_sealed_after_range_witness :
    EntryReady sixEnvironment sixEntry ∧ ResultsFit sixEnvironment sixEntry ∧
    (∀ s1, ProcessCommandRange sixEnvironment 2 sixSchedule (RunState.init ProgramState.init)
        sixEntry.m_iCommandStart sixEntry.m_iCommandEnd = some s1 →
      ∃ responses, s1.handled = (RunState.init ProgramState.init).handled ++ responses ∧
        (∀ cr ∈ responses, sixEntry.m_iCommandStart ≤ cr.1 ∧ cr.1 < sixEntry.m_iCommandEnd ∧
          cr.2 = sixEnvironment.execute cr.1) ∧
        (responses.map Prod.fst).Nodup ∧
        s1.packaged = (RunState.init ProgramState.init).packaged ++
          (descending 0 (sixEntry.m_numStaticCombos - 1)).map (fun j => (sixEntry, j)) ∧
        ∀ j, arrivals sixEntry responses j ≠ [] →
          j < sixEntry.m_numStaticCombos ∧
          ∃ (p : CStaticCombo) (groups : List (List CByteCodeBlock)),
            StaticComboFromDict s1.program.g_ShaderByteCode sixEntry.m_szName j = some p ∧
            p.m_nStaticComboID = j ∧ p.m_DynamicCombos = [] ∧ p.m_abPackedCode ≠ [] ∧
            groups.flatten = stdSort CompareDynamicComboIDs (arrivals sixEntry responses j) ∧
            p.m_abPackedCode =
              (groups.map dynamicComboRecords).flatMap (emittedBlock sixEnvironment.compress)) ∧
    (ResultsFit sixEnvironment sixEntry →
      ProcessCommandRange sixEnvironment 2 sixSchedule (RunState.init ProgramState.init)
        sixEntry.m_iCommandStart sixEntry.m_iCommandEnd = none →
      1 < 2 ∧
      ∃ t, workerEvents sixEnvironment 2 sixSchedule
          { run :=
              { RunState.init ProgramState.init with
                dispatcher :=
                  RangeBegin sixEnvironment.alive (RunState.init ProgramState.init).dispatcher
                    sixEntry.m_iCommandStart sixEntry.m_iCommandEnd }
            workers := [] } = some t ∧
        ¬ (t.workers.length = 2 ∧
          t.workers.all (fun p => p == WorkerPhase.exited) = true)) :=
  ⟨sixEnvironment_ready, sixEnvironment_fits,
    C15_sealed_after_range sixEnvironment sixEntry 2 sixSchedule
      (RunState.init ProgramState.init) sixEnvironment_ready rfl rfl⟩
/-! ## `WriteShaderFiles` and `CompileShaders`: what they do to the globals -/

theorem vcsPath_injective (g_pShaderPath : String) {a b : String}
    (h : vcsPath g_pShaderPath a = vcsPath g_pShaderPath b) : a = b := by
  unfold vcsPath at h
  have hd := congrArg String.data h
  simp only [String.data_append] at hd
  have h1 := List.append_cancel_right hd
  have h2 := List.append_cancel_left h1
  exact String.ext h2

/-- What a call of `WriteShaderFiles` that returns does to the globals: the
had-error set is untouched, the name is in the written-set, the hashes and the
shader infos of other names are untouched, the operations on the file system
concern the directory and the path of the shader, a failed shader gets no write
and a shader that has not failed gets no removal, and the files at other paths
are as before. -/
theorem WriteShaderFiles_effect {env : Environment} {name : String} {p p1 : ProgramState}
    (h : WriteShaderFiles env name p = some p1) :
    p1.g_ShaderHadError = p.g_ShaderHadError ∧
    p1.g_ShaderWrittenToDisk = emplace p.g_ShaderWrittenToDisk name ∧
    (∀ other, other ≠ name → p1.g_ShaderByteCode other = p.g_ShaderByteCode other) ∧
    (∀ other, other ≠ name → p1.g_ShaderToShaderInfo other = p.g_ShaderToShaderInfo other) ∧
    ∃ ops, p1.fileSystem.operations = p.fileSystem.operations ++ ops ∧
      (∀ op ∈ ops,
        op = FileOperation.createDirectories (vcsDirectory env.g_pShaderPath) ∨
        op = FileOperation.permissions (vcsPath env.g_pShaderPath
          ((p.g_ShaderToShaderInfo name).getD ShaderInfo_t.zero).m_pShaderName) ∨
        (name ∈ p.g_ShaderHadError ∧ op = FileOperation.remove (vcsPath env.g_pShaderPath
          ((p.g_ShaderToShaderInfo name).getD ShaderInfo_t.zero).m_pShaderName)) ∨
        (name ∉ p.g_ShaderHadError ∧ ∃ b, op = FileOperation.write (vcsPath env.g_pShaderPath
          ((p.g_ShaderToShaderInfo name).getD ShaderInfo_t.zero).m_pShaderName) b)) ∧
      (∀ path, path ≠ vcsPath env.g_pShaderPath
          ((p.g_ShaderToShaderInfo name).getD ShaderInfo_t.zero).m_pShaderName →
        p1.fileSystem.files path = p.fileSystem.files path) ∧
      (name ∈ p.g_ShaderHadError → name ∉ p.g_ShaderWrittenToDisk →
        ((p.g_ShaderToShaderInfo name).getD ShaderInfo_t.zero).m_pShaderName ≠ "" →
        p1.fileSystem.files (vcsPath env.g_pShaderPath
          ((p.g_ShaderToShaderInfo name).getD ShaderInfo_t.zero).m_pShaderName) = none) := by
  unfold WriteShaderFiles at h
  by_cases hw : name ∈ p.g_ShaderWrittenToDisk
  · rw [if_pos hw] at h
    simp only [Option.some.injEq] at h
    subst h
    refine ⟨rfl, by simp [emplace, hw], fun _ _ => rfl, fun _ _ => rfl, [], by simp,
      fun op hop => absurd hop (List.not_mem_nil _), fun _ _ => rfl, fun _ hnw => absurd hw hnw⟩
  · rw [if_neg hw] at h
    simp only at h
    have hwr : p.g_ShaderWrittenToDisk ++ [name] = emplace p.g_ShaderWrittenToDisk name := by
      simp [emplace, hw]
    generalize hsi : (p.g_ShaderToShaderInfo name).getD ShaderInfo_t.zero = si at h ⊢
    obtain ⟨h1, h2, ops, h3, h4⟩ := GetVCSFilenames_spec env.g_pShaderPath si p.fileSystem
    by_cases hname : si.m_pShaderName = ""
    · rw [if_pos hname] at h
      simp only [Option.some.injEq] at h
      subst h
      exact ⟨rfl, hwr, fun o ho => Function.update_noteq ho _ _,
        fun o ho => Function.update_noteq ho _ _, [], by simp,
        fun op hop => absurd hop (List.not_mem_nil _), fun _ _ => rfl,
        fun _ _ hne => absurd hname hne⟩
    · rw [if_neg hname] at h
      by_cases hfail : name ∈ p.g_ShaderHadError
      · simp only [hfail, decide_True, if_true, Option.some.injEq] at h
        subst h
        refine ⟨rfl, hwr, fun o ho => Function.update_noteq ho _ _,
          fun o ho => Function.update_noteq ho _ _,
          ops ++ [FileOperation.remove (vcsPath env.g_pShaderPath si.m_pShaderName)], ?_, ?_, ?_,
          ?_⟩
        · simp only [FileSystem.remove, h1, h3, List.append_assoc]
        · intro op hop
          rcases List.mem_append.1 hop with hop | hop
          · rcases h4 op hop with h5 | h5
            · exact Or.inl h5
            · exact Or.inr (Or.inl h5)
          · rw [List.mem_singleton] at hop
            exact Or.inr (Or.inr (Or.inl ⟨hfail, hop⟩))
        · intro path hpath
          simp only [FileSystem.remove, h1, h2]
          exact Function.update_noteq hpath _ _
        · intro _ _ _
          simp only [FileSystem.remove, h1, Function.update_same]
      · simp only [hfail, decide_False, Bool.false_eq_true, if_false] at h
        cases hg : p.g_ShaderByteCode name with
        | none =>
          rw [hg] at h
          simp only [Option.some.injEq] at h
          subst h
          refine ⟨rfl, hwr, fun o ho => Function.update_noteq ho _ _,
            fun o ho => Function.update_noteq ho _ _, ops, h3, ?_, ?_,
            fun hf => absurd hf hfail⟩
          · intro op hop
            rcases h4 op hop with h5 | h5
            · exact Or.inl h5
            · exact Or.inr (Or.inl h5)
          · intro path _
            simp only [h2]
        | some hash =>
          rw [hg] at h
          simp only at h
          cases hv : writeVcsFile env.crc32 env.version si hash with
          | none => rw [hv] at h; exact absurd h (by simp)
          | some out =>
            rw [hv] at h
            simp only [Option.some.injEq] at h
            subst h
            refine ⟨rfl, hwr, fun o ho => Function.update_noteq ho _ _,
              fun o ho => Function.update_noteq ho _ _,
              ops ++ [FileOperation.write (vcsPath env.g_pShaderPath si.m_pShaderName)
                out.ShaderFile], ?_, ?_, ?_, fun hf => absurd hf hfail⟩
            · simp only [FileSystem.writeFile, h1, h3, List.append_assoc]
            · intro op hop
              rcases List.mem_append.1 hop with hop | hop
              · rcases h4 op hop with h5 | h5
                · exact Or.inl h5
                · exact Or.inr (Or.inl h5)
              · rw [List.mem_singleton] at hop
                exact Or.inr (Or.inr (Or.inr ⟨hfail, _, hop⟩))
            · intro path hpath
              simp only [FileSystem.writeFile, h1, h2]
              exact Function.update_noteq hpath _ _
/-- One pass of the loop of `CompileShaders`. -/
theorem CompileShaders_cons {env : Environment} {threads : Nat} {e : CfgEntryInfo}
    {rest : List CfgEntryInfo} {schedules : List (List WorkerEvent)} {s s1 : RunState}
    (h : CompileShaders env threads (e :: rest) schedules s = some s1) :
    (e.m_szName = "" ∧ s1 = s) ∨
    (e.m_szName ≠ "" ∧
      ∃ s2, ProcessCommandRange env threads (schedules.head?.getD []) (registerShaderInfo env e s)
          e.m_iCommandStart e.m_iCommandEnd = some s2 ∧
        ((s2.m_bStopped = true ∧ s1 = s2) ∨
          (s2.m_bStopped = false ∧
            ∃ p, WriteShaderFiles env e.m_szName s2.program = some p ∧
              CompileShaders env threads rest schedules.tail { s2 with program := p } =
                some s1))) := by
  unfold CompileShaders at h
  by_cases hname : e.m_szName = ""
  · rw [if_pos hname] at h
    simp only [Option.some.injEq] at h
    exact Or.inl ⟨hname, h.symm⟩
  · rw [if_neg hname] at h
    simp only at h
    refine Or.inr ⟨hname, ?_⟩
    cases hp : ProcessCommandRange env threads (schedules.head?.getD [])
        (registerShaderInfo env e s) e.m_iCommandStart e.m_iCommandEnd with
    | none =>
      unfold registerShaderInfo at hp
      rw [hp] at h
      exact absurd h (by simp)
    | some s2 =>
      unfold registerShaderInfo at hp
      rw [hp] at h
      simp only at h
      refine ⟨s2, rfl, ?_⟩
      by_cases hst : s2.m_bStopped = true
      · rw [if_pos hst] at h
        simp only [Option.some.injEq] at h
        exact Or.inl ⟨hst, h.symm⟩
      · rw [if_neg hst] at h
        cases hw : WriteShaderFiles env e.m_szName s2.program with
        | none => rw [hw] at h; exact absurd h (by simp)
        | some p =>
          rw [hw] at h
          exact Or.inr ⟨by simpa using hst, p, rfl, h⟩

theorem registerShaderInfo_frame (env : Environment) (e : CfgEntryInfo) (s : RunState) :
    (registerShaderInfo env e s).handled = s.handled ∧
    (registerShaderInfo env e s).m_bStopped = s.m_bStopped ∧
    (registerShaderInfo env e s).dispatcher = s.dispatcher ∧
    (registerShaderInfo env e s).program.g_ShaderHadError = s.program.g_ShaderHadError ∧
    (registerShaderInfo env e s).program.g_ShaderWrittenToDisk =
      s.program.g_ShaderWrittenToDisk ∧
    (registerShaderInfo env e s).program.fileSystem = s.program.fileSystem ∧
    (registerShaderInfo env e s).program.g_ShaderByteCode = s.program.g_ShaderByteCode :=
  ⟨rfl, rfl, rfl, rfl, rfl, rfl, rfl⟩

/-- The responses that a run of `CompileShaders` handles are responses of the
compiler for commands of the entries, and the had-error set gets the names of
the failed ones. -/
theorem CompileShaders_handled {env : Environment} {threads : Nat}
    (entries : List CfgEntryInfo) :
    ∀ {schedules : List (List WorkerEvent)} {s s1 : RunState},
      CompileShaders env threads entries schedules s = some s1 →
      ∃ H, s1.handled = s.handled ++ H ∧
        (∀ cr ∈ H, cr.2 = env.execute cr.1 ∧ (Combo_GetCombo env.cfg cr.1).isSome = true ∧
          ∃ e ∈ entries, e.m_iCommandStart ≤ cr.1 ∧ cr.1 < e.m_iCommandEnd) ∧
        s1.program.g_ShaderHadError =
          (failedShaders env H).foldl emplace s.program.g_ShaderHadError := by
  induction entries with
  | nil =>
    intro schedules s s1 h
    simp only [CompileShaders, Option.some.injEq] at h
    subst h
    exact ⟨[], by simp, fun cr hcr => absurd hcr (List.not_mem_nil _), rfl⟩
  | cons e rest ih =>
    intro schedules s s1 h
    rcases CompileShaders_cons h with ⟨-, hs⟩ | ⟨-, s2, hp, hcase⟩
    · subst hs
      exact ⟨[], by simp, fun cr hcr => absurd hcr (List.not_mem_nil _), rfl⟩
    · obtain ⟨H, he, -⟩ := ProcessCommandRange_effect hp
      have hin : ∀ cr ∈ H, cr.2 = env.execute cr.1 ∧
          (Combo_GetCombo env.cfg cr.1).isSome = true ∧
          ∃ e1 ∈ e :: rest, e1.m_iCommandStart ≤ cr.1 ∧ cr.1 < e1.m_iCommandEnd := by
        intro cr hcr
        obtain ⟨h1, h2, h3, h4⟩ := he.inRange cr hcr
        exact ⟨h3, h4, e, List.mem_cons_self _ _, h1, h2⟩
      rcases hcase with ⟨-, hs⟩ | ⟨-, p, hw, hrest⟩
      · subst hs
        exact ⟨H, he.handled, hin, he.hadError⟩
      · obtain ⟨H2, hh2, hin2, herr2⟩ := ih hrest
        obtain ⟨hwe, -⟩ := WriteShaderFiles_effect hw
        refine ⟨H ++ H2, ?_, ?_, ?_⟩
        · rw [hh2]
          show s2.handled ++ H2 = _
          rw [he.handled, List.append_assoc]
          rfl
        · intro cr hcr
          rcases List.mem_append.1 hcr with hcr | hcr
          · exact hin cr hcr
          · obtain ⟨h1, h2, e1, he1, h3⟩ := hin2 cr hcr
            exact ⟨h1, h2, e1, List.mem_cons_of_mem _ he1, h3⟩
        · rw [herr2, failedShaders_append, List.foldl_append]
          show List.foldl emplace p.g_ShaderHadError _ = _
          rw [hwe, he.hadError]
          rfl
/-! ## The return value of `main` -/

theorem foldl_emplace_spec (l : List String) :
    ∀ acc : List String, acc.Nodup →
      (l.foldl emplace acc).Nodup ∧ ∀ x, x ∈ l.foldl emplace acc ↔ x ∈ acc ∨ x ∈ l := by
  induction l with
  | nil => intro acc h; exact ⟨h, fun x => by simp⟩
  | cons a t ih =>
    intro acc h
    have hn : (emplace acc a).Nodup := by
      unfold emplace
      split
      · exact h
      · rename_i hna
        rw [List.nodup_append]
        exact ⟨h, List.nodup_singleton _, fun x hx hy => hna (List.mem_singleton.1 hy ▸ hx)⟩
    have hm : ∀ x, x ∈ emplace acc a ↔ x ∈ acc ∨ x = a := by
      intro x
      unfold emplace
      split
      · rename_i ha
        constructor
        · exact Or.inl
        · rintro (hx | hx)
          · exact hx
          · exact hx ▸ ha
      · simp
    obtain ⟨h1, h2⟩ := ih (emplace acc a) hn
    refine ⟨h1, fun x => ?_⟩
    simp only [List.foldl_cons]
    rw [h2 x, hm x, List.mem_cons, or_assoc]

/-- The size of a set that was filled by `emplace` is the number of distinct
names that were put in. -/
theorem foldl_emplace_length (l : List String) :
    (l.foldl emplace []).length = l.dedup.length := by
  obtain ⟨h1, h2⟩ := foldl_emplace_spec l [] List.nodup_nil
  rw [← List.toFinset_card_of_nodup h1, ← List.card_toFinset]
  congr 1
  ext x
  simp only [List.mem_toFinset, h2 x, List.not_mem_nil, false_or]

theorem narrowCastI32_of_lt {x : Nat} (h : x < 2 ^ 31) : narrowCastI32 x = (x : Int) := by
  unfold narrowCastI32
  have hx : x % 2 ^ 32 = x := Nat.mod_eq_of_lt (by omega)
  rw [hx, if_pos h]

/-- C20. Let `CompileShaders` run from a state with an empty had-error set and
return, and let `handled` be the responses that `HandleCommandResponse` has
handled, in order. If fewer than `2^31` distinct shader names have a response
with `Succeeded() == false` among them, then the value that `main` returns is
the number of these names, and it is `0` exactly if no response failed. -/
theorem C20_return_value_counts_failed_shaders (env : Environment) (threads : Nat)
    (entries : List CfgEntryInfo) (schedules : List (List WorkerEvent))
    (program : ProgramState) (s1 : RunState) (hstart : program.g_ShaderHadError = [])
    (hrun : CompileShaders env threads entries schedules (RunState.init program) = some s1)
    (hsmall : (failedShaders env s1.handled).dedup.length < 2 ^ 31) :
    mainReturnValue s1 = ((failedShaders env s1.handled).dedup.length : Int) ∧
    (mainReturnValue s1 = 0 ↔ ∀ cr ∈ s1.handled, cr.2.Succeeded = true) := by
  obtain ⟨H, hh, hin, herr⟩ := CompileShaders_handled entries hrun
  have hH : s1.handled = H := by
    rw [hh]
    rfl
  have herr2 : s1.program.g_ShaderHadError = (failedShaders env s1.handled).foldl emplace [] := by
    rw [herr, hH]
    show List.foldl emplace program.g_ShaderHadError _ = _
    rw [hstart]
  have hval : mainReturnValue s1 = ((failedShaders env s1.handled).dedup.length : Int) := by
    unfold mainReturnValue
    rw [herr2, foldl_emplace_length, narrowCastI32_of_lt hsmall]
  refine ⟨hval, ?_⟩
  rw [hval]
  constructor
  · intro h0 cr hcr
    have hlen : (failedShaders env s1.handled).dedup.length = 0 := by exact_mod_cast h0
    have hnil : failedShaders env s1.handled = [] := by
      have := List.length_eq_zero.1 hlen
      exact List.dedup_eq_nil _ |>.1 this
    by_contra hfail
    obtain ⟨-, hsome, -⟩ := hin cr (hH ▸ hcr)
    obtain ⟨r, hr⟩ := Option.isSome_iff_exists.1 hsome
    have hmem : r.1.m_szName ∈ failedShaders env s1.handled := by
      unfold failedShaders
      rw [List.mem_filterMap]
      exact ⟨cr, hcr, by simp [hfail, hr]⟩
    rw [hnil] at hmem
    exact absurd hmem (List.not_mem_nil _)
  · intro hall
    have hnil : failedShaders env s1.handled = [] := by
      unfold failedShaders
      rw [List.filterMap_eq_nil_iff]
      intro cr hcr
      simp [hall cr hcr]
    rw [hnil]
    rfl

theorem exampleRun_isSome (g_bFastFail : Bool) : (exampleRun g_bFastFail).isSome = true := by
  cases g_bFastFail <;> decide

/-- C20 at the concrete run without fast-fail: the command `2` fails, one shader
has failed, `main` returns `1`. -/
theorem C20_return_value_counts_failed_shaders_witness :
    ProgramState.init.g_ShaderHadError = [] ∧
    exampleRun false = some ((exampleRun false).get (exampleRun_isSome false)) ∧
    mainReturnValue ((exampleRun false).get (exampleRun_isSome false)) = 1 ∧
    mainReturnValue ((exampleRun false).get (exampleRun_isSome false)) =
      ((failedShaders (runEnvironment false)
        ((exampleRun false).get (exampleRun_isSome false)).handled).dedup.length : Int) ∧
    (mainReturnValue ((exampleRun false).get (exampleRun_isSome false)) = 0 ↔
      ∀ cr ∈ ((exampleRun false).get (exampleRun_isSome false)).handled,
        cr.2.Succeeded = true) :=
  ⟨rfl, (Option.some_get _).symm, by decide,
    C20_return_value_counts_failed_shaders (runEnvironment false) 1
      [alphaEntry, betaEntry, terminatorEntry] [] ProgramState.init
      ((exampleRun false).get (exampleRun_isSome false)) rfl (Option.some_get _).symm
      (by decide)⟩

/-! ## A run in which `2^32` shaders fail -/

theorem digitChar_injective : ∀ l1 l2 : List Nat, (∀ d ∈ l1, d < 10) → (∀ d ∈ l2, d < 10) →
    l1.map Nat.digitChar = l2.map Nat.digitChar → l1 = l2 := by
  intro l1
  induction l1 with
  | nil =>
    intro l2 _ _ h
    cases l2 with
    | nil => rfl
    | cons b t => simp at h
  | cons a t ih =>
    intro l2 h1 h2 h
    cases l2 with
    | nil => simp at h
    | cons b u =>
      simp only [List.map_cons, List.cons.injEq] at h
      have ha : a < 10 := h1 a (List.mem_cons_self _ _)
      have hb : b < 10 := h2 b (List.mem_cons_self _ _)
      have hab : a = b := by
        have h0 := h.1
        interval_cases a <;> interval_cases b <;> first | rfl | exact absurd h0 (by decide)
      rw [hab, ih u (fun d hd => h1 d (List.mem_cons_of_mem _ hd))
        (fun d hd => h2 d (List.mem_cons_of_mem _ hd)) h.2]

theorem manyName_injective {i j : Nat} (h : manyName i = manyName j) : i = j := by
  unfold manyName at h
  have hd := congrArg String.data h
  simp only [String.data_append] at hd
  have h1 := List.append_cancel_left hd
  exact Nat.digits.injective 10 (digitChar_injective _ _
    (fun d hd => Nat.digits_lt_base (by decide) hd)
    (fun d hd => Nat.digits_lt_base (by decide) hd) h1)

theorem manyName_ne_empty (i : Nat) : manyName i ≠ "" := by
  intro h
  have hd := congrArg String.length h
  unfold manyName at hd
  rw [String.length_append] at hd
  have : "shader".length = 6 := by decide
  have h0 : "".length = 0 := by decide
  omega

theorem manyEntries_ordered (n : Nat) :
    (manyEntries n).Pairwise (fun a b => a.m_iCommandEnd ≤ b.m_iCommandStart) := by
  unfold manyEntries
  rw [List.pairwise_append]
  refine ⟨?_, List.pairwise_singleton _ _, ?_⟩
  · rw [List.pairwise_map]
    exact (List.pairwise_lt_range n).imp (fun {a b} hab => Nat.succ_le_of_lt hab)
  · intro a ha b hb
    obtain ⟨i, hi, rfl⟩ := List.mem_map.1 ha
    rw [List.mem_singleton] at hb
    subst hb
    exact Nat.succ_le_of_lt (List.mem_range.1 hi)

theorem manyEntry_mem {n k : Nat} (hk : k < n) : manyEntry k ∈ manyEntries n :=
  List.mem_append_left _ (List.mem_map.2 ⟨k, List.mem_range.2 hk, rfl⟩)

theorem manyEnvironment_ready {n k : Nat} (hn : n < 2 ^ 64 - 1) (hk : k < n) :
    EntryReady (manyEnvironment n) (manyEntry k) where
  ordered := manyEntries_ordered n
  wellFormed := by
    intro x hx
    rcases List.mem_append.1 hx with hx | hx
    · obtain ⟨i, -, rfl⟩ := List.mem_map.1 hx
      exact ⟨Nat.one_pos, rfl, rfl⟩
    · rw [List.mem_singleton] at hx
      subst hx
      exact ⟨Nat.one_pos, rfl, rfl⟩
  mem := manyEntry_mem hk
  nonempty := Nat.one_pos
  below64 := by
    show k + 1 < 2 ^ 64
    omega
  following := by
    show (Combo_GetCombo (manyEntries n) (k + 1)).isSome = true
    by_cases hlast : k + 1 < n
    · have hc := @Combo_GetCombo_of_mem _ (manyEntries_ordered n) _ (manyEntry_mem hlast)
        (k + 1) (Nat.le_refl _) (Nat.lt_succ_self _)
      rw [hc]
      rfl
    · have hkn : k + 1 = n := by omega
      have hmem : manyTerminator n ∈ manyEntries n :=
        List.mem_append_right _ (List.mem_singleton.2 rfl)
      have hc := @Combo_GetCombo_of_mem _ (manyEntries_ordered n) _ hmem
        (k + 1) (by show n ≤ k + 1; omega) (by show k + 1 < n + 1; omega)
      rw [hc]
      rfl
  fuel := by
    show 1 ≤ 8
    decide

theorem manyEnvironment_fits (n k : Nat) : ResultsFit (manyEnvironment n) (manyEntry k) where
  small := fun blk out h => absurd h (by simp [manyEnvironment, exampleEnvironment])
  shrinks := fun blk out h => absurd h (by simp [manyEnvironment, exampleEnvironment])
  dynamic := by
    show 1 ≤ 2 ^ 32
    decide
  total := by
    show ((List.range' k 1).map (fun _ => 0 + 12)).sum < 2 ^ 31
    simp

theorem foldl_emplace_same {x : String} {acc : List String} (hx : x ∉ acc) :
    ∀ l : List String, l ≠ [] → (∀ y ∈ l, y = x) → l.foldl emplace acc = acc ++ [x] := by
  have hin : ∀ l : List String, (∀ y ∈ l, y = x) → l.foldl emplace (acc ++ [x]) = acc ++ [x] := by
    intro l
    induction l with
    | nil => intro _; rfl
    | cons a t ih =>
      intro h
      rw [List.foldl_cons, h a (List.mem_cons_self _ _)]
      have : emplace (acc ++ [x]) x = acc ++ [x] := by
        unfold emplace
        exact if_pos (List.mem_append_right _ (List.mem_singleton.2 rfl))
      rw [this]
      exact ih (fun y hy => h y (List.mem_cons_of_mem _ hy))
  intro l hl h
  cases l with
  | nil => exact absurd rfl hl
  | cons a t =>
    rw [List.foldl_cons, h a (List.mem_cons_self _ _)]
    have : emplace acc x = acc ++ [x] := by
      unfold emplace
      exact if_neg hx
    rw [this]
    exact hin t (fun y hy => h y (List.mem_cons_of_mem _ hy))

theorem WriteShaderFiles_failed_returns (env : Environment) {name : String} {p : ProgramState}
    (h : name ∈ p.g_ShaderHadError) : ∃ p1, WriteShaderFiles env name p = some p1 := by
  unfold WriteShaderFiles
  by_cases hw : name ∈ p.g_ShaderWrittenToDisk
  · exact ⟨_, if_pos hw⟩
  · rw [if_neg hw]
    simp only [h, decide_True, if_true]
    by_cases he : ((p.g_ShaderToShaderInfo name).getD ShaderInfo_t.zero).m_pShaderName = ""
    · exact ⟨_, if_pos he⟩
    · exact ⟨_, if_neg he⟩

/-- One pass of the loop of `CompileShaders` that goes on to the next entry. -/
theorem CompileShaders_step {env : Environment} {threads : Nat} {e : CfgEntryInfo}
    {rest : List CfgEntryInfo} {schedules : List (List WorkerEvent)} {s s2 : RunState}
    {p : ProgramState} (hname : e.m_szName ≠ "")
    (hp : ProcessCommandRange env threads (schedules.head?.getD []) (registerShaderInfo env e s)
      e.m_iCommandStart e.m_iCommandEnd = some s2)
    (hst : s2.m_bStopped = false) (hw : WriteShaderFiles env e.m_szName s2.program = some p) :
    CompileShaders env threads (e :: rest) schedules s =
      CompileShaders env threads rest schedules.tail { s2 with program := p } := by
  conv_lhs => unfold CompileShaders
  rw [if_neg hname]
  unfold registerShaderInfo at hp
  simp only [hp, hst, hw]
  rfl

/-- The single-threaded run of `CompileShaders` on the large configuration, from
the entry `k` on: it returns, and every shader is in the had-error set. -/
theorem CompileShaders_manyEntries {n : Nat} (hn : n < 2 ^ 64 - 1) :
    ∀ (m k : Nat) (s : RunState), k + m = n →
      s.dispatcher.m_arrSubProcessInfos = [] → s.m_bStopped = false → s.m_bBreak = false →
      (∀ j, k ≤ j → s.program.g_ShaderByteCode (manyName j) = none) →
      s.program.g_ShaderHadError = (List.range k).map manyName →
      ∃ s1, CompileShaders (manyEnvironment n) 1
          ((List.range' k m).map manyEntry ++ [manyTerminator n]) [] s = some s1 ∧
        s1.program.g_ShaderHadError = (List.range n).map manyName := by
  intro m
  induction m with
  | zero =>
    intro k s hk _ _ _ _ herr
    have hkn : k = n := by omega
    refine ⟨s, ?_, by rw [herr, hkn]⟩
    simp [CompileShaders, manyTerminator]
  | succ m ih =>
    intro k s hk hslots hst hbr hfresh herr
    have hkn : k < n := by omega
    have hready := manyEnvironment_ready hn hkn
    have hfit := manyEnvironment_fits n k
    have hff : (manyEnvironment n).g_bFastFail = false := rfl
    have hfresh0 : (registerShaderInfo (manyEnvironment n) (manyEntry k) s).program.g_ShaderByteCode
        (manyEntry k).m_szName = none := hfresh k (Nat.le_refl _)
    have hslots0 : (registerShaderInfo (manyEnvironment n) (manyEntry k)
        s).dispatcher.m_arrSubProcessInfos = [] := hslots
    cases hp : ProcessCommandRange (manyEnvironment n) 1
        ((([] : List (List WorkerEvent)).head?).getD [])
        (registerShaderInfo (manyEnvironment n) (manyEntry k) s)
        (manyEntry k).m_iCommandStart (manyEntry k).m_iCommandEnd with
    | none =>
      exact absurd (ProcessCommandRange_returns hready hfit hfresh0 hslots0 hp).1 (by decide)
    | some s2 =>
      obtain ⟨H, he, hstop, hbreak, hlive⟩ := ProcessCommandRange_effect hp
      obtain ⟨H2, hs, -, hslots2⟩ := ProcessCommandRange_sealing hready hfresh0 hslots0 hp
      have hst2 : s2.m_bStopped = false := by
        rw [hstop, hff]
        show (s.m_bStopped || (false && _)) = false
        rw [hst]
        rfl
      have hbr2 : s2.m_bBreak = false := by
        cases hb : s2.m_bBreak with
        | false => rfl
        | true =>
          rcases hbreak hb with h1 | h1
          · have h2 : s.m_bBreak = true := h1
            rw [hbr] at h2
            exact absurd h2 (by decide)
          · rw [hff] at h1
            exact absurd h1.1 (by decide)
      have hc : Combo_GetCombo (manyEnvironment n).cfg k = some (manyEntry k, 0) := by
        have hc0 := @Combo_GetCombo_of_mem _ (manyEntries_ordered n) _ (manyEntry_mem hkn) k
          (Nat.le_refl _) (Nat.lt_succ_self _)
        have hz : (manyEntry k).m_numCombos - 1 - (k - (manyEntry k).m_iCommandStart) = 0 :=
          Nat.zero_sub _
        rw [hz] at hc0
        exact hc0
      have hmem : (k, (manyEnvironment n).execute k) ∈ H :=
        hlive hbr2 k (Nat.le_refl _) (Nat.lt_succ_self _) rfl
      have hall : ∀ y ∈ failedShaders (manyEnvironment n) H, y = manyName k := by
        intro y hy
        unfold failedShaders at hy
        obtain ⟨cr, hcr, hy⟩ := List.mem_filterMap.1 hy
        obtain ⟨h1, h2, h3, -⟩ := he.inRange cr hcr
        have h1k : k ≤ cr.1 := h1
        have h2k : cr.1 < k + 1 := h2
        have hk1 : cr.1 = k := by omega
        rw [h3, hk1, hc] at hy
        have hy2 : some (manyName k) = some y := hy
        exact (Option.some.inj hy2).symm
      have hne : failedShaders (manyEnvironment n) H ≠ [] := by
        have : manyName k ∈ failedShaders (manyEnvironment n) H := by
          unfold failedShaders
          refine List.mem_filterMap.2 ⟨_, hmem, ?_⟩
          show (Combo_GetCombo (manyEnvironment n).cfg k).map _ = _
          rw [hc]
          rfl
        exact List.ne_nil_of_mem this
      have hnot : manyName k ∉ (List.range k).map manyName := by
        intro hin
        obtain ⟨j, hj, hjk⟩ := List.mem_map.1 hin
        have := manyName_injective hjk
        have := List.mem_range.1 hj
        omega
      have herr2 : s2.program.g_ShaderHadError = (List.range (k + 1)).map manyName := by
        rw [he.hadError]
        show List.foldl emplace s.program.g_ShaderHadError _ = _
        rw [herr, foldl_emplace_same hnot _ hne hall, List.range_succ, List.map_append]
        rfl
      have hfailed : (manyEntry k).m_szName ∈ s2.program.g_ShaderHadError := by
        rw [herr2]
        exact List.mem_map.2 ⟨k, List.mem_range.2 (Nat.lt_succ_self _), rfl⟩
      obtain ⟨p, hw⟩ := WriteShaderFiles_failed_returns (manyEnvironment n) hfailed
      obtain ⟨hwerr, -, hwother, -⟩ := WriteShaderFiles_effect hw
      have hnek : ∀ j, k + 1 ≤ j → manyName j ≠ (manyEntry k).m_szName := by
        intro j hj hjk
        have := manyName_injective hjk
        omega
      rw [List.range'_succ, List.map_cons, List.cons_append,
        CompileShaders_step (manyName_ne_empty k) hp hst2 hw]
      refine ih (k + 1) { s2 with program := p } (by omega) hslots2 hst2 hbr2 ?_ ?_
      · intro j hj
        show p.g_ShaderByteCode (manyName j) = none
        rw [hwother _ (hnek j hj), hs.others _ (hnek j hj)]
        exact hfresh j (by omega)
      · show p.g_ShaderHadError = _
        rw [hwerr, herr2]

/-- The run on the large configuration from the start state: it returns, the
had-error set has `n` names, as many as there are distinct names of failed
shaders among the handled responses, and a response has failed. -/
theorem manyEntries_run {n : Nat} (hn : n < 2 ^ 64 - 1) (hpos : 0 < n) :
    ∃ s1, CompileShaders (manyEnvironment n) 1 (manyEntries n) []
        (RunState.init ProgramState.init) = some s1 ∧
      s1.program.g_ShaderHadError.length = n ∧
      (failedShaders (manyEnvironment n) s1.handled).dedup.length = n ∧
      ∃ cr ∈ s1.handled, cr.2.Succeeded = false := by
  obtain ⟨s1, hrun, herr⟩ := CompileShaders_manyEntries hn n 0 (RunState.init ProgramState.init)
    (Nat.zero_add n) rfl rfl rfl (fun _ _ => rfl) rfl
  rw [← List.range_eq_range'] at hrun
  have hlen : s1.program.g_ShaderHadError.length = n := by
    rw [herr, List.length_map, List.length_range]
  obtain ⟨H, hh, -, herr2⟩ := CompileShaders_handled _ hrun
  have hH : s1.handled = H := by
    rw [hh]
    rfl
  have herr3 : s1.program.g_ShaderHadError =
      (failedShaders (manyEnvironment n) s1.handled).foldl emplace [] := by
    rw [herr2, hH]
    rfl
  have hdedup : (failedShaders (manyEnvironment n) s1.handled).dedup.length = n := by
    rw [← foldl_emplace_length, ← herr3, hlen]
  refine ⟨s1, hrun, hlen, hdedup, ?_⟩
  have hne : failedShaders (manyEnvironment n) s1.handled ≠ [] := by
    intro hnil
    rw [hnil] at hdedup
    have : (0 : Nat) = n := hdedup
    omega
  obtain ⟨y, hy⟩ := List.exists_mem_of_ne_nil _ hne
  unfold failedShaders at hy
  obtain ⟨cr, hcr, hy2⟩ := List.mem_filterMap.1 hy
  refine ⟨cr, hcr, ?_⟩
  cases hsucc : cr.2.Succeeded with
  | false => rfl
  | true =>
    rw [hsucc] at hy2
    exact absurd hy2 (by simp)

/-- C20 as stated fails: in the single-threaded run on the configuration of
`2^32` shaders of one command each, every command fails, so `2^32` distinct
shader names have a failed response, and `main` returns `0`: the size `2^32` of
the had-error set does not fit the `int` that `gsl::narrow_cast` cuts it to. -/
theorem C20_return_value_wraps :
    ∃ s1, CompileShaders (manyEnvironment (2 ^ 32)) 1 (manyEntries (2 ^ 32)) []
        (RunState.init ProgramState.init) = some s1 ∧
      (failedShaders (manyEnvironment (2 ^ 32)) s1.handled).dedup.length = 2 ^ 32 ∧
      (∃ cr ∈ s1.handled, cr.2.Succeeded = false) ∧
      mainReturnValue s1 = 0 := by
  obtain ⟨s1, hrun, hlen, hdedup, hfail⟩ :=
    @manyEntries_run (2 ^ 32) (by norm_num) (by norm_num)
  refine ⟨s1, hrun, hdedup, hfail, ?_⟩
  unfold mainReturnValue
  rw [hlen]
  norm_num [narrowCastI32]

/-! ## The files of failed shaders after `CompileShaders` -/

theorem mem_emplace {s : List String} {a x : String} : x ∈ emplace s a ↔ x ∈ s ∨ x = a := by
  unfold emplace
  by_cases ha : a ∈ s
  · rw [if_pos ha]
    constructor
    · exact Or.inl
    · rintro (hx | hx)
      · exact hx
      · exact hx ▸ ha
  · rw [if_neg ha]
    simp

theorem mem_foldl_emplace (l : List String) :
    ∀ (acc : List String) (x : String), x ∈ l.foldl emplace acc ↔ x ∈ acc ∨ x ∈ l := by
  induction l with
  | nil => intro acc x; simp
  | cons a t ih =>
    intro acc x
    rw [List.foldl_cons, ih, mem_emplace, List.mem_cons, or_assoc]

/-- The failed names among the responses of the range of an entry of an ordered
configuration: only the name of the entry. -/
theorem failedShaders_range {env : Environment}
    (hord : env.cfg.Pairwise (fun a b => a.m_iCommandEnd ≤ b.m_iCommandStart))
    {e : CfgEntryInfo} (he : e ∈ env.cfg) {H : List (Nat × IResponse)}
    (hin : ∀ cr ∈ H, e.m_iCommandStart ≤ cr.1 ∧ cr.1 < e.m_iCommandEnd) :
    ∀ n ∈ failedShaders env H, n = e.m_szName ∧ e.m_iCommandStart < e.m_iCommandEnd := by
  intro n hn
  unfold failedShaders at hn
  obtain ⟨cr, hcr, h⟩ := List.mem_filterMap.1 hn
  obtain ⟨h1, h2⟩ := hin cr hcr
  rw [Combo_GetCombo_of_mem hord he h1 h2] at h
  cases hs : cr.2.Succeeded with
  | true =>
    rw [hs] at h
    exact absurd h (by simp)
  | false =>
    rw [hs] at h
    have h3 : some e.m_szName = some n := h
    exact ⟨(Option.some.inj h3).symm, Nat.lt_of_le_of_lt h1 h2⟩

theorem failedShaders_of_succeeded {env : Environment} {H : List (Nat × IResponse)}
    (h : H.any (fun cr => !cr.2.Succeeded) = false) : failedShaders env H = [] := by
  unfold failedShaders
  rw [List.filterMap_eq_nil_iff]
  intro cr hcr
  have h1 := List.any_eq_false.1 h cr hcr
  have h2 : cr.2.Succeeded = true := by simpa using h1
  rw [if_pos h2]

theorem failedShaders_failed {env : Environment} {H : List (Nat × IResponse)} {n : String}
    (h : n ∈ failedShaders env H) : ∃ cr ∈ H, cr.2.Succeeded = false := by
  unfold failedShaders at h
  obtain ⟨cr, hcr, h2⟩ := List.mem_filterMap.1 h
  refine ⟨cr, hcr, ?_⟩
  cases hs : cr.2.Succeeded with
  | false => rfl
  | true =>
    rw [hs] at h2
    exact absurd h2 (by simp)

theorem Shader_ParseShaderInfoFromCompileCommands_name (env : Environment) (e : CfgEntryInfo) :
    (Shader_ParseShaderInfoFromCompileCommands env e ShaderInfo_t.zero).m_pShaderName =
        e.m_szName ∨
      (Shader_ParseShaderInfoFromCompileCommands env e ShaderInfo_t.zero).m_pShaderName = "" := by
  unfold Shader_ParseShaderInfoFromCompileCommands
  cases Combo_GetCombo env.cfg e.m_iCommandStart with
  | none => exact Or.inr rfl
  | some r => exact Or.inl rfl

theorem Shader_ParseShaderInfoFromCompileCommands_of_mem {env : Environment}
    (hord : env.cfg.Pairwise (fun a b => a.m_iCommandEnd ≤ b.m_iCommandStart))
    {e : CfgEntryInfo} (he : e ∈ env.cfg) (hne : e.m_iCommandStart < e.m_iCommandEnd) :
    (Shader_ParseShaderInfoFromCompileCommands env e ShaderInfo_t.zero).m_pShaderName =
      e.m_szName := by
  unfold Shader_ParseShaderInfoFromCompileCommands
  rw [Combo_GetCombo_of_mem hord he (Nat.le_refl _) hne]

/-- A call of `WriteShaderFiles` for a shader whose info has no name leaves the
file system as it is. -/
theorem WriteShaderFiles_unnamed {env : Environment} {name : String} {p p1 : ProgramState}
    (h : WriteShaderFiles env name p = some p1)
    (hempty : ((p.g_ShaderToShaderInfo name).getD ShaderInfo_t.zero).m_pShaderName = "") :
    p1.fileSystem = p.fileSystem := by
  unfold WriteShaderFiles at h
  by_cases hw : name ∈ p.g_ShaderWrittenToDisk
  · rw [if_pos hw] at h
    simp only [Option.some.injEq] at h
    rw [← h]
  · rw [if_neg hw] at h
    simp only [hempty, if_true, Option.some.injEq] at h
    rw [← h]

/-- The shader info that `CompileShaders` has stored for the entry is still there
after the range is processed. -/
theorem registered_info {env : Environment} {e : CfgEntryInfo} {s s2 : RunState}
    {H : List (Nat × IResponse)} {iFirst iEnd : Nat}
    (heff : RangeEffect env iFirst iEnd (registerShaderInfo env e s) s2 H) :
    (s2.program.g_ShaderToShaderInfo e.m_szName).getD ShaderInfo_t.zero =
      Shader_ParseShaderInfoFromCompileCommands env e ShaderInfo_t.zero := by
  rw [heff.shaderInfo]
  unfold registerShaderInfo
  simp

/-- The file operations of the call of `WriteShaderFiles` that `CompileShaders`
makes for an entry, by the name of the entry. -/
theorem WriteShaderFiles_entry {env : Environment} {e : CfgEntryInfo} {s s2 : RunState}
    {H : List (Nat × IResponse)} {iFirst iEnd : Nat} {p : ProgramState}
    (heff : RangeEffect env iFirst iEnd (registerShaderInfo env e s) s2 H)
    (hw : WriteShaderFiles env e.m_szName s2.program = some p) :
    ∃ ops, p.fileSystem.operations = s2.program.fileSystem.operations ++ ops ∧
      (∀ op ∈ ops,
        op = FileOperation.createDirectories (vcsDirectory env.g_pShaderPath) ∨
        op = FileOperation.permissions (vcsPath env.g_pShaderPath e.m_szName) ∨
        (e.m_szName ∈ s2.program.g_ShaderHadError ∧
          op = FileOperation.remove (vcsPath env.g_pShaderPath e.m_szName)) ∨
        (e.m_szName ∉ s2.program.g_ShaderHadError ∧
          ∃ b, op = FileOperation.write (vcsPath env.g_pShaderPath e.m_szName) b)) ∧
      (∀ path, path ≠ vcsPath env.g_pShaderPath e.m_szName →
        p.fileSystem.files path = s2.program.fileSystem.files path) := by
  have hinfo := registered_info heff
  rcases Shader_ParseShaderInfoFromCompileCommands_name env e with hn | hn
  · obtain ⟨-, -, -, -, ops, hops, hop, hfiles, -⟩ := WriteShaderFiles_effect hw
    rw [hinfo, hn] at hop hfiles
    exact ⟨ops, hops, hop, hfiles⟩
  · have hfs := WriteShaderFiles_unnamed hw (by rw [hinfo, hn])
    exact ⟨[], by rw [hfs, List.append_nil],
      fun op hop => absurd hop (List.not_mem_nil _), fun path _ => by rw [hfs]⟩

/-- The files of the failed shaders in a run of `CompileShaders` that returns, for
entries of an ordered configuration with distinct names, none of them written
before: the file operations of the run concern the directory and the paths of
the entries; no file is written for a failed shader; without fast-fail no file
is at its path afterwards; with fast-fail the file at its path is as before. -/
theorem CompileShaders_failed_files {env : Environment} {threads : Nat}
    (hord : env.cfg.Pairwise (fun a b => a.m_iCommandEnd ≤ b.m_iCommandStart)) :
    ∀ (entries : List CfgEntryInfo) {schedules : List (List WorkerEvent)} {s s1 : RunState},
      (∀ e ∈ entries, e ∈ env.cfg) → (entries.map (fun e => e.m_szName)).Nodup →
      (∀ e ∈ entries, e.m_szName ∉ s.program.g_ShaderWrittenToDisk) →
      s.m_bStopped = false →
      CompileShaders env threads entries schedules s = some s1 →
      ∃ H ops, s1.handled = s.handled ++ H ∧
        s1.program.fileSystem.operations = s.program.fileSystem.operations ++ ops ∧
        (∀ op ∈ ops,
          op = FileOperation.createDirectories (vcsDirectory env.g_pShaderPath) ∨
          ∃ e ∈ entries,
            op = FileOperation.permissions (vcsPath env.g_pShaderPath e.m_szName) ∨
            op = FileOperation.remove (vcsPath env.g_pShaderPath e.m_szName) ∨
            ∃ b, op = FileOperation.write (vcsPath env.g_pShaderPath e.m_szName) b) ∧
        (∀ path, (∀ e ∈ entries, path ≠ vcsPath env.g_pShaderPath e.m_szName) →
          s1.program.fileSystem.files path = s.program.fileSystem.files path) ∧
        ∀ n ∈ failedShaders env H,
          (∃ e ∈ entries, e.m_szName = n) ∧
          (∀ b, FileOperation.write (vcsPath env.g_pShaderPath n) b ∉ ops) ∧
          (env.g_bFastFail = false →
            s1.program.fileSystem.files (vcsPath env.g_pShaderPath n) = none) ∧
          (env.g_bFastFail = true →
            s1.program.fileSystem.files (vcsPath env.g_pShaderPath n) =
              s.program.fileSystem.files (vcsPath env.g_pShaderPath n)) := by
  intro entries
  induction entries with
  | nil =>
    intro schedules s s1 _ _ _ _ h
    simp only [CompileShaders, Option.some.injEq] at h
    subst h
    exact ⟨[], [], by simp, by simp, fun op hop => absurd hop (List.not_mem_nil _),
      fun _ _ => rfl, fun n hn => absurd hn (List.not_mem_nil _)⟩
  | cons e rest ih =>
    intro schedules s s1 hmem hnd hwr hst h
    rcases CompileShaders_cons h with ⟨-, hs⟩ | ⟨hname, s2, hp, hcase⟩
    · subst hs
      exact ⟨[], [], by simp, by simp, fun op hop => absurd hop (List.not_mem_nil _),
        fun _ _ => rfl, fun n hn => absurd hn (List.not_mem_nil _)⟩
    · obtain ⟨He, heff, hstop, -, -⟩ := ProcessCommandRange_effect hp
      have he_cfg : e ∈ env.cfg := hmem e (List.mem_cons_self _ _)
      have hfe := failedShaders_range hord he_cfg (fun cr hcr =>
        ⟨(heff.inRange cr hcr).1, (heff.inRange cr hcr).2.1⟩)
      have hfs2 : s2.program.fileSystem = s.program.fileSystem := heff.fileSystem
      have hh2 : s2.handled = s.handled ++ He := heff.handled
      have hstop2 : s2.m_bStopped =
          (env.g_bFastFail && He.any (fun cr => !cr.2.Succeeded)) := by
        rw [hstop]
        show (s.m_bStopped || _) = _
        rw [hst, Bool.false_or]
      rcases hcase with ⟨hst2, hs⟩ | ⟨hst2, p, hwsf, hrest⟩
      · subst hs
        have hff : env.g_bFastFail = true := by
          rw [hstop2, Bool.and_eq_true] at hst2
          exact hst2.1
        refine ⟨He, [], hh2, by rw [hfs2, List.append_nil],
          fun op hop => absurd hop (List.not_mem_nil _), fun path _ => by rw [hfs2], ?_⟩
        intro n hn
        obtain ⟨hne, -⟩ := hfe n hn
        exact ⟨⟨e, List.mem_cons_self _ _, hne.symm⟩,
          fun b hb => absurd hb (List.not_mem_nil _),
          fun hf => absurd hff (by rw [hf]; decide), fun _ => by rw [hfs2]⟩
      · obtain ⟨opsE, hopsE, hopE, hfilesE⟩ := WriteShaderFiles_entry heff hwsf
        obtain ⟨-, hwwr, -, -, -, -, -, -, hremE⟩ := WriteShaderFiles_effect hwsf
        have hnot : e.m_szName ∉ rest.map (fun e => e.m_szName) := (List.nodup_cons.1 hnd).1
        have hne_rest : ∀ e1 ∈ rest, e1.m_szName ≠ e.m_szName := by
          intro e1 he1 heq
          exact hnot (List.mem_map.2 ⟨e1, he1, heq⟩)
        have hwr2 : e.m_szName ∉ s2.program.g_ShaderWrittenToDisk := by
          rw [heff.written]
          exact hwr e (List.mem_cons_self _ _)
        have hwr3 : ∀ e1 ∈ rest, e1.m_szName ∉
            ({ s2 with program := p } : RunState).program.g_ShaderWrittenToDisk := by
          intro e1 he1 hin
          have hin2 : e1.m_szName ∈ p.g_ShaderWrittenToDisk := hin
          rw [hwwr, mem_emplace, heff.written] at hin2
          rcases hin2 with h1 | h1
          · exact hwr e1 (List.mem_cons_of_mem _ he1) h1
          · exact hne_rest e1 he1 h1
        obtain ⟨Hr, opsR, hhR, hopsR, hopR, hfilesR, hfailR⟩ :=
          ih (fun e1 he1 => hmem e1 (List.mem_cons_of_mem _ he1)) (List.nodup_cons.1 hnd).2
            hwr3 hst2 hrest
        have hhR2 : s1.handled = s2.handled ++ Hr := hhR
        have hopsR2 : s1.program.fileSystem.operations = p.fileSystem.operations ++ opsR := hopsR
        have hfilesR2 : ∀ path, (∀ e1 ∈ rest, path ≠ vcsPath env.g_pShaderPath e1.m_szName) →
            s1.program.fileSystem.files path = p.fileSystem.files path := hfilesR
        have hpath_rest : ∀ e1 ∈ rest, vcsPath env.g_pShaderPath e.m_szName ≠
            vcsPath env.g_pShaderPath e1.m_szName := fun e1 he1 heq =>
          hne_rest e1 he1 (vcsPath_injective _ heq).symm
        refine ⟨He ++ Hr, opsE ++ opsR, by rw [hhR2, hh2, List.append_assoc],
          by rw [hopsR2, hopsE, hfs2, List.append_assoc], ?_, ?_, ?_⟩
        · intro op hop
          rcases List.mem_append.1 hop with hop | hop
          · rcases hopE op hop with h1 | h1 | ⟨-, h1⟩ | ⟨-, h1⟩
            · exact Or.inl h1
            · exact Or.inr ⟨e, List.mem_cons_self _ _, Or.inl h1⟩
            · exact Or.inr ⟨e, List.mem_cons_self _ _, Or.inr (Or.inl h1)⟩
            · exact Or.inr ⟨e, List.mem_cons_self _ _, Or.inr (Or.inr h1)⟩
          · rcases hopR op hop with h1 | ⟨e1, he1, h1⟩
            · exact Or.inl h1
            · exact Or.inr ⟨e1, List.mem_cons_of_mem _ he1, h1⟩
        · intro path hpath
          rw [hfilesR2 path (fun e1 he1 => hpath e1 (List.mem_cons_of_mem _ he1)),
            hfilesE path (hpath e (List.mem_cons_self _ _)), hfs2]
        · intro n hn
          rw [failedShaders_append] at hn
          rcases List.mem_append.1 hn with hn | hn
          · obtain ⟨hne, hrange⟩ := hfe n hn
            subst hne
            have hff : env.g_bFastFail = false := by
              cases hf : env.g_bFastFail with
              | false => rfl
              | true =>
                rw [hstop2, hf, Bool.true_and] at hst2
                rw [failedShaders_of_succeeded hst2] at hn
                exact absurd hn (List.not_mem_nil _)
            have hfailed : e.m_szName ∈ s2.program.g_ShaderHadError := by
              rw [heff.hadError, mem_foldl_emplace]
              exact Or.inr hn
            refine ⟨⟨e, List.mem_cons_self _ _, rfl⟩, ?_, ?_, fun hf => ?_⟩
            · intro b hb
              rcases List.mem_append.1 hb with hb | hb
              · rcases hopE _ hb with h1 | h1 | ⟨-, h1⟩ | ⟨h1, -⟩
                · exact absurd h1 (by simp)
                · exact absurd h1 (by simp)
                · exact absurd h1 (by simp)
                · exact h1 hfailed
              · rcases hopR _ hb with h1 | ⟨e1, he1, h1 | h1 | ⟨b1, h1⟩⟩
                · exact absurd h1 (by simp)
                · exact absurd h1 (by simp)
                · exact absurd h1 (by simp)
                · simp only [FileOperation.write.injEq] at h1
                  exact hpath_rest e1 he1 h1.1
            · intro _
              have hnone := hremE hfailed hwr2 (by
                rw [registered_info heff,
                  Shader_ParseShaderInfoFromCompileCommands_of_mem hord he_cfg hrange]
                exact hname)
              rw [registered_info heff,
                Shader_ParseShaderInfoFromCompileCommands_of_mem hord he_cfg hrange] at hnone
              rw [hfilesR2 _ hpath_rest, hnone]
            · rw [hff] at hf
              exact absurd hf (by decide)
          · obtain ⟨⟨e1, he1, hn1⟩, hwrite, hnone, hkeep⟩ := hfailR n hn
            subst hn1
            have hpne : vcsPath env.g_pShaderPath e1.m_szName ≠
                vcsPath env.g_pShaderPath e.m_szName := fun heq =>
              hpath_rest e1 he1 heq.symm
            refine ⟨⟨e1, List.mem_cons_of_mem _ he1, rfl⟩, ?_, hnone, fun hf => ?_⟩
            · intro b hb
              rcases List.mem_append.1 hb with hb | hb
              · rcases hopE _ hb with h1 | h1 | ⟨-, h1⟩ | ⟨-, b1, h1⟩
                · exact absurd h1 (by simp)
                · exact absurd h1 (by simp)
                · exact absurd h1 (by simp)
                · simp only [FileOperation.write.injEq] at h1
                  exact hpne h1.1
              · exact hwrite b hb
            · have h3 := hkeep hf
              have h4 : s1.program.fileSystem.files (vcsPath env.g_pShaderPath e1.m_szName) =
                  p.fileSystem.files (vcsPath env.g_pShaderPath e1.m_szName) := h3
              rw [h4, hfilesE _ hpne, hfs2]

/-- C17. Let `CompileShaders` run on entries of an ordered configuration with
distinct names, none of them written before, and return. Then, in every mode
and with or without fast-fail, no VCS file is written for a shader that had a
failed compile; without fast-fail no file exists at the output path of such a
shader afterwards (a file that was there is removed); with fast-fail the file
at its output path is as it was before the run. -/
theorem C17_failed_shader_file (env : Environment) (threads : Nat)
    (entries : List CfgEntryInfo) (schedules : List (List WorkerEvent))
    (program : ProgramState) (s1 : RunState)
    (hord : env.cfg.Pairwise (fun a b => a.m_iCommandEnd ≤ b.m_iCommandStart))
    (hmem : ∀ e ∈ entries, e ∈ env.cfg)
    (hnames : (entries.map (fun e => e.m_szName)).Nodup)
    (hwritten : program.g_ShaderWrittenToDisk = [])
    (hrun : CompileShaders env threads entries schedules (RunState.init program) = some s1) :
    ∃ ops, s1.program.fileSystem.operations = program.fileSystem.operations ++ ops ∧
      ∀ n ∈ failedShaders env s1.handled,
        (∀ b, FileOperation.write (vcsPath env.g_pShaderPath n) b ∉ ops) ∧
        (env.g_bFastFail = false →
          s1.program.fileSystem.files (vcsPath env.g_pShaderPath n) = none) ∧
        (env.g_bFastFail = true →
          s1.program.fileSystem.files (vcsPath env.g_pShaderPath n) =
            program.fileSystem.files (vcsPath env.g_pShaderPath n)) := by
  obtain ⟨H, ops, hh, hops, -, -, hfail⟩ := CompileShaders_failed_files hord entries hmem hnames
    (fun e _ hin => by
      have hin2 : e.m_szName ∈ program.g_ShaderWrittenToDisk := hin
      rw [hwritten] at hin2
      exact absurd hin2 (List.not_mem_nil _)) rfl hrun
  have hH : s1.handled = H := by
    rw [hh]
    rfl
  refine ⟨ops, hops, fun n hn => ?_⟩
  rw [hH] at hn
  obtain ⟨-, h1, h2, h3⟩ := hfail n hn
  exact ⟨h1, h2, h3⟩

theorem staleRun_isSome (g_bFastFail : Bool) : (staleRun g_bFastFail).isSome = true := by
  cases g_bFastFail <;> decide

/-- C17 at the concrete run without fast-fail from the state with the stale file
of `beta_vs20`: the command `2` fails, the shader `beta_vs20` has failed, and
its file is gone. -/
theorem C17_failed_shader_file_witness :
    "beta_vs20" ∈ failedShaders (runEnvironment false)
      ((staleRun false).get (staleRun_isSome false)).handled ∧
    staleProgram.fileSystem.files "root/shaders/fxc/beta_vs20.vcs" = some [1, 2] ∧
    ∃ ops, ((staleRun false).get (staleRun_isSome false)).program.fileSystem.operations =
        staleProgram.fileSystem.operations ++ ops ∧
      ∀ n ∈ failedShaders (runEnvironment false)
          ((staleRun false).get (staleRun_isSome false)).handled,
        (∀ b, FileOperation.write (vcsPath (runEnvironment false).g_pShaderPath n) b ∉ ops) ∧
        ((runEnvironment false).g_bFastFail = false →
          ((staleRun false).get (staleRun_isSome false)).program.fileSystem.files
            (vcsPath (runEnvironment false).g_pShaderPath n) = none) ∧
        ((runEnvironment false).g_bFastFail = true →
          ((staleRun false).get (staleRun_isSome false)).program.fileSystem.files
            (vcsPath (runEnvironment false).g_pShaderPath n) =
            staleProgram.fileSystem.files (vcsPath (runEnvironment false).g_pShaderPath n)) :=
  ⟨by decide, by decide,
    C17_failed_shader_file (runEnvironment false) 1 [alphaEntry, betaEntry, terminatorEntry] []
      staleProgram ((staleRun false).get (staleRun_isSome false)) (by decide) (by decide)
      (by decide) rfl (Option.some_get _).symm⟩

/-- C17 as stated fails with fast-fail: in the concrete run with fast-fail from
the state with the stale file of `beta_vs20`, the command `2` fails, the run
stops, `CompileShaders` leaves its loop before `WriteShaderFiles` is called for
`beta_vs20`, and the stale file is still at the output path of the failed
shader when `CompileShaders` returns. -/
theorem C17_stale_file_stays_with_fast_fail :
    ∃ s1, CompileShaders (runEnvironment true) 1 [alphaEntry, betaEntry, terminatorEntry] []
        (RunState.init staleProgram) = some s1 ∧
      "beta_vs20" ∈ failedShaders (runEnvironment true) s1.handled ∧
      (∃ cr ∈ s1.handled, cr.2.Succeeded = false ∧
        Combo_GetCombo (runEnvironment true).cfg cr.1 = some (betaEntry, 1)) ∧
      s1.program.fileSystem.files (vcsPath (runEnvironment true).g_pShaderPath "beta_vs20") =
        some [1, 2] :=
  ⟨(staleRun true).get (staleRun_isSome true), (Option.some_get _).symm, by decide,
    ⟨(2, (runEnvironment true).execute 2), by decide, by decide, by decide⟩, by decide⟩

/-! ## Fast-fail -/

theorem foldl_emplace_nodup (l : List String) :
    ∀ acc : List String, (acc ++ l).Nodup → l.foldl emplace acc = acc ++ l := by
  induction l with
  | nil => intro acc _; simp
  | cons a t ih =>
    intro acc h
    have ha : a ∉ acc := by
      intro hin
      have h1 := (List.nodup_append.1 h).2.2
      exact h1 hin (List.mem_cons_self _ _)
    have he : emplace acc a = acc ++ [a] := by
      unfold emplace
      exact if_neg ha
    rw [List.foldl_cons, he, ih (acc ++ [a]) (by simpa using h)]
    simp

/-- In an ordered configuration a command belongs to one entry. -/
theorem entry_of_command {cfg : List CfgEntryInfo}
    (hord : cfg.Pairwise (fun a b => a.m_iCommandEnd ≤ b.m_iCommandStart))
    {a b : CfgEntryInfo} (ha : a ∈ cfg) (hb : b ∈ cfg) {c : Nat}
    (h1 : a.m_iCommandStart ≤ c) (h2 : c < a.m_iCommandEnd)
    (h3 : b.m_iCommandStart ≤ c) (h4 : c < b.m_iCommandEnd) : a = b := by
  have h := Combo_GetCombo_of_mem hord ha h1 h2
  rw [Combo_GetCombo_of_mem hord hb h3 h4] at h
  exact (Prod.mk.inj (Option.some.inj h)).1.symm

theorem failedShaders_mem {env : Environment}
    (hord : env.cfg.Pairwise (fun a b => a.m_iCommandEnd ≤ b.m_iCommandStart))
    {e : CfgEntryInfo} (he : e ∈ env.cfg) {H : List (Nat × IResponse)} {cr : Nat × IResponse}
    (hcr : cr ∈ H) (hfail : cr.2.Succeeded = false) (h1 : e.m_iCommandStart ≤ cr.1)
    (h2 : cr.1 < e.m_iCommandEnd) : e.m_szName ∈ failedShaders env H := by
  unfold failedShaders
  refine List.mem_filterMap.2 ⟨cr, hcr, ?_⟩
  rw [hfail, Combo_GetCombo_of_mem hord he h1 h2]
  rfl

/-- The processing of the range of one entry under fast-fail, from a state in
which nothing has failed: either a response fails, the run is stopped and the
name of the entry is the one failed name, or every command of the range that is
not skipped is handled with success and nothing is stopped. -/
theorem ProcessCommandRange_fast_fail {env : Environment} {threads : Nat}
    (hff : env.g_bFastFail = true)
    (hord : env.cfg.Pairwise (fun a b => a.m_iCommandEnd ≤ b.m_iCommandStart))
    {e : CfgEntryInfo} (he : e ∈ env.cfg) {events : List WorkerEvent} {s s2 : RunState}
    (hst : s.m_bStopped = false) (hbr : s.m_bBreak = false)
    (herr : s.program.g_ShaderHadError = [])
    (hp : ProcessCommandRange env threads events (registerShaderInfo env e s)
      e.m_iCommandStart e.m_iCommandEnd = some s2) :
    ∃ He, RangeEffect env e.m_iCommandStart e.m_iCommandEnd (registerShaderInfo env e s) s2 He ∧
      ((s2.m_bStopped = true ∧ (∃ cr ∈ He, cr.2.Succeeded = false) ∧
          s2.program.g_ShaderHadError = [e.m_szName]) ∨
        (s2.m_bStopped = false ∧ s2.m_bBreak = false ∧ s2.program.g_ShaderHadError = [] ∧
          (∀ cr ∈ He, cr.2.Succeeded = true) ∧
          ∀ c, e.m_iCommandStart ≤ c → c < e.m_iCommandEnd → env.alive c = true →
            (c, env.execute c) ∈ He)) := by
  obtain ⟨He, heff, hstop, hbreak, hlive⟩ := ProcessCommandRange_effect hp
  refine ⟨He, heff, ?_⟩
  have hstop2 : s2.m_bStopped = He.any (fun cr => !cr.2.Succeeded) := by
    rw [hstop, hff, Bool.true_and]
    show (s.m_bStopped || _) = _
    rw [hst, Bool.false_or]
  have herr2 : s2.program.g_ShaderHadError = (failedShaders env He).foldl emplace [] := by
    rw [heff.hadError]
    show List.foldl emplace s.program.g_ShaderHadError _ = _
    rw [herr]
  cases hany : He.any (fun cr => !cr.2.Succeeded) with
  | true =>
    left
    obtain ⟨cr, hcr, hcrf⟩ := List.any_eq_true.1 hany
    have hfail : cr.2.Succeeded = false := by simpa using hcrf
    refine ⟨by rw [hstop2, hany], ⟨cr, hcr, hfail⟩, ?_⟩
    have hin := heff.inRange cr hcr
    have hmem := failedShaders_mem hord he hcr hfail hin.1 hin.2.1
    have hall := failedShaders_range hord he (fun cr hcr =>
      ⟨(heff.inRange cr hcr).1, (heff.inRange cr hcr).2.1⟩)
    rw [herr2, foldl_emplace_same (List.not_mem_nil _) _ (List.ne_nil_of_mem hmem)
      (fun y hy => (hall y hy).1)]
    rfl
  | false =>
    right
    have hsucc : ∀ cr ∈ He, cr.2.Succeeded = true := by
      intro cr hcr
      have h1 := List.any_eq_false.1 hany cr hcr
      simpa using h1
    have hbr2 : s2.m_bBreak = false := by
      cases hb : s2.m_bBreak with
      | false => rfl
      | true =>
        rcases hbreak hb with h1 | ⟨-, cr, hcr, hcrf⟩
        · have h2 : s.m_bBreak = true := h1
          rw [hbr] at h2
          exact absurd h2 (by decide)
        · rw [hsucc cr hcr] at hcrf
          exact absurd hcrf (by decide)
    refine ⟨by rw [hstop2, hany], hbr2, ?_, hsucc, hlive hbr2⟩
    rw [herr2, failedShaders_of_succeeded hany]
    rfl

/-- A call of `WriteShaderFiles` for a shader that has not failed, was not written
before, has a name in its info and a hash of byte code: the file is built and
written to the path of the shader. -/
theorem WriteShaderFiles_writes {env : Environment} {name : String} {p p1 : ProgramState}
    {hash : StaticComboNodeHash_t} (h : WriteShaderFiles env name p = some p1)
    (hw : name ∉ p.g_ShaderWrittenToDisk) (hfail : name ∉ p.g_ShaderHadError)
    (hname : ((p.g_ShaderToShaderInfo name).getD ShaderInfo_t.zero).m_pShaderName ≠ "")
    (hg : p.g_ShaderByteCode name = some hash) :
    ∃ out ops,
      writeVcsFile env.crc32 env.version
        ((p.g_ShaderToShaderInfo name).getD ShaderInfo_t.zero) hash = some out ∧
      p1.fileSystem.operations = p.fileSystem.operations ++ (ops ++
        [FileOperation.write (vcsPath env.g_pShaderPath
          ((p.g_ShaderToShaderInfo name).getD ShaderInfo_t.zero).m_pShaderName)
          out.ShaderFile]) ∧
      p1.fileSystem.files (vcsPath env.g_pShaderPath
        ((p.g_ShaderToShaderInfo name).getD ShaderInfo_t.zero).m_pShaderName) =
        some out.ShaderFile := by
  unfold WriteShaderFiles at h
  rw [if_neg hw] at h
  simp only at h
  generalize hsi : (p.g_ShaderToShaderInfo name).getD ShaderInfo_t.zero = si at h hname ⊢
  obtain ⟨h1, h2, ops, h3, -⟩ := GetVCSFilenames_spec env.g_pShaderPath si p.fileSystem
  rw [if_neg hname] at h
  simp only [hfail, decide_False, Bool.false_eq_true, if_false] at h
  rw [hg] at h
  simp only at h
  cases hv : writeVcsFile env.crc32 env.version si hash with
  | none => rw [hv] at h; exact absurd h (by simp)
  | some out =>
    rw [hv] at h
    simp only [Option.some.injEq] at h
    subst h
    refine ⟨out, ops, rfl, ?_, ?_⟩
    · simp only [FileSystem.writeFile, h1, h3, List.append_assoc]
    · simp only [FileSystem.writeFile, h1, Function.update_same]

/-- A response that succeeded and was stored leaves a hash of byte code for the
shader of the entry. -/
theorem hash_of_success {env : Environment} {e : CfgEntryInfo} {s0 s2 : RunState}
    {H : List (Nat × IResponse)} (hs : RangeSealing env e s0 s2 H) {cr : Nat × IResponse}
    (hc : cr ∈ H) (hsucc : cr.2.Succeeded = true) :
    ∃ hash, s2.program.g_ShaderByteCode e.m_szName = some hash := by
  have harr : arrivals e H (staticComboOf e cr.1) ≠ [] := by
    unfold arrivals
    intro hnil
    rw [List.map_eq_nil_iff] at hnil
    have hmem : cr ∈ H.filter (fun cr1 =>
        cr1.2.Succeeded && decide (staticComboOf e cr1.1 = staticComboOf e cr.1)) :=
      List.mem_filter.2 ⟨hc, by simp [hsucc]⟩
    rw [hnil] at hmem
    exact absurd hmem (List.not_mem_nil _)
  have hemp : (accumulated e H (staticComboOf e cr.1)).m_DynamicCombos.isEmpty = false := by
    show (arrivals e H (staticComboOf e cr.1)).isEmpty = false
    cases hl : arrivals e H (staticComboOf e cr.1) with
    | nil => exact absurd hl harr
    | cons a t => rfl
  have hl := hs.lookup (staticComboOf e cr.1)
  cases hg : s2.program.g_ShaderByteCode e.m_szName with
  | some hash => exact ⟨hash, rfl⟩
  | none =>
    exfalso
    simp only [StaticComboFromDict, hg, sealedCombo, unsealedCombo, hemp, Bool.false_eq_true,
      if_false] at hl
    by_cases hc2 : sealedFrom e s2.dispatcher.m_iLastFinished ≤ staticComboOf e cr.1
    · rw [if_pos hc2] at hl
      exact absurd hl (by simp)
    · rw [if_neg hc2] at hl
      exact absurd hl (by simp)

/-- A failed response of a command of the entry `ek` is not handled while other
entries of the configuration are processed. -/
theorem failed_not_elsewhere {env : Environment} {threads : Nat}
    (hord : env.cfg.Pairwise (fun a b => a.m_iCommandEnd ≤ b.m_iCommandStart))
    {ek : CfgEntryInfo} (hek : ek ∈ env.cfg) {rest : List CfgEntryInfo}
    (hmem : ∀ e ∈ rest, e ∈ env.cfg) (hnot : ek.m_szName ∉ rest.map (fun e => e.m_szName))
    {schedules : List (List WorkerEvent)} {s s1 : RunState}
    (hrun : CompileShaders env threads rest schedules s = some s1)
    (hsucc : ∀ cr ∈ s.handled, cr.2.Succeeded = true) {cr0 : Nat × IResponse}
    (hcr0 : cr0 ∈ s1.handled) (hfail : cr0.2.Succeeded = false)
    (h1 : ek.m_iCommandStart ≤ cr0.1) (h2 : cr0.1 < ek.m_iCommandEnd) : False := by
  obtain ⟨H, hh, hin, -⟩ := CompileShaders_handled rest hrun
  rw [hh] at hcr0
  rcases List.mem_append.1 hcr0 with h | h
  · rw [hsucc cr0 h] at hfail
    exact absurd hfail (by decide)
  · obtain ⟨-, -, e1, he1, h3, h4⟩ := hin cr0 h
    have heq := entry_of_command hord hek (hmem e1 he1) h1 h2 h3 h4
    exact hnot (List.mem_map.2 ⟨e1, he1, by rw [heq]⟩)

/-- The run of `CompileShaders` under fast-fail when a response of a command of
the entry `ek` fails, `pre` being the entries before it: the run is stopped,
`WriteShaderFiles` has put the names of `pre` into the written-set, `ek` is the
one failed shader, every command of `pre` that is not skipped was handled with
success, and the file operations are those of the non-failed path for `pre`. -/
theorem CompileShaders_fast_fail {env : Environment} {threads : Nat}
    (hff : env.g_bFastFail = true)
    (hord : env.cfg.Pairwise (fun a b => a.m_iCommandEnd ≤ b.m_iCommandStart)) :
    ∀ (pre : List CfgEntryInfo) {ek : CfgEntryInfo} {post : List CfgEntryInfo}
      {schedules : List (List WorkerEvent)} {s s1 : RunState} {cr0 : Nat × IResponse},
      (∀ e ∈ pre ++ ek :: post, e ∈ env.cfg) →
      ((pre ++ ek :: post).map (fun e => e.m_szName)).Nodup →
      s.m_bStopped = false → s.m_bBreak = false → s.program.g_ShaderHadError = [] →
      (∀ cr ∈ s.handled, cr.2.Succeeded = true) →
      CompileShaders env threads (pre ++ ek :: post) schedules s = some s1 →
      cr0 ∈ s1.handled → cr0.2.Succeeded = false →
      ek.m_iCommandStart ≤ cr0.1 → cr0.1 < ek.m_iCommandEnd →
      s1.m_bStopped = true ∧
      s1.program.g_ShaderWrittenToDisk =
        (pre.map (fun e => e.m_szName)).foldl emplace s.program.g_ShaderWrittenToDisk ∧
      s1.program.g_ShaderHadError = [ek.m_szName] ∧
      (∃ H, s1.handled = s.handled ++ H ∧
        ∀ e ∈ pre, ∀ c, e.m_iCommandStart ≤ c → c < e.m_iCommandEnd → env.alive c = true →
          (c, env.execute c) ∈ H ∧ (env.execute c).Succeeded = true) ∧
      ∃ ops, s1.program.fileSystem.operations = s.program.fileSystem.operations ++ ops ∧
        (∀ op ∈ ops,
          op = FileOperation.createDirectories (vcsDirectory env.g_pShaderPath) ∨
          ∃ e ∈ pre,
            op = FileOperation.permissions (vcsPath env.g_pShaderPath e.m_szName) ∨
            ∃ b, op = FileOperation.write (vcsPath env.g_pShaderPath e.m_szName) b) ∧
        (∀ path, (∀ e ∈ pre, path ≠ vcsPath env.g_pShaderPath e.m_szName) →
          s1.program.fileSystem.files path = s.program.fileSystem.files path) ∧
        ((∀ e ∈ pre, EntryReady env e) →
          (∀ e ∈ pre, e.m_szName ∉ s.program.g_ShaderWrittenToDisk) →
          (∀ e ∈ pre, s.program.g_ShaderByteCode e.m_szName = none) →
          s.dispatcher.m_arrSubProcessInfos = [] →
          ∀ e ∈ pre,
            (∃ c, e.m_iCommandStart ≤ c ∧ c < e.m_iCommandEnd ∧ env.alive c = true) →
            ∃ b, FileOperation.write (vcsPath env.g_pShaderPath e.m_szName) b ∈ ops ∧
              s1.program.fileSystem.files (vcsPath env.g_pShaderPath e.m_szName) =
                some b) := by
  intro pre
  induction pre with
  | nil =>
    intro ek post schedules s s1 cr0 hmem hnd hst hbr herr hsucc h hcr0 hfail h1 h2
    rw [List.nil_append] at h hmem hnd
    rcases CompileShaders_cons h with ⟨-, hs⟩ | ⟨-, s2, hp, hcase⟩
    · subst hs
      rw [hsucc cr0 hcr0] at hfail
      exact absurd hfail (by decide)
    · have hek : ek ∈ env.cfg := hmem ek (List.mem_cons_self _ _)
      obtain ⟨He, heff, hA | hB⟩ := ProcessCommandRange_fast_fail hff hord hek hst hbr herr hp
      · rcases hcase with ⟨-, hs⟩ | ⟨hst2, -⟩
        · subst hs
          refine ⟨hA.1, heff.written, hA.2.2, ⟨He, heff.handled,
            fun e he => absurd he (List.not_mem_nil _)⟩, [], ?_,
            fun op hop => absurd hop (List.not_mem_nil _), fun path _ => ?_,
            fun _ _ _ _ e he => absurd he (List.not_mem_nil _)⟩
          · rw [heff.fileSystem, List.append_nil]
            rfl
          · rw [heff.fileSystem]
            rfl
        · rw [hA.1] at hst2
          exact absurd hst2 (by decide)
      · rcases hcase with ⟨hst2, -⟩ | ⟨-, p, -, hrest⟩
        · rw [hB.1] at hst2
          exact absurd hst2 (by decide)
        · exfalso
          refine failed_not_elsewhere hord hek
            (fun e he => hmem e (List.mem_cons_of_mem _ he)) (List.nodup_cons.1 hnd).1 hrest
            ?_ hcr0 hfail h1 h2
          intro cr hcr
          have hcr2 : cr ∈ s2.handled := hcr
          rw [heff.handled] at hcr2
          rcases List.mem_append.1 hcr2 with h3 | h3
          · exact hsucc cr h3
          · exact hB.2.2.2.1 cr h3
  | cons e pre ih =>
    intro ek post schedules s s1 cr0 hmem hnd hst hbr herr hsucc h hcr0 hfail h1 h2
    rw [List.cons_append] at h hmem hnd
    have hnd2 := List.nodup_cons.1 hnd
    have he_cfg : e ∈ env.cfg := hmem e (List.mem_cons_self _ _)
    have hek : ek ∈ env.cfg :=
      hmem ek (List.mem_cons_of_mem _ (List.mem_append_right _ (List.mem_cons_self _ _)))
    have hne : e ≠ ek := by
      intro heq
      refine hnd2.1 (List.mem_map.2 ⟨ek, List.mem_append_right _ (List.mem_cons_self _ _), ?_⟩)
      rw [heq]
    rcases CompileShaders_cons h with ⟨-, hs⟩ | ⟨hname, s2, hp, hcase⟩
    · subst hs
      rw [hsucc cr0 hcr0] at hfail
      exact absurd hfail (by decide)
    · obtain ⟨He, heff, hA | hB⟩ :=
        ProcessCommandRange_fast_fail hff hord he_cfg hst hbr herr hp
      · rcases hcase with ⟨-, hs⟩ | ⟨hst2, -⟩
        · subst hs
          exfalso
          rw [heff.handled] at hcr0
          rcases List.mem_append.1 hcr0 with h3 | h3
          · have h4 := hsucc cr0 h3
            rw [h4] at hfail
            exact absurd hfail (by decide)
          · have hin := heff.inRange cr0 h3
            exact hne (entry_of_command hord he_cfg hek hin.1 hin.2.1 h1 h2)
        · rw [hA.1] at hst2
          exact absurd hst2 (by decide)
      · rcases hcase with ⟨hst2, -⟩ | ⟨hst2, p, hwsf, hrest⟩
        · rw [hB.1] at hst2
          exact absurd hst2 (by decide)
        · obtain ⟨hst3, hbr2, herr2, hsucc2, hlive⟩ := hB
          obtain ⟨opsE, hopsE, hopE, hfilesE⟩ := WriteShaderFiles_entry heff hwsf
          obtain ⟨hwerr, hwwr, -⟩ := WriteShaderFiles_effect hwsf
          have hsucc3 : ∀ cr ∈ ({ s2 with program := p } : RunState).handled,
              cr.2.Succeeded = true := by
            intro cr hcr
            have hcr2 : cr ∈ s2.handled := hcr
            rw [heff.handled] at hcr2
            rcases List.mem_append.1 hcr2 with h3 | h3
            · exact hsucc cr h3
            · exact hsucc2 cr h3
          obtain ⟨hstop, hwritten, hfailed, ⟨Hr, hhR, hfull⟩, opsR, hopsR, hopR, hfilesR,
              hcondR⟩ :=
            ih (s := { s2 with program := p })
              (fun e1 he1 => hmem e1 (List.mem_cons_of_mem _ he1)) hnd2.2 hst3 hbr2
              (hwerr.trans herr2) hsucc3 hrest hcr0 hfail h1 h2
          have hhR2 : s1.handled = s2.handled ++ Hr := hhR
          have hopsR2 : s1.program.fileSystem.operations = p.fileSystem.operations ++ opsR :=
            hopsR
          have hfs2 : s2.program.fileSystem = s.program.fileSystem := heff.fileSystem
          have hh2 : s2.handled = s.handled ++ He := heff.handled
          refine ⟨hstop, ?_, hfailed, ⟨He ++ Hr, by rw [hhR2, hh2, List.append_assoc], ?_⟩,
            opsE ++ opsR, by rw [hopsR2, hopsE, hfs2, List.append_assoc], ?_, ?_, ?_⟩
          · rw [hwritten, List.map_cons, List.foldl_cons]
            show List.foldl emplace p.g_ShaderWrittenToDisk _ = _
            rw [hwwr, heff.written]
            rfl
          · intro e1 he1 c hc1 hc2 hc3
            rcases List.mem_cons.1 he1 with h3 | h3
            · subst h3
              have hmemc := hlive c hc1 hc2 hc3
              exact ⟨List.mem_append_left _ hmemc, hsucc2 _ hmemc⟩
            · obtain ⟨h4, h5⟩ := hfull e1 h3 c hc1 hc2 hc3
              exact ⟨List.mem_append_right _ h4, h5⟩
          · intro op hop
            rcases List.mem_append.1 hop with hop | hop
            · rcases hopE op hop with h3 | h3 | ⟨h3, -⟩ | ⟨-, h3⟩
              · exact Or.inl h3
              · exact Or.inr ⟨e, List.mem_cons_self _ _, Or.inl h3⟩
              · rw [herr2] at h3
                exact absurd h3 (List.not_mem_nil _)
              · exact Or.inr ⟨e, List.mem_cons_self _ _, Or.inr h3⟩
            · rcases hopR op hop with h3 | ⟨e1, he1, h3⟩
              · exact Or.inl h3
              · exact Or.inr ⟨e1, List.mem_cons_of_mem _ he1, h3⟩
          · intro path hpath
            have h3 : s1.program.fileSystem.files path = p.fileSystem.files path :=
              hfilesR path (fun e1 he1 => hpath e1 (List.mem_cons_of_mem _ he1))
            rw [h3, hfilesE path (hpath e (List.mem_cons_self _ _)), hfs2]
          · intro hready hnw hfresh hslots e1 he1 hcmd
            have hne_pre : ∀ e2 ∈ pre, e2.m_szName ≠ e.m_szName := by
              intro e2 he2 heq
              exact hnd2.1 (List.mem_map.2 ⟨e2, List.mem_append_left _ he2, heq⟩)
            have hfresh0 : (registerShaderInfo env e s).program.g_ShaderByteCode e.m_szName =
                none := hfresh e (List.mem_cons_self _ _)
            have hslots0 : (registerShaderInfo env e s).dispatcher.m_arrSubProcessInfos = [] :=
              hslots
            obtain ⟨H2, hseal, -, hslots2⟩ :=
              ProcessCommandRange_sealing (hready e (List.mem_cons_self _ _)) hfresh0 hslots0 hp
            have hHeq : H2 = He :=
              List.append_cancel_left (hseal.handled.symm.trans heff.handled)
            rw [hHeq] at hseal
            have hnw2 : e.m_szName ∉ s2.program.g_ShaderWrittenToDisk := by
              rw [heff.written]
              exact hnw e (List.mem_cons_self _ _)
            rcases List.mem_cons.1 he1 with h3 | h3
            · rw [h3] at hcmd ⊢
              obtain ⟨c, hc1, hc2, hc3⟩ := hcmd
              have hmemc := hlive c hc1 hc2 hc3
              obtain ⟨hash, hg⟩ := hash_of_success hseal hmemc (hsucc2 _ hmemc)
              have hinfo : ((s2.program.g_ShaderToShaderInfo e.m_szName).getD
                  ShaderInfo_t.zero).m_pShaderName = e.m_szName := by
                rw [registered_info heff, Shader_ParseShaderInfoFromCompileCommands_of_mem hord
                  he_cfg (Nat.lt_of_le_of_lt hc1 hc2)]
              obtain ⟨out, ops0, -, hops0, hfile0⟩ := WriteShaderFiles_writes hwsf hnw2
                (by rw [herr2]; exact List.not_mem_nil _) (by rw [hinfo]; exact hname) hg
              rw [hinfo] at hops0 hfile0
              have hopsEq : opsE = ops0 ++
                  [FileOperation.write (vcsPath env.g_pShaderPath e.m_szName) out.ShaderFile] :=
                List.append_cancel_left (hopsE.symm.trans hops0)
              refine ⟨out.ShaderFile, List.mem_append_left _ ?_, ?_⟩
              · rw [hopsEq]
                exact List.mem_append_right _ (List.mem_singleton.2 rfl)
              · have h4 : s1.program.fileSystem.files (vcsPath env.g_pShaderPath e.m_szName) =
                    p.fileSystem.files (vcsPath env.g_pShaderPath e.m_szName) :=
                  hfilesR _ (fun e2 he2 heq =>
                    hne_pre e2 he2 (vcsPath_injective _ heq).symm)
                rw [h4, hfile0]
            · obtain ⟨-, -, hwother, -⟩ := WriteShaderFiles_effect hwsf
              obtain ⟨b, hb1, hb2⟩ := hcondR
                (fun e2 he2 => hready e2 (List.mem_cons_of_mem _ he2))
                (fun e2 he2 hin => by
                  have hin2 : e2.m_szName ∈ p.g_ShaderWrittenToDisk := hin
                  rw [hwwr, mem_emplace, heff.written] at hin2
                  rcases hin2 with h5 | h5
                  · exact hnw e2 (List.mem_cons_of_mem _ he2) h5
                  · exact hne_pre e2 he2 h5)
                (fun e2 he2 => by
                  show p.g_ShaderByteCode e2.m_szName = none
                  rw [hwother _ (hne_pre e2 he2), hseal.others _ (hne_pre e2 he2)]
                  exact hfresh e2 (List.mem_cons_of_mem _ he2))
                hslots2 e1 h3 hcmd
              exact ⟨b, List.mem_append_right _ hb1, hb2⟩

/-- C19. Let fast-fail be on, let `CompileShaders` run from the start of `main`
on entries of an ordered configuration with distinct names, and return, and let
the first failed response be that of a command of the entry `ek`, with `pre`
the entries before `ek` and `post` those after it. Then the run is stopped;
`WriteShaderFiles` was called for the entries of `pre` and no others (the
written-set holds their names, in order); `ek` is the only failed shader, so
each entry of `pre` was written as a non-failed shader, after every command of
it that is not skipped was handled with success; the file operations of the
run create the directory, set the permissions of files of `pre` and write files
of `pre`, nothing is removed, and the files at the paths of `ek` and of the
later entries are as before: no VCS file is emitted for the failing shader.
When the entries of `pre` are ready for processing and have no byte code at the
start, a file was written for every entry of `pre` that has a command that is
not skipped, and it is at the path of the entry when `CompileShaders`
returns. -/
theorem C19_fast_fail_writes_entries_before (env : Environment) (threads : Nat)
    (pre : List CfgEntryInfo) (ek : CfgEntryInfo) (post : List CfgEntryInfo)
    (schedules : List (List WorkerEvent)) (program : ProgramState) (s1 : RunState)
    (cr0 : Nat × IResponse) (hff : env.g_bFastFail = true)
    (hord : env.cfg.Pairwise (fun a b => a.m_iCommandEnd ≤ b.m_iCommandStart))
    (hmem : ∀ e ∈ pre ++ ek :: post, e ∈ env.cfg)
    (hnames : ((pre ++ ek :: post).map (fun e => e.m_szName)).Nodup)
    (hstart : program.g_ShaderHadError = []) (hwritten : program.g_ShaderWrittenToDisk = [])
    (hrun : CompileShaders env threads (pre ++ ek :: post) schedules (RunState.init program) =
      some s1)
    (hfirst : s1.handled.find? (fun cr => !cr.2.Succeeded) = some cr0)
    (h1 : ek.m_iCommandStart ≤ cr0.1) (h2 : cr0.1 < ek.m_iCommandEnd) :
    s1.m_bStopped = true ∧
    s1.program.g_ShaderWrittenToDisk = pre.map (fun e => e.m_szName) ∧
    s1.program.g_ShaderHadError = [ek.m_szName] ∧
    (∀ e ∈ pre, ∀ c, e.m_iCommandStart ≤ c → c < e.m_iCommandEnd → env.alive c = true →
      (c, env.execute c) ∈ s1.handled ∧ (env.execute c).Succeeded = true) ∧
    ∃ ops, s1.program.fileSystem.operations = program.fileSystem.operations ++ ops ∧
      (∀ op ∈ ops,
        op = FileOperation.createDirectories (vcsDirectory env.g_pShaderPath) ∨
        ∃ e ∈ pre,
          op = FileOperation.permissions (vcsPath env.g_pShaderPath e.m_szName) ∨
          ∃ b, op = FileOperation.write (vcsPath env.g_pShaderPath e.m_szName) b) ∧
      (∀ e ∈ ek :: post,
        s1.program.fileSystem.files (vcsPath env.g_pShaderPath e.m_szName) =
          program.fileSystem.files (vcsPath env.g_pShaderPath e.m_szName)) ∧
      ((∀ e ∈ pre, EntryReady env e) →
        (∀ e ∈ pre, program.g_ShaderByteCode e.m_szName = none) →
        ∀ e ∈ pre, (∃ c, e.m_iCommandStart ≤ c ∧ c < e.m_iCommandEnd ∧ env.alive c = true) →
          ∃ b, FileOperation.write (vcsPath env.g_pShaderPath e.m_szName) b ∈ ops ∧
            s1.program.fileSystem.files (vcsPath env.g_pShaderPath e.m_szName) = some b) := by
  have hcr0 : cr0 ∈ s1.handled := List.mem_of_find?_eq_some hfirst
  have hfail : cr0.2.Succeeded = false := by
    have h := List.find?_some hfirst
    simpa using h
  obtain ⟨hstop, hwr, herr, ⟨H, hh, hfull⟩, ops, hops, hop, hfiles, hcond⟩ :=
    CompileShaders_fast_fail hff hord pre (s := RunState.init program) hmem hnames rfl rfl
      hstart (fun cr hcr => absurd hcr (List.not_mem_nil _)) hrun hcr0 hfail h1 h2
  have hH : s1.handled = H := by
    rw [hh]
    rfl
  have hnd : (pre.map (fun e => e.m_szName) ++
      (ek :: post).map (fun e => e.m_szName)).Nodup := by
    rw [← List.map_append]
    exact hnames
  refine ⟨hstop, ?_, herr, ?_, ops, hops, hop, ?_, fun hready hfresh =>
    hcond hready (fun e _ hin => by
      have hin2 : e.m_szName ∈ program.g_ShaderWrittenToDisk := hin
      rw [hwritten] at hin2
      exact absurd hin2 (List.not_mem_nil _)) hfresh rfl⟩
  · rw [hwr]
    show List.foldl emplace program.g_ShaderWrittenToDisk _ = _
    rw [hwritten, foldl_emplace_nodup _ [] (by
      rw [List.nil_append]
      exact (List.nodup_append.1 hnd).1)]
    rfl
  · intro e he c hc1 hc2 hc3
    rw [hH]
    exact hfull e he c hc1 hc2 hc3
  · intro e he
    refine hfiles _ (fun e1 he1 heq => ?_)
    have hname := vcsPath_injective _ heq
    exact (List.nodup_append.1 hnd).2.2 (List.mem_map.2 ⟨e1, he1, rfl⟩)
      (List.mem_map.2 ⟨e, he, hname⟩)

/-- C19 at the concrete run with fast-fail: the first failed response is that of
the command `2`, a command of `beta_vs20`; `WriteShaderFiles` was called for
`alpha_ps20b` only, its file exists and `beta_vs20` has none. -/
theorem C19_fast_fail_writes_entries_before_witness :
    (((exampleRun true).get (exampleRun_isSome true)).program.fileSystem.files
      "root/shaders/fxc/alpha_ps20b.vcs").isSome = true ∧
    ((exampleRun true).get (exampleRun_isSome true)).program.fileSystem.files
      "root/shaders/fxc/beta_vs20.vcs" = none ∧
    ((exampleRun true).get (exampleRun_isSome true)).m_bStopped = true ∧
    ((exampleRun true).get (exampleRun_isSome true)).program.g_ShaderWrittenToDisk =
      [alphaEntry].map (fun e => e.m_szName) ∧
    ((exampleRun true).get (exampleRun_isSome true)).program.g_ShaderHadError =
      [betaEntry.m_szName] ∧
    (∀ e ∈ [alphaEntry], ∀ c, e.m_iCommandStart ≤ c → c < e.m_iCommandEnd →
      (runEnvironment true).alive c = true →
      (c, (runEnvironment true).execute c) ∈
          ((exampleRun true).get (exampleRun_isSome true)).handled ∧
        ((runEnvironment true).execute c).Succeeded = true) ∧
    ∃ ops, ((exampleRun true).get (exampleRun_isSome true)).program.fileSystem.operations =
        ProgramState.init.fileSystem.operations ++ ops ∧
      (∀ op ∈ ops,
        op = FileOperation.createDirectories (vcsDirectory (runEnvironment true).g_pShaderPath) ∨
        ∃ e ∈ [alphaEntry],
          op = FileOperation.permissions
            (vcsPath (runEnvironment true).g_pShaderPath e.m_szName) ∨
          ∃ b, op = FileOperation.write
            (vcsPath (runEnvironment true).g_pShaderPath e.m_szName) b) ∧
      (∀ e ∈ betaEntry :: [terminatorEntry],
        ((exampleRun true).get (exampleRun_isSome true)).program.fileSystem.files
            (vcsPath (runEnvironment true).g_pShaderPath e.m_szName) =
          ProgramState.init.fileSystem.files
            (vcsPath (runEnvironment true).g_pShaderPath e.m_szName)) ∧
      ((∀ e ∈ [alphaEntry], EntryReady (runEnvironment true) e) →
        (∀ e ∈ [alphaEntry], ProgramState.init.g_ShaderByteCode e.m_szName = none) →
        ∀ e ∈ [alphaEntry],
          (∃ c, e.m_iCommandStart ≤ c ∧ c < e.m_iCommandEnd ∧
            (runEnvironment true).alive c = true) →
          ∃ b, FileOperation.write
                (vcsPath (runEnvironment true).g_pShaderPath e.m_szName) b ∈ ops ∧
            ((exampleRun true).get (exampleRun_isSome true)).program.fileSystem.files
              (vcsPath (runEnvironment true).g_pShaderPath e.m_szName) = some b) :=
  ⟨by decide, by decide,
    C19_fast_fail_writes_entries_before (runEnvironment true) 1 [alphaEntry] betaEntry
      [terminatorEntry] [] ProgramState.init ((exampleRun true).get (exampleRun_isSome true))
      (2, (runEnvironment true).execute 2) rfl (by decide) (by decide) (by decide) rfl rfl
      (Option.some_get _).symm (by decide) (by decide) (by decide)⟩

/-! ## The contract of `CResponse` -/

/-- C27. The contract of `IResponse` as `CResponse` implements it: `Succeeded()` is
true exactly when a shader blob is present and the result is `S_OK`; when
`Succeeded()` is false, `GetResultBufferLen()` is `0` and `GetResultBuffer()` is
null; `GetListing()` is null exactly when no listing blob is present, and it
does not depend on the shader blob or on the result. -/
theorem C27_response_contract (r : CResponse) :
    (r.Succeeded = true ↔ r.m_pShader ≠ none ∧ r.m_hr = S_OK) ∧
    (r.Succeeded = false → r.GetResultBufferLen = 0 ∧ r.GetResultBuffer = none) ∧
    (r.GetListing = none ↔ r.m_pListing = none) ∧
    (∀ (pShader : Option ID3DBlob) (hr : Int),
      ({ r with m_pShader := pShader, m_hr := hr } : CResponse).GetListing = r.GetListing) := by
  refine ⟨?_, ?_, ?_, fun _ _ => rfl⟩
  · unfold CResponse.Succeeded
    rw [Bool.and_eq_true, decide_eq_true_eq, Option.isSome_iff_ne_none]
  · intro h
    unfold CResponse.GetResultBufferLen CResponse.GetResultBuffer
    rw [h]
    exact ⟨rfl, rfl⟩
  · unfold CResponse.GetListing
    cases r.m_pListing with
    | none => exact ⟨fun _ => rfl, fun _ => rfl⟩
    | some blob => exact ⟨fun h => absurd h (by simp), fun h => absurd h (by simp)⟩

/-! ## The optimisation level in `GetD3dxFlagsFromD3dOnes` -/

/-- C30 fails on the code at the levels 0 and 3: the test
`d3dFlags1 & D3DCOMPILE_OPTIMIZATION_LEVEL2` holds as soon as one of the bits 14
and 15 is set, so the flags of the levels 0 and 3 come out as those of the level
2, alone and together with other flags (`D3DCOMPILE_DEBUG` here); the levels 1
and 2 are kept. -/
theorem C30_levels_0_and_3_become_level_2 :
    GetD3dxFlagsFromD3dOnes (OPTIMIZATION_LEVEL 0) 0 = OPTIMIZATION_LEVEL 2 ∧
    GetD3dxFlagsFromD3dOnes (OPTIMIZATION_LEVEL 3) 0 = OPTIMIZATION_LEVEL 2 ∧
    optimisationBits (GetD3dxFlagsFromD3dOnes (1 ||| OPTIMIZATION_LEVEL 0) 0) =
      OPTIMIZATION_LEVEL 2 ∧
    optimisationBits (GetD3dxFlagsFromD3dOnes (1 ||| OPTIMIZATION_LEVEL 3) 0) =
      OPTIMIZATION_LEVEL 2 ∧
    OPTIMIZATION_LEVEL 0 ≠ OPTIMIZATION_LEVEL 2 ∧ OPTIMIZATION_LEVEL 3 ≠ OPTIMIZATION_LEVEL 2 ∧
    GetD3dxFlagsFromD3dOnes (OPTIMIZATION_LEVEL 1) 0 = OPTIMIZATION_LEVEL 1 ∧
    GetD3dxFlagsFromD3dOnes (OPTIMIZATION_LEVEL 2) 0 = OPTIMIZATION_LEVEL 2 := by
  decide

/-! ## The byte count of `AssembleWorkerReplyPackage` -/

/-- A call of `FlushCombos` that has something to flush appends a flag word of four
bytes and the data bytes to `pBuf`, and adds four plus the number of the data
bytes to the running total. -/
theorem FlushCombos_count {compress : List Byte → Option (List Byte)} {st st1 : PackState}
    (h : FlushCombos compress st = some st1) :
    (st.pDynamicComboBuffer = [] ∧ st1 = st) ∨
    ∃ flag data : List Byte, flag.length = 4 ∧ st1.pBuf = st.pBuf ++ flag ++ data ∧
      st1.pnTotalFlushedSize = st.pnTotalFlushedSize + (4 + data.length) := by
  rcases FlushCombos_eq_some h with h1 | ⟨-, h1⟩
  · exact Or.inl h1
  · right
    subst h1
    unfold emittedBlock
    cases compress st.pDynamicComboBuffer with
    | none =>
      exact ⟨putU32 (0x80000000 ||| (st.pDynamicComboBuffer.length % 2 ^ 32)),
        st.pDynamicComboBuffer, putU32_length _, by simp, by simp [putU32_length]⟩
    | some c =>
      exact ⟨putU32 (0x40000000 ||| c.length), c, putU32_length _, by simp,
        by simp [putU32_length]⟩

/-- C28. A call of `AssembleWorkerReplyPackage` that returns has appended to `pBuf`
exactly as many bytes as the count it returns; every `FlushCombos` that flushes
appends a flag word of four bytes and its data bytes and adds four plus the
number of the data bytes to the total. Hence, for the empty buffer `mbPacked` of
`TryToPackageData`, the `nPackedLength` bytes that are copied into the block
allocated by `AllocPackedCodeBlock( nPackedLength )` are the whole content of
the buffer. -/
theorem C28_returned_count_is_appended_length (compress : List Byte → Option (List Byte))
    (maxBlock : Nat) (g_ShaderByteCode : CShaderMap) (m_szName : String) (nComboOfEntry : Nat)
    (pBuf : List Byte) (r : ReplyPackage)
    (h : AssembleWorkerReplyPackage compress maxBlock g_ShaderByteCode m_szName nComboOfEntry
      pBuf = some r) :
    (∃ appended, r.pBuf = pBuf ++ appended ∧ r.nBytesWritten = appended.length) ∧
    (∀ st st1 : PackState, FlushCombos compress st = some st1 →
      (st.pDynamicComboBuffer = [] ∧ st1 = st) ∨
      ∃ flag data : List Byte, flag.length = 4 ∧ st1.pBuf = st.pBuf ++ flag ++ data ∧
        st1.pnTotalFlushedSize = st.pnTotalFlushedSize + (4 + data.length)) ∧
    (pBuf = [] → ∀ (nPackedLength : Nat) (p : CStaticCombo),
      narrowI32 r.nBytesWritten = some nPackedLength →
      (p.setPackedCode nPackedLength r.pBuf).m_abPackedCode = r.pBuf ∧
      (p.setPackedCode nPackedLength r.pBuf).m_abPackedCode.length = r.nBytesWritten) := by
  have hcount : ∃ appended, r.pBuf = pBuf ++ appended ∧ r.nBytesWritten = appended.length := by
    unfold AssembleWorkerReplyPackage at h
    cases hf : StaticComboFromDict g_ShaderByteCode m_szName nComboOfEntry with
    | none =>
      rw [hf] at h
      simp only [Option.some.injEq] at h
      subst h
      exact ⟨[], by simp, rfl⟩
    | some pStComboRec =>
      rw [hf] at h
      simp only at h
      by_cases he : pStComboRec.m_DynamicCombos.isEmpty = true
      · rw [if_pos he] at h
        simp only [Option.some.injEq] at h
        subst h
        exact ⟨[], by simp, rfl⟩
      · rw [if_neg he] at h
        cases hp : packDynamicCombos compress maxBlock pStComboRec pBuf with
        | none => rw [hp] at h; exact absurd h (by simp)
        | some st =>
          rw [hp] at h
          simp only [Option.some.injEq] at h
          subst h
          obtain ⟨⟨groups, cur, -, -, -, -, h5, h6⟩, -⟩ := packDynamicCombos_inv hp
          exact ⟨_, h5, h6⟩
  refine ⟨hcount, fun st st1 hfl => FlushCombos_count hfl, ?_⟩
  intro hempty nPackedLength p hn
  obtain ⟨appended, h1, h2⟩ := hcount
  obtain ⟨-, hn2⟩ := narrowI32_eq_some.1 hn
  have hlen : r.pBuf.length = r.nBytesWritten := by
    rw [h1, hempty, List.nil_append, h2]
  have htake : (p.setPackedCode nPackedLength r.pBuf).m_abPackedCode = r.pBuf := by
    show r.pBuf.take nPackedLength = r.pBuf
    rw [hn2, ← hlen, List.take_length]
  exact ⟨htake, by rw [htake, hlen]⟩

theorem examplePackage_isSome :
    (AssembleWorkerReplyPackage (fun _ => none) 64 exampleShaderMap "example_ps20b" 3
      []).isSome = true := by
  decide

/-- C28 at `exampleCombo`: the package of its two dynamic combos has 23 bytes, and
23 is the count that is returned. -/
theorem C28_returned_count_is_appended_length_witness :
    ((AssembleWorkerReplyPackage (fun _ => none) 64 exampleShaderMap "example_ps20b" 3
      []).get examplePackage_isSome).nBytesWritten = 23 ∧
    (∃ appended,
      ((AssembleWorkerReplyPackage (fun _ => none) 64 exampleShaderMap "example_ps20b" 3
        []).get examplePackage_isSome).pBuf = [] ++ appended ∧
      ((AssembleWorkerReplyPackage (fun _ => none) 64 exampleShaderMap "example_ps20b" 3
        []).get examplePackage_isSome).nBytesWritten = appended.length) :=
  ⟨by decide,
    (C28_returned_count_is_appended_length (fun _ => none) 64 exampleShaderMap "example_ps20b"
      3 [] _ (Option.some_get _).symm).1⟩

/-! ## `AssembleWorkerReplyPackage` on a static combo without dynamic combos -/

/-- C29. Let the static combo `nComboOfEntry` of the shader be in the accumulator
with an empty list of dynamic combos (as a sealed combo is, whatever its packed
blob). Then `AssembleWorkerReplyPackage` returns `0`, leaves `pBuf` as it is and
unlinks the combo from the hash of the shader (the other combos and the other
shaders are untouched); the pass of `TryToPackageData` stores no packed blob, so
the accumulator is left without the combo; and a file that `WriteShaderFiles`
builds from this hash has no record and no alias record of the combo (a record
with its id can only be the sentinel). -/
theorem C29_empty_combo_removed (compress : List Byte → Option (List Byte)) (maxBlock : Nat)
    (slot : Nat → StaticComboNodeHash_t → Nat) (g_ShaderByteCode : CShaderMap)
    (m_szName : String) (nComboOfEntry : Nat) (hash : StaticComboNodeHash_t)
    (pStComboRec : CStaticCombo) (pBuf : List Byte)
    (hg : g_ShaderByteCode m_szName = some hash) (hnd : KeysNodup hash)
    (hp : FindByKey hash nComboOfEntry = some pStComboRec)
    (hemp : pStComboRec.m_DynamicCombos = []) :
    (∃ r, AssembleWorkerReplyPackage compress maxBlock g_ShaderByteCode m_szName nComboOfEntry
        pBuf = some r ∧
      r.nBytesWritten = 0 ∧ r.pBuf = pBuf ∧
      r.g_ShaderByteCode m_szName = some (DeleteByKey hash nComboOfEntry) ∧
      ∀ other, other ≠ m_szName → r.g_ShaderByteCode other = g_ShaderByteCode other) ∧
    sealStaticCombo compress maxBlock slot g_ShaderByteCode m_szName nComboOfEntry =
      some (Function.update g_ShaderByteCode m_szName
        (some (DeleteByKey hash nComboOfEntry))) ∧
    StaticComboFromDict
      (Function.update g_ShaderByteCode m_szName (some (DeleteByKey hash nComboOfEntry)))
      m_szName nComboOfEntry = none ∧
    (∀ j, j ≠ nComboOfEntry →
      FindByKey (DeleteByKey hash nComboOfEntry) j = FindByKey hash j) ∧
    ∀ (crc32 : List Byte → Nat) (version : Nat) (shaderInfo : ShaderInfo_t) (out : VcsFile),
      writeVcsFile crc32 version shaderInfo (DeleteByKey hash nComboOfEntry) = some out →
      (∀ rec ∈ out.StaticComboHeaders, rec.m_nStaticComboID = nComboOfEntry →
        rec.m_pByteCode = none) ∧
      ∀ a ∈ out.duplicateCombos,
        a.m_nStaticComboID ≠ nComboOfEntry ∧ a.m_nSourceStaticCombo ≠ nComboOfEntry := by
  have hfind : StaticComboFromDict g_ShaderByteCode m_szName nComboOfEntry =
      some pStComboRec := by
    unfold StaticComboFromDict
    rw [hg]
    exact hp
  have hisEmpty : pStComboRec.m_DynamicCombos.isEmpty = true := by
    rw [hemp]
    rfl
  have hasm : ∀ buf, AssembleWorkerReplyPackage compress maxBlock g_ShaderByteCode m_szName
      nComboOfEntry buf =
      some { nBytesWritten := 0, pBuf := buf
             g_ShaderByteCode := Function.update g_ShaderByteCode m_szName
               (some (DeleteByKey hash nComboOfEntry))
             handedToCompressor := [] } := by
    intro buf
    unfold AssembleWorkerReplyPackage
    rw [hfind]
    simp only [hisEmpty, if_true, hg, Option.getD_some]
  have hdel : ∀ j, FindByKey (DeleteByKey hash nComboOfEntry) j =
      if j = nComboOfEntry then none else FindByKey hash j := FindByKey_delete hnd nComboOfEntry
  refine ⟨⟨_, hasm pBuf, rfl, rfl, by simp, fun other ho => Function.update_noteq ho _ _⟩,
    ?_, ?_, fun j hj => by rw [hdel j, if_neg hj], ?_⟩
  · unfold sealStaticCombo
    rw [hasm []]
    simp
  · unfold StaticComboFromDict
    simp only [Function.update_same]
    rw [hdel nComboOfEntry, if_pos rfl]
  · intro crc32 version shaderInfo out hw
    have hnd2 := KeysNodup_delete hnd nComboOfEntry
    obtain ⟨Us, Ds, ha⟩ := writeVcsFile_archiveOf hnd2 hw
    obtain ⟨hUs, hDs⟩ := ha.mem_hash
    have hnot : ∀ u ∈ DeleteByKey hash nComboOfEntry, u.m_nStaticComboID ≠ nComboOfEntry := by
      intro u hu heq
      have h1 := FindByKey_of_mem hnd2 hu
      rw [heq, hdel nComboOfEntry, if_pos rfl] at h1
      exact absurd h1 (by simp)
    constructor
    · intro rec hrec hid
      rcases ha.records_cases rec hrec with ⟨u, hu, -, h2⟩ | ⟨h1, -⟩
      · exact absurd (h2.symm.trans hid) (hnot u (hUs u hu).1)
      · exact h1
    · intro a hmem
      rw [ha.aliases] at hmem
      obtain ⟨x, hx, rfl⟩ := List.mem_map.1 hmem
      exact ⟨hnot x.1 (hDs x hx).1, hnot x.2 (hUs x.2 (ha.canonical x hx).1).1⟩

/-- C29 at the sealed combo `2` of `exampleHash`: the call returns `0`, and the
hash is left with the combos `0` and `1`. -/
theorem C29_empty_combo_removed_witness :
    (∃ r, AssembleWorkerReplyPackage (fun _ => none) 64
        (Function.update (fun _ => none) "example_ps20b" (some exampleHash)) "example_ps20b" 2
        [] = some r ∧
      r.nBytesWritten = 0 ∧ r.pBuf = [] ∧
      r.g_ShaderByteCode "example_ps20b" = some (DeleteByKey exampleHash 2) ∧
      ∀ other, other ≠ "example_ps20b" →
        r.g_ShaderByteCode other =
          (Function.update (fun _ => none) "example_ps20b" (some exampleHash) : CShaderMap)
            other) ∧
    (DeleteByKey exampleHash 2).map (fun p => p.m_nStaticComboID) = [0, 1] :=
  ⟨(C29_empty_combo_removed (fun _ => none) 64 (fun _ _ => 0)
      (Function.update (fun _ => none) "example_ps20b" (some exampleHash)) "example_ps20b" 2
      exampleHash { m_nStaticComboID := 2, m_DynamicCombos := []
                    m_abPackedCode := [1, 0, 0, 128, 7] } []
      (by simp) (by decide) (by decide) rfl).1, by decide⟩

/-! ## The header of the file -/

theorem int32Bits_narrowCastI32 (x : Nat) : int32Bits (narrowCastI32 x) = x % 2 ^ 32 := by
  unfold int32Bits narrowCastI32
  have hlt : x % 2 ^ 32 < 2 ^ 32 := Nat.mod_lt _ (by norm_num)
  by_cases h : x % 2 ^ 32 < 2 ^ 31
  · rw [if_pos h]
    have h1 : ((x % 2 ^ 32 : Nat) : Int) % 2 ^ 32 = ((x % 2 ^ 32 : Nat) : Int) :=
      Int.emod_eq_of_lt (by omega) (by omega)
    rw [h1]
    exact Int.toNat_ofNat _
  · rw [if_neg h]
    have h1 : (((x % 2 ^ 32 : Nat) : Int) - 2 ^ 32) % 2 ^ 32 = ((x % 2 ^ 32 : Nat) : Int) := by
      rw [Int.sub_emod, Int.emod_self, sub_zero, Int.emod_emod_of_dvd _ (dvd_refl _)]
      exact Int.emod_eq_of_lt (by omega) (by omega)
    rw [h1]
    exact Int.toNat_ofNat _

/-- C26. Let `WriteShaderFiles` write the file of an entry of an ordered
configuration whose shader info `CompileShaders` has registered (the shader has
not failed, was not written before and has a hash of byte code). The file
starts with the 28 bytes of the header, seven words in this order: the version
number; `total_combos`, which holds the `numCombos` of the entry reduced modulo
`2^32` (as an `int32` it is `numCombos` itself when `numCombos < 2^31`);
`dynamic_combos`, the `numDynamicCombos` of the entry, which is below `2^31`;
the flags `0`; the centroid mask of the entry; the number of records of the
table; and the CRC32 of the entry. -/
theorem C26_header_fields (env : Environment) (pEntry : CfgEntryInfo) (p p1 : ProgramState)
    (hash : StaticComboNodeHash_t)
    (hord : env.cfg.Pairwise (fun a b => a.m_iCommandEnd ≤ b.m_iCommandStart))
    (hmem : pEntry ∈ env.cfg) (hrange : pEntry.m_iCommandStart < pEntry.m_iCommandEnd)
    (hname : pEntry.m_szName ≠ "")
    (hinfo : p.g_ShaderToShaderInfo pEntry.m_szName =
      some (Shader_ParseShaderInfoFromCompileCommands env pEntry ShaderInfo_t.zero))
    (hnw : pEntry.m_szName ∉ p.g_ShaderWrittenToDisk)
    (hnf : pEntry.m_szName ∉ p.g_ShaderHadError)
    (hg : p.g_ShaderByteCode pEntry.m_szName = some hash)
    (hw : WriteShaderFiles env pEntry.m_szName p = some p1) :
    ∃ (out : VcsFile) (rest : List Byte),
      p1.fileSystem.files (vcsPath env.g_pShaderPath pEntry.m_szName) = some out.ShaderFile ∧
      out.ShaderFile = out.header.bytes ++ rest ∧ out.header.bytes.length = 28 ∧
      out.header.bytes =
        putU32 env.version ++ putU32 (pEntry.m_numCombos % 2 ^ 32) ++
          putU32 pEntry.m_numDynamicCombos ++ putU32 0 ++ putU32 pEntry.m_nCentroidMask ++
          putU32 out.StaticComboHeaders.length ++ putU32 pEntry.m_nCrc32 ∧
      out.header.m_nTotalCombos = narrowCastI32 pEntry.m_numCombos ∧
      (pEntry.m_numCombos < 2 ^ 31 → out.header.m_nTotalCombos = (pEntry.m_numCombos : Int)) ∧
      out.header.m_nDynamicCombos = (pEntry.m_numDynamicCombos : Int) ∧
      pEntry.m_numDynamicCombos < 2 ^ 31 ∧
      out.header.m_nCentroidMask = pEntry.m_nCentroidMask ∧
      out.header.m_nSourceCRC32 = pEntry.m_nCrc32 ∧
      out.StaticComboHeaders.length < 2 ^ 32 := by
  have hsi : (p.g_ShaderToShaderInfo pEntry.m_szName).getD ShaderInfo_t.zero =
      { m_nTotalShaderCombos := pEntry.m_numCombos
        m_pShaderName := pEntry.m_szName
        m_CentroidMask := pEntry.m_nCentroidMask
        m_nDynamicCombos := pEntry.m_numDynamicCombos
        m_Crc32 := pEntry.m_nCrc32 } := by
    rw [hinfo]
    unfold Shader_ParseShaderInfoFromCompileCommands
    rw [Combo_GetCombo_of_mem hord hmem (Nat.le_refl _) hrange]
    rfl
  obtain ⟨out, ops, hout, -, hfile⟩ := WriteShaderFiles_writes hw hnw hnf
    (by rw [hsi]; exact hname) hg
  rw [hsi] at hout hfile
  obtain ⟨st, table, -, htab, -, hrecs, hbytes, hhdr, hdyn, hlen, -⟩ := writeVcsFile_eq_some hout
  have hcount : out.StaticComboHeaders.length = table.length := by
    rw [hrecs, withOffsets_length]
  have hdyn2 : pEntry.m_numDynamicCombos < 2 ^ 31 := hdyn
  refine ⟨out, out.StaticComboHeaders.flatMap (fun r => r.toStaticComboRecord_t.bytes)
      ++ putU32 out.duplicateCombos.length
      ++ out.duplicateCombos.flatMap StaticComboAliasRecord_t.bytes
      ++ table.flatMap (recordBody hash), hfile, ?_, header_bytes_length _, ?_, ?_, ?_, ?_,
    hdyn2, ?_, ?_, ?_⟩
  · rw [hbytes]
    simp only [List.append_assoc]
  · rw [hhdr]
    have hdb : int32Bits ((pEntry.m_numDynamicCombos : Nat) : Int) =
        pEntry.m_numDynamicCombos := by
      unfold int32Bits
      have h1 : ((pEntry.m_numDynamicCombos : Nat) : Int) % 2 ^ 32 =
          ((pEntry.m_numDynamicCombos : Nat) : Int) := Int.emod_eq_of_lt (by omega) (by omega)
      rw [h1, Int.toNat_ofNat]
    simp only [ShaderHeader_t.bytes, int32Bits_narrowCastI32, hcount, hdb]
  · rw [hhdr]
  · intro hsmall
    rw [hhdr]
    exact narrowCastI32_of_lt hsmall
  · rw [hhdr]
  · rw [hhdr]
  · rw [hhdr]
  · rw [hcount]
    exact hlen

theorem registeredWrite_isSome :
    (WriteShaderFiles (runEnvironment false) alphaEntry.m_szName
      (registeredProgram (runEnvironment false) alphaEntry exampleHash)).isSome = true ∧
    (WriteShaderFiles hugeEnvironment hugeEntry.m_szName
      (registeredProgram hugeEnvironment hugeEntry exampleHash)).isSome = true := by
  constructor <;> decide

/-- C26 at the entry `alpha_ps20b` with the hash `exampleHash`: the header of the
file that is written holds the version `6`, `2` combos, `2` dynamic combos, the
flags `0`, the centroid mask `0`, `3` records and the CRC32 `0`. -/
theorem C26_header_fields_witness :
    (((WriteShaderFiles (runEnvironment false) alphaEntry.m_szName
        (registeredProgram (runEnvironment false) alphaEntry exampleHash)).get
          registeredWrite_isSome.1).fileSystem.files "root/shaders/fxc/alpha_ps20b.vcs").map
        (fun file => file.take 28) =
      some [6, 0, 0, 0, 2, 0, 0, 0, 2, 0, 0, 0, 0, 0, 0, 0, 0, 0, 0, 0, 3, 0, 0, 0, 0, 0, 0, 0] ∧
    ∃ (out : VcsFile) (rest : List Byte),
      ((WriteShaderFiles (runEnvironment false) alphaEntry.m_szName
        (registeredProgram (runEnvironment false) alphaEntry exampleHash)).get
          registeredWrite_isSome.1).fileSystem.files
        (vcsPath (runEnvironment false).g_pShaderPath alphaEntry.m_szName) =
          some out.ShaderFile ∧
      out.ShaderFile = out.header.bytes ++ rest ∧ out.header.bytes.length = 28 ∧
      out.header.bytes =
        putU32 (runEnvironment false).version ++ putU32 (alphaEntry.m_numCombos % 2 ^ 32) ++
          putU32 alphaEntry.m_numDynamicCombos ++ putU32 0 ++ putU32 alphaEntry.m_nCentroidMask ++
          putU32 out.StaticComboHeaders.length ++ putU32 alphaEntry.m_nCrc32 ∧
      out.header.m_nTotalCombos = narrowCastI32 alphaEntry.m_numCombos ∧
      (alphaEntry.m_numCombos < 2 ^ 31 →
        out.header.m_nTotalCombos = (alphaEntry.m_numCombos : Int)) ∧
      out.header.m_nDynamicCombos = (alphaEntry.m_numDynamicCombos : Int) ∧
      alphaEntry.m_numDynamicCombos < 2 ^ 31 ∧
      out.header.m_nCentroidMask = alphaEntry.m_nCentroidMask ∧
      out.header.m_nSourceCRC32 = alphaEntry.m_nCrc32 ∧
      out.StaticComboHeaders.length < 2 ^ 32 :=
  ⟨by decide,
    C26_header_fields (runEnvironment false) alphaEntry
      (registeredProgram (runEnvironment false) alphaEntry exampleHash) _ exampleHash
      (by decide) (by decide) (by decide) (by decide) (by simp [registeredProgram])
      (by decide) (by decide) (by simp [registeredProgram]) (Option.some_get _).symm⟩

/-- C26 as stated fails for an entry with `2^32` combos: `WriteShaderFiles` writes
the file of `hugeEntry`, whose `numCombos` is `2^32`, and the word `total_combos`
of the header (the bytes 4 to 7 of the file) holds `0`; the centroid mask `5`
and the CRC32 `77` are passed through. -/
theorem C26_total_combos_wraps :
    hugeEntry.m_numCombos = 2 ^ 32 ∧
    (((WriteShaderFiles hugeEnvironment hugeEntry.m_szName
        (registeredProgram hugeEnvironment hugeEntry exampleHash)).get
          registeredWrite_isSome.2).fileSystem.files "root/shaders/fxc/huge_ps20b.vcs").map
        (fun file => file.take 28) =
      some [6, 0, 0, 0, 0, 0, 0, 0, 1, 0, 0, 0, 0, 0, 0, 0, 5, 0, 0, 0, 3, 0, 0, 0, 77, 0, 0, 0] :=
  ⟨rfl, by decide⟩

/-! ## The order of an alias and its canonical combo -/

theorem findIdentical_some {headers : List StaticComboAuxInfo_t} {nCRC32 : Nat}
    {code : List Byte} :
    ∀ {idxs : List Nat} {check : StaticComboAuxInfo_t},
      findIdentical headers nCRC32 code idxs = some check →
      check ∈ headers ∧ ∃ pc, check.m_pByteCode = some pc ∧ pc.m_abPackedCode = code := by
  intro idxs
  induction idxs with
  | nil => intro check h; exact absurd h (by simp [findIdentical])
  | cons i rest ih =>
    intro check h
    unfold findIdentical at h
    cases hi : headers[i]? with
    | none =>
      rw [hi] at h
      exact ih h
    | some c0 =>
      rw [hi] at h
      simp only at h
      cases hb : c0.m_pByteCode with
      | none =>
        rw [hb] at h
        exact ih h
      | some pc =>
        rw [hb] at h
        simp only at h
        by_cases hc : c0.m_nCRC32 = nCRC32 ∧ pc.m_abPackedCode.length = code.length
            ∧ pc.m_abPackedCode.take pc.m_abPackedCode.length
              = code.take pc.m_abPackedCode.length
        · rw [if_pos hc] at h
          simp only [Option.some.injEq] at h
          subst h
          obtain ⟨hlt, hget⟩ := List.getElem?_eq_some_iff.1 hi
          refine ⟨hget ▸ List.getElem_mem hlt, pc, hb, ?_⟩
          obtain ⟨-, h2, h3⟩ := hc
          rw [List.take_length, h2, List.take_length] at h3
          exact h3
        · rw [if_neg hc] at h
          exact ih h

theorem VisitOrder_mono {done : StaticComboNodeHash_t} {st : DedupState}
    (h : VisitOrder done st) (more : StaticComboNodeHash_t) : VisitOrder (done ++ more) st := by
  have hget : ∀ (i : Nat) (c : CStaticCombo), done[i]? = some c → (done ++ more)[i]? = some c := by
    intro i c hi
    obtain ⟨hlt, -⟩ := List.getElem?_eq_some_iff.1 hi
    rw [List.getElem?_append_left hlt]
    exact hi
  obtain ⟨h1, h2⟩ := h
  constructor
  · intro hdr hh
    obtain ⟨i, c, hi, hrest⟩ := h1 hdr hh
    exact ⟨i, c, hget i c hi, hrest⟩
  · intro d hd
    obtain ⟨i, j, c, a, hij, hi, hj, hrest⟩ := h2 d hd
    exact ⟨i, j, c, a, hij, hget i c hi, hget j a hj, hrest⟩

theorem VisitOrder_step {crc32 : List Byte → Nat} {done : StaticComboNodeHash_t}
    {pStatic : CStaticCombo} {st st1 : DedupState} (h : VisitOrder done st)
    (hs : dedupStep crc32 pStatic st = some st1) : VisitOrder (done ++ [pStatic]) st1 := by
  have hmono := VisitOrder_mono h [pStatic]
  have hlast : (done ++ [pStatic])[done.length]? = some pStatic := by
    rw [List.getElem?_append_right (Nat.le_refl _)]
    simp
  unfold dedupStep at hs
  by_cases he : pStatic.m_abPackedCode.length = 0
  · rw [if_pos he] at hs
    simp only [Option.some.injEq] at hs
    subst hs
    exact hmono
  · rw [if_neg he] at hs
    cases hn : narrowU32 pStatic.m_nStaticComboID with
    | none => rw [hn] at hs; exact absurd hs (by simp)
    | some id32 =>
      rw [hn] at hs
      simp only at hs
      obtain ⟨-, hid⟩ := narrowU32_eq_some.1 hn
      cases hf : findIdentical st.StaticComboHeaders (crc32 pStatic.m_abPackedCode)
          pStatic.m_abPackedCode
          (st.comboIndicesHashedByCRC32.getD
            (crc32 pStatic.m_abPackedCode % STATIC_COMBO_HASH_SIZE) []) with
      | some check =>
        rw [hf] at hs
        simp only [Option.some.injEq] at hs
        subst hs
        refine ⟨hmono.1, ?_⟩
        intro d hd
        rcases List.mem_append.1 hd with hd | hd
        · exact hmono.2 d hd
        · rw [List.mem_singleton] at hd
          subst hd
          obtain ⟨hmem, pc, hpc, hcode⟩ := findIdentical_some hf
          obtain ⟨i, c, hi, hbc, hcid⟩ := h.1 check hmem
          have hcpc : c = pc := Option.some.inj (hbc.symm.trans hpc)
          obtain ⟨hlt, -⟩ := List.getElem?_eq_some_iff.1 hi
          refine ⟨i, done.length, c, pStatic, hlt, ?_, hlast, hcid, hid, ?_⟩
          · rw [List.getElem?_append_left hlt]
            exact hi
          · rw [hcpc]
            exact hcode
      | none =>
        rw [hf] at hs
        simp only [Option.some.injEq] at hs
        subst hs
        refine ⟨?_, hmono.2⟩
        intro hdr hh
        rcases List.mem_append.1 hh with hh | hh
        · exact hmono.1 hdr hh
        · rw [List.mem_singleton] at hh
          subst hh
          exact ⟨done.length, pStatic, hlast, rfl, hid⟩

theorem VisitOrder_loop {crc32 : List Byte → Nat} (rest : StaticComboNodeHash_t) :
    ∀ {done : StaticComboNodeHash_t} {st st1 : DedupState}, VisitOrder done st →
      dedupLoop crc32 rest st = some st1 → VisitOrder (done ++ rest) st1 := by
  induction rest with
  | nil =>
    intro done st st1 h hl
    simp only [dedupLoop, Option.some.injEq] at hl
    subst hl
    rw [List.append_nil]
    exact h
  | cons p rest ih =>
    intro done st st1 h hl
    unfold dedupLoop at hl
    cases hs : dedupStep crc32 p st with
    | none => rw [hs] at hl; exact absurd hl (by simp)
    | some st2 =>
      rw [hs] at hl
      have h2 := ih (VisitOrder_step h hs) hl
      rw [List.append_assoc] at h2
      exact h2

/-- C25. In every alias record (a, c) of a file that `WriteShaderFiles` builds from
a hash without duplicate keys, the canonical combo `c` is a node that the
traversal of the hash visits before the aliased combo `a`; the two have the
same packed blob and different ids. Which of the two ids is the smaller one is
not determined. -/
theorem C25_canonical_is_visited_first (crc32 : List Byte → Nat) (version : Nat)
    (shaderInfo : ShaderInfo_t) (hash : StaticComboNodeHash_t) (out : VcsFile)
    (hnd : KeysNodup hash) (h : writeVcsFile crc32 version shaderInfo hash = some out) :
    ∀ d ∈ out.duplicateCombos, ∃ (i j : Nat) (c a : CStaticCombo), i < j ∧
      hash[i]? = some c ∧ hash[j]? = some a ∧
      d.m_nSourceStaticCombo = c.m_nStaticComboID ∧ d.m_nStaticComboID = a.m_nStaticComboID ∧
      c.m_abPackedCode = a.m_abPackedCode ∧ d.m_nSourceStaticCombo ≠ d.m_nStaticComboID := by
  obtain ⟨st, table, hloop, -, hdup, -⟩ := writeVcsFile_eq_some h
  have hinit : VisitOrder [] DedupState.init :=
    ⟨fun hdr hh => absurd hh (List.not_mem_nil _), fun d hd => absurd hd (List.not_mem_nil _)⟩
  have hvo := VisitOrder_loop hash hinit hloop
  rw [List.nil_append] at hvo
  intro d hd
  rw [hdup] at hd
  have hd2 : d ∈ st.duplicateCombos := (stdSort_perm _ _).mem_iff.1 hd
  obtain ⟨i, j, c, a, hij, hi, hj, hsrc, hid, hcode⟩ := hvo.2 d hd2
  refine ⟨i, j, c, a, hij, hi, hj, hsrc, hid, hcode, ?_⟩
  rw [hsrc, hid]
  intro heq
  obtain ⟨hjlt, -⟩ := List.getElem?_eq_some_iff.1 hj
  have hne := List.nodup_iff_getElem?_ne_getElem?.1 hnd i j hij (by
    rw [List.length_map]
    exact hjlt)
  apply hne
  rw [List.getElem?_map, List.getElem?_map, hi, hj]
  simp only [Option.map_some']
  rw [heq]

/-- C25 at `tripleHash`: the combos `2` and `3` are aliases of the combo `1`, which
is visited first. -/
theorem C25_canonical_is_visited_first_witness :
    ∃ out, writeVcsFile exampleCrc32 6 exampleInfo tripleHash = some out ∧
      out.duplicateCombos =
        [{ m_nStaticComboID := 2, m_nSourceStaticCombo := 1 },
         { m_nStaticComboID := 3, m_nSourceStaticCombo := 1 }] ∧
      ∀ d ∈ out.duplicateCombos, ∃ (i j : Nat) (c a : CStaticCombo), i < j ∧
        tripleHash[i]? = some c ∧ tripleHash[j]? = some a ∧
        d.m_nSourceStaticCombo = c.m_nStaticComboID ∧
        d.m_nStaticComboID = a.m_nStaticComboID ∧
        c.m_abPackedCode = a.m_abPackedCode ∧ d.m_nSourceStaticCombo ≠ d.m_nStaticComboID :=
  ⟨_, rfl, rfl,
    C25_canonical_is_visited_first exampleCrc32 6 exampleInfo tripleHash _ (by decide) rfl⟩

/-- C25 as stated fails: in the file built from `laterCanonicalHash`, where the
traversal visits the combo `7097` before the combo `1` and both have the same
packed blob, the one alias record maps the aliased combo `1` to the canonical
combo `7097`, which is the larger id. -/
theorem C25_canonical_id_is_larger :
    ∃ out, writeVcsFile exampleCrc32 6 exampleInfo laterCanonicalHash = some out ∧
      out.duplicateCombos = [{ m_nStaticComboID := 1, m_nSourceStaticCombo := 7097 }] ∧
      ¬ ((7097 : Nat) < 1) :=
  ⟨_, rfl, rfl, by decide⟩

/-! ## A shader whose combos are all skipped -/

theorem Combo_GetNext_none {alive : Nat → Bool} {iFrom iEnd : Nat}
    (h : ∀ c, iFrom ≤ c → c < iEnd → alive c = false) : Combo_GetNext alive iFrom iEnd = none := by
  unfold Combo_GetNext
  rw [List.find?_eq_none]
  intro c hc
  rw [List.mem_range'_1] at hc
  rw [h c hc.1 (by omega)]
  decide

theorem sealPackaged_of_null {compress : List Byte → Option (List Byte)} {maxBlock : Nat}
    {slot : Nat → StaticComboNodeHash_t → Nat} {g : CShaderMap} (hg : ∀ n, g n = none) :
    ∀ passes : List (CfgEntryInfo × Nat),
      sealPackaged compress maxBlock slot passes g = some g := by
  intro passes
  induction passes with
  | nil => rfl
  | cons a t ih =>
    obtain ⟨pInfoBegin, nComboBegin⟩ := a
    unfold sealPackaged
    rw [sealStaticCombo_of_null (hg pInfoBegin.m_szName)]
    exact ih

/-- With an empty accumulator the passes of `TryToPackageData` leave the globals
as they are. -/
theorem TryToPackageData_sealing_of_null {env : Environment} {cmd : Nat} {s s1 : RunState}
    (hg : ∀ n, s.program.g_ShaderByteCode n = none)
    (h : TryToPackageData_sealing env cmd s = some s1) : s1.program = s.program := by
  unfold TryToPackageData_sealing at h
  cases ht : TryToPackageData env.cfg env.fuel s.dispatcher cmd with
  | none => rw [ht] at h; exact absurd h (by simp)
  | some r =>
    obtain ⟨dispatcher, passes⟩ := r
    rw [ht] at h
    simp only at h
    rw [sealPackaged_of_null hg passes] at h
    simp only [Option.some.injEq] at h
    rw [← h]

theorem Idle_event {env : Environment} {i : Nat} {s : RunState} {ev : WorkerEvent}
    {t t1 : ThreadedState} (hi : Idle s t) (h : workerEvent env i ev t = some t1) :
    Idle s t1 := by
  obtain ⟨h1, h2, h3, h4, h5⟩ := hi
  cases ev with
  | start =>
    unfold workerEvent at h
    simp only at h
    by_cases hlt : t.workers.length < i
    · rw [if_pos hlt] at h
      simp only [Option.some.injEq] at h
      subst h
      refine ⟨h1, h2, h3, h4, ?_⟩
      intro p hp
      rcases List.mem_append.1 hp with hp | hp
      · exact h5 p hp
      · exact Or.inl (List.mem_singleton.1 hp)
    · rw [if_neg hlt] at h
      simp only [Option.some.injEq] at h
      subst h
      exact ⟨h1, h2, h3, h4, h5⟩
  | step w =>
    unfold workerEvent at h
    simp only at h
    unfold workerStep at h
    cases hw : t.workers[w]? with
    | none =>
      rw [hw] at h
      simp only [Option.some.injEq] at h
      subst h
      exact ⟨h1, h2, h3, h4, h5⟩
    | some p =>
      obtain ⟨hlt, hget⟩ := List.getElem?_eq_some_iff.1 hw
      have hp : p ∈ t.workers := hget ▸ List.getElem_mem hlt
      rw [hw] at h
      rcases h5 p hp with hp2 | hp2
      · subst hp2
        simp only [OnProcessTake, h4, Option.some.injEq] at h
        subst h
        refine ⟨h1, h2, h3, rfl, ?_⟩
        intro q hq
        rcases List.mem_or_eq_of_mem_set hq with hq | hq
        · exact h5 q hq
        · exact Or.inr hq
      · subst hp2
        simp only [Option.some.injEq] at h
        subst h
        exact ⟨h1, h2, h3, h4, h5⟩

theorem Idle_events {env : Environment} {i : Nat} {s : RunState} (events : List WorkerEvent) :
    ∀ {t t1 : ThreadedState}, Idle s t → workerEvents env i events t = some t1 → Idle s t1 := by
  induction events with
  | nil =>
    intro t t1 hi h
    simp only [workerEvents, Option.some.injEq] at h
    subst h
    exact hi
  | cons ev evs ih =>
    intro t t1 hi h
    unfold workerEvents at h
    cases he : workerEvent env i ev t with
    | none => rw [he] at h; exact absurd h (by simp)
    | some t2 =>
      rw [he] at h
      exact ih (Idle_event hi he) h

/-- The processing of a range none of whose commands is not skipped, from an
empty accumulator: no response is handled and the globals are as before. -/
theorem ProcessCommandRange_all_skipped {env : Environment} {m_nThreads : Nat}
    {events : List WorkerEvent} {s0 s1 : RunState} {iFirst iEnd : Nat}
    (hskip : ∀ c, iFirst ≤ c → c < iEnd → env.alive c = false)
    (hg : ∀ n, s0.program.g_ShaderByteCode n = none)
    (h : ProcessCommandRange env m_nThreads events s0 iFirst iEnd = some s1) :
    s1.program = s0.program ∧ s1.handled = s0.handled ∧ s1.m_bStopped = s0.m_bStopped := by
  unfold ProcessCommandRange at h
  simp only at h
  have hnext : (RangeBegin env.alive s0.dispatcher iFirst iEnd).m_hCombo = none :=
    Combo_GetNext_none hskip
  have hfin : ∀ s2 : RunState, RangeFinished env s2 = some s1 → s2.program = s0.program →
      s2.handled = s0.handled → s2.m_bStopped = s0.m_bStopped →
      s1.program = s0.program ∧ s1.handled = s0.handled ∧ s1.m_bStopped = s0.m_bStopped := by
    intro s2 hr hp hh hst
    unfold RangeFinished at hr
    have hfr := TryToPackageData_sealing_frame hr
    have hpr := TryToPackageData_sealing_of_null (by rw [hp]; exact hg) hr
    exact ⟨hpr.trans hp, hfr.2.2.2.2.1.trans hh, hfr.2.2.2.2.2.1.trans hst⟩
  by_cases hmt : m_nThreads > 1
  · rw [if_pos hmt] at h
    cases hrun : Run env m_nThreads events
        { s0 with dispatcher := RangeBegin env.alive s0.dispatcher iFirst iEnd } with
    | none => rw [hrun] at h; exact absurd h (by simp)
    | some s2 =>
      rw [hrun, Option.some_bind] at h
      unfold Run at hrun
      cases hev : workerEvents env m_nThreads events
          { run := { s0 with dispatcher := RangeBegin env.alive s0.dispatcher iFirst iEnd }
            workers := [] } with
      | none => rw [hev] at hrun; exact absurd hrun (by simp)
      | some t =>
        rw [hev] at hrun
        simp only at hrun
        split at hrun
        · simp only [Option.some.injEq] at hrun
          subst hrun
          have hidle : Idle s0 t := Idle_events events
            ⟨rfl, rfl, rfl, hnext, fun p hp => absurd hp (List.not_mem_nil _)⟩ hev
          exact hfin _ h hidle.1 hidle.2.1 hidle.2.2.1
        · exact absurd hrun (by simp)
  · rw [if_neg hmt] at h
    cases hst : OnProcessST env (iEnd - iFirst)
        { s0 with dispatcher := RangeBegin env.alive s0.dispatcher iFirst iEnd } with
    | none => rw [hst] at h; exact absurd h (by simp)
    | some s2 =>
      rw [hst, Option.some_bind] at h
      have hs2 : s2 = { s0 with dispatcher := RangeBegin env.alive s0.dispatcher iFirst iEnd } := by
        cases hf : iEnd - iFirst with
        | zero =>
          rw [hf] at hst
          simp only [OnProcessST, hnext, Option.isSome_none, Bool.false_and, Bool.false_eq_true,
            if_false, Option.some.injEq] at hst
          exact hst.symm
        | succ n =>
          rw [hf] at hst
          simp only [OnProcessST, hnext, Option.some.injEq] at hst
          exact hst.symm
      subst hs2
      exact hfin _ h rfl rfl rfl

/-- A call of `WriteShaderFiles` for a shader that has not failed, was not written
before and has a null hash: it returns at `if ( !pByteCodeArray )` (or at the
test of the shader name), the files are as before, and nothing is written or
removed. -/
theorem WriteShaderFiles_of_null (env : Environment) {name : String} {p : ProgramState}
    (hw : name ∉ p.g_ShaderWrittenToDisk) (hfail : name ∉ p.g_ShaderHadError)
    (hg : p.g_ShaderByteCode name = none) :
    ∃ p1, WriteShaderFiles env name p = some p1 ∧ name ∈ p1.g_ShaderWrittenToDisk ∧
      p1.fileSystem.files = p.fileSystem.files ∧
      ∃ ops, p1.fileSystem.operations = p.fileSystem.operations ++ ops ∧
        ∀ op ∈ ops, op = FileOperation.createDirectories (vcsDirectory env.g_pShaderPath) ∨
          ∃ path, op = FileOperation.permissions path := by
  unfold WriteShaderFiles
  rw [if_neg hw]
  simp only [hfail, decide_False, Bool.false_eq_true, if_false, hg]
  generalize (p.g_ShaderToShaderInfo name).getD ShaderInfo_t.zero = si
  obtain ⟨-, h2, ops, h3, h4⟩ := GetVCSFilenames_spec env.g_pShaderPath si p.fileSystem
  by_cases hname : si.m_pShaderName = ""
  · rw [if_pos hname]
    exact ⟨_, rfl, List.mem_append_right _ (List.mem_singleton.2 rfl), rfl, [], by simp,
      fun op hop => absurd hop (List.not_mem_nil _)⟩
  · rw [if_neg hname]
    refine ⟨_, rfl, List.mem_append_right _ (List.mem_singleton.2 rfl), h2, ops, h3, ?_⟩
    intro op hop
    rcases h4 op hop with h5 | h5
    · exact Or.inl h5
    · exact Or.inr ⟨_, h5⟩

theorem dedupLoop_of_no_code (crc32 : List Byte → Nat) :
    ∀ (hash : StaticComboNodeHash_t) (st : DedupState),
      (∀ q ∈ hash, q.m_abPackedCode = []) → dedupLoop crc32 hash st = some st := by
  intro hash
  induction hash with
  | nil => intro st _; rfl
  | cons q rest ih =>
    intro st h
    have hq : q.m_abPackedCode.length = 0 := by
      rw [h q (List.mem_cons_self _ _)]
      rfl
    unfold dedupLoop
    have hstep : dedupStep crc32 q st = some st := by
      unfold dedupStep
      rw [if_pos hq]
    rw [hstep]
    exact ih st (fun q1 hq1 => h q1 (List.mem_cons_of_mem _ hq1))

/-- The file that `WriteShaderFiles` builds from a hash none of whose static combos
has packed code: the header, the record of the sentinel with the offset `40`,
and the alias count `0`; 40 bytes, no body. -/
theorem writeVcsFile_of_no_code (crc32 : List Byte → Nat) (version : Nat)
    (shaderInfo : ShaderInfo_t) (hash : StaticComboNodeHash_t)
    (hcode : ∀ q ∈ hash, q.m_abPackedCode = []) (hdyn : shaderInfo.m_nDynamicCombos < 2 ^ 31) :
    ∃ out, writeVcsFile crc32 version shaderInfo hash = some out ∧
      out.header.m_nNumStaticCombos = 1 ∧ out.duplicateCombos = [] ∧
      out.ShaderFile = out.header.bytes ++ putU32 0xffffffff ++ putU32 40 ++ putU32 0 ∧
      out.ShaderFile.length = 40 := by
  have hloop := dedupLoop_of_no_code crc32 hash DedupState.init hcode
  have hsort : stdSort CompareComboIds (DedupState.init.StaticComboHeaders ++ [sentinelHeader]) =
      [sentinelHeader] := rfl
  have hsort2 : stdSort CompareDupComboIndices DedupState.init.duplicateCombos = [] := rfl
  have hex : ∃ out, writeVcsFile crc32 version shaderInfo hash = some out := by
    unfold writeVcsFile
    rw [hloop]
    simp only [hsort, hsort2]
    have h1 : narrowI32 shaderInfo.m_nDynamicCombos = some shaderInfo.m_nDynamicCombos :=
      narrowI32_eq_some.2 ⟨hdyn, rfl⟩
    have h2 : narrowU32 [sentinelHeader].length = some 1 := rfl
    have h3 : narrowU32 DedupState.init.duplicateCombos.length = some 0 := rfl
    rw [h1, h2, h3]
    simp only
    obtain ⟨res, hres⟩ := writeStream_returns hash
      { m_nVersion := version
        m_nTotalCombos := narrowCastI32 shaderInfo.m_nTotalShaderCombos
        m_nDynamicCombos := shaderInfo.m_nDynamicCombos
        m_nFlags := 0
        m_nCentroidMask := shaderInfo.m_CentroidMask
        m_nNumStaticCombos := 1
        m_nSourceCRC32 := shaderInfo.m_Crc32 } [sentinelHeader] 0 []
      (by
        intro r hr hne
        rw [List.mem_singleton] at hr
        subst hr
        exact absurd rfl hne)
      (by
        simp only [List.flatMap_cons, List.flatMap_nil, recordBody_sentinel]
        decide)
    rw [hres]
    exact ⟨_, rfl⟩
  obtain ⟨out, hout⟩ := hex
  obtain ⟨st, table, hl, htab, hdup, hrecs, hbytes, hhdr, -⟩ := writeVcsFile_eq_some hout
  have hst : st = DedupState.init := Option.some.inj (hl.symm.trans hloop)
  subst hst
  rw [hsort] at htab
  subst htab
  rw [hsort2] at hdup
  have hrec2 : out.StaticComboHeaders = [{ sentinelHeader with m_nFileOffset := 40 }] := by
    rw [hrecs, hdup]
    rfl
  have hfile : out.ShaderFile =
      out.header.bytes ++ putU32 0xffffffff ++ putU32 40 ++ putU32 0 := by
    have hbody : [sentinelHeader].flatMap (recordBody hash) = [] := by
      simp only [List.flatMap_cons, List.flatMap_nil, recordBody_sentinel, List.append_nil]
    rw [hbytes, hrec2, hdup, hbody]
    simp [StaticComboRecord_t.bytes, sentinelHeader]
  refine ⟨out, hout, by rw [hhdr]; rfl, hdup, hfile, ?_⟩
  rw [hfile]
  simp [header_bytes_length, putU32_length]

/-- C24. Let every command of the entry be skipped, let the accumulator be empty
when `CompileShaders` has registered the shader info and `ProcessCommandRange`
starts on the range of the entry, and let the shader have neither failed nor
been written. Then no response is handled, the hash of the shader stays null,
and the call of `WriteShaderFiles` for the shader returns without a file: the
files are as before and the only file operations are those of
`GetVCSFilenames`. The file that consists of the header, a table with the
sentinel alone and the alias count `0` (40 bytes, no body) is what
`WriteShaderFiles` builds from a hash that exists and holds no static combo
with packed code. -/
theorem C24_pruned_shader_writes_no_file (env : Environment) (m_nThreads : Nat)
    (events : List WorkerEvent) (pEntry : CfgEntryInfo) (s s2 : RunState)
    (hskip : ∀ c, pEntry.m_iCommandStart ≤ c → c < pEntry.m_iCommandEnd → env.alive c = false)
    (hg : ∀ n, s.program.g_ShaderByteCode n = none)
    (hnw : pEntry.m_szName ∉ s.program.g_ShaderWrittenToDisk)
    (hnf : pEntry.m_szName ∉ s.program.g_ShaderHadError)
    (hp : ProcessCommandRange env m_nThreads events (registerShaderInfo env pEntry s)
      pEntry.m_iCommandStart pEntry.m_iCommandEnd = some s2) :
    s2.handled = s.handled ∧ s2.program.g_ShaderByteCode pEntry.m_szName = none ∧
    (∃ p1, WriteShaderFiles env pEntry.m_szName s2.program = some p1 ∧
      pEntry.m_szName ∈ p1.g_ShaderWrittenToDisk ∧
      p1.fileSystem.files = s.program.fileSystem.files ∧
      ∃ ops, p1.fileSystem.operations = s.program.fileSystem.operations ++ ops ∧
        ∀ op ∈ ops, op = FileOperation.createDirectories (vcsDirectory env.g_pShaderPath) ∨
          ∃ path, op = FileOperation.permissions path) ∧
    ∀ (version : Nat) (shaderInfo : ShaderInfo_t) (hash : StaticComboNodeHash_t),
      (∀ q ∈ hash, q.m_abPackedCode = []) → shaderInfo.m_nDynamicCombos < 2 ^ 31 →
      ∃ out, writeVcsFile env.crc32 version shaderInfo hash = some out ∧
        out.header.m_nNumStaticCombos = 1 ∧ out.duplicateCombos = [] ∧
        out.ShaderFile = out.header.bytes ++ putU32 0xffffffff ++ putU32 40 ++ putU32 0 ∧
        out.ShaderFile.length = 40 := by
  have hg0 : ∀ n, (registerShaderInfo env pEntry s).program.g_ShaderByteCode n = none := hg
  obtain ⟨hprog, hh, -⟩ := ProcessCommandRange_all_skipped hskip hg0 hp
  have hg2 : s2.program.g_ShaderByteCode pEntry.m_szName = none := by
    rw [hprog]
    exact hg _
  obtain ⟨p1, hw, hmem, hfiles, ops, hops, hop⟩ := WriteShaderFiles_of_null env
    (show pEntry.m_szName ∉ s2.program.g_ShaderWrittenToDisk by rw [hprog]; exact hnw)
    (show pEntry.m_szName ∉ s2.program.g_ShaderHadError by rw [hprog]; exact hnf) hg2
  refine ⟨hh, hg2, ⟨p1, hw, hmem, ?_, ops, ?_, hop⟩, fun version shaderInfo hash hcode hdyn =>
    writeVcsFile_of_no_code env.crc32 version shaderInfo hash hcode hdyn⟩
  · rw [hfiles, hprog]
    rfl
  · rw [hops, hprog]
    rfl

theorem prunedRun_isSome :
    prunedRun.isSome = true ∧
    (ProcessCommandRange prunedEnvironment 1 []
      (registerShaderInfo prunedEnvironment alphaEntry (RunState.init ProgramState.init))
      alphaEntry.m_iCommandStart alphaEntry.m_iCommandEnd).isSome = true := by
  constructor <;> decide

/-- C24 at the entry `alpha_ps20b` when every command is skipped. -/
theorem C24_pruned_shader_writes_no_file_witness :
    ((ProcessCommandRange prunedEnvironment 1 []
        (registerShaderInfo prunedEnvironment alphaEntry (RunState.init ProgramState.init))
        alphaEntry.m_iCommandStart alphaEntry.m_iCommandEnd).get
          prunedRun_isSome.2).handled = (RunState.init ProgramState.init).handled ∧
    ((ProcessCommandRange prunedEnvironment 1 []
        (registerShaderInfo prunedEnvironment alphaEntry (RunState.init ProgramState.init))
        alphaEntry.m_iCommandStart alphaEntry.m_iCommandEnd).get
          prunedRun_isSome.2).program.g_ShaderByteCode alphaEntry.m_szName = none :=
  ⟨(C24_pruned_shader_writes_no_file prunedEnvironment 1 [] alphaEntry
      (RunState.init ProgramState.init) _ (fun _ _ _ => rfl) (fun _ => rfl) (by decide)
      (by decide) (Option.some_get _).symm).1,
    (C24_pruned_shader_writes_no_file prunedEnvironment 1 [] alphaEntry
      (RunState.init ProgramState.init) _ (fun _ _ _ => rfl) (fun _ => rfl) (by decide)
      (by decide) (Option.some_get _).symm).2.1⟩

/-- C24 as stated fails: in the concrete run in which every combo is skipped no
response is handled and nothing fails, the shader info of `alpha_ps20b` is
registered and `WriteShaderFiles` is called for the shader (its name is in the
written-set), and when `CompileShaders` returns there is no file at the path of
the shader: the only file operation of the run has created the directory. -/
theorem C24_pruned_shader_has_no_file :
    (prunedRun.get prunedRun_isSome.1).handled = [] ∧
    (prunedRun.get prunedRun_isSome.1).program.g_ShaderHadError = [] ∧
    (prunedRun.get prunedRun_isSome.1).program.g_ShaderWrittenToDisk =
      ["alpha_ps20b", "beta_vs20"] ∧
    ((prunedRun.get prunedRun_isSome.1).program.g_ShaderToShaderInfo "alpha_ps20b").map
      (fun si => si.m_pShaderName) = some "alpha_ps20b" ∧
    (prunedRun.get prunedRun_isSome.1).program.fileSystem.files
      "root/shaders/fxc/alpha_ps20b.vcs" = none ∧
    (prunedRun.get prunedRun_isSome.1).program.fileSystem.operations =
      [FileOperation.createDirectories "root/shaders/fxc"] := by
  decide

/-! ## The effect of one response -/

/-- C23. The effect of the locked block at the start of `HandleCommandResponse`
for one response, on an accumulator whose hashes have no two nodes with the
same key. If the response succeeded, the static combo of the command (shader
name, static id), a new one if none was there, gets exactly one block appended
to its dynamic combos, with the dynamic id of the command and the result bytes,
its packed code is untouched, and the had-error set is unchanged. If the
response failed, the name of the shader is in the had-error set and the
accumulator is unchanged. In both cases every other static combo of the shader
and every other shader are unchanged. -/
theorem C23_effect_of_one_response (env : Environment) (hCombo : Nat) (pResponse : IResponse)
    (s s1 : RunState) (pEntryInfo : CfgEntryInfo) (iComboIndex : Nat)
    (hc : Combo_GetCombo env.cfg hCombo = some (pEntryInfo, iComboIndex))
    (hnd : ∀ h, s.program.g_ShaderByteCode pEntryInfo.m_szName = some h → KeysNodup h)
    (h : HandleCommandResponse_store env hCombo pResponse s = some s1) :
    (pResponse.Succeeded = true →
      (∃ q, StaticComboFromDict s1.program.g_ShaderByteCode pEntryInfo.m_szName
          (nStComboIdx iComboIndex pEntryInfo.m_numDynamicCombos) = some q ∧
        q.m_DynamicCombos =
          ((StaticComboFromDict s.program.g_ShaderByteCode pEntryInfo.m_szName
            (nStComboIdx iComboIndex pEntryInfo.m_numDynamicCombos)).getD
              (CStaticCombo.new (nStComboIdx iComboIndex
                pEntryInfo.m_numDynamicCombos))).m_DynamicCombos ++
            [{ m_nComboID := nDyComboIdx iComboIndex pEntryInfo.m_numDynamicCombos
               code := pResponse.GetResultBuffer }] ∧
        q.m_abPackedCode =
          ((StaticComboFromDict s.program.g_ShaderByteCode pEntryInfo.m_szName
            (nStComboIdx iComboIndex pEntryInfo.m_numDynamicCombos)).getD
              (CStaticCombo.new (nStComboIdx iComboIndex
                pEntryInfo.m_numDynamicCombos))).m_abPackedCode) ∧
      s1.program.g_ShaderHadError = s.program.g_ShaderHadError) ∧
    (pResponse.Succeeded = false →
      pEntryInfo.m_szName ∈ s1.program.g_ShaderHadError ∧
      s1.program.g_ShaderHadError = emplace s.program.g_ShaderHadError pEntryInfo.m_szName ∧
      s1.program.g_ShaderByteCode = s.program.g_ShaderByteCode) ∧
    (∀ j, j ≠ nStComboIdx iComboIndex pEntryInfo.m_numDynamicCombos →
      StaticComboFromDict s1.program.g_ShaderByteCode pEntryInfo.m_szName j =
        StaticComboFromDict s.program.g_ShaderByteCode pEntryInfo.m_szName j) ∧
    (∀ other, other ≠ pEntryInfo.m_szName →
      s1.program.g_ShaderByteCode other = s.program.g_ShaderByteCode other) := by
  unfold HandleCommandResponse_store at h
  rw [hc] at h
  simp only at h
  cases hsucc : pResponse.Succeeded with
  | true =>
    rw [hsucc] at h
    simp only [if_true] at h
    by_cases hd : pEntryInfo.m_numDynamicCombos = 0
    · rw [if_pos hd] at h
      exact absurd h (by simp)
    · rw [if_neg hd] at h
      simp only [Option.some.injEq] at h
      subst h
      obtain ⟨hlook, -⟩ := @StaticComboFromDictAdd_lookup env.slot s.program.g_ShaderByteCode
        pEntryInfo.m_szName (nStComboIdx iComboIndex pEntryInfo.m_numDynamicCombos)
        (fun p => p.AddDynamicCombo (nDyComboIdx iComboIndex pEntryInfo.m_numDynamicCombos)
          pResponse.GetResultBuffer) (fun p => rfl) hnd
      have h0 := hlook (nStComboIdx iComboIndex pEntryInfo.m_numDynamicCombos)
      rw [if_pos rfl] at h0
      refine ⟨fun _ => ⟨⟨_, h0, rfl, rfl⟩, rfl⟩, fun hf => absurd hf (by decide), ?_, ?_⟩
      · intro j hj
        have h1 := hlook j
        rw [if_neg hj] at h1
        exact h1
      · intro other ho
        exact StaticComboFromDictAdd_other _ _ _ ho
  | false =>
    rw [hsucc] at h
    simp only [Bool.false_eq_true, if_false, Option.some.injEq] at h
    subst h
    refine ⟨fun hf => absurd hf (by decide), fun _ => ⟨?_, rfl, rfl⟩, fun j _ => rfl,
      fun other _ => rfl⟩
    show pEntryInfo.m_szName ∈ emplace s.program.g_ShaderHadError pEntryInfo.m_szName
    exact mem_emplace.2 (Or.inr rfl)

theorem skipRun_isSome :
    (HandleCommandResponse_store skipEnvironment 0 (skipEnvironment.execute 0)
      skipBegun).isSome = true ∧ skipFirst.isSome = true ∧ skipSecond.isSome = true := by
  refine ⟨?_, ?_, ?_⟩ <;> decide

/-- C23 at the response of the command `0` of `sixEntry`, which succeeds: the static
combo `2` is created with the one block of the dynamic combo `1`. -/
theorem C23_effect_of_one_response_witness :
    StaticComboFromDict
        ((HandleCommandResponse_store skipEnvironment 0 (skipEnvironment.execute 0)
          skipBegun).get skipRun_isSome.1).program.g_ShaderByteCode "example_ps20b" 2 =
      some { m_nStaticComboID := 2, m_DynamicCombos := [{ m_nComboID := 1, code := [0] }]
             m_abPackedCode := [] } ∧
    ∀ other, other ≠ sixEntry.m_szName →
      ((HandleCommandResponse_store skipEnvironment 0 (skipEnvironment.execute 0)
        skipBegun).get skipRun_isSome.1).program.g_ShaderByteCode other =
      skipBegun.program.g_ShaderByteCode other :=
  ⟨by decide,
    (C23_effect_of_one_response skipEnvironment 0 (skipEnvironment.execute 0) skipBegun _
      sixEntry 5 (by decide) (fun h hh => absurd hh (by simp [skipBegun, RunState.init,
        ProgramState.init])) (Option.some_get _).symm).2.2.2⟩

/-- C23 as stated fails for `HandleCommandResponse` as a whole, whose last
statement is the call of `TryToPackageData`. In the single-threaded run on
`sixEntry` with the command `1` skipped, the response of the command `0` puts a
block into the static combo `2`; the response of the command `2`, which belongs
to the static combo `1`, is handled next, and when `HandleCommandResponse`
returns the static combo `2` has no block left: `TryToPackageData` has sealed
it. -/
theorem C23_other_static_combo_is_sealed :
    staticComboOf sixEntry 0 = 2 ∧ staticComboOf sixEntry 2 = 1 ∧
    StaticComboFromDict (skipFirst.get skipRun_isSome.2.1).program.g_ShaderByteCode
        "example_ps20b" 2 =
      some { m_nStaticComboID := 2, m_DynamicCombos := [{ m_nComboID := 1, code := [0] }]
             m_abPackedCode := [] } ∧
    StaticComboFromDict (skipSecond.get skipRun_isSome.2.2).program.g_ShaderByteCode
        "example_ps20b" 2 =
      some { m_nStaticComboID := 2, m_DynamicCombos := []
             m_abPackedCode := [9, 0, 0, 128, 1, 0, 0, 0, 1, 0, 0, 0, 0] } ∧
    Combo_GetNext skipEnvironment.alive 1 6 = some 2 := by
  decide

/-! ## The compiler messages: the lines of a listing -/

theorem strchr_some {c : Char} {l a b : List Char} (h : strchr c l = some (a, b)) :
    l = a ++ c :: b ∧ c ∉ a := by
  induction l generalizing a b with
  | nil => simp [strchr] at h
  | cons x xs ih =>
    unfold strchr at h
    by_cases hx : x = c
    · rw [if_pos hx] at h
      simp only [Option.some.injEq, Prod.mk.injEq] at h
      obtain ⟨rfl, rfl⟩ := h
      simp [hx]
    · rw [if_neg hx] at h
      cases hs : strchr c xs with
      | none =>
        rw [hs] at h
        simp at h
      | some p =>
        obtain ⟨p1, p2⟩ := p
        rw [hs] at h
        simp only [Option.map_some', Option.some.injEq, Prod.mk.injEq] at h
        obtain ⟨rfl, rfl⟩ := h
        obtain ⟨h1, h2⟩ := ih hs
        refine ⟨by rw [h1]; rfl, ?_⟩
        intro hm
        rcases List.mem_cons.1 hm with e | e
        · exact hx e.symm
        · exact h2 e

theorem strchr_none {c : Char} {l : List Char} : strchr c l = none ↔ c ∉ l := by
  induction l with
  | nil => simp [strchr]
  | cons x xs ih =>
    unfold strchr
    by_cases hx : x = c
    · rw [if_pos hx]
      simp [hx]
    · rw [if_neg hx]
      simp only [Option.map_eq_none', ih, List.mem_cons, not_or]
      exact ⟨fun h => ⟨fun e => hx e.symm, h⟩, fun h => h.2⟩

theorem splitAtChar_ne_nil (c : Char) (l : List Char) : splitAtChar c l ≠ [] := by
  cases l with
  | nil => simp [splitAtChar]
  | cons x xs =>
    unfold splitAtChar
    by_cases hx : x = c
    · rw [if_pos hx]
      simp
    · rw [if_neg hx]
      cases splitAtChar c xs <;> simp

theorem splitAtChar_of_not_mem {c : Char} {l : List Char} (h : c ∉ l) :
    splitAtChar c l = [l] := by
  induction l with
  | nil => rfl
  | cons x xs ih =>
    have hx : ¬ x = c := fun e => h (by simp [e])
    have hxs : c ∉ xs := fun e => h (List.mem_cons_of_mem _ e)
    unfold splitAtChar
    rw [if_neg hx, ih hxs]

theorem splitAtChar_strchr {c : Char} {l a b : List Char} (h : strchr c l = some (a, b)) :
    splitAtChar c l = a :: splitAtChar c b := by
  induction l generalizing a b with
  | nil => simp [strchr] at h
  | cons x xs ih =>
    unfold strchr at h
    by_cases hx : x = c
    · rw [if_pos hx] at h
      simp only [Option.some.injEq, Prod.mk.injEq] at h
      obtain ⟨rfl, rfl⟩ := h
      conv_lhs => unfold splitAtChar
      rw [if_pos hx]
    · rw [if_neg hx] at h
      cases hs : strchr c xs with
      | none =>
        rw [hs] at h
        simp at h
      | some p =>
        obtain ⟨p1, p2⟩ := p
        rw [hs] at h
        simp only [Option.map_some', Option.some.injEq, Prod.mk.injEq] at h
        obtain ⟨rfl, rfl⟩ := h
        conv_lhs => unfold splitAtChar
        rw [if_neg hx, ih hs]

/-- The pieces of `splitAtChar` joined by the character give the string back, and no
piece holds the character: `splitAtChar` is the split at the character. -/
theorem splitAtChar_spec (c : Char) (l : List Char) :
    [c].intercalate (splitAtChar c l) = l ∧ ∀ piece ∈ splitAtChar c l, c ∉ piece := by
  induction l with
  | nil => simp [splitAtChar, List.intercalate]
  | cons x xs ih =>
    obtain ⟨h1, h2⟩ := ih
    unfold splitAtChar
    by_cases hx : x = c
    · rw [if_pos hx]
      have hne := splitAtChar_ne_nil c xs
      cases hs : splitAtChar c xs with
      | nil => exact absurd hs hne
      | cons p ps =>
        rw [hs] at h1 h2
        refine ⟨?_, ?_⟩
        · rw [← h1, hx]
          simp [List.intercalate, List.intersperse]
        · intro piece hp
          rcases List.mem_cons.1 hp with e | e
          · rw [e]; simp
          · exact h2 _ e
    · rw [if_neg hx]
      cases hs : splitAtChar c xs with
      | nil => exact absurd hs (splitAtChar_ne_nil c xs)
      | cons p ps =>
        rw [hs] at h1 h2
        refine ⟨?_, ?_⟩
        · rw [← h1]
          cases ps <;> simp [List.intercalate, List.intersperse]
        · intro piece hp
          rcases List.mem_cons.1 hp with e | e
          · rw [e]
            intro hm
            rcases List.mem_cons.1 hm with e2 | e2
            · exact hx e2.symm
            · exact h2 p (List.mem_cons_self _ _) e2
          · exact h2 _ (List.mem_cons_of_mem _ e)

theorem listingLines_of_not_mem {l : List Char} (hne : l ≠ []) (h : '\n' ∉ l) :
    listingLines l = [l] := by
  unfold listingLines
  rw [splitAtChar_of_not_mem h]
  simp [hne]

theorem listingLines_strchr {l a b : List Char} (h : strchr '\n' l = some (a, b)) :
    listingLines l = a :: listingLines b := by
  unfold listingLines
  rw [splitAtChar_strchr h]
  cases hs : splitAtChar '\n' b with
  | nil => exact absurd hs (splitAtChar_ne_nil _ b)
  | cons p ps =>
    rw [List.getLast?_cons_cons, List.dropLast_cons₂]
    by_cases hl : (p :: ps).getLast? = some []
    · rw [if_pos hl, if_pos hl]
    · rw [if_neg hl, if_neg hl]

/-- The loop of `ErrMsgDispatchMsgLine` with the length of the listing as the bound
files the lines of the listing, one after the other. -/
theorem ErrMsgDispatchMsgLine_loop_eq (szCommand : String) :
    ∀ (fuel : Nat) (l : List Char) (msg : CompilerMsg), l.length ≤ fuel →
      ErrMsgDispatchMsgLine_loop szCommand fuel l msg =
        (listingLines l).foldl (fun m line => fileLine szCommand line m) msg := by
  intro fuel
  induction fuel with
  | zero =>
    intro l msg hl
    have : l = [] := List.length_eq_zero.1 (Nat.le_zero.1 hl)
    subst this
    rfl
  | succ fuel ih =>
    intro l msg hl
    unfold ErrMsgDispatchMsgLine_loop
    by_cases hnil : l = []
    · rw [if_pos hnil, hnil]
      rfl
    · rw [if_neg hnil]
      cases hs : strchr '\n' l with
      | none =>
        rw [listingLines_of_not_mem hnil (strchr_none.1 hs)]
        rfl
      | some p =>
        obtain ⟨a, b⟩ := p
        have hlen : b.length ≤ fuel := by
          have := (strchr_some hs).1
          rw [this] at hl
          simp only [List.length_append, List.length_cons] at hl
          omega
        simp only
        rw [ih b _ hlen, listingLines_strchr hs]
        rfl
/-! ## The compiler messages: the maps -/

theorem mapFind_mapSubscript {V : Type} (dflt : V) (f : V → V) (key : String)
    (m : NodeMap V) :
    mapFind key (mapSubscript dflt f key m) = some (f ((mapFind key m).getD dflt)) := by
  induction m with
  | nil => simp [mapSubscript, mapFind]
  | cons r rest ih =>
    obtain ⟨k, v⟩ := r
    unfold mapSubscript
    by_cases hk : k = key
    · rw [if_pos hk]
      simp [mapFind, hk]
    · rw [if_neg hk]
      simp only [mapFind, if_neg hk]
      exact ih

theorem mapFind_mapSubscript_ne {V : Type} (dflt : V) (f : V → V) {key k : String}
    (h : k ≠ key) (m : NodeMap V) :
    mapFind k (mapSubscript dflt f key m) = mapFind k m := by
  induction m with
  | nil => simp [mapSubscript, mapFind, Ne.symm h]
  | cons r rest ih =>
    obtain ⟨k2, v⟩ := r
    unfold mapSubscript
    by_cases hk : k2 = key
    · rw [if_pos hk]
      have : ¬ k2 = k := fun e => h (e ▸ hk)
      simp [mapFind, this]
    · rw [if_neg hk]
      by_cases hk2 : k2 = k
      · simp [mapFind, hk2]
      · simp only [mapFind, if_neg hk2]
        exact ih

theorem mapFind_mem {V : Type} {key : String} {m : NodeMap V} {v : V}
    (h : mapFind key m = some v) : (key, v) ∈ m := by
  induction m with
  | nil => simp [mapFind] at h
  | cons r rest ih =>
    obtain ⟨k, w⟩ := r
    unfold mapFind at h
    by_cases hk : k = key
    · rw [if_pos hk] at h
      simp only [Option.some.injEq] at h
      rw [hk, h]
      exact List.mem_cons_self _ _
    · rw [if_neg hk] at h
      exact List.mem_cons_of_mem _ (ih h)

theorem mem_mapSubscript_key {V : Type} {dflt : V} {f : V → V} {key : String}
    {m : NodeMap V} {r : String × V} (h : r ∈ mapSubscript dflt f key m) :
    r.1 = key ∨ ∃ r0 ∈ m, r0.1 = r.1 := by
  induction m with
  | nil =>
    simp only [mapSubscript, List.mem_singleton] at h
    rw [h]
    exact Or.inl rfl
  | cons r1 rest ih =>
    obtain ⟨k, v⟩ := r1
    unfold mapSubscript at h
    by_cases hk : k = key
    · rw [if_pos hk] at h
      rcases List.mem_cons.1 h with e | e
      · rw [e]
        exact Or.inl hk
      · exact Or.inr ⟨r, List.mem_cons_of_mem _ e, rfl⟩
    · rw [if_neg hk] at h
      rcases List.mem_cons.1 h with e | e
      · rw [e]
        exact Or.inr ⟨(k, v), List.mem_cons_self _ _, rfl⟩
      · rcases ih e with h1 | ⟨r0, hr0, h1⟩
        · exact Or.inl h1
        · exact Or.inr ⟨r0, List.mem_cons_of_mem _ hr0, h1⟩

theorem filter_mapSubscript_absent {V : Type} (dflt : V) (f : V → V) {key : String}
    {m : NodeMap V} (h : ∀ r ∈ m, r.1 ≠ key) :
    (mapSubscript dflt f key m).filter (fun r => decide (r.1 = key)) = [(key, f dflt)] := by
  induction m with
  | nil => simp [mapSubscript]
  | cons r rest ih =>
    obtain ⟨k, v⟩ := r
    have hk : ¬ k = key := h (k, v) (List.mem_cons_self _ _)
    unfold mapSubscript
    rw [if_neg hk, List.filter_cons_of_neg (by simpa using hk)]
    exact ih (fun r hr => h r (List.mem_cons_of_mem _ hr))

theorem filter_mapSubscript_single {V : Type} (dflt : V) (f : V → V) {key : String}
    {m : NodeMap V} {v : V} (h : m.filter (fun r => decide (r.1 = key)) = [(key, v)]) :
    (mapSubscript dflt f key m).filter (fun r => decide (r.1 = key)) = [(key, f v)] := by
  induction m with
  | nil => simp at h
  | cons r rest ih =>
    obtain ⟨k, w⟩ := r
    unfold mapSubscript
    by_cases hk : k = key
    · rw [if_pos hk]
      rw [List.filter_cons_of_pos (by simpa using hk)] at h
      rw [List.filter_cons_of_pos (by simpa using hk)]
      simp only [List.cons.injEq, Prod.mk.injEq] at h
      rw [h.2, h.1.2, hk]
    · rw [if_neg hk]
      rw [List.filter_cons_of_neg (by simpa using hk)] at h
      rw [List.filter_cons_of_neg (by simpa using hk)]
      exact ih h

theorem filter_mapSubscript_ne {V : Type} (dflt : V) (f : V → V) {key k : String}
    (hne : k ≠ key) (m : NodeMap V) :
    (mapSubscript dflt f key m).filter (fun r => decide (r.1 = k)) =
      m.filter (fun r => decide (r.1 = k)) := by
  induction m with
  | nil => simp [mapSubscript, Ne.symm hne]
  | cons r rest ih =>
    obtain ⟨k2, w⟩ := r
    unfold mapSubscript
    by_cases hk : k2 = key
    · rw [if_pos hk]
      have : ¬ k2 = k := fun e => hne (e ▸ hk)
      rw [List.filter_cons_of_neg (by simpa using this),
        List.filter_cons_of_neg (by simpa using this)]
    · rw [if_neg hk]
      by_cases hk2 : k2 = k
      · rw [List.filter_cons_of_pos (by simpa using hk2),
          List.filter_cons_of_pos (by simpa using hk2), ih]
      · rw [List.filter_cons_of_neg (by simpa using hk2),
          List.filter_cons_of_neg (by simpa using hk2), ih]

/-! ## The compiler messages: the repeat count -/

theorem SetMsgReportedCommand_foldl_count (cs : List String) (info : CompilerMsgInfo)
    (h : info.m_numTimesReported < 2 ^ 64) :
    (cs.foldl CompilerMsgInfo.SetMsgReportedCommand info).m_numTimesReported =
      (info.m_numTimesReported + cs.length) % 2 ^ 64 := by
  induction cs generalizing info with
  | nil => exact (Nat.mod_eq_of_lt h).symm
  | cons c cs ih =>
    rw [List.foldl_cons, ih _ (Nat.mod_lt _ (by decide))]
    simp only [CompilerMsgInfo.SetMsgReportedCommand, List.length_cons]
    rw [Nat.mod_add_mod]
    congr 1
    omega

theorem SetMsgReportedCommand_foldl_first (cs : List String) (info : CompilerMsgInfo)
    (h0 : info.m_numTimesReported ≠ 0)
    (h : info.m_numTimesReported + cs.length ≤ 2 ^ 64) :
    (cs.foldl CompilerMsgInfo.SetMsgReportedCommand info).m_sFirstCommand =
      info.m_sFirstCommand := by
  induction cs generalizing info with
  | nil => rfl
  | cons c cs ih =>
    rw [List.foldl_cons]
    have hfirst : (info.SetMsgReportedCommand c).m_sFirstCommand = info.m_sFirstCommand := by
      simp [CompilerMsgInfo.SetMsgReportedCommand, h0]
    cases cs with
    | nil => exact hfirst
    | cons c2 cs2 =>
      simp only [List.length_cons] at h
      have hlt : info.m_numTimesReported + 1 < 2 ^ 64 := by omega
      have hcount : (info.SetMsgReportedCommand c).m_numTimesReported =
          info.m_numTimesReported + 1 := by
        simp only [CompilerMsgInfo.SetMsgReportedCommand]
        exact Nat.mod_eq_of_lt hlt
      rw [ih _ (by rw [hcount]; omega)
        (by rw [hcount]; simp only [List.length_cons]; omega), hfirst]

theorem timesReported_le_sumReported (bag : NodeMap CompilerMsgInfo) (text : String) :
    timesReported bag text ≤ sumReported bag := by
  induction bag with
  | nil => simp [timesReported, mapFind]
  | cons r rest ih =>
    obtain ⟨k, v⟩ := r
    unfold timesReported sumReported at *
    by_cases hk : k = text
    · simp [mapFind, hk]
    · simp only [mapFind, if_neg hk, List.map_cons, List.sum_cons]
      omega

theorem sumReported_mapSubscript (szCommand key : String) (bag : NodeMap CompilerMsgInfo)
    (h : sumReported bag + 1 < 2 ^ 64) :
    sumReported (mapSubscript CompilerMsgInfo.new
      (fun info => info.SetMsgReportedCommand szCommand) key bag) = sumReported bag + 1 := by
  induction bag with
  | nil => simp [mapSubscript, sumReported, CompilerMsgInfo.SetMsgReportedCommand,
      CompilerMsgInfo.new]
  | cons r rest ih =>
    obtain ⟨k, v⟩ := r
    unfold sumReported at h ih ⊢
    simp only [List.map_cons, List.sum_cons] at h
    unfold mapSubscript
    by_cases hk : k = key
    · rw [if_pos hk]
      simp only [List.map_cons, List.sum_cons, CompilerMsgInfo.SetMsgReportedCommand]
      rw [Nat.mod_eq_of_lt (by omega)]
      omega
    · rw [if_neg hk]
      simp only [List.map_cons, List.sum_cons]
      rw [ih (by omega)]
      omega

theorem timesReported_mapSubscript (szCommand key text : String)
    (bag : NodeMap CompilerMsgInfo) (h : sumReported bag + 1 < 2 ^ 64) :
    timesReported (mapSubscript CompilerMsgInfo.new
      (fun info => info.SetMsgReportedCommand szCommand) key bag) text =
      timesReported bag text + (if text = key then 1 else 0) := by
  by_cases hk : text = key
  · rw [if_pos hk, hk]
    have hle := timesReported_le_sumReported bag key
    unfold timesReported at hle ⊢
    rw [mapFind_mapSubscript]
    cases hf : mapFind key bag with
    | none =>
      simp [CompilerMsgInfo.SetMsgReportedCommand, CompilerMsgInfo.new]
    | some v =>
      rw [hf] at hle
      simp only [Option.map_some', Option.getD_some] at hle ⊢
      simp only [CompilerMsgInfo.SetMsgReportedCommand]
      exact Nat.mod_eq_of_lt (by omega)
  · rw [if_neg hk]
    unfold timesReported
    rw [mapFind_mapSubscript_ne _ _ hk]
    rfl
/-! ## The compiler messages: filing the lines -/

theorem String_eq_mk_iff (text : String) (line : List Char) :
    text = String.mk line ↔ text.data = line := by
  constructor
  · intro h
    rw [h]
  · intro h
    cases text
    simp only at h
    rw [h]

theorem msgOf_ErrMsgDispatchMsgLine (szCommand szMsgLine szName : String)
    (g : NodeMap CompilerMsg) :
    msgOf (ErrMsgDispatchMsgLine szCommand szMsgLine szName g) szName =
      (listingLines szMsgLine.data).foldl (fun m line => fileLine szCommand line m)
        (msgOf g szName) := by
  unfold msgOf ErrMsgDispatchMsgLine
  rw [mapFind_mapSubscript, Option.getD_some,
    ErrMsgDispatchMsgLine_loop_eq _ _ _ _ (le_refl _)]

theorem msgOf_ErrMsgDispatchMsgLine_other (szCommand szMsgLine : String)
    {szName other : String} (h : other ≠ szName) (g : NodeMap CompilerMsg) :
    msgOf (ErrMsgDispatchMsgLine szCommand szMsgLine szName g) other = msgOf g other := by
  unfold msgOf ErrMsgDispatchMsgLine
  rw [mapFind_mapSubscript_ne _ _ h]

theorem totalReported_fileLine (szCommand : String) (line : List Char) (msg : CompilerMsg)
    (h : totalReported msg + 1 < 2 ^ 64) :
    totalReported (fileLine szCommand line msg) = totalReported msg + 1 := by
  unfold totalReported at h ⊢
  unfold fileLine
  by_cases hw : strstr line "warning X".data = true
  · rw [if_pos hw]
    simp only
    rw [sumReported_mapSubscript _ _ _ (by omega)]
    omega
  · rw [if_neg hw]
    simp only
    rw [sumReported_mapSubscript _ _ _ (by omega)]
    omega

theorem timesReported_fileLine (szCommand : String) (line : List Char) (msg : CompilerMsg)
    (text : String) (h : totalReported msg + 1 < 2 ^ 64) :
    timesReported (fileLine szCommand line msg).warning text =
        timesReported msg.warning text +
          (if strstr text.data "warning X".data = true then
            (if line = text.data then 1 else 0) else 0) ∧
    timesReported (fileLine szCommand line msg).error text =
        timesReported msg.error text +
          (if strstr text.data "warning X".data = true then 0
            else (if line = text.data then 1 else 0)) := by
  unfold totalReported at h
  unfold fileLine
  by_cases hl : line = text.data
  · have hk : text = String.mk line := (String_eq_mk_iff _ _).2 hl.symm
    rw [if_pos hl, ← hl]
    by_cases hw : strstr line "warning X".data = true
    · rw [if_pos hw, if_pos hw, if_pos hw]
      simp only
      rw [timesReported_mapSubscript _ _ _ _ (by omega), if_pos hk]
      exact ⟨rfl, rfl⟩
    · rw [if_neg hw, if_neg hw, if_neg hw]
      simp only
      rw [timesReported_mapSubscript _ _ _ _ (by omega), if_pos hk]
      exact ⟨rfl, rfl⟩
  · have hk : ¬ text = String.mk line := fun e => hl ((String_eq_mk_iff _ _).1 e).symm
    rw [if_neg hl]
    by_cases hw : strstr line "warning X".data = true
    · rw [if_pos hw]
      simp only
      rw [timesReported_mapSubscript _ _ _ _ (by omega), if_neg hk]
      simp
    · rw [if_neg hw]
      simp only
      rw [timesReported_mapSubscript _ _ _ _ (by omega), if_neg hk]
      simp

/-- Filing a list of lines while no repeat count can reach `2 ^ 64`: the sum of the
repeat counts grows by the number of lines, and the repeat count of a text
grows by the number of its occurrences among the lines, in the warnings when
the text contains `warning X` and in the errors otherwise. -/
theorem fileLine_foldl (szCommand : String) :
    ∀ (lines : List (List Char)) (msg : CompilerMsg),
      totalReported msg + lines.length < 2 ^ 64 →
      totalReported (lines.foldl (fun m line => fileLine szCommand line m) msg) =
        totalReported msg + lines.length ∧
      ∀ text : String,
        timesReported (lines.foldl (fun m line => fileLine szCommand line m) msg).warning
            text =
          timesReported msg.warning text +
            (if strstr text.data "warning X".data = true then lines.count text.data else 0) ∧
        timesReported (lines.foldl (fun m line => fileLine szCommand line m) msg).error
            text =
          timesReported msg.error text +
            (if strstr text.data "warning X".data = true then 0
              else lines.count text.data) := by
  intro lines
  induction lines with
  | nil =>
    intro msg _
    refine ⟨rfl, fun text => ?_⟩
    simp
  | cons line rest ih =>
    intro msg h
    simp only [List.length_cons] at h
    have h1 := totalReported_fileLine szCommand line msg (by omega)
    obtain ⟨ht, hc⟩ := ih (fileLine szCommand line msg) (by rw [h1]; omega)
    rw [List.foldl_cons]
    refine ⟨by rw [ht, h1, List.length_cons]; omega, fun text => ?_⟩
    obtain ⟨hw, he⟩ := hc text
    obtain ⟨hw1, he1⟩ := timesReported_fileLine szCommand line msg text (by omega)
    rw [hw, he, hw1, he1, List.count_cons]
    by_cases hx : strstr text.data "warning X".data = true
    · simp only [if_pos hx, beq_iff_eq]
      refine ⟨?_, ?_⟩ <;> first | trivial | (split_ifs <;> omega)
    · simp only [if_neg hx, beq_iff_eq]
      refine ⟨?_, ?_⟩ <;> first | trivial | (split_ifs <;> omega)

theorem MsgClassified_fileLine (szCommand : String) (line : List Char) {msg : CompilerMsg}
    (h : MsgClassified msg) : MsgClassified (fileLine szCommand line msg) := by
  unfold fileLine
  by_cases hw : strstr line "warning X".data = true
  · rw [if_pos hw]
    refine ⟨fun r hr => ?_, h.2⟩
    rcases mem_mapSubscript_key hr with e | ⟨r0, hr0, e⟩
    · rw [e]
      exact hw
    · rw [← e]
      exact h.1 r0 hr0
  · rw [if_neg hw]
    refine ⟨h.1, fun r hr => ?_⟩
    rcases mem_mapSubscript_key hr with e | ⟨r0, hr0, e⟩
    · rw [e]
      simpa using hw
    · rw [← e]
      exact h.2 r0 hr0

theorem MsgClassified_foldl (szCommand : String) :
    ∀ (lines : List (List Char)) (msg : CompilerMsg), MsgClassified msg →
      MsgClassified (lines.foldl (fun m line => fileLine szCommand line m) msg) := by
  intro lines
  induction lines with
  | nil => exact fun msg h => h
  | cons line rest ih => exact fun msg h => ih _ (MsgClassified_fileLine szCommand line h)

theorem MsgClassified_ErrMsgDispatchMsgLine (szCommand szMsgLine szName : String)
    {g : NodeMap CompilerMsg} (h : ∀ name, MsgClassified (msgOf g name)) :
    ∀ name, MsgClassified (msgOf (ErrMsgDispatchMsgLine szCommand szMsgLine szName g) name) := by
  intro name
  by_cases hn : name = szName
  · rw [hn, msgOf_ErrMsgDispatchMsgLine]
    exact MsgClassified_foldl _ _ _ (h szName)
  · rw [msgOf_ErrMsgDispatchMsgLine_other _ _ hn]
    exact h name

/-- After any calls of `ErrMsgDispatchMsgLine` from the empty `g_CompilerMsg` the maps of
every shader are classified. -/
theorem MsgClassified_dispatchAll (calls : List (String × String × String)) :
    ∀ name, MsgClassified (msgOf (dispatchAll calls []) name) := by
  have hgen : ∀ (calls : List (String × String × String)) (g : NodeMap CompilerMsg),
      (∀ name, MsgClassified (msgOf g name)) →
      ∀ name, MsgClassified (msgOf (dispatchAll calls g) name) := by
    intro calls
    induction calls with
    | nil => exact fun g h => h
    | cons call rest ih =>
      intro g h
      exact ih _ (MsgClassified_ErrMsgDispatchMsgLine _ _ _ h)
  refine hgen calls [] (fun name => ?_)
  exact ⟨fun r hr => absurd hr (List.not_mem_nil _), fun r hr => absurd hr (List.not_mem_nil _)⟩

theorem MsgClassified_disjoint {msg : CompilerMsg} (h : MsgClassified msg) (text : String) :
    ¬ ((mapFind text msg.warning).isSome = true ∧ (mapFind text msg.error).isSome = true) := by
  rintro ⟨hw, he⟩
  obtain ⟨v, hv⟩ := Option.isSome_iff_exists.1 hw
  obtain ⟨w, hw2⟩ := Option.isSome_iff_exists.1 he
  have h1 := h.1 _ (mapFind_mem hv)
  have h2 := h.2 _ (mapFind_mem hw2)
  simp only at h1 h2
  rw [h1] at h2
  exact absurd h2 (by decide)
/-! ## The compiler messages: one text reported again and again -/

theorem msgOf_single_line (szCommand t szName : String) (g : NodeMap CompilerMsg)
    (hne : t.data ≠ []) (hnl : '\n' ∉ t.data) :
    msgOf (ErrMsgDispatchMsgLine szCommand t szName g) szName =
      fileLine szCommand t.data (msgOf g szName) := by
  rw [msgOf_ErrMsgDispatchMsgLine, listingLines_of_not_mem hne hnl]
  rfl

theorem msgOf_dispatchAll_single_line (t szName : String) (hne : t.data ≠ [])
    (hnl : '\n' ∉ t.data) :
    ∀ (cs : List String) (g : NodeMap CompilerMsg),
      msgOf (dispatchAll (cs.map (fun c => (c, t, szName))) g) szName =
        cs.foldl (fun m c => fileLine c t.data m) (msgOf g szName) := by
  intro cs
  induction cs with
  | nil => exact fun g => rfl
  | cons c cs ih =>
    intro g
    have hstep : dispatchAll ((c :: cs).map (fun c => (c, t, szName))) g =
        dispatchAll (cs.map (fun c => (c, t, szName)))
          (ErrMsgDispatchMsgLine c t szName g) := rfl
    rw [hstep, ih, msgOf_single_line _ _ _ _ hne hnl]
    rfl

theorem fileLine_foldl_warning (t : String)
    (hw : strstr t.data "warning X".data = true) :
    ∀ (cs : List String) (msg : CompilerMsg),
      cs.foldl (fun m c => fileLine c t.data m) msg =
        { warning := cs.foldl (fun bag c => mapSubscript CompilerMsgInfo.new
            (fun info => info.SetMsgReportedCommand c) t bag) msg.warning
          error := msg.error } := by
  intro cs
  induction cs with
  | nil => exact fun msg => rfl
  | cons c cs ih =>
    intro msg
    rw [List.foldl_cons, ih]
    unfold fileLine
    rw [if_pos hw]
    rfl

theorem fileLine_foldl_error (t : String)
    (hw : strstr t.data "warning X".data = false) :
    ∀ (cs : List String) (msg : CompilerMsg),
      cs.foldl (fun m c => fileLine c t.data m) msg =
        { warning := msg.warning
          error := cs.foldl (fun bag c => mapSubscript CompilerMsgInfo.new
            (fun info => info.SetMsgReportedCommand c) t bag) msg.error } := by
  intro cs
  induction cs with
  | nil => exact fun msg => rfl
  | cons c cs ih =>
    intro msg
    rw [List.foldl_cons, ih]
    unfold fileLine
    rw [if_neg (by rw [hw]; decide)]
    rfl

theorem filter_reports (t : String) :
    ∀ (cs : List String) (bag : NodeMap CompilerMsgInfo) (v : CompilerMsgInfo),
      bag.filter (fun r => decide (r.1 = t)) = [(t, v)] →
      (cs.foldl (fun bag c => mapSubscript CompilerMsgInfo.new
        (fun info => info.SetMsgReportedCommand c) t bag) bag).filter
          (fun r => decide (r.1 = t)) =
        [(t, cs.foldl CompilerMsgInfo.SetMsgReportedCommand v)] := by
  intro cs
  induction cs with
  | nil => exact fun bag v h => h
  | cons c cs ih =>
    intro bag v h
    rw [List.foldl_cons, List.foldl_cons]
    exact ih _ _ (filter_mapSubscript_single _ _ h)

theorem filter_reports_absent (t c1 : String) (cs : List String)
    (bag : NodeMap CompilerMsgInfo) (h : ∀ r ∈ bag, r.1 ≠ t) :
    ((c1 :: cs).foldl (fun bag c => mapSubscript CompilerMsgInfo.new
      (fun info => info.SetMsgReportedCommand c) t bag) bag).filter
        (fun r => decide (r.1 = t)) =
      [(t, cs.foldl CompilerMsgInfo.SetMsgReportedCommand
        (CompilerMsgInfo.new.SetMsgReportedCommand c1))] := by
  rw [List.foldl_cons]
  exact filter_reports t cs _ _ (filter_mapSubscript_absent _ _ h)

theorem filter_absent {V : Type} {t : String} {bag : NodeMap V} (h : ∀ r ∈ bag, r.1 ≠ t) :
    bag.filter (fun r => decide (r.1 = t)) = [] := by
  rw [List.filter_eq_nil_iff]
  intro r hr
  simpa using h r hr

/-- The records of a single-line text that was not reported before, after any
number of reports with commands `c1` and `cs`: there is one, and its
`CompilerMsgInfo` is the result of the calls of `SetMsgReportedCommand`. -/
theorem aggregation (szName t c1 : String) (cs : List String) (g : NodeMap CompilerMsg)
    (hne : t.data ≠ []) (hnl : '\n' ∉ t.data)
    (hnew : ∀ r ∈ (msgOf g szName).warning ++ (msgOf g szName).error, r.1 ≠ t) :
    ((msgOf (dispatchAll ((c1 :: cs).map (fun c => (c, t, szName))) g) szName).warning ++
      (msgOf (dispatchAll ((c1 :: cs).map (fun c => (c, t, szName))) g) szName).error).filter
        (fun r => decide (r.1 = t)) =
      [(t, cs.foldl CompilerMsgInfo.SetMsgReportedCommand
        (CompilerMsgInfo.new.SetMsgReportedCommand c1))] := by
  have hwn : ∀ r ∈ (msgOf g szName).warning, r.1 ≠ t :=
    fun r hr => hnew r (List.mem_append_left _ hr)
  have hen : ∀ r ∈ (msgOf g szName).error, r.1 ≠ t :=
    fun r hr => hnew r (List.mem_append_right _ hr)
  rw [msgOf_dispatchAll_single_line t szName hne hnl, List.filter_append]
  cases hw : strstr t.data "warning X".data with
  | true =>
    rw [fileLine_foldl_warning t hw]
    simp only
    rw [filter_reports_absent t c1 cs _ hwn, filter_absent hen, List.append_nil]
  | false =>
    rw [fileLine_foldl_error t hw]
    simp only
    rw [filter_reports_absent t c1 cs _ hen, filter_absent hwn, List.nil_append]

theorem SetMsgReportedCommand_foldl_new (c1 : String) (cs : List String)
    (h : cs.length + 1 ≤ 2 ^ 64) :
    cs.foldl CompilerMsgInfo.SetMsgReportedCommand
        (CompilerMsgInfo.new.SetMsgReportedCommand c1) =
      { m_sFirstCommand := c1, m_numTimesReported := (cs.length + 1) % 2 ^ 64 } := by
  have h1 : CompilerMsgInfo.new.SetMsgReportedCommand c1 =
      { m_sFirstCommand := c1, m_numTimesReported := 1 } := rfl
  rw [h1]
  have hc := SetMsgReportedCommand_foldl_count cs
    { m_sFirstCommand := c1, m_numTimesReported := 1 } (show 1 < 2 ^ 64 by decide)
  have hf := SetMsgReportedCommand_foldl_first cs
    { m_sFirstCommand := c1, m_numTimesReported := 1 } (show 1 ≠ 0 by decide)
    (show 1 + cs.length ≤ 2 ^ 64 by omega)
  simp only at hc hf
  rw [Nat.add_comm 1] at hc
  cases hx : cs.foldl CompilerMsgInfo.SetMsgReportedCommand
      { m_sFirstCommand := c1, m_numTimesReported := 1 } with
  | mk first count =>
    rw [hx] at hc hf
    simp only at hc hf
    rw [hc, hf]

/-- The maps of a shader after `n + 1` reports of one single-line error text from the
empty `g_CompilerMsg`, all with the same command. -/
theorem msgOf_repeated_error (c t szName : String) (hne : t.data ≠ [])
    (hnl : '\n' ∉ t.data) (hw : strstr t.data "warning X".data = false) (n : Nat)
    (hn : n + 1 ≤ 2 ^ 64) :
    msgOf (dispatchAll ((c :: List.replicate n c).map (fun c => (c, t, szName))) []) szName =
      { warning := []
        error := [(t, { m_sFirstCommand := c, m_numTimesReported := (n + 1) % 2 ^ 64 })] } := by
  rw [msgOf_dispatchAll_single_line t szName hne hnl, fileLine_foldl_error t hw]
  have hbag : ∀ (cs : List String) (v : CompilerMsgInfo),
      cs.foldl (fun bag c => mapSubscript CompilerMsgInfo.new
        (fun info => info.SetMsgReportedCommand c) t bag) [(t, v)] =
        [(t, cs.foldl CompilerMsgInfo.SetMsgReportedCommand v)] := by
    intro cs
    induction cs with
    | nil => exact fun v => rfl
    | cons c2 cs ih =>
      intro v
      rw [List.foldl_cons, List.foldl_cons]
      have : mapSubscript CompilerMsgInfo.new
          (fun info => info.SetMsgReportedCommand c2) t [(t, v)] =
          [(t, v.SetMsgReportedCommand c2)] := by
        simp [mapSubscript]
      rw [this, ih]
  have hfirst : (c :: List.replicate n c).foldl (fun bag c => mapSubscript CompilerMsgInfo.new
        (fun info => info.SetMsgReportedCommand c) t bag) (msgOf [] szName).error =
      [(t, (List.replicate n c).foldl CompilerMsgInfo.SetMsgReportedCommand
        (CompilerMsgInfo.new.SetMsgReportedCommand c))] := by
    rw [List.foldl_cons]
    exact hbag _ _
  rw [hfirst, SetMsgReportedCommand_foldl_new c _ (by rw [List.length_replicate]; exact hn),
    List.length_replicate]
  rfl
/-! ## The compiler messages: the claims -/

/-- C21. Message aggregation while the repeat count fits its `uint64_t`. For every
shader, every single-line message text `t` (not empty, no newline) that the
shader has not reported before, and every `k` with `1 ≤ k < 2 ^ 64`: after
`ErrMsgDispatchMsgLine` has been called `k` times for the shader with the listing
`t` and the commands `c1` and `cs`, the warnings and the errors of the shader
hold exactly one record for `t`, whose repeat count is `k` and whose first
command is `c1`, whatever the later commands `cs` are. -/
theorem C21_message_aggregation (szName t c1 : String) (cs : List String)
    (g : NodeMap CompilerMsg) (hne : t.data ≠ []) (hnl : '\n' ∉ t.data)
    (hk : cs.length + 1 < 2 ^ 64)
    (hnew : ∀ r ∈ (msgOf g szName).warning ++ (msgOf g szName).error, r.1 ≠ t) :
    ((msgOf (dispatchAll ((c1 :: cs).map (fun c => (c, t, szName))) g) szName).warning ++
      (msgOf (dispatchAll ((c1 :: cs).map (fun c => (c, t, szName))) g) szName).error).filter
        (fun r => decide (r.1 = t)) =
      [(t, { m_sFirstCommand := c1, m_numTimesReported := cs.length + 1 })] := by
  rw [aggregation szName t c1 cs g hne hnl hnew,
    SetMsgReportedCommand_foldl_new c1 cs (Nat.le_of_lt hk), Nat.mod_eq_of_lt hk]

/-- C21 at the aggregation scenario: three combos of `example_ps20b` produce the
listing `unusedWarning`; the shader has one record for it, a warning, with the
repeat count 3 and the first of the three commands. -/
theorem C21_message_aggregation_witness :
    ((msgOf (dispatchAll
        (["fxc.exe /DFLAG=0", "fxc.exe /DFLAG=1", "fxc.exe /DFLAG=2"].map
          (fun c => (c, unusedWarning, "example_ps20b"))) []) "example_ps20b").warning ++
      (msgOf (dispatchAll
        (["fxc.exe /DFLAG=0", "fxc.exe /DFLAG=1", "fxc.exe /DFLAG=2"].map
          (fun c => (c, unusedWarning, "example_ps20b"))) []) "example_ps20b").error).filter
        (fun r => decide (r.1 = unusedWarning)) =
      [(unusedWarning, { m_sFirstCommand := "fxc.exe /DFLAG=0", m_numTimesReported := 3 })] ∧
    (msgOf (dispatchAll
        (["fxc.exe /DFLAG=0", "fxc.exe /DFLAG=1", "fxc.exe /DFLAG=2"].map
          (fun c => (c, unusedWarning, "example_ps20b"))) []) "example_ps20b").error = [] :=
  ⟨C21_message_aggregation "example_ps20b" unusedWarning "fxc.exe /DFLAG=0"
      ["fxc.exe /DFLAG=1", "fxc.exe /DFLAG=2"] [] (by decide) (by decide) (by decide)
      (fun r hr => absurd hr (List.not_mem_nil r)),
    by decide⟩

/-- C21 as stated fails for `k = 2 ^ 64`: the repeat count is a `uint64_t`, and after
`2 ^ 64` calls with the listing `t` the one record of the text has the repeat
count `0`. -/
theorem C21_repeat_count_wraps :
    ((msgOf (dispatchAll (("c" :: List.replicate (2 ^ 64 - 1) "c").map
        (fun c => (c, "t", "s"))) []) "s").warning ++
      (msgOf (dispatchAll (("c" :: List.replicate (2 ^ 64 - 1) "c").map
        (fun c => (c, "t", "s"))) []) "s").error).filter (fun r => decide (r.1 = "t")) =
      [("t", { m_sFirstCommand := "c", m_numTimesReported := 0 })] ∧
    ("c" :: List.replicate (2 ^ 64 - 1) "c").length = 2 ^ 64 := by
  refine ⟨?_, ?_⟩
  · rw [msgOf_repeated_error "c" "t" "s" (by decide) (by decide) (by decide) (2 ^ 64 - 1)
      (by decide)]
    decide
  · rw [List.length_cons, List.length_replicate]
    decide

/-- C22. The listing split and the classification, while no repeat count can reach
`2 ^ 64`. After any earlier calls, `ErrMsgDispatchMsgLine` files exactly the lines
of the listing (the pieces of the split at the newline, a final empty piece
left out), one report for every occurrence of a line: the repeat count of a
text grows by the number of its occurrences among the lines, in the warnings of
the shader when the text contains `warning X` and in its errors otherwise. No
text is a key of both maps of a shader, the sum of all repeat counts of the
shader grows by the number of lines, and the other shaders keep their maps. -/
theorem C22_listing_split_and_classification (calls : List (String × String × String))
    (szCommand szMsgLine szName : String)
    (hfit : totalReported (msgOf (dispatchAll calls []) szName) +
      (listingLines szMsgLine.data).length < 2 ^ 64) :
    msgOf (ErrMsgDispatchMsgLine szCommand szMsgLine szName (dispatchAll calls [])) szName =
      (listingLines szMsgLine.data).foldl (fun msg line => fileLine szCommand line msg)
        (msgOf (dispatchAll calls []) szName) ∧
    (∀ text : String,
      timesReported
          (msgOf (ErrMsgDispatchMsgLine szCommand szMsgLine szName
            (dispatchAll calls [])) szName).warning text =
        timesReported (msgOf (dispatchAll calls []) szName).warning text +
          (if strstr text.data "warning X".data = true then
            (listingLines szMsgLine.data).count text.data else 0) ∧
      timesReported
          (msgOf (ErrMsgDispatchMsgLine szCommand szMsgLine szName
            (dispatchAll calls [])) szName).error text =
        timesReported (msgOf (dispatchAll calls []) szName).error text +
          (if strstr text.data "warning X".data = true then 0
            else (listingLines szMsgLine.data).count text.data)) ∧
    (∀ name text : String,
      ¬ ((mapFind text (msgOf (ErrMsgDispatchMsgLine szCommand szMsgLine szName
            (dispatchAll calls [])) name).warning).isSome = true ∧
          (mapFind text (msgOf (ErrMsgDispatchMsgLine szCommand szMsgLine szName
            (dispatchAll calls [])) name).error).isSome = true)) ∧
    totalReported (msgOf (ErrMsgDispatchMsgLine szCommand szMsgLine szName
        (dispatchAll calls [])) szName) =
      totalReported (msgOf (dispatchAll calls []) szName) +
        (listingLines szMsgLine.data).length ∧
    (∀ other : String, other ≠ szName →
      msgOf (ErrMsgDispatchMsgLine szCommand szMsgLine szName (dispatchAll calls [])) other =
        msgOf (dispatchAll calls []) other) := by
  have hfold := fileLine_foldl szCommand (listingLines szMsgLine.data)
    (msgOf (dispatchAll calls []) szName) hfit
  rw [msgOf_ErrMsgDispatchMsgLine]
  refine ⟨rfl, hfold.2, fun name text => ?_, hfold.1, fun other ho => ?_⟩
  · exact MsgClassified_disjoint
      (MsgClassified_ErrMsgDispatchMsgLine szCommand szMsgLine szName
        (MsgClassified_dispatchAll calls) name) text
  · exact msgOf_ErrMsgDispatchMsgLine_other _ _ ho _

/-- C22 at `mixedListing`, filed for `example_ps20b` after `earlierCalls`: the lines
are the four pieces, the warning is reported a second time and keeps its first
command, the error, the empty line and the summary are new errors, and the sum
of the repeat counts grows from 1 to 5. -/
theorem C22_listing_split_and_classification_witness :
    listingLines mixedListing.data =
      ["foo.fxc(10,3): warning X1234: unused".data,
        "foo.fxc(12,1): error X3000: syntax error".data, [], "failed".data] ∧
    msgOf (ErrMsgDispatchMsgLine "fxc.exe /DFLAG=1" mixedListing "example_ps20b"
        (dispatchAll earlierCalls [])) "example_ps20b" =
      { warning := [("foo.fxc(10,3): warning X1234: unused",
          { m_sFirstCommand := "fxc.exe /DFLAG=0", m_numTimesReported := 2 })]
        error := [("foo.fxc(12,1): error X3000: syntax error",
            { m_sFirstCommand := "fxc.exe /DFLAG=1", m_numTimesReported := 1 }),
          ("", { m_sFirstCommand := "fxc.exe /DFLAG=1", m_numTimesReported := 1 }),
          ("failed", { m_sFirstCommand := "fxc.exe /DFLAG=1", m_numTimesReported := 1 })] } ∧
    totalReported (msgOf (ErrMsgDispatchMsgLine "fxc.exe /DFLAG=1" mixedListing "example_ps20b"
        (dispatchAll earlierCalls [])) "example_ps20b") =
      totalReported (msgOf (dispatchAll earlierCalls []) "example_ps20b") +
        (listingLines mixedListing.data).length :=
  ⟨by decide, by decide,
    (C22_listing_split_and_classification earlierCalls "fxc.exe /DFLAG=1" mixedListing
      "example_ps20b" (by decide)).2.2.2.1⟩

/-- C22 as stated fails when a repeat count is at its largest value: after
`2 ^ 64 - 1` calls with the one-line listing `e` the sum of the repeat counts of
the shader is `2 ^ 64 - 1`, and one more call with the same listing, which has
one line, leaves the sum `0`. -/
theorem C22_sum_of_repeat_counts_wraps :
    totalReported (msgOf (dispatchAll (("c" :: List.replicate (2 ^ 64 - 2) "c").map
        (fun c => (c, "e", "s"))) []) "s") = 2 ^ 64 - 1 ∧
    listingLines "e".data = ["e".data] ∧
    totalReported (msgOf (ErrMsgDispatchMsgLine "c" "e" "s"
      (dispatchAll (("c" :: List.replicate (2 ^ 64 - 2) "c").map
        (fun c => (c, "e", "s"))) [])) "s") = 0 := by
  have hs := msgOf_repeated_error "c" "e" "s" (by decide) (by decide) (by decide)
    (2 ^ 64 - 2) (by decide)
  refine ⟨?_, by decide, ?_⟩
  · rw [hs]
    decide
  · rw [msgOf_single_line "c" "e" "s" _ (by decide) (by decide), hs]
    decide

end ShaderCompile
